import Mathlib

/-!
# Blockbook query layer (`api/worker.go`): shallow embedding and verified properties

The Go code of `api/worker.go` is embedded function by function.  Block connect and
disconnect of an account chain and the varints of an Addresses posting (package `db`), of
which the sources hold the test `db/rocksdb_ethereumtype_test.go` only, are modelled from the
specification and checked against the rows that this test expects.

Conventions of the embedding:

* A Go function that can return a non-nil `error` or stop with a runtime panic
  (index out of range, nil dereference, integer division by zero) returns `Res α`.
* Go `int`, `int32`, `uint32` values are `Int` / `Nat`.  Where an operand comes from the
  caller, the arithmetic is the machine one: the page decrement `page--` and every sum,
  difference, product and quotient of `computePaging` are 64-bit (`goInt`), and the
  conversion `int32(filter.Vout)` of the history filter is `goInt32`.  Slice lengths, slice
  indexes and heights are without wrap-around, and memory is not bounded (`make` succeeds for
  every non-negative length).  `big.Int` is `Int`; its truncating accessors `Int64()` and
  `Uint64()` are modelled bit-exactly (`bigInt64`, `bigUint64`).
* A nil-able pointer is an `Option`.
* `glog` output is not part of the state.
-/

set_option autoImplicit false

/-- A Go `error` value as the query layer produces and inspects it. -/
inductive GoError where
  /-- `*api.APIError` made by `NewAPIError(text, public)` -/
  | apiError (text : String) (isPublic : Bool)
  /-- `errors.Annotatef(cause, ctx)` -/
  | annotated (ctx : String) (cause : GoError)
  /-- An error value produced by a collaborator (store, backend, parser). -/
  | other (text : String)
  /-- The store's sentinel `&db.StopIteration{}`, with which a callback of
  `GetAddrDescTransactions` ends the iteration. -/
  | stopIteration
  deriving DecidableEq, Repr

/-- The `Error()` text of a Go error. -/
def GoError.text : GoError → String
  | .apiError t _ => t
  | .annotated ctx cause => ctx ++ ": " ++ cause.text
  | .other t => t
  | .stopIteration => ""

/-- The ways a Go call ends without a result. -/
inductive Failure where
  /-- the function returned a non-nil `error` -/
  | error (e : GoError)
  /-- the goroutine stopped with a runtime panic -/
  | panic (what : String)
  deriving DecidableEq, Repr

/-- Outcome of a Go call: a result, a returned error, or a panic. -/
abbrev Res (α : Type) := Except Failure α

deriving instance DecidableEq for Except

/-- Go slice indexing `xs[i]` with its bounds check. -/
def goIndex {α : Type} (xs : List α) (i : Int) : Res α :=
  if i < 0 then .error (.panic "index out of range")
  else match xs.get? i.toNat with
    | some x => .ok x
    | none => .error (.panic "index out of range")

/-- Go `int` of a 64-bit platform: the low 64 bits of `x` as a signed number,
`(x + 2^63) mod 2^64 - 2^63`, the value that an arithmetic operation on `int`s leaves when
the exact result is `x`. -/
def goInt (x : Int) : Int :=
  (x + 9223372036854775808) % 18446744073709551616 - 9223372036854775808

/-- Go truncated integer division `a / b` of `int`s with its zero check; the quotient of
the most negative `int` by -1 wraps around. -/
def goDiv (a b : Int) : Res Int :=
  if b = 0 then .error (.panic "integer divide by zero") else .ok (goInt (a.tdiv b))

/-- Go conversion `int32(x)` of an `int`: the low 32 bits of `x` as a signed number. -/
def goInt32 (x : Int) : Int := (x + 2 ^ 31) % 2 ^ 32 - 2 ^ 31

namespace api

/-- Paging of `api/types.go`. -/
structure Paging where
  Page : Int
  TotalPages : Int
  ItemsOnPage : Int
  deriving DecidableEq, Repr

/-- The function `computePaging` of `api/worker.go`; returns `(Paging, from, to, page)`.
The arguments are Go `int`s; every sum, difference and product is the 64-bit one. -/
def computePaging (count page itemsOnPage : Int) : Res (Paging × Int × Int × Int) := do
  let from_ := goInt (page * itemsOnPage)
  let totalPages ← goDiv (goInt (count - 1)) itemsOnPage
  let totalPages := if totalPages < 0 then 0 else totalPages
  let page := if from_ ≥ count then totalPages else page
  let from_ := goInt (page * itemsOnPage)
  let to_ := goInt (goInt (page + 1) * itemsOnPage)
  let to_ := if to_ > count then count else to_
  pure ({ ItemsOnPage := itemsOnPage, Page := goInt (page + 1),
          TotalPages := goInt (totalPages + 1) },
        from_, to_, page)

end api

/-- Whether a failure is a returned `*api.APIError`. -/
def Failure.isApiError : Failure → Bool
  | .error (.apiError _ _) => true
  | _ => false

/-- Lifts the `(value, error)` result of a collaborator call that cannot panic. -/
def liftErr {α : Type} : Except GoError α → Res α
  | .ok a => .ok a
  | .error e => .error (.error e)

/-- An address descriptor, `bchain.AddressDescriptor` (`[]byte`). -/
abbrev AddressDescriptor := List Nat

/-- Value of `big.Int.Uint64()`: the low 64 bits of the magnitude. -/
def bigUint64 (x : Int) : Nat := x.natAbs % 2 ^ 64

/-- Value of `big.Int.Int64()`: the low 64 bits of the magnitude read as a two's complement
`int64`, negated (with wrap-around) when the number is negative. -/
def bigInt64 (x : Int) : Int :=
  let lo : Int := ((x.natAbs % 2 ^ 64 : Nat) : Int)
  let v : Int := if lo < 2 ^ 63 then lo else lo - 2 ^ 64
  if x < 0 then (if v = -(2 ^ 63) then v else -v) else v

/-- Rendering of `strconv.Itoa`. -/
def Itoa (n : Int) : String :=
  if n < 0 then "-" ++ Nat.repr n.natAbs else Nat.repr n.toNat

/-- Rendering of a byte slice by the `%v` verb. -/
def sprintBytes (d : AddressDescriptor) : String :=
  "[" ++ " ".intercalate (d.map Nat.repr) ++ "]"

namespace bchain

/-- The chain models, `bchain.ChainType`. -/
inductive ChainType where
  | ChainBitcoinType
  | ChainEthereumType
  deriving DecidableEq, Repr

/-- Input of a parsed transaction, `bchain.Vin` (`ScriptSig.Hex` is `ScriptSigHex`). -/
structure Vin where
  Coinbase : String := ""
  Txid : String := ""
  Vout : Nat := 0
  ScriptSigHex : String := ""
  Sequence : Nat := 0
  Addresses : List String := []
  deriving DecidableEq, Repr

/-- Output of a parsed transaction, `bchain.Vout` (`ScriptPubKey.Hex` is `ScriptPubKeyHex`). -/
structure Vout where
  ValueSat : Int := 0
  N : Nat := 0
  ScriptPubKeyHex : String := ""
  deriving DecidableEq, Repr

/-- A parsed transaction, `bchain.Tx`. -/
structure Tx where
  Hex : String := ""
  Txid : String := ""
  Version : Int := 0
  LockTime : Nat := 0
  Vin : List Vin := []
  Vout : List Vout := []
  Confirmations : Nat := 0
  Time : Int := 0
  Blocktime : Int := 0
  CoinSpecificData : String := ""
  deriving DecidableEq, Repr

/-- A transaction outpoint, `bchain.Outpoint`; in a mempool posting a negative `Vout` is the
complement of an input index. -/
structure Outpoint where
  Txid : String
  Vout : Int
  deriving DecidableEq, Repr

/-- Token contract description, `bchain.Erc20Contract`. -/
structure Erc20Contract where
  Contract : String := ""
  Name : String := ""
  Symbol : String := ""
  Decimals : Int := 0
  deriving DecidableEq, Repr

/-- Token transfer found in a transaction, `bchain.Erc20Transfer`. -/
structure Erc20Transfer where
  Contract : String := ""
  From : String := ""
  To : String := ""
  Tokens : Int := 0
  deriving DecidableEq, Repr

/-- The chain parser as far as the query layer calls it, `bchain.BlockChainParser`.
A method whose result is used although its error is non-nil returns the pair. -/
structure BlockChainParser where
  GetChainType : ChainType
  GetAddrDescFromVout : Vout → Except GoError AddressDescriptor
  GetAddrDescFromAddress : String → AddressDescriptor × Option GoError
  GetAddressesFromAddrDesc : AddressDescriptor → List String × Bool × Option GoError
  EthereumTypeGetErc20FromTx : Tx → List Erc20Transfer × Option GoError

/-- The backend as far as the query layer calls it, `bchain.BlockChain`. -/
structure BlockChain where
  GetChainParser : BlockChainParser
  GetMempoolTransactionsForAddrDesc : AddressDescriptor → Except GoError (List Outpoint)
  GetTransactionSpecific : Tx → Except GoError String
  EthereumTypeGetBalance : AddressDescriptor → Except GoError (Option Int)
  EthereumTypeGetNonce : AddressDescriptor → Except GoError Nat
  EthereumTypeGetErc20ContractInfo : AddressDescriptor → Option Erc20Contract × Option GoError
  EthereumTypeGetErc20ContractBalance :
    AddressDescriptor → AddressDescriptor → Option Int × Option GoError

end bchain

namespace eth

/-- Result of `eth.GetEthereumTxData`, `eth.EthereumTxData`. -/
structure EthereumTxData where
  Status : Int := 0
  Nonce : Nat := 0
  GasLimit : Option Int := none
  GasUsed : Option Int := none
  GasPrice : Option Int := none
  deriving DecidableEq, Repr

end eth

namespace db

/-- Input slot of a TxAddresses row, `db.TxInput`. -/
structure TxInput where
  AddrDesc : AddressDescriptor := []
  ValueSat : Int := 0
  deriving DecidableEq, Repr

/-- Output slot of a TxAddresses row, `db.TxOutput`. -/
structure TxOutput where
  AddrDesc : AddressDescriptor := []
  Spent : Bool := false
  ValueSat : Int := 0
  deriving DecidableEq, Repr

/-- A row of the TxAddresses column, `db.TxAddresses`. -/
structure TxAddresses where
  Height : Nat := 0
  Inputs : List TxInput := []
  Outputs : List TxOutput := []
  deriving DecidableEq, Repr

/-- A row of the AddrBalance column, `db.AddrBalance`. -/
structure AddrBalance where
  Txs : Nat := 0
  SentSat : Int := 0
  BalanceSat : Int := 0
  deriving DecidableEq, Repr

/-- Modelled from the spec: `AddrBalance.ReceivedSat` (package db) is not among the sources;
"ReceivedSat is derived as Sent+Balance, not stored". -/
def AddrBalance.ReceivedSat (ab : AddrBalance) : Int := ab.SentSat + ab.BalanceSat

/-- A row of the Height column, `db.BlockInfo`. -/
structure BlockInfo where
  Hash : String := ""
  Time : Int := 0
  Txs : Nat := 0
  Size : Nat := 0
  Height : Nat := 0
  deriving DecidableEq, Repr

/-- Per-contract counter of an AddrContracts row, `db.AddrContract`. -/
structure AddrContract where
  Contract : AddressDescriptor := []
  Txs : Nat := 0
  deriving DecidableEq, Repr

/-- A row of the AddrContracts column, `db.AddrContracts`. -/
structure AddrContracts where
  EthTxs : Nat := 0
  Contracts : List AddrContract := []
  deriving DecidableEq, Repr

/-- One stored posting of an Addresses row: the txid and the signed index (`index ≥ 0` is the
output of that number, `index < 0` is the input whose number is the complement `^index`). -/
structure outpoint where
  btxID : String
  index : Int
  deriving DecidableEq, Repr

/-- The store as far as the query layer reads it, `db.RocksDB`: the point reads are the
methods of that name; `Addresses` gives the rows of the Addresses column of one descriptor as
(height, postings), in key order, that is by ascending height. -/
structure RocksDB where
  GetTxAddresses : String → Except GoError (Option TxAddresses)
  GetAddrDescBalance : AddressDescriptor → Except GoError (Option AddrBalance)
  GetAddrDescContracts : AddressDescriptor → Except GoError (Option AddrContracts)
  GetBlockHash : Nat → Except GoError String
  GetBlockInfo : Nat → Except GoError (Option BlockInfo)
  GetBestBlock : Except GoError (Nat × String)
  Addresses : AddressDescriptor → List (Nat × List outpoint)

/-- The callback loop of `GetAddrDescTransactions` over the postings still to visit: the
callback gets the state its closure has captured and returns it with its `error`; the sentinel
`stopIteration` ends the iteration without error, another error ends it and is returned. -/
def iteratePostings {σ : Type} (fn : σ → String → Int → Bool → Res (σ × Option GoError)) :
    List outpoint → σ → Res (σ × Option GoError)
  | [], s => .ok (s, none)
  | o :: rest, s =>
    let vout : Int := if o.index < 0 then -o.index - 1 else o.index
    let isOutput : Bool := if o.index < 0 then false else true
    match fn s o.btxID vout isOutput with
    | .error f => .error f
    | .ok (s1, none) => iteratePostings fn rest s1
    | .ok (s1, some .stopIteration) => .ok (s1, none)
    | .ok (s1, some err) => .ok (s1, some err)

/-- Modelled from the spec: `RocksDB.GetAddrDescTransactions` (package db) is not among the
sources.  It visits the rows `addrDesc ‖ height` with `lower ≤ height ≤ higher` in key order
and, within a row, the postings in stored order, and calls `fn(txid, vout, isOutput)` with
the signed index decoded ("outputs with N ≥ 0 encoded +N", an input as the complement). -/
def RocksDB.GetAddrDescTransactions {σ : Type} (d : RocksDB) (addrDesc : AddressDescriptor)
    (lower higher : Nat) (fn : σ → String → Int → Bool → Res (σ × Option GoError)) (s : σ) :
    Res (σ × Option GoError) :=
  iteratePostings fn
    (((d.Addresses addrDesc).filter (fun row => decide (lower ≤ row.1 ∧ row.1 ≤ higher))).flatMap
      (fun row => row.2)) s

/-- Modelled from the spec: `TxInput.Addresses` (package db) is not among the sources; the
addresses of a slot are those the parser gives for its descriptor. -/
def TxInput.Addresses (ti : TxInput) (p : bchain.BlockChainParser) :
    List String × Bool × Option GoError :=
  p.GetAddressesFromAddrDesc ti.AddrDesc

/-- Modelled from the spec: `TxOutput.Addresses` (package db) is not among the sources; the
addresses of a slot are those the parser gives for its descriptor. -/
def TxOutput.Addresses (to_ : TxOutput) (p : bchain.BlockChainParser) :
    List String × Bool × Option GoError :=
  p.GetAddressesFromAddrDesc to_.AddrDesc

/-- The transaction cache, `db.TxCache`: `GetTransaction` gives the parsed transaction and
its height, from the cache column or from the backend. -/
structure TxCache where
  GetTransaction : String → Except GoError (bchain.Tx × Nat)

end db

namespace api

/-- Input of a transaction of the API, `api.Vin`; `ValueSat` is a pointer. -/
structure Vin where
  Txid : String := ""
  Vout : Nat := 0
  Sequence : Int := 0
  N : Int := 0
  AddrDesc : AddressDescriptor := []
  Addresses : List String := []
  Searchable : Bool := false
  ValueSat : Option Int := none
  Hex : String := ""
  deriving DecidableEq, Repr

/-- Output of a transaction of the API, `api.Vout`; `ValueSat` is a pointer. -/
structure Vout where
  ValueSat : Option Int := none
  N : Int := 0
  Hex : String := ""
  AddrDesc : AddressDescriptor := []
  Addresses : List String := []
  Searchable : Bool := false
  Spent : Bool := false
  SpentTxID : String := ""
  SpentIndex : Int := 0
  SpentHeight : Int := 0
  deriving DecidableEq, Repr

/-- Token transfer of a transaction of the API, `api.TokenTransfer`. -/
structure TokenTransfer where
  Type_ : String := ""
  From : String := ""
  To : String := ""
  Token : String := ""
  Name : String := ""
  Symbol : String := ""
  Decimals : Int := 0
  Value : Option Int := none
  deriving DecidableEq, Repr

/-- Account-chain data of a transaction of the API, `api.EthereumSpecific`. -/
structure EthereumSpecific where
  Status : Int := 0
  Nonce : Nat := 0
  GasLimit : Option Int := none
  GasUsed : Option Int := none
  GasPrice : Option Int := none
  deriving DecidableEq, Repr

/-- A transaction of the API, `api.Tx`. -/
structure Tx where
  Txid : String := ""
  Version : Int := 0
  Locktime : Nat := 0
  Vin : List Vin := []
  Vout : List Vout := []
  Blockhash : String := ""
  Blockheight : Int := 0
  Confirmations : Nat := 0
  Time : Int := 0
  Blocktime : Int := 0
  ValueOutSat : Option Int := none
  ValueInSat : Option Int := none
  FeesSat : Option Int := none
  Hex : String := ""
  CoinSpecificData : String := ""
  CoinSpecificJSON : Option String := none
  TokenTransfers : List TokenTransfer := []
  EthereumSpecific : Option EthereumSpecific := none
  deriving DecidableEq, Repr

/-- The api worker, `api.Worker` (without the internal state, which the functions embedded
here do not read); `GetEthereumTxData` is the function of that name of package `eth`. -/
structure Worker where
  txCache : db.TxCache
  db : db.RocksDB
  chain : bchain.BlockChain
  chainParser : bchain.BlockChainParser
  chainType : bchain.ChainType
  GetEthereumTxData : bchain.Tx → eth.EthereumTxData

/-- The function `NewWorker`, with the function of package `eth` as additional argument. -/
def NewWorker (d : db.RocksDB) (chain : bchain.BlockChain) (txCache : db.TxCache)
    (getEthereumTxData : bchain.Tx → eth.EthereumTxData) : Worker :=
  { db := d, txCache := txCache, chain := chain, chainParser := chain.GetChainParser,
    chainType := chain.GetChainParser.GetChainType, GetEthereumTxData := getEthereumTxData }

/-- The method `getAddressesFromVout`: descriptor, addresses, searchable flag and error. -/
def Worker.getAddressesFromVout (w : Worker) (vout : bchain.Vout) :
    AddressDescriptor × List String × Bool × Option GoError :=
  match w.chainParser.GetAddrDescFromVout vout with
  | .error err => ([], [], false, some err)
  | .ok addrDesc =>
    match w.chainParser.GetAddressesFromAddrDesc addrDesc with
    | (a, s, err) => (addrDesc, a, s, err)

/-- The callback that `setSpendingTxToVout` passes to `GetAddrDescTransactions`; the state
of the closure is the output `vout` that it may update. -/
def Worker.setSpendingTxToVout.callback (w : Worker) (txid : String) (vout : Vout)
    (t : String) (index : Int) (isOutput : Bool) : Res (Vout × Option GoError) :=
  if isOutput == false then
    match w.db.GetTxAddresses t with
    | .error err => .ok (vout, some err)
    | .ok none => .ok (vout, none)
    | .ok (some tsp) =>
      if (tsp.Inputs.length : Int) > index then
        match goIndex tsp.Inputs index with
        | .error f => .error f
        | .ok input =>
          match vout.ValueSat with
          | none => .error (.panic "nil pointer dereference")
          | some valueSat =>
            if input.ValueSat = valueSat then
              match w.txCache.GetTransaction t with
              | .error _ => .ok (vout, none)
              | .ok (spentTx, spentHeight) =>
                if (spentTx.Vin.length : Int) > index then
                  match goIndex spentTx.Vin index with
                  | .error f => .error f
                  | .ok vin =>
                    if vin.Txid = txid then
                      .ok ({ vout with SpentTxID := t, SpentHeight := (spentHeight : Int),
                                       SpentIndex := index }, some .stopIteration)
                    else .ok (vout, none)
                else .ok (vout, none)
            else .ok (vout, none)
      else .ok (vout, none)
  else .ok (vout, none)

/-- The method `setSpendingTxToVout`: the output as the call leaves it, and the error. -/
def Worker.setSpendingTxToVout (w : Worker) (vout : Vout) (txid : String) (height : Nat) :
    Res (Vout × Option GoError) :=
  w.db.GetAddrDescTransactions vout.AddrDesc height (2 ^ 32 - 1)
    (Worker.setSpendingTxToVout.callback w txid) vout

/-- One pass of the loop over `bchainTx.Vin` in `GetTransactionFromBchainTx`: the input
number `i` and the sum `valInSat` so far give the API input and the new sum. -/
def Worker.GetTransactionFromBchainTx.vinStep (w : Worker) (i : Nat) (bchainVin : bchain.Vin)
    (valInSat : Int) : Res (Vin × Int) :=
  let vin : Vin := { Txid := bchainVin.Txid, N := (i : Int), Vout := bchainVin.Vout,
                     Sequence := (bchainVin.Sequence : Int), Hex := bchainVin.ScriptSigHex }
  match w.chainType with
  | .ChainBitcoinType =>
    if bchainVin.Txid ≠ "" then
      match w.db.GetTxAddresses bchainVin.Txid with
      | .error err => .error (.error (.annotated ("GetTxAddresses " ++ bchainVin.Txid) err))
      | .ok tas =>
        let resolved : Res Vin :=
          match tas with
          | none =>
            match w.txCache.GetTransaction bchainVin.Txid with
            | .error err =>
              .error (.error (.annotated ("txCache.GetTransaction " ++ bchainVin.Txid) err))
            | .ok (otx, _) =>
              if (otx.Vout.length : Int) > (vin.Vout : Int) then
                match goIndex otx.Vout (vin.Vout : Int) with
                | .error f => .error f
                | .ok vout =>
                  match w.getAddressesFromVout vout with
                  | (addrDesc, a, s, _) =>
                    .ok { vin with ValueSat := some vout.ValueSat, AddrDesc := addrDesc,
                                   Addresses := a, Searchable := s }
              else .ok vin
          | some tas =>
            if (tas.Outputs.length : Int) > (vin.Vout : Int) then
              match goIndex tas.Outputs (vin.Vout : Int) with
              | .error f => .error f
              | .ok output =>
                match output.Addresses w.chainParser with
                | (a, s, _) =>
                  .ok { vin with ValueSat := some output.ValueSat, AddrDesc := output.AddrDesc,
                                 Addresses := a, Searchable := s }
            else .ok vin
        match resolved with
        | .error f => .error f
        | .ok vin =>
          match vin.ValueSat with
          | none => .error (.panic "nil pointer dereference")
          | some v => .ok (vin, valInSat + v)
    else .ok (vin, valInSat)
  | .ChainEthereumType =>
    if bchainVin.Addresses.length > 0 then
      match goIndex bchainVin.Addresses 0 with
      | .error f => .error f
      | .ok a0 =>
        .ok ({ vin with AddrDesc := (w.chainParser.GetAddrDescFromAddress a0).1,
                        Addresses := bchainVin.Addresses, Searchable := true }, valInSat)
    else .ok (vin, valInSat)

/-- The loop over `bchainTx.Vin` in `GetTransactionFromBchainTx`, from input number `i`. -/
def Worker.GetTransactionFromBchainTx.vinLoop (w : Worker) :
    List bchain.Vin → Nat → Int → Res (List Vin × Int)
  | [], _, valInSat => .ok ([], valInSat)
  | bchainVin :: rest, i, valInSat =>
    match Worker.GetTransactionFromBchainTx.vinStep w i bchainVin valInSat with
    | .error f => .error f
    | .ok (vin, valInSat1) =>
      match Worker.GetTransactionFromBchainTx.vinLoop w rest (i + 1) valInSat1 with
      | .error f => .error f
      | .ok (vins, valInSat2) => .ok (vin :: vins, valInSat2)

/-- One pass of the loop over `bchainTx.Vout` in `GetTransactionFromBchainTx`. -/
def Worker.GetTransactionFromBchainTx.voutStep (w : Worker) (bchainTx : bchain.Tx)
    (height : Nat) (spendingTxs : Bool) (ta : Option db.TxAddresses) (i : Nat)
    (bchainVout : bchain.Vout) : Res Vout :=
  match w.getAddressesFromVout bchainVout with
  | (addrDesc, a, s, _) =>
    let vout : Vout := { N := (i : Int), ValueSat := some bchainVout.ValueSat,
                         Hex := bchainVout.ScriptPubKeyHex, AddrDesc := addrDesc,
                         Addresses := a, Searchable := s }
    match ta with
    | none => .ok vout
    | some ta =>
      match goIndex ta.Outputs (i : Int) with
      | .error f => .error f
      | .ok output =>
        let vout : Vout := { vout with Spent := output.Spent }
        if spendingTxs && vout.Spent then
          match w.setSpendingTxToVout vout bchainTx.Txid height with
          | .error f => .error f
          | .ok (vout1, _) => .ok vout1
        else .ok vout

/-- The loop over `bchainTx.Vout` in `GetTransactionFromBchainTx`, from output number `i`,
with the sum `valOutSat` of the amounts. -/
def Worker.GetTransactionFromBchainTx.voutLoop (w : Worker) (bchainTx : bchain.Tx)
    (height : Nat) (spendingTxs : Bool) (ta : Option db.TxAddresses) :
    List bchain.Vout → Nat → Int → Res (List Vout × Int)
  | [], _, valOutSat => .ok ([], valOutSat)
  | bchainVout :: rest, i, valOutSat =>
    match Worker.GetTransactionFromBchainTx.voutStep w bchainTx height spendingTxs ta i
        bchainVout with
    | .error f => .error f
    | .ok vout =>
      match Worker.GetTransactionFromBchainTx.voutLoop w bchainTx height spendingTxs ta rest
          (i + 1) (valOutSat + bchainVout.ValueSat) with
      | .error f => .error f
      | .ok (vouts, valOutSat1) => .ok (vout :: vouts, valOutSat1)

/-- The element `tokens[i]` that the loop over the token transfers of an account-chain
transaction leaves: the zero value when the contract address does not parse. -/
def Worker.GetTransactionFromBchainTx.token (w : Worker) (e : bchain.Erc20Transfer) :
    TokenTransfer :=
  match w.chainParser.GetAddrDescFromAddress e.Contract with
  | (_, some _) => {}
  | (cd, none) =>
    let erc20c : bchain.Erc20Contract :=
      match (w.chain.EthereumTypeGetErc20ContractInfo cd).1 with
      | none => { Name := e.Contract }
      | some c => c
    { Type_ := "ERC20", Token := e.Contract, From := e.From, To := e.To,
      Decimals := erc20c.Decimals, Value := some e.Tokens, Name := erc20c.Name,
      Symbol := erc20c.Symbol }

/-- The method `GetTransactionFromBchainTx`. -/
def Worker.GetTransactionFromBchainTx (w : Worker) (bchainTx : bchain.Tx) (height : Nat)
    (spendingTxs specificJSON : Bool) : Res Tx := do
  let (ta, blockhash) ←
    (if bchainTx.Confirmations > 0 then do
      let ta ←
        (match w.chainType with
         | .ChainBitcoinType =>
           match w.db.GetTxAddresses bchainTx.Txid with
           | .error err =>
             (.error (.error (.annotated ("GetTxAddresses " ++ bchainTx.Txid) err)) :
               Res (Option db.TxAddresses))
           | .ok ta => .ok ta
         | .ChainEthereumType => .ok none)
      let blockhash ←
        (match w.db.GetBlockHash height with
         | .error err =>
           (.error (.error (.annotated ("GetBlockHash " ++ Nat.repr height) err)) : Res String)
         | .ok h => .ok h)
      pure (ta, blockhash)
    else pure (none, ""))
  let (vins, valInSat) ← Worker.GetTransactionFromBchainTx.vinLoop w bchainTx.Vin 0 0
  let (vouts, valOutSat) ←
    Worker.GetTransactionFromBchainTx.voutLoop w bchainTx height spendingTxs ta bchainTx.Vout 0 0
  let (feesSat, pValInSat, valOutSat, tokens, ethSpecific) ←
    (match w.chainType with
     | .ChainBitcoinType =>
       let feesSat := valInSat - valOutSat
       let feesSat := if feesSat < 0 then 0 else feesSat
       (.ok (feesSat, some valInSat, valOutSat, [], none) :
         Res (Int × Option Int × Int × List TokenTransfer × Option EthereumSpecific))
     | .ChainEthereumType => do
       let ets := (w.chainParser.EthereumTypeGetErc20FromTx bchainTx).1
       let tokens := ets.map (Worker.GetTransactionFromBchainTx.token w)
       let ethTxData := w.GetEthereumTxData bchainTx
       let feesSat ←
         (match ethTxData.GasUsed with
          | none => (.ok 0 : Res Int)
          | some gasUsed =>
            match ethTxData.GasPrice with
            | none => .error (.panic "nil pointer dereference")
            | some gasPrice => .ok (gasPrice * gasUsed))
       let valOutSat :=
         match bchainTx.Vout with
         | [] => valOutSat
         | v :: _ => v.ValueSat
       let ethSpecific : EthereumSpecific :=
         { GasLimit := ethTxData.GasLimit, GasPrice := ethTxData.GasPrice,
           GasUsed := ethTxData.GasUsed, Nonce := ethTxData.Nonce, Status := ethTxData.Status }
       pure (feesSat, none, valOutSat, tokens, some ethSpecific))
  let sj ←
    (if specificJSON then
      match w.chain.GetTransactionSpecific bchainTx with
      | .error err => (.error (.error err) : Res (Option String))
      | .ok j => .ok (some j)
    else .ok none)
  pure { Blockhash := blockhash, Blockheight := (height : Int), Blocktime := bchainTx.Blocktime,
         Confirmations := bchainTx.Confirmations, FeesSat := some feesSat,
         Locktime := bchainTx.LockTime, Time := bchainTx.Time, Txid := bchainTx.Txid,
         ValueInSat := pValInSat, ValueOutSat := some valOutSat, Version := bchainTx.Version,
         Hex := bchainTx.Hex, Vin := vins, Vout := vouts,
         CoinSpecificData := bchainTx.CoinSpecificData, CoinSpecificJSON := sj,
         TokenTransfers := tokens, EthereumSpecific := ethSpecific }

/-- The method `GetTransaction`. -/
def Worker.GetTransaction (w : Worker) (txid : String) (spendingTxs specificJSON : Bool) :
    Res Tx :=
  match w.txCache.GetTransaction txid with
  | .error err => .error (.error (.apiError ("Tx not found, " ++ err.text) true))
  | .ok (bchainTx, height) =>
    w.GetTransactionFromBchainTx bchainTx height spendingTxs specificJSON

/-- The method `GetSpendingTxid`; the Go return `("", err)` is the outcome `error err`. -/
def Worker.GetSpendingTxid (w : Worker) (txid : String) (n : Int) : Res String :=
  match w.GetTransaction txid false false with
  | .error f => .error f
  | .ok tx =>
    if n ≥ (tx.Vout.length : Int) ∨ n < 0 then
      .error (.error (.apiError
        ("Passed incorrect vout index " ++ Itoa n ++ " for tx " ++ tx.Txid ++ ", len vout "
          ++ Itoa (tx.Vout.length : Int)) false))
    else
      match goIndex tx.Vout n with
      | .error f => .error f
      | .ok vout =>
        match w.setSpendingTxToVout vout tx.Txid tx.Blockheight.toNat with
        | .error f => .error f
        | .ok (_, some err) => .error (.error err)
        | .ok (vout1, none) => .ok vout1.SpentTxID

/-- Modelled from the spec: the `GetAddressOption` tiers of `api/types.go`, which is not
among the sources: "one of {Basic, Balance, TxidHistory, TxHistoryLight, TxHistory} with
monotonically growing cost". -/
inductive GetAddressOption where
  | Basic
  | Balance
  | TxidHistory
  | TxHistoryLight
  | TxHistory
  deriving DecidableEq, Repr

/-- The integer value of an option tier (`iota` order). -/
def GetAddressOption.toNat : GetAddressOption → Nat
  | .Basic => 0
  | .Balance => 1
  | .TxidHistory => 2
  | .TxHistoryLight => 3
  | .TxHistory => 4

/-- The filter of the address history, `api.AddressFilter`. -/
structure AddressFilter where
  Vout : Int
  Contract : String := ""
  FromHeight : Nat := 0
  ToHeight : Nat := 0
  deriving DecidableEq, Repr

/-- Modelled from the spec: the sentinel of `api/types.go` (not among the sources) for the
vout side "off"; the sentinels are distinct negative numbers. -/
def AddressFilterVoutOff : Int := -1

/-- Modelled from the spec: the sentinel of `api/types.go` for the vout side "inputs". -/
def AddressFilterVoutInputs : Int := -2

/-- Modelled from the spec: the sentinel of `api/types.go` for the vout side "outputs". -/
def AddressFilterVoutOutputs : Int := -3

/-- The closure `addFilteredTxid` of `getAddressTxids`; its state is the slice `txids`. -/
def Worker.getAddressTxids.addFilteredTxid (filter : AddressFilter) (txids : List String)
    (txid : String) (vout : Int) (isOutput : Bool) : Res (List String × Option GoError) :=
  if filter.Vout = AddressFilterVoutOff ∨
      (filter.Vout = AddressFilterVoutInputs ∧ isOutput = false) ∨
      (filter.Vout = AddressFilterVoutOutputs ∧ isOutput = true) ∨
      vout = goInt32 filter.Vout then
    .ok (txids ++ [txid], none)
  else .ok (txids, none)

/-- The loop of `getAddressTxids` over the mempool postings. -/
def Worker.getAddressTxids.mempoolLoop (filter : AddressFilter) :
    List bchain.Outpoint → List String → Res (List String)
  | [], txids => .ok txids
  | m :: rest, txids =>
    let vout : Int := if m.Vout < 0 then -m.Vout - 1 else m.Vout
    let isOutput : Bool := if m.Vout < 0 then false else true
    match Worker.getAddressTxids.addFilteredTxid filter txids m.Txid vout isOutput with
    | .error f => .error f
    | .ok (txids1, _) => Worker.getAddressTxids.mempoolLoop filter rest txids1

/-- The method `getAddressTxids`. -/
def Worker.getAddressTxids (w : Worker) (addrDesc : AddressDescriptor) (mempool : Bool)
    (filter : AddressFilter) : Res (List String) :=
  if mempool then
    match w.chain.GetMempoolTransactionsForAddrDesc addrDesc with
    | .error err => .error (.error err)
    | .ok o => Worker.getAddressTxids.mempoolLoop filter o []
  else
    let to_ : Nat := if filter.ToHeight = 0 then 2 ^ 32 - 1 else filter.ToHeight
    match w.db.GetAddrDescTransactions addrDesc filter.FromHeight to_
        (Worker.getAddressTxids.addFilteredTxid filter) [] with
    | .error f => .error f
    | .ok (_, some err) => .error (.error err)
    | .ok (txids, none) => .ok txids

/-- Sum that `Tx.getAddrVoutValue` computes. -/
def Tx.getAddrVoutValue (t : Tx) (addrDesc : AddressDescriptor) : Int :=
  t.Vout.foldl (fun val vout =>
    match vout.ValueSat with
    | some v => if vout.AddrDesc = addrDesc then val + v else val
    | none => val) 0

/-- Sum that `Tx.getAddrVinValue` computes. -/
def Tx.getAddrVinValue (t : Tx) (addrDesc : AddressDescriptor) : Int :=
  t.Vin.foldl (fun val vin =>
    match vin.ValueSat with
    | some v => if vin.AddrDesc = addrDesc then val + v else val
    | none => val) 0

/-- The loop of `UniqueTxidsInReverse`: `i` is the start of the filled tail of the slice
`ut`, `txidsMap` holds the keys of the map. -/
def UniqueTxidsInReverse.loop :
    List String → Nat → List String → List String → Nat × List String
  | [], i, ut, _ => (i, ut)
  | txid :: rest, i, ut, txidsMap =>
    if txid ∈ txidsMap then UniqueTxidsInReverse.loop rest i ut txidsMap
    else UniqueTxidsInReverse.loop rest (i - 1) (ut.set (i - 1) txid) (txid :: txidsMap)

/-- The function `UniqueTxidsInReverse`. -/
def UniqueTxidsInReverse (txids : List String) : List String :=
  let r := UniqueTxidsInReverse.loop txids txids.length (List.replicate txids.length "") []
  r.2.drop r.1

/-- An unspent output of an address, `api.AddressUtxo`. -/
structure AddressUtxo where
  Txid : String := ""
  Vout : Int := 0
  AmountSat : Option Int := none
  Height : Int := 0
  Confirmations : Int := 0
  deriving DecidableEq, Repr

/-- The first mempool loop of `GetAddressUtxo`: it fills `mc` with the fetched transactions
(nil where the fetch failed) and `spentInMempool` with the keys of their inputs. -/
def Worker.GetAddressUtxo.fetchLoop (w : Worker) :
    List String → List String → List (Option bchain.Tx) × List String
  | [], spentInMempool => ([], spentInMempool)
  | txid :: rest, spentInMempool =>
    match w.txCache.GetTransaction txid with
    | .error _ =>
      let r := Worker.GetAddressUtxo.fetchLoop w rest spentInMempool
      (none :: r.1, r.2)
    | .ok (bchainTx, _) =>
      let r := Worker.GetAddressUtxo.fetchLoop w rest
        (spentInMempool ++ bchainTx.Vin.map (fun vin => vin.Txid ++ Itoa (vin.Vout : Int)))
      (some bchainTx :: r.1, r.2)

/-- The loop over the outputs of one fetched mempool transaction in `GetAddressUtxo`, from
output number `i`. -/
def Worker.GetAddressUtxo.voutLoop (w : Worker) (addrDesc : AddressDescriptor)
    (spentInMempool : List String) (bchainTx : bchain.Tx) :
    List bchain.Vout → Nat → List AddressUtxo → List AddressUtxo
  | [], _, r => r
  | vout :: rest, i, r =>
    let r1 :=
      match w.chainParser.GetAddrDescFromVout vout with
      | .ok vad =>
        if addrDesc = vad then
          if bchainTx.Txid ++ Itoa (i : Int) ∈ spentInMempool then r
          else r ++ [{ Txid := bchainTx.Txid, Vout := (i : Int),
                       AmountSat := some vout.ValueSat }]
        else r
      | .error _ => r
    Worker.GetAddressUtxo.voutLoop w addrDesc spentInMempool bchainTx rest (i + 1) r1

/-- The second mempool loop of `GetAddressUtxo`, over `mc`. -/
def Worker.GetAddressUtxo.mempoolLoop (w : Worker) (addrDesc : AddressDescriptor)
    (spentInMempool : List String) : List (Option bchain.Tx) → List AddressUtxo →
    List AddressUtxo
  | [], r => r
  | none :: rest, r => Worker.GetAddressUtxo.mempoolLoop w addrDesc spentInMempool rest r
  | some bchainTx :: rest, r =>
    Worker.GetAddressUtxo.mempoolLoop w addrDesc spentInMempool rest
      (Worker.GetAddressUtxo.voutLoop w addrDesc spentInMempool bchainTx bchainTx.Vout 0 r)

/-- The state of the index walk of `GetAddressUtxo`. -/
structure UtxoWalk where
  lastTxid : String
  ta : Option db.TxAddresses
  checksum : Int
  r : List AddressUtxo

/-- The index walk of `GetAddressUtxo`,
`for i := len(outpoints) - 1; i >= 0 && checksum.Int64() > 0; i--`, over the outpoints
still to visit, newest first (the reverse of `outpoints`). -/
def Worker.GetAddressUtxo.walk (w : Worker) (spentInMempool : List String) (bestheight : Int) :
    List bchain.Outpoint → UtxoWalk → Res UtxoWalk
  | [], st => .ok st
  | o :: rest, st =>
    if bigInt64 st.checksum > 0 then
      let looked : Res (Option db.TxAddresses × String) :=
        if st.lastTxid ≠ o.Txid then
          match w.db.GetTxAddresses o.Txid with
          | .error err => .error (.error err)
          | .ok ta => .ok (ta, o.Txid)
        else .ok (st.ta, st.lastTxid)
      match looked with
      | .error f => .error f
      | .ok (ta, lastTxid) =>
        match ta with
        | none =>
          Worker.GetAddressUtxo.walk w spentInMempool bestheight rest
            { st with lastTxid := lastTxid, ta := ta }
        | some row =>
          if (row.Outputs.length : Int) ≤ o.Vout then
            Worker.GetAddressUtxo.walk w spentInMempool bestheight rest
              { st with lastTxid := lastTxid, ta := ta }
          else
            match goIndex row.Outputs o.Vout with
            | .error f => .error f
            | .ok output =>
              if !output.Spent then
                let v := output.ValueSat
                let r1 :=
                  if o.Txid ++ Itoa o.Vout ∈ spentInMempool then st.r
                  else st.r ++ [{ Txid := o.Txid, Vout := o.Vout, AmountSat := some v,
                                  Height := (row.Height : Int),
                                  Confirmations := bestheight - (row.Height : Int) + 1 }]
                Worker.GetAddressUtxo.walk w spentInMempool bestheight rest
                  { lastTxid := lastTxid, ta := ta, checksum := st.checksum - v, r := r1 }
              else
                Worker.GetAddressUtxo.walk w spentInMempool bestheight rest
                  { st with lastTxid := lastTxid, ta := ta }
    else .ok st

/-- The callback with which `GetAddressUtxo` collects the output postings of the address. -/
def Worker.GetAddressUtxo.collect (outpoints : List bchain.Outpoint) (txid : String)
    (vout : Int) (isOutput : Bool) : Res (List bchain.Outpoint × Option GoError) :=
  if isOutput then .ok (outpoints ++ [{ Txid := txid, Vout := vout }], none)
  else .ok (outpoints, none)

/-- The mempool part of `GetAddressUtxo` (`if !onlyConfirmed`): the utxos found in the
mempool and the keys `spentInMempool`. -/
def Worker.GetAddressUtxo.mempoolPart (w : Worker) (address : String)
    (addrDesc : AddressDescriptor) : Res (List AddressUtxo × List String) :=
  match w.getAddressTxids addrDesc true { Vout := AddressFilterVoutOff } with
  | .error (.error err) =>
    .error (.error (.annotated ("getAddressTxids " ++ address ++ " true") err))
  | .error f => .error f
  | .ok txm =>
    let txm := UniqueTxidsInReverse txm
    let fetched := Worker.GetAddressUtxo.fetchLoop w txm []
    .ok (Worker.GetAddressUtxo.mempoolLoop w addrDesc fetched.2 fetched.1 [], fetched.2)

/-- The index part of `GetAddressUtxo` (`// get utxo from index`): the slice `r` and the
final `checksum`. -/
def Worker.GetAddressUtxo.indexPart (w : Worker) (addrDesc : AddressDescriptor)
    (spentInMempool : List String) (r : List AddressUtxo) : Res (List AddressUtxo × Int) :=
  match w.db.GetAddrDescBalance addrDesc with
  | .error err => .error (.error (.apiError ("Address not found, " ++ err.text) true))
  | .ok ba =>
    match ba with
    | none => .ok (r, 0)
    | some ba =>
      if bigUint64 ba.BalanceSat > 0 then
        match w.db.GetAddrDescTransactions addrDesc 0 (2 ^ 32 - 1)
            Worker.GetAddressUtxo.collect [] with
        | .error f => .error f
        | .ok (_, some err) => .error (.error err)
        | .ok (outpoints, none) =>
          match w.db.GetBestBlock with
          | .error err => .error (.error err)
          | .ok (b, _) =>
            match Worker.GetAddressUtxo.walk w spentInMempool (b : Int) outpoints.reverse
                { lastTxid := "", ta := none, checksum := ba.BalanceSat, r := r } with
            | .error f => .error f
            | .ok st => .ok (st.r, st.checksum)
      else .ok (r, 0)

/-- The method `GetAddressUtxo`. -/
def Worker.GetAddressUtxo (w : Worker) (address : String) (onlyConfirmed : Bool) :
    Res (List AddressUtxo) :=
  match w.chainParser.GetAddrDescFromAddress address with
  | (_, some err) => .error (.error (.apiError ("Invalid address, " ++ err.text) true))
  | (addrDesc, none) =>
    let mempool : Res (List AddressUtxo × List String) :=
      if !onlyConfirmed then Worker.GetAddressUtxo.mempoolPart w address addrDesc
      else .ok ([], [])
    match mempool with
    | .error f => .error f
    | .ok (r, spentInMempool) =>
      match Worker.GetAddressUtxo.indexPart w addrDesc spentInMempool r with
      | .error f => .error f
      | .ok (r1, _) => .ok r1

/-- The inconsistency probe at the end of `GetAddressUtxo`: whether the warning
"checksum is not zero" is logged for the final checksum. -/
def Worker.GetAddressUtxo.checksumWarning (checksum : Int) : Bool :=
  bigUint64 checksum != 0

/-- The method `txFromTxAddress`; the confirmations are computed in `uint32`. -/
def Worker.txFromTxAddress (w : Worker) (txid : String) (ta : db.TxAddresses)
    (bi : db.BlockInfo) (bestheight : Nat) : Tx :=
  let vins : List Vin := ta.Inputs.enum.map (fun (p : Nat × db.TxInput) =>
    match p.2.Addresses w.chainParser with
    | (a, s, _) => { N := (p.1 : Int), ValueSat := some p.2.ValueSat, Addresses := a,
                     Searchable := s })
  let valInSat : Int := ta.Inputs.foldl (fun val tai => val + tai.ValueSat) 0
  let vouts : List Vout := ta.Outputs.enum.map (fun (p : Nat × db.TxOutput) =>
    match p.2.Addresses w.chainParser with
    | (a, s, _) => { N := (p.1 : Int), ValueSat := some p.2.ValueSat, Addresses := a,
                     Searchable := s, Spent := p.2.Spent })
  let valOutSat : Int := ta.Outputs.foldl (fun val tao => val + tao.ValueSat) 0
  let feesSat := valInSat - valOutSat
  let feesSat := if feesSat < 0 then 0 else feesSat
  { Blockhash := bi.Hash, Blockheight := (ta.Height : Int), Blocktime := bi.Time,
    Confirmations := (((bestheight : Int) - (ta.Height : Int) + 1) % 2 ^ 32).toNat,
    FeesSat := some feesSat, Time := bi.Time, Txid := txid, ValueInSat := some valInSat,
    ValueOutSat := some valOutSat, Vin := vins, Vout := vouts }

/-- Token holding of an address, `api.Erc20Token`. -/
structure Erc20Token where
  Contract : String := ""
  Name : String := ""
  Symbol : String := ""
  Decimals : Int := 0
  BalanceSat : Option Int := none
  ContractIndex : String := ""
  Transfers : Int := 0
  deriving DecidableEq, Repr

/-- The loop over `ca.Contracts` in `getEthereumTypeAddressBalances`, from contract number
`i`: the filter as the loop leaves it and the filled part `erc20t[:j]`. -/
def Worker.getEthereumTypeAddressBalances.loop (w : Worker) (addrDesc : AddressDescriptor)
    (option : GetAddressOption) (filterDesc : AddressDescriptor) :
    List db.AddrContract → Nat → AddressFilter → List Erc20Token →
    Res (AddressFilter × List Erc20Token)
  | [], _, filter, erc20t => .ok (filter, erc20t)
  | c :: rest, i, filter, erc20t =>
    if filterDesc.length > 0 ∧ ¬ (filterDesc = c.Contract) then
      Worker.getEthereumTypeAddressBalances.loop w addrDesc option filterDesc rest (i + 1)
        filter erc20t
    else
      let filter1 : AddressFilter :=
        if filterDesc.length > 0 then { filter with Vout := (i : Int) + 1 } else filter
      match w.chain.EthereumTypeGetErc20ContractInfo c.Contract with
      | (_, some err) =>
        .error (.error (.annotated
          ("EthereumTypeGetErc20ContractInfo " ++ sprintBytes c.Contract) err))
      | (ci, none) =>
        let ci : bchain.Erc20Contract :=
          match ci with
          | some ci => ci
          | none =>
            match (w.chainParser.GetAddressesFromAddrDesc c.Contract).1 with
            | [] => {}
            | a0 :: _ => { Contract := a0, Name := a0 }
        let b : Option Int :=
          if option ≠ GetAddressOption.Basic then
            (w.chain.EthereumTypeGetErc20ContractBalance addrDesc c.Contract).1
          else none
        Worker.getEthereumTypeAddressBalances.loop w addrDesc option filterDesc rest (i + 1)
          filter1
          (erc20t ++ [{ BalanceSat := b, Contract := ci.Contract, Name := ci.Name,
                        Symbol := ci.Symbol, Transfers := (c.Txs : Int),
                        Decimals := ci.Decimals, ContractIndex := Itoa ((i : Int) + 1) }])

/-- The method `getEthereumTypeAddressBalances`; the filter, which the Go code updates
through its pointer, is returned with the results. -/
def Worker.getEthereumTypeAddressBalances (w : Worker) (addrDesc : AddressDescriptor)
    (option : GetAddressOption) (filter : AddressFilter) :
    Res (Option db.AddrBalance × List Erc20Token × Option bchain.Erc20Contract × Nat ×
      AddressFilter) :=
  match w.db.GetAddrDescContracts addrDesc with
  | .error err => .error (.error (.apiError ("Address not found, " ++ err.text) true))
  | .ok none => .ok (none, [], none, 0, filter)
  | .ok (some ca) =>
    match w.chain.EthereumTypeGetBalance addrDesc with
    | .error err =>
      .error (.error (.annotated ("EthereumTypeGetBalance " ++ sprintBytes addrDesc) err))
    | .ok b =>
      let ba : db.AddrBalance :=
        { Txs := ca.EthTxs, BalanceSat := match b with | some v => v | none => 0 }
      match w.chain.EthereumTypeGetNonce addrDesc with
      | .error err =>
        .error (.error (.annotated ("EthereumTypeGetNonce " ++ sprintBytes addrDesc) err))
      | .ok n =>
        let filterDesc : Res AddressDescriptor :=
          if filter.Contract ≠ "" then
            match w.chainParser.GetAddrDescFromAddress filter.Contract with
            | (_, some err) =>
              .error (.error (.apiError ("Invalid contract filter, " ++ err.text) true))
            | (d, none) => .ok d
          else .ok []
        match filterDesc with
        | .error f => .error f
        | .ok filterDesc =>
          match Worker.getEthereumTypeAddressBalances.loop w addrDesc option filterDesc
              ca.Contracts 0 filter [] with
          | .error f => .error f
          | .ok (filter1, erc20t) =>
            match w.chain.EthereumTypeGetErc20ContractInfo addrDesc with
            | (_, some err) => .error (.error err)
            | (ci, none) => .ok (some ba, erc20t, ci, n, filter1)

/-- The result of `GetAddress`, `api.Address`. -/
structure Address where
  Paging : Paging := { Page := 0, TotalPages := 0, ItemsOnPage := 0 }
  AddrStr : String := ""
  BalanceSat : Option Int := none
  TotalReceivedSat : Option Int := none
  TotalSentSat : Option Int := none
  UnconfirmedBalanceSat : Option Int := none
  UnconfirmedTxApperances : Int := 0
  TxApperances : Int := 0
  Transactions : List (Option Tx) := []
  Txids : List String := []
  Nonce : String := ""
  Erc20Contract : Option bchain.Erc20Contract := none
  Erc20Tokens : List Erc20Token := []
  deriving DecidableEq, Repr

/-- Go `make([]T, n)` with the zero value `z`. -/
def goMake {α : Type} (z : α) (n : Int) : Res (List α) :=
  if n < 0 then .error (.panic "makeslice: len out of range")
  else .ok (List.replicate n.toNat z)

/-- Go slice element assignment `xs[i] = x` with its bounds check. -/
def goSet {α : Type} (xs : List α) (i : Nat) (x : α) : Res (List α) :=
  if i < xs.length then .ok (xs.set i x) else .error (.panic "index out of range")

/-- The variables that the history loops of `GetAddress` update. -/
structure HistoryVars where
  uBalSat : Int
  txids : List String
  txs : List (Option Tx)
  txi : Nat

/-- The loop `// get mempool transactions` of `GetAddress` over `txm`. -/
def Worker.GetAddress.mempoolLoop (w : Worker) (addrDesc : AddressDescriptor)
    (option : GetAddressOption) (page : Int) : List String → HistoryVars → Res HistoryVars
  | [], st => .ok st
  | txid :: rest, st =>
    match w.GetTransaction txid false false with
    | .error (.panic what) => .error (.panic what)
    | .error (.error _) => Worker.GetAddress.mempoolLoop w addrDesc option page rest st
    | .ok tx =>
      let uBalSat := st.uBalSat + tx.getAddrVoutValue addrDesc - tx.getAddrVinValue addrDesc
      if page = 0 then
        if option = GetAddressOption.TxidHistory then
          match goSet st.txids st.txi tx.Txid with
          | .error f => .error f
          | .ok txids =>
            Worker.GetAddress.mempoolLoop w addrDesc option page rest
              { st with uBalSat := uBalSat, txids := txids, txi := st.txi + 1 }
        else
          match goSet st.txs st.txi (some tx) with
          | .error f => .error f
          | .ok txs =>
            Worker.GetAddress.mempoolLoop w addrDesc option page rest
              { st with uBalSat := uBalSat, txs := txs, txi := st.txi + 1 }
      else
        Worker.GetAddress.mempoolLoop w addrDesc option page rest { st with uBalSat := uBalSat }

/-- The loop `// get confirmed transactions` of `GetAddress`,
`for i := from; i < to; i++`, with `k` passes left. -/
def Worker.GetAddress.confirmedLoop (w : Worker) (option : GetAddressOption)
    (txc : List String) (bestheight : Nat) : Nat → Int → HistoryVars → Res HistoryVars
  | 0, _, st => .ok st
  | k + 1, i, st =>
    match goIndex txc i with
    | .error f => .error f
    | .ok txid =>
      if option = GetAddressOption.TxidHistory then
        match goSet st.txids st.txi txid with
        | .error f => .error f
        | .ok txids =>
          Worker.GetAddress.confirmedLoop w option txc bestheight k (i + 1)
            { st with txids := txids, txi := st.txi + 1 }
      else if option = GetAddressOption.TxHistoryLight ∧
          w.chainType = bchain.ChainType.ChainBitcoinType then
        match w.db.GetTxAddresses txid with
        | .error err => .error (.error (.annotated ("GetTxAddresses " ++ txid) err))
        | .ok none => Worker.GetAddress.confirmedLoop w option txc bestheight k (i + 1) st
        | .ok (some ta) =>
          match w.db.GetBlockInfo ta.Height with
          | .error err =>
            .error (.error (.annotated ("GetBlockInfo " ++ Nat.repr ta.Height) err))
          | .ok none => Worker.GetAddress.confirmedLoop w option txc bestheight k (i + 1) st
          | .ok (some bi) =>
            match goSet st.txs st.txi (some (w.txFromTxAddress txid ta bi bestheight)) with
            | .error f => .error f
            | .ok txs =>
              Worker.GetAddress.confirmedLoop w option txc bestheight k (i + 1)
                { st with txs := txs, txi := st.txi + 1 }
      else
        match w.GetTransaction txid false true with
        | .error (.panic what) => .error (.panic what)
        | .error (.error err) =>
          match goSet st.txs st.txi none with
          | .error f => .error f
          | .ok _ => .error (.error (.annotated ("GetTransaction " ++ txid) err))
        | .ok tx =>
          match goSet st.txs st.txi (some tx) with
          | .error f => .error f
          | .ok txs =>
            Worker.GetAddress.confirmedLoop w option txc bestheight k (i + 1)
              { st with txs := txs, txi := st.txi + 1 }

/-- The block `if option >= TxidHistory` of `GetAddress`: paging, unconfirmed balance,
`txs` and `txids`. -/
def Worker.GetAddress.history (w : Worker) (addrDesc : AddressDescriptor)
    (option : GetAddressOption) (filter : AddressFilter) (txm : List String) (page : Int)
    (txsOnPage : Int) : Res (Paging × Int × List (Option Tx) × List String) :=
  match w.getAddressTxids addrDesc false filter with
  | .error (.error err) =>
    .error (.error (.annotated ("getAddressTxids " ++ sprintBytes addrDesc ++ " false") err))
  | .error f => .error f
  | .ok txc =>
    let txc := UniqueTxidsInReverse txc
    match w.db.GetBestBlock with
    | .error err => .error (.error (.annotated "GetBestBlock" err))
    | .ok (bestheight, _) =>
      match computePaging (txc.length : Int) page txsOnPage with
      | .error f => .error f
      | .ok (pg, from_, to_, page) =>
        let made : Res (List String × List (Option Tx)) :=
          if option = GetAddressOption.TxidHistory then
            match goMake "" ((txm.length : Int) + to_ - from_) with
            | .error f => .error f
            | .ok txids => .ok (txids, [])
          else
            match goMake (none : Option Tx) ((txm.length : Int) + to_ - from_) with
            | .error f => .error f
            | .ok txs => .ok ([], txs)
        match made with
        | .error f => .error f
        | .ok (txids, txs) =>
          match Worker.GetAddress.mempoolLoop w addrDesc option page txm
              { uBalSat := 0, txids := txids, txs := txs, txi := 0 } with
          | .error f => .error f
          | .ok st =>
            match Worker.GetAddress.confirmedLoop w option txc bestheight (to_ - from_).toNat
                from_ st with
            | .error f => .error f
            | .ok st =>
              if option = GetAddressOption.TxidHistory then
                .ok (pg, st.uBalSat, st.txs, st.txids.take st.txi)
              else if option.toNat ≥ GetAddressOption.TxHistoryLight.toNat then
                .ok (pg, st.uBalSat, st.txs.take st.txi, st.txids)
              else .ok (pg, st.uBalSat, st.txs, st.txids)

/-- The method `GetAddress`. -/
def Worker.GetAddress (w : Worker) (address : String) (page : Int) (txsOnPage : Int)
    (option : GetAddressOption) (filter : AddressFilter) : Res Address :=
  let page := goInt (page - 1)
  let page := if page < 0 then 0 else page
  match w.chainParser.GetAddrDescFromAddress address with
  | (_, some err) => .error (.error (.apiError ("Invalid address, " ++ err.text) true))
  | (addrDesc, none) =>
    let balances : Res (Option db.AddrBalance × List Erc20Token × Option bchain.Erc20Contract ×
        String × AddressFilter) :=
      match w.chainType with
      | .ChainEthereumType =>
        match w.getEthereumTypeAddressBalances addrDesc option filter with
        | .error f => .error f
        | .ok (ba, erc20t, erc20c, n, filter1) => .ok (ba, erc20t, erc20c, Itoa (n : Int), filter1)
      | .ChainBitcoinType =>
        match w.db.GetAddrDescBalance addrDesc with
        | .error err => .error (.error (.apiError ("Address not found, " ++ err.text) true))
        | .ok ba => .ok (ba, [], none, "", filter)
    match balances with
    | .error f => .error f
    | .ok (ba, erc20t, erc20c, nonce, filter) =>
      let ba1 : db.AddrBalance := match ba with | none => {} | some b => b
      let looked : Res (String × db.AddrBalance × List String × Paging × Int ×
          List (Option Tx) × List String) :=
        if option.toNat ≥ GetAddressOption.TxidHistory.toNat ∨ ba = none then
          let address1 : String :=
            match (w.chainParser.GetAddressesFromAddrDesc addrDesc).1 with
            | [a] => a
            | _ => address
          match w.getAddressTxids addrDesc true filter with
          | .error (.error err) =>
            .error (.error (.annotated
              ("getAddressTxids " ++ sprintBytes addrDesc ++ " true") err))
          | .error f => .error f
          | .ok txm =>
            let txm := UniqueTxidsInReverse txm
            let page1 : Int := if ba = none then 0 else page
            if option.toNat ≥ GetAddressOption.TxidHistory.toNat then
              match Worker.GetAddress.history w addrDesc option filter txm page1 txsOnPage with
              | .error f => .error f
              | .ok (pg, uBalSat, txs, txids) => .ok (address1, ba1, txm, pg, uBalSat, txs, txids)
            else
              .ok (address1, ba1, txm, { Page := 0, TotalPages := 0, ItemsOnPage := 0 }, 0,
                   [], [])
        else
          .ok (address, ba1, [], { Page := 0, TotalPages := 0, ItemsOnPage := 0 }, 0, [], [])
      match looked with
      | .error f => .error f
      | .ok (address, ba, txm, pg, uBalSat, txs, txids) =>
        let totals : Option Int × Option Int :=
          match w.chainType with
          | .ChainBitcoinType => (some ba.ReceivedSat, some ba.SentSat)
          | .ChainEthereumType => (none, none)
        .ok { Paging := pg, AddrStr := address, BalanceSat := some ba.BalanceSat,
              TotalReceivedSat := totals.1, TotalSentSat := totals.2,
              TxApperances := (ba.Txs : Int), UnconfirmedBalanceSat := some uBalSat,
              UnconfirmedTxApperances := (txm.length : Int), Transactions := txs,
              Txids := txids, Erc20Contract := erc20c, Erc20Tokens := erc20t, Nonce := nonce }

/-- The output postings of a descriptor in the order in which the iteration of the
Addresses column over all heights yields them (oldest first). -/
def outputPostings (d : db.RocksDB) (addrDesc : AddressDescriptor) : List bchain.Outpoint :=
  ((((d.Addresses addrDesc).filter (fun row => decide (0 ≤ row.1 ∧ row.1 ≤ 2 ^ 32 - 1))).flatMap
      (fun row => row.2)).filter (fun o => decide (0 ≤ o.index))).map
    (fun o => { Txid := o.btxID, Vout := o.index })

/-- The outpoint that a utxo entry names. -/
def AddressUtxo.outpoint (u : AddressUtxo) : bchain.Outpoint := { Txid := u.Txid, Vout := u.Vout }

/-- A utxo entry that stands for an unspent output slot of the TxAddresses column: the row
of its transaction exists and has a slot at its vout index, the slot is not spent, and the
entry carries the slot's amount and the row's height. -/
def AddressUtxo.isUnspentSlot (d : db.RocksDB) (u : AddressUtxo) : Prop :=
  ∃ row output, d.GetTxAddresses u.Txid = .ok (some row) ∧ 0 ≤ u.Vout ∧
    row.Outputs.get? u.Vout.toNat = some output ∧ output.Spent = false ∧
    u.AmountSat = some output.ValueSat ∧ u.Height = (row.Height : Int)

/-- What the index walk of `GetAddressUtxo` keeps between two passes: the cached row `ta` is
the row of `lastTxid` (before the first lookup both are empty). -/
def walkInv (w : Worker) (st : UtxoWalk) : Prop :=
  (st.lastTxid = "" ∧ st.ta = none) ∨ w.db.GetTxAddresses st.lastTxid = .ok st.ta

/-- Whether the key `txid + strconv.Itoa(vout)` of a utxo entry is absent from the key set
`spentInMempool`. -/
def AddressUtxo.keyFree (spentInMempool : List String) (u : AddressUtxo) : Bool :=
  decide (u.Txid ++ Itoa u.Vout ∉ spentInMempool)

/-- The transactions of the list `txm` of mempool txids that the transaction cache delivers,
in the order of `txm`. -/
def fetchedMempoolTxs (w : Worker) (txm : List String) : List bchain.Tx :=
  txm.filterMap (fun txid =>
    match w.txCache.GetTransaction txid with
    | .ok (bchainTx, _) => some bchainTx
    | .error _ => none)

/-- Whether some vin of the transactions `txs` references the outpoint `(txid, vout)`. -/
def spentBy (txs : List bchain.Tx) (txid : String) (vout : Int) : Bool :=
  txs.any (fun m => m.Vin.any (fun vin => decide (vin.Txid = txid ∧ (vin.Vout : Int) = vout)))

/-- The outputs of the transaction `m`, from output number `i` on, that the parser credits to
the descriptor, as utxo entries. -/
def creditedOutputsFrom (w : Worker) (addrDesc : AddressDescriptor) (m : bchain.Tx) :
    List bchain.Vout → Nat → List AddressUtxo
  | [], _ => []
  | vout :: rest, i =>
    if w.chainParser.GetAddrDescFromVout vout = .ok addrDesc then
      { Txid := m.Txid, Vout := (i : Int), AmountSat := some vout.ValueSat } ::
        creditedOutputsFrom w addrDesc m rest (i + 1)
    else creditedOutputsFrom w addrDesc m rest (i + 1)

/-- The outputs of the transactions `txs` that the parser credits to the descriptor. -/
def creditedOutputs (w : Worker) (addrDesc : AddressDescriptor) (txs : List bchain.Tx) :
    List AddressUtxo :=
  txs.flatMap (fun m => creditedOutputsFrom w addrDesc m m.Vout 0)

/-- The number that a list of decimal digit characters denotes, continuing from `a`. -/
def decimalValue (a : Nat) (ds : List Char) : Nat :=
  ds.foldl (fun acc c => acc * 10 + (c.toNat - 48)) a

/-- The slice `txc[from:from+k)` of a list. -/
def pageSlice (txc : List String) (from_ : Int) (k : Nat) : List String :=
  (txc.drop from_.toNat).take k

/-- The transactions of the list `txm` of mempool txids that `GetTransaction` delivers, in the
order of `txm`. -/
def fetchedTxs (w : Worker) (txm : List String) : List Tx :=
  txm.filterMap (fun txid =>
    match w.GetTransaction txid false false with
    | .ok tx => some tx
    | .error _ => none)

/-- The entry of `Transactions` that the loop over the confirmed txids of `GetAddress` makes
for a txid, for an option above `TxidHistory`; none where the loop passes over the txid (with
option `TxHistoryLight` on a UTXO chain: the TxAddresses row or the block info is missing). -/
def confirmedEntry (w : Worker) (option : GetAddressOption) (bestheight : Nat)
    (txid : String) : Option Tx :=
  if option = GetAddressOption.TxHistoryLight ∧
      w.chainType = bchain.ChainType.ChainBitcoinType then
    match w.db.GetTxAddresses txid with
    | .ok (some ta) =>
      match w.db.GetBlockInfo ta.Height with
      | .ok (some bi) => some (w.txFromTxAddress txid ta bi bestheight)
      | _ => none
    | _ => none
  else
    match w.GetTransaction txid false true with
    | .ok tx => some tx
    | .error _ => none

/-- The filter with which `GetAddress` reads the history: on an account chain the one that
`getEthereumTypeAddressBalances` leaves. -/
def historyFilter (w : Worker) (addrDesc : AddressDescriptor) (option : GetAddressOption)
    (filter : AddressFilter) : AddressFilter :=
  match w.chainType with
  | .ChainBitcoinType => filter
  | .ChainEthereumType =>
    match w.getEthereumTypeAddressBalances addrDesc option filter with
    | .ok (_, _, _, _, filter1) => filter1
    | .error _ => filter

/-- Whether `GetAddress` finds a balance record of the address. -/
def hasBalanceRecord (w : Worker) (addrDesc : AddressDescriptor) (option : GetAddressOption)
    (filter : AddressFilter) : Bool :=
  match w.chainType with
  | .ChainBitcoinType =>
    match w.db.GetAddrDescBalance addrDesc with
    | .ok (some _) => true
    | _ => false
  | .ChainEthereumType =>
    match w.getEthereumTypeAddressBalances addrDesc option filter with
    | .ok (some _, _, _, _, _) => true
    | _ => false

/-- What a result `r` of `GetAddress` holds for an option from `TxidHistory` on: with `txm`
and `txc` the deduplicated newest-first mempool and confirmed txids that `getAddressTxids`
yields for the address under the filter with which the history is read and
`(from, to, page1)` from `computePaging`, the entries are the fetched mempool transactions
(only if `page1 = 0`, the first page) followed by the entries of the confirmed txids
`txc[from:to)`: the txids themselves for `TxidHistory`, else their transactions, where
`confirmedEntry` passes over a txid only for `TxHistoryLight` on a UTXO chain. -/
def PageEntries (w : Worker) (address : String) (page txsOnPage : Int)
    (option : GetAddressOption) (filter : AddressFilter) (r : Address) : Prop :=
  ∃ (txmRaw txcRaw : List String) (bestheight : Nat) (bh : String) (from_ to_ page1 : Int),
    w.getAddressTxids (w.chainParser.GetAddrDescFromAddress address).1 true
      (historyFilter w (w.chainParser.GetAddrDescFromAddress address).1 option filter) =
        .ok txmRaw ∧
    w.getAddressTxids (w.chainParser.GetAddrDescFromAddress address).1 false
      (historyFilter w (w.chainParser.GetAddrDescFromAddress address).1 option filter) =
        .ok txcRaw ∧
    w.db.GetBestBlock = .ok (bestheight, bh) ∧
    computePaging ((UniqueTxidsInReverse txcRaw).length : Int)
      (if hasBalanceRecord w (w.chainParser.GetAddrDescFromAddress address).1 option filter
       then (if goInt (page - 1) < 0 then 0 else goInt (page - 1)) else 0)
      txsOnPage = .ok (r.Paging, from_, to_, page1) ∧
    (pageSlice (UniqueTxidsInReverse txcRaw) from_ (to_ - from_).toNat).length =
      (to_ - from_).toNat ∧
    (option = GetAddressOption.TxidHistory →
      r.Txids =
        ((if page1 = 0 then fetchedTxs w (UniqueTxidsInReverse txmRaw) else []).map
          (fun tx => tx.Txid)) ++
        pageSlice (UniqueTxidsInReverse txcRaw) from_ (to_ - from_).toNat ∧
      r.Transactions = []) ∧
    (option ≠ GetAddressOption.TxidHistory →
      r.Transactions =
        ((if page1 = 0 then fetchedTxs w (UniqueTxidsInReverse txmRaw) else []).map some) ++
        ((pageSlice (UniqueTxidsInReverse txcRaw) from_ (to_ - from_).toNat).filterMap
          (confirmedEntry w option bestheight)).map some ∧
      r.Txids = [] ∧
      (¬ (option = GetAddressOption.TxHistoryLight ∧
          w.chainType = bchain.ChainType.ChainBitcoinType) →
        ∀ txid ∈ pageSlice (UniqueTxidsInReverse txcRaw) from_ (to_ - from_).toNat,
          ∃ tx, w.GetTransaction txid false true = .ok tx))

/-- The worker `w` over a store whose Addresses column is replaced by `a`. -/
def Worker.withAddresses (w : Worker) (a : AddressDescriptor → List (Nat × List db.outpoint)) :
    Worker :=
  { w with db := { w.db with Addresses := a } }

/-- The list with every later repeat of an already seen element removed: each element stays
at the position of its first occurrence. -/
def firstOccurrences : List String → List String
  | [] => []
  | x :: xs => x :: (firstOccurrences xs).filter (fun y => y ≠ x)

/-- The elements that the loop of `UniqueTxidsInReverse` stores, in the order it meets them,
when the map already holds `seen`. -/
def newTxids : List String → List String → List String
  | _, [] => []
  | seen, x :: xs => if x ∈ seen then newTxids seen xs else x :: newTxids (x :: seen) xs

/-- The postings that the vout side of a history filter lets through, in the words of the
interface: all when the filter is off, the inputs or the outputs for those two sides, and for
a specific index the postings of that index. -/
def AddressFilter.keeps (filter : AddressFilter) (index : Int) (isOutput : Bool) : Bool :=
  decide (filter.Vout = AddressFilterVoutOff ∨
    (filter.Vout = AddressFilterVoutInputs ∧ isOutput = false) ∨
    (filter.Vout = AddressFilterVoutOutputs ∧ isOutput = true) ∨
    filter.Vout = index)

/-- The stored postings of a descriptor that `getAddressTxids` visits for a filter: the rows
of the height range of the filter (`ToHeight = 0` is no upper bound), in key order. -/
def visitedPostings (w : Worker) (addrDesc : AddressDescriptor) (filter : AddressFilter) :
    List db.outpoint :=
  ((w.db.Addresses addrDesc).filter (fun row =>
      decide (filter.FromHeight ≤ row.1 ∧
        row.1 ≤ (if filter.ToHeight = 0 then 2 ^ 32 - 1 else filter.ToHeight)))).flatMap
    (fun row => row.2)

/-- The worker `w` with other sources of the history: the mempool postings of the backend,
the Addresses column, the transaction cache and the TxAddresses, block info and best block
reads of the store. -/
def Worker.withHistorySources (w : Worker)
    (mp : AddressDescriptor → Except GoError (List bchain.Outpoint))
    (a : AddressDescriptor → List (Nat × List db.outpoint)) (tc : db.TxCache)
    (ta : String → Except GoError (Option db.TxAddresses))
    (bi : Nat → Except GoError (Option db.BlockInfo)) (best : Except GoError (Nat × String)) :
    Worker :=
  { w with
    chain := { w.chain with GetMempoolTransactionsForAddrDesc := mp }
    db := { w.db with Addresses := a, GetTxAddresses := ta, GetBlockInfo := bi,
                      GetBestBlock := best }
    txCache := tc }

/-- The API output that `GetTransactionFromBchainTx` builds from output number `i` of the
transaction when it has no TxAddresses row of the transaction: value, script and the
addresses of the parser, not spent. -/
def Worker.unspentVout (w : Worker) (i : Nat) (bchainVout : bchain.Vout) : Vout :=
  { N := (i : Int), ValueSat := some bchainVout.ValueSat, Hex := bchainVout.ScriptPubKeyHex,
    AddrDesc := (w.getAddressesFromVout bchainVout).1,
    Addresses := (w.getAddressesFromVout bchainVout).2.1,
    Searchable := (w.getAddressesFromVout bchainVout).2.2.1 }

/-- How an input `vin` of the API transaction is resolved from the input `bchainVin` of a
UTXO-chain transaction: a coinbase input (empty txid) has no amount; another input has the
descriptor and amount of the output slot `bchainVin.Vout` of the TxAddresses row of the
referenced transaction, and, when that row is absent, those of output `bchainVin.Vout` of the
referenced transaction as the transaction cache delivers it. -/
def VinResolved (w : Worker) (bchainVin : bchain.Vin) (vin : Vin) : Prop :=
  vin.Txid = bchainVin.Txid ∧ vin.Vout = bchainVin.Vout ∧
  (bchainVin.Txid = "" → vin.ValueSat = none) ∧
  (bchainVin.Txid ≠ "" →
    (∀ tas : db.TxAddresses, w.db.GetTxAddresses bchainVin.Txid = .ok (some tas) →
      ∃ output, tas.Outputs.get? bchainVin.Vout = some output ∧
        vin.AddrDesc = output.AddrDesc ∧ vin.ValueSat = some output.ValueSat) ∧
    (w.db.GetTxAddresses bchainVin.Txid = .ok none →
      ∃ (otx : bchain.Tx) (oheight : Nat) (vout : bchain.Vout),
        w.txCache.GetTransaction bchainVin.Txid = .ok (otx, oheight) ∧
        otx.Vout.get? bchainVin.Vout = some vout ∧
        vin.AddrDesc = (w.getAddressesFromVout vout).1 ∧
        vin.ValueSat = some vout.ValueSat))

/-- The sum of the amounts of the inputs that are not coinbase inputs. -/
def resolvedValueIn (vins : List Vin) : Int :=
  ((vins.filter (fun vin => vin.Txid ≠ "")).map (fun vin => vin.ValueSat.getD 0)).sum

/-- The descriptor of the contract filter as `getEthereumTypeAddressBalances` computes it:
empty when no contract filter is given. -/
def contractFilterDesc (w : Worker) (filter : AddressFilter) : AddressDescriptor :=
  if filter.Contract ≠ "" then (w.chainParser.GetAddrDescFromAddress filter.Contract).1 else []

/-- Whether a contract of an AddrContracts row passes the contract filter: every contract
when no filter is given, else the contract of the filter. -/
def passesContractFilter (filterDesc : AddressDescriptor) (c : db.AddrContract) : Bool :=
  decide (filterDesc.length = 0 ∨ filterDesc = c.Contract)

/-- The sum of the amounts of a list of utxo entries (an entry without amount counts 0). -/
def amountSum (r : List AddressUtxo) : Int :=
  (r.map (fun u => u.AmountSat.getD 0)).sum

/-- Go slice expression `xs[:i]` of a slice whose capacity is its length, with its bounds
check. -/
def goSliceTo {α : Type} (xs : List α) (i : Int) : Res (List α) :=
  if i < 0 ∨ i > (xs.length : Int) then .error (.panic "slice bounds out of range")
  else .ok (xs.take i.toNat)

/-- Result of `GetBlocks`, `api.Blocks`: the paging and the block infos. -/
structure Blocks where
  Paging : Paging
  Blocks : List db.BlockInfo := []
  deriving DecidableEq, Repr

/-- The loop `for i := from; i < to; i++` of `GetBlocks` with `n` passes left, at
`i = from + k`: the slice `r.Blocks` as the loop leaves it. The height is converted with
`uint32(bestheight - i)`. -/
def Worker.GetBlocks.loop (w : Worker) (bestheight from_ : Int) :
    Nat → Nat → List db.BlockInfo → Res (List db.BlockInfo)
  | 0, _, blocks => .ok blocks
  | n + 1, k, blocks =>
    match w.db.GetBlockInfo ((bestheight - (from_ + (k : Int))) % 2 ^ 32).toNat with
    | .error err => .error (.error err)
    | .ok none => goSliceTo blocks (from_ + (k : Int))
    | .ok (some bi) =>
      match goSet blocks k bi with
      | .error f => .error f
      | .ok blocks1 => Worker.GetBlocks.loop w bestheight from_ n (k + 1) blocks1

/-- The method `GetBlocks`. -/
def Worker.GetBlocks (w : Worker) (page blocksOnPage : Int) : Res Blocks :=
  let page := goInt (page - 1)
  let page := if page < 0 then 0 else page
  match w.db.GetBestBlock with
  | .error err => .error (.error (.annotated "GetBestBlock" err))
  | .ok (b, _) =>
    let bestheight : Int := (b : Int)
    match computePaging (bestheight + 1) page blocksOnPage with
    | .error f => .error f
    | .ok (pg, from_, to_, _) =>
      match goMake ({} : db.BlockInfo) (to_ - from_) with
      | .error f => .error f
      | .ok blocks =>
        match Worker.GetBlocks.loop w bestheight from_ (to_ - from_).toNat 0 blocks with
        | .error f => .error f
        | .ok blocks1 => .ok { Paging := pg, Blocks := blocks1 }

/-- The change that a transaction makes to the balance of a descriptor, in the words of the
interface: the amounts of its vouts whose descriptor is `addrDesc` minus the amounts of its
vins whose descriptor is `addrDesc` (a vout or vin without amount counts 0). -/
def Tx.addrDelta (t : Tx) (addrDesc : AddressDescriptor) : Int :=
  ((t.Vout.filter (fun v => decide (v.AddrDesc = addrDesc))).map
      (fun v => v.ValueSat.getD 0)).sum -
    ((t.Vin.filter (fun v => decide (v.AddrDesc = addrDesc))).map
      (fun v => v.ValueSat.getD 0)).sum

end api

/-! ## The index of an account chain: block connect and disconnect -/

namespace db

/-- Modelled from the spec: the store wrapper (package db) is not among the sources.  A
column is the list of its rows (key, value); `columnGet` is the point read of a key. -/
def columnGet {κ ν : Type} [DecidableEq κ] : List (κ × ν) → κ → Option ν
  | [], _ => none
  | r :: rest, k => if r.1 = k then some r.2 else columnGet rest k

/-- Modelled from the spec: the write of a row, which replaces the row of the key. -/
def columnPut {κ ν : Type} [DecidableEq κ] : List (κ × ν) → κ → ν → List (κ × ν)
  | [], k, v => [(k, v)]
  | r :: rest, k, v => if r.1 = k then (k, v) :: rest else r :: columnPut rest k v

/-- Modelled from the spec: the delete of the row of a key. -/
def columnDelete {κ ν : Type} [DecidableEq κ] (c : List (κ × ν)) (k : κ) : List (κ × ν) :=
  c.filter (fun r => decide (r.1 ≠ k))

/-- Modelled from the spec: a token transfer of an account-chain transaction as the chain
model gives it to the indexer, "{from, to, value, contract?}" with the contract present. -/
structure EthTransfer where
  Contract : AddressDescriptor
  From : AddressDescriptor
  To : AddressDescriptor
  deriving DecidableEq, Repr

/-- Modelled from the spec: an account-chain transaction as the indexer reads it: the native
transfer from `From` to `To` and the token transfers in their order. -/
structure EthTx where
  Txid : String
  From : AddressDescriptor
  To : AddressDescriptor
  Transfers : List EthTransfer := []
  deriving DecidableEq, Repr

/-- Modelled from the spec: a parsed block of an account chain, the input of the indexer. -/
structure EthBlock where
  Height : Nat
  Hash : String
  Time : Int
  Size : Nat
  Txs : List EthTx
  deriving DecidableEq, Repr

/-- Modelled from the spec: one (address, contract) entry of a row of the undo log of an
account chain ("the indexed transfers"). -/
structure ethBlockTxContract where
  addr : AddressDescriptor
  contract : AddressDescriptor
  deriving DecidableEq, Repr

/-- Modelled from the spec: the entry of one transaction in a row of BlockTxs on an account
chain, "(txid, from, to, and the indexed transfers)". -/
structure ethBlockTx where
  btxID : String
  from_ : AddressDescriptor
  to_ : AddressDescriptor
  contracts : List ethBlockTxContract := []
  deriving DecidableEq, Repr

/-- Modelled from the spec: the columns of the index of an account chain that block connect
and disconnect write (§4.4); a row of `Transactions` is the txid with the height of the cached
transaction, the packed transaction itself is left out. -/
structure Columns where
  Height : List (Nat × BlockInfo) := []
  Addresses : List ((AddressDescriptor × Nat) × List outpoint) := []
  AddrContracts : List (AddressDescriptor × AddrContracts) := []
  BlockTxs : List (Nat × List ethBlockTx) := []
  Transactions : List (String × Nat) := []
  deriving DecidableEq, Repr

/-- Modelled from the spec: the per-contract counter of `contract` in the list of a row is
incremented, a contract not yet in the list is appended; returns the position of the
contract in the list. -/
def addContractTx : List AddrContract → AddressDescriptor → List AddrContract × Nat
  | [], c => ([{ Contract := c, Txs := 1 }], 0)
  | x :: rest, c =>
    if x.Contract = c then ({ x with Txs := x.Txs + 1 } :: rest, 0)
    else ((x :: (addContractTx rest c).1), (addContractTx rest c).2 + 1)

/-- Modelled from the spec: the update of an AddrContracts row for one more transaction of
the address, "incrementing the base counter on native transfers, and the per-contract counter
on token transfers"; returns the index of the postings of the transfer, 0 for a native
transfer and the 1-based position of the contract in the row for a token transfer. -/
def AddrContracts.addTx (ac : AddrContracts) : Option AddressDescriptor → AddrContracts × Nat
  | none => ({ ac with EthTxs := ac.EthTxs + 1 }, 0)
  | some c => ({ ac with Contracts := (addContractTx ac.Contracts c).1 },
               (addContractTx ac.Contracts c).2 + 1)

/-- Modelled from the spec: what block connect accumulates before it writes its batch: the
AddrContracts column with the rows updated so far and the postings of the block per
address. -/
structure connectAcc where
  contracts : List (AddressDescriptor × AddrContracts)
  addresses : List (AddressDescriptor × List outpoint)
  deriving DecidableEq, Repr

/-- Modelled from the spec: the address `a` takes part in a transfer of the transaction
`txid`: its row counts the transaction once, and a posting is appended for every side on
which the address takes part, the input side as the complement of the index. -/
def connectTouch (acc : connectAcc) (txid : String) (a : AddressDescriptor)
    (contract : Option AddressDescriptor) (sides : List Bool) : connectAcc :=
  let r := ((columnGet acc.contracts a).getD {}).addTx contract
  let postings : List outpoint := sides.map (fun isInput =>
    { btxID := txid, index := if isInput then -(r.2 : Int) - 1 else (r.2 : Int) })
  { contracts := columnPut acc.contracts a r.1
    addresses := columnPut acc.addresses a ((columnGet acc.addresses a).getD [] ++ postings) }

/-- Modelled from the spec: one transfer, "postings to Addresses for from (input side) and to
(output side)" and the update of AddrContracts "for both addresses". -/
def connectTransfer (acc : connectAcc) (txid : String) (from_ to_ : AddressDescriptor)
    (contract : Option AddressDescriptor) : connectAcc :=
  if from_ = to_ then connectTouch acc txid from_ contract [true, false]
  else connectTouch (connectTouch acc txid from_ contract [true]) txid to_ contract [false]

/-- Modelled from the spec: the per-transaction pass of block connect on an account chain:
the native transfer, then the token transfers in their order. -/
def connectTx (acc : connectAcc) (tx : EthTx) : connectAcc :=
  tx.Transfers.foldl (fun acc t => connectTransfer acc tx.Txid t.From t.To (some t.Contract))
    (connectTransfer acc tx.Txid tx.From tx.To none)

/-- Modelled from the spec: the entry of a transaction in the undo log. -/
def blockTxOf (tx : EthTx) : ethBlockTx :=
  { btxID := tx.Txid, from_ := tx.From, to_ := tx.To
    contracts := tx.Transfers.flatMap (fun t =>
      if t.From = t.To then [{ addr := t.From, contract := t.Contract }]
      else [{ addr := t.From, contract := t.Contract }, { addr := t.To, contract := t.Contract }]) }

/-- Modelled from the spec: `RocksDB.ConnectBlock` (package db) is not among the sources.
Block connect on an account chain (§4.5, steps 3 and 4): one batch with `Height[B.H]`, the
accumulated Addresses rows merged per (A, H), the updated AddrContracts rows and
`BlockTxs[B.H]`; the undo log keeps the rows of the last `keep` blocks (the retained history
window), older rows are deleted with the batch. -/
def ConnectBlock (keep : Nat) (s : Columns) (block : EthBlock) : Columns :=
  let acc := block.Txs.foldl connectTx { contracts := s.AddrContracts, addresses := [] }
  { Height := columnPut s.Height block.Height
      { Hash := block.Hash, Time := block.Time, Txs := block.Txs.length, Size := block.Size,
        Height := block.Height }
    Addresses := acc.addresses.foldl (fun c row => columnPut c (row.1, block.Height) row.2)
      s.Addresses
    AddrContracts := acc.contracts
    BlockTxs := (columnPut s.BlockTxs block.Height (block.Txs.map blockTxOf)).filter
      (fun r => decide (block.Height < r.1 + keep))
    Transactions := s.Transactions }

/-- Modelled from the spec: the inverse of `addContractTx`: the counter of the contract is
decremented, and a contract whose counter drops to zero leaves the list. -/
def removeContractTx : List AddrContract → AddressDescriptor → List AddrContract
  | [], _ => []
  | x :: rest, c =>
    if x.Contract = c then
      (if x.Txs = 0 then x :: rest
       else if x.Txs = 1 then rest
       else { x with Txs := x.Txs - 1 } :: rest)
    else x :: removeContractTx rest c

/-- Modelled from the spec: "the inverse transfer deltas" on an AddrContracts row. -/
def AddrContracts.removeTx (ac : AddrContracts) : Option AddressDescriptor → AddrContracts
  | none => { ac with EthTxs := ac.EthTxs - 1 }
  | some c => { ac with Contracts := removeContractTx ac.Contracts c }

/-- Modelled from the spec: the (address, contract) pairs whose counters the entry of a
transaction in the undo log takes back: the native transfer for `from` and `to`, then the
indexed transfers. -/
def ethBlockTx.touched (btx : ethBlockTx) : List (AddressDescriptor × Option AddressDescriptor) :=
  ((btx.from_, none) :: (if btx.from_ = btx.to_ then [] else [(btx.to_, none)])) ++
    btx.contracts.map (fun c => (c.addr, some c.contract))

/-- Modelled from the spec: the inverse delta of one pair on the AddrContracts column; a
missing row is passed over. -/
def disconnectAddress (contracts : List (AddressDescriptor × AddrContracts))
    (t : AddressDescriptor × Option AddressDescriptor) :
    List (AddressDescriptor × AddrContracts) :=
  match columnGet contracts t.1 with
  | none => contracts
  | some row => columnPut contracts t.1 (row.removeTx t.2)

/-- Modelled from the spec: a row whose counters all dropped to zero is deleted when the
batch is written (the snapshot after a disconnect in `rocksdb_ethereumtype_test.go` holds no
such row). -/
def dropEmptyRow (contracts : List (AddressDescriptor × AddrContracts))
    (t : AddressDescriptor × Option AddressDescriptor) :
    List (AddressDescriptor × AddrContracts) :=
  match columnGet contracts t.1 with
  | none => contracts
  | some row =>
    if row.EthTxs = 0 ∧ row.Contracts = [] then columnDelete contracts t.1 else contracts

/-- Modelled from the spec: the disconnect of one height of an account chain (§4.6): the
inverse transfer deltas on AddrContracts, the delete of the Addresses rows (A, H) of the
addresses of the undo log, of `Height[H]` and `BlockTxs[H]`, and of the cached Transactions
rows of height H. -/
def disconnectBlockTxsEthereumType (s : Columns) (height : Nat) (blockTxs : List ethBlockTx) :
    Columns :=
  let touched := blockTxs.flatMap ethBlockTx.touched
  { Height := columnDelete s.Height height
    Addresses := touched.foldl (fun c t => columnDelete c (t.1, height)) s.Addresses
    AddrContracts := touched.foldl dropEmptyRow (touched.foldl disconnectAddress s.AddrContracts)
    BlockTxs := columnDelete s.BlockTxs height
    Transactions := s.Transactions.filter (fun r => decide (r.2 ≠ height)) }

/-- Modelled from the spec: `RocksDB.DisconnectBlockRangeEthereumType` (package db) is not
among the sources.  The heights `lower .. higher` are disconnected newest first; when the
undo log holds no row of one of them nothing is written and the error of
`rocksdb_ethereumtype_test.go` for that height is returned ("an error whose message
indicates reindexing is required").  Returns the columns after the call and the error. -/
def DisconnectBlockRangeEthereumType (s : Columns) (lower higher : Nat) :
    Columns × Option GoError :=
  let heights := List.range' lower (higher + 1 - lower)
  match heights.find? (fun h => (columnGet s.BlockTxs h).isNone) with
  | some h =>
    (s, some (.other ("Cannot disconnect blocks with height " ++ Nat.repr h ++
      " and lower. It is necessary to rebuild index.")))
  | none =>
    (heights.reverse.foldl (fun s h =>
      disconnectBlockTxsEthereumType s h ((columnGet s.BlockTxs h).getD [])) s, none)

/-- Whether two columns hold the same rows, in whatever order. -/
def sameRows {ρ : Type} [DecidableEq ρ] (c1 c2 : List ρ) : Bool :=
  c1.all (fun r => decide (r ∈ c2)) && c2.all (fun r => decide (r ∈ c1))

/-- The AddrContracts row `r0` after the transactions `D` of the address were counted, each
a native transfer (none) or a token transfer of a contract, where `L` lists the contracts
that are not in `r0` in the order in which they were appended. -/
def rowAfter (r0 : AddrContracts) (L : List AddressDescriptor)
    (D : List (Option AddressDescriptor)) : AddrContracts :=
  { EthTxs := r0.EthTxs + D.count none
    Contracts :=
      r0.Contracts.map (fun x => { x with Txs := x.Txs + D.count (some x.Contract) }) ++
      (L.filter (fun c => decide (0 < D.count (some c)))).map
        (fun c => { Contract := c, Txs := D.count (some c) }) }

/-- A consistent AddrContracts row: every contract of the row has a positive counter, no
contract is listed twice, and not all counters are zero. -/
def AddrContracts.Consistent (ac : AddrContracts) : Prop :=
  (∀ c ∈ ac.Contracts, 1 ≤ c.Txs) ∧ (ac.Contracts.map (fun c => c.Contract)).Nodup ∧
  ¬ (ac.EthTxs = 0 ∧ ac.Contracts = [])

/-- The update of the AddrContracts column for one more transaction of the address `t.1`,
native or of the contract `t.2`, as `connectTouch` makes it. -/
def countTouch (contracts : List (AddressDescriptor × AddrContracts))
    (t : AddressDescriptor × Option AddressDescriptor) :
    List (AddressDescriptor × AddrContracts) :=
  columnPut contracts t.1 (((columnGet contracts t.1).getD {}).addTx t.2).1

/-- The transactions of the address `a` among the pairs `T`, in their order. -/
def touchesOf (T : List (AddressDescriptor × Option AddressDescriptor)) (a : AddressDescriptor) :
    List (Option AddressDescriptor) :=
  (T.filter (fun t => decide (t.1 = a))).map (fun t => t.2)

/-- A row is passed on unless all its counters are zero. -/
def keepCounted (r : AddrContracts) : Option AddrContracts :=
  if r.EthTxs = 0 ∧ r.Contracts = [] then none else some r

instance (ac : AddrContracts) : Decidable ac.Consistent := by
  unfold AddrContracts.Consistent
  exact inferInstance

/-- The (address, contract) pairs that the transactions of a block touch, in the order of
block connect; the undo log lists the same pairs. -/
def EthBlock.touched (block : EthBlock) : List (AddressDescriptor × Option AddressDescriptor) :=
  block.Txs.flatMap (fun tx => (blockTxOf tx).touched)

/-! ## The varints of an Addresses posting -/

/-- Modelled from the spec: `packVaruint` (package db) is not among the sources. The bytes
of the unsigned varint of `n` as "unsigned LEB128" (§3): seven bits per byte, the low group
first, the high bit set on every byte but the last; `fuel` bounds the number of bytes that
follow the first. -/
def packVaruint.go : Nat → Nat → List Nat
  | 0, n => [n % 128]
  | fuel + 1, n =>
    if n < 128 then [n] else (n % 128 + 128) :: packVaruint.go fuel (n / 128)

/-- Modelled from the spec: see `packVaruint.go`; ten bytes hold a 64-bit number. -/
def packVaruint (n : Nat) : List Nat := packVaruint.go 9 n

/-- Modelled from the spec: `packVarint32` (package db) is not among the sources. The bytes
of the signed varint of a posting, "zig-zag encoding" (§3): the number is doubled in 64 bits
and, when it is negative, complemented (`ux := uint64(v) << 1; if v < 0 { ux = ^ux }`); this
is the zig-zag value that the rows of `rocksdb_ethereumtype_test.go` hold. -/
def packVarint32 (v : Int) : List Nat :=
  let ux : Int := (v * 2) % 2 ^ 64
  packVaruint (if v < 0 then 2 ^ 64 - 1 - ux else ux).toNat

/-- The signed varint in the words of the specification: the unsigned varint of `v*2` for
`v >= 0` and of `|v|*2+1` for `v < 0`. -/
def specSignedVarint (v : Int) : List Nat :=
  packVaruint (if v ≥ 0 then (v * 2).toNat else v.natAbs * 2 + 1)

/-- Modelled from the spec: the value of a posting of the Addresses column (§4.4): the
output with the index `N` is the value `+N`, the input with the index `K` the value
`-(K+1)`. -/
def postingValue (index : Nat) (isOutput : Bool) : Int :=
  if isOutput then (index : Int) else -((index : Int) + 1)

/-- The rows of an Addresses column as stored: each posting is the txid followed by the
bytes of the signed varint of its value. -/
def packAddresses (rows : List ((AddressDescriptor × Nat) × List outpoint)) :
    List ((AddressDescriptor × Nat) × List (String × List Nat)) :=
  rows.map (fun row => (row.1, row.2.map (fun o => (o.btxID, packVarint32 o.index))))

end db

/-! ## Concrete index states -/

namespace scenario

open api

/-- A parser for the concrete index states below: the descriptor of a script or of an address
is the list of the character codes of its text. -/
def parser : bchain.BlockChainParser :=
  { GetChainType := .ChainBitcoinType
    GetAddrDescFromVout := fun vout => .ok (vout.ScriptPubKeyHex.toList.map Char.toNat)
    GetAddrDescFromAddress := fun a => (a.toList.map Char.toNat, none)
    GetAddressesFromAddrDesc := fun _ => ([], false, none)
    EthereumTypeGetErc20FromTx := fun _ => ([], none) }

/-- A backend with the given mempool postings per address descriptor. -/
def backend (mempool : AddressDescriptor → List bchain.Outpoint) : bchain.BlockChain :=
  { GetChainParser := parser
    GetMempoolTransactionsForAddrDesc := fun d => .ok (mempool d)
    GetTransactionSpecific := fun _ => .ok ""
    EthereumTypeGetBalance := fun _ => .ok none
    EthereumTypeGetNonce := fun _ => .ok 0
    EthereumTypeGetErc20ContractInfo := fun _ => (none, none)
    EthereumTypeGetErc20ContractBalance := fun _ _ => (none, none) }

/-- Lookup in a finite table, as a point read of a column. -/
def lookup {α : Type} (rows : List (String × α)) (key : String) : Option α :=
  (rows.find? (fun row => row.1 == key)).map (fun row => row.2)

/-- A transaction cache over a finite table of (transaction, height). -/
def cache (txs : List (String × bchain.Tx × Nat)) : db.TxCache :=
  { GetTransaction := fun txid =>
      match lookup txs txid with
      | some r => .ok r
      | none => .error (.other "not found") }

/-- A store over finite tables; block `h` has hash `"block"` followed by `h`. -/
def store (txAddresses : List (String × db.TxAddresses))
    (balances : List (String × db.AddrBalance)) (addresses : List (String × List (Nat × List db.outpoint)))
    (best : Nat) : db.RocksDB :=
  { GetTxAddresses := fun txid => .ok (lookup txAddresses txid)
    GetAddrDescBalance := fun d => .ok (lookup balances (String.mk (d.map Char.ofNat)))
    GetAddrDescContracts := fun _ => .ok none
    GetBlockHash := fun h => .ok ("block" ++ Nat.repr h)
    GetBlockInfo := fun h => .ok (some { Hash := "block" ++ Nat.repr h, Height := h })
    GetBestBlock := .ok (best, "block" ++ Nat.repr best)
    Addresses := fun d => (lookup addresses (String.mk (d.map Char.ofNat))).getD [] }

/-- Transaction `T` of block 1: two outputs of 50 each, both to the script `a`. -/
def txT : bchain.Tx :=
  { Txid := "T", Confirmations := 2,
    Vout := [{ ValueSat := 50, N := 0, ScriptPubKeyHex := "a" },
             { ValueSat := 50, N := 1, ScriptPubKeyHex := "a" }] }

/-- Transaction `S` of block 2: its only input spends output 1 of `T`; output 0 of `T` stays
unspent. -/
def txS : bchain.Tx :=
  { Txid := "S", Confirmations := 1,
    Vin := [{ Txid := "T", Vout := 1 }],
    Vout := [{ ValueSat := 49, N := 0, ScriptPubKeyHex := "b" }] }

/-- The index after the blocks 1 (`T`) and 2 (`S`): an input posting holds the complement of
the input's position in the spending transaction. -/
def twinStore : db.RocksDB :=
  store
    [("T", { Height := 1, Inputs := [],
             Outputs := [{ AddrDesc := [97], Spent := false, ValueSat := 50 },
                         { AddrDesc := [97], Spent := true, ValueSat := 50 }] }),
     ("S", { Height := 2, Inputs := [{ AddrDesc := [97], ValueSat := 50 }],
             Outputs := [{ AddrDesc := [98], Spent := false, ValueSat := 49 }] })]
    [("a", { Txs := 2, SentSat := 50, BalanceSat := 50 }),
     ("b", { Txs := 1, SentSat := 0, BalanceSat := 49 })]
    [("a", [(1, [{ btxID := "T", index := 0 }, { btxID := "T", index := 1 }]),
            (2, [{ btxID := "S", index := -1 }])]),
     ("b", [(2, [{ btxID := "S", index := 0 }])])]
    2

/-- The worker over `twinStore`, with an empty mempool. -/
def twinWorker : Worker :=
  NewWorker twinStore (backend (fun _ => [])) (cache [("T", txT, 1), ("S", txS, 2)])
    (fun _ => {})

/-- The transaction `T` as `GetTransaction("T", false, false)` returns it over `twinStore`. -/
def twinTxT : Tx :=
  { Txid := "T", Blockhash := "block1", Blockheight := 1, Confirmations := 2,
    ValueOutSat := some 100, ValueInSat := some 0, FeesSat := some 0,
    Vout := [{ N := 0, ValueSat := some 50, Hex := "a", AddrDesc := [97], Spent := false },
             { N := 1, ValueSat := some 50, Hex := "a", AddrDesc := [97], Spent := true }] }

/-- Mempool transaction `M`: its input spends output 0 of `T`, its output 0 pays 30 to the
script `a`. -/
def txM : bchain.Tx :=
  { Txid := "M", Confirmations := 0,
    Vin := [{ Txid := "T", Vout := 0 }],
    Vout := [{ ValueSat := 30, N := 0, ScriptPubKeyHex := "a" },
             { ValueSat := 19, N := 1, ScriptPubKeyHex := "b" }] }

/-- The worker over `twinStore` with `M` in the mempool: the mempool postings of `a` are the
input 0 of `M` (complement -1) and its output 0. -/
def mempoolWorker : Worker :=
  NewWorker twinStore
    (backend (fun d => if d = [97] then [{ Txid := "M", Vout := -1 }, { Txid := "M", Vout := 0 }]
                       else if d = [98] then [{ Txid := "M", Vout := 1 }] else []))
    (cache [("T", txT, 1), ("S", txS, 2), ("M", txM, 0)]) (fun _ => {})

/-- The index `twinStore` without the TxAddresses row of `S` (an inconsistent index). -/
def gapStore : db.RocksDB :=
  { twinStore with
    GetTxAddresses := fun txid => if txid = "S" then .ok none else twinStore.GetTxAddresses txid }

/-- The worker over `gapStore`, with an empty mempool. -/
def gapWorker : Worker :=
  NewWorker gapStore (backend (fun _ => [])) (cache [("T", txT, 1), ("S", txS, 2)])
    (fun _ => {})

/-- Transaction `B` of block 1: one output of 2^63 to the script `c`, never spent. -/
def txB : bchain.Tx :=
  { Txid := "B", Confirmations := 1,
    Vout := [{ ValueSat := 2 ^ 63, N := 0, ScriptPubKeyHex := "c" }] }

/-- The index after block 1 (`B`): the balance of `c` is the amount of its one unspent
output, which has its output posting. -/
def bigStore : db.RocksDB :=
  store
    [("B", { Height := 1, Inputs := [],
             Outputs := [{ AddrDesc := [99], Spent := false, ValueSat := 2 ^ 63 }] })]
    [("c", { Txs := 1, SentSat := 0, BalanceSat := 2 ^ 63 })]
    [("c", [(1, [{ btxID := "B", index := 0 }])])]
    1

/-- The worker over `bigStore`, with an empty mempool. -/
def bigWorker : Worker :=
  NewWorker bigStore (backend (fun _ => [])) (cache [("B", txB, 1)]) (fun _ => {})

/-! ### The two-block UTXO fixture of `tests/dbtestdata` -/

def TxidB1T1 : String := "00b2c06055e5e90e9c82bd4181fde310104391a7fa4f289b1704e5d90caa3840"
def TxidB1T2 : String := "effd9ef509383d536b1c8af5bf434c8efbf521a4f2befd4022bbd68694b4ac75"
def TxidB2T1 : String := "7c3be24063f268aaa1ed81b64776798f56088757641a34fb156c4f51ed2e9d25"
def TxidB2T2 : String := "3d90d15ed026dc45e19ffb52875ed18fa9e8012ad123d7f7212176e2b0ebdb71"
def TxidB2T3 : String := "05e2e48aeabdd9b75def7b48d756ba304713c2aba7b522bf9dbc893fc4231b07"
def TxidB2T4 : String := "fdd824a780cbb718eeb766eb05d83fdefc793a27082cd5e67f856d69798cf7db"

/-- The scripts of `Addr1` .. `AddrA` (the hex texts noted in `dbtestdata.go`). -/
def Addr1 : String := "76a914010d39800f86122416e28f485029acf77507169288ac"
def Addr2 : String := "76a9148bdf0aa3c567aa5975c2e61321b8bebbe7293df688ac"
def Addr3 : String := "76a914a08eae93007f22668ab5e4a9c83c8cd1c325e3e088ac"
def Addr4 : String := "a9144a21db08fb6882cb152e1ff06780a430740f770487"
def Addr5 : String := "a914e921fc4912a315078f370d959f2c4f7b6d2a683c87"
def Addr6 : String := "76a914ccaaaf374e1b06cb83118453d102587b4273d09588ac"
def Addr7 : String := "76a9148d802c045445df49613f6a70ddd2e48526f3701f88ac"
def Addr8 : String := "76a914b434eb0c1a3b7a02e8a29cc616e791ef1e0bf51f88ac"
def Addr9 : String := "76a9143f8ba3fda3ba7b69f5818086e12223c6dd25e3c888ac"
def AddrA : String := "76a914d03c0d863d189b23b061a95ad32940b65837609f88ac"

/-- The descriptor that `parser` gives to a script. -/
def descOf (script : String) : AddressDescriptor := script.toList.map Char.toNat

/-- The transactions of `GetTestBitcoinTypeBlock1`. -/
def block1 : List bchain.Tx :=
  [{ Txid := TxidB1T1, Vin := [],
     Vout := [{ N := 0, ScriptPubKeyHex := Addr1, ValueSat := 100000000 },
              { N := 1, ScriptPubKeyHex := Addr2, ValueSat := 12345 }],
     Blocktime := 22549300000, Time := 22549300000, Confirmations := 2 },
   { Txid := TxidB1T2,
     Vout := [{ N := 0, ScriptPubKeyHex := Addr3, ValueSat := 1234567890123 },
              { N := 1, ScriptPubKeyHex := Addr4, ValueSat := 1 },
              { N := 2, ScriptPubKeyHex := Addr5, ValueSat := 9876 }],
     Blocktime := 22549300001, Time := 22549300001, Confirmations := 2 }]

/-- The coinbase text of the mining transaction of block 2. -/
def coinbaseB2T4 : String :=
  "03bf1e1504aede765b726567696f6e312f50726f6a65637420425443506f6f6c2f01000001bf7e000000000000"

/-- The transactions of `GetTestBitcoinTypeBlock2`. -/
def block2 : List bchain.Tx :=
  [{ Txid := TxidB2T1,
     Vin := [{ Txid := TxidB1T2, Vout := 0 }, { Txid := TxidB1T1, Vout := 1 }],
     Vout := [{ N := 0, ScriptPubKeyHex := Addr6, ValueSat := 317283951061 },
              { N := 1, ScriptPubKeyHex := Addr7, ValueSat := 917283951061 }],
     Blocktime := 22549400000, Time := 22549400000, Confirmations := 1 },
   { Txid := TxidB2T2,
     Vin := [{ Txid := TxidB2T1, Vout := 0 }, { Txid := TxidB1T2, Vout := 1 }],
     Vout := [{ N := 0, ScriptPubKeyHex := Addr8, ValueSat := 118641975500 },
              { N := 1, ScriptPubKeyHex := Addr9, ValueSat := 198641975500 }],
     Blocktime := 22549400001, Time := 22549400001, Confirmations := 1 },
   { Txid := TxidB2T3,
     Vin := [{ Txid := TxidB1T2, Vout := 2 }],
     Vout := [{ N := 0, ScriptPubKeyHex := Addr5, ValueSat := 9000 }],
     Blocktime := 22549400002, Time := 22549400002, Confirmations := 1 },
   { Txid := TxidB2T4,
     Vin := [{ Coinbase := coinbaseB2T4 }],
     Vout := [{ N := 0, ScriptPubKeyHex := AddrA, ValueSat := 1360030331 },
              { N := 1, ScriptPubKeyHex := "", ValueSat := 0 }],
     Blocktime := 22549400003, Time := 22549400003, Confirmations := 1 }]

/-- Modelled from the spec: the index after connecting block 1 (height 225493) and block 2
(height 225494) of the fixture; the indexer is not among the sources.  Every vout has its
output slot and its output posting, every non-coinbase vin its input slot and an input
posting (the complement of its position) under the descriptor it spends from, and the output
it spends is marked spent; within a row the outputs of the block come before its inputs. -/
def fixtureStore : db.RocksDB :=
  store
    [(TxidB1T1, { Height := 225493, Inputs := [],
                  Outputs := [{ AddrDesc := descOf Addr1, Spent := false, ValueSat := 100000000 },
                              { AddrDesc := descOf Addr2, Spent := true, ValueSat := 12345 }] }),
     (TxidB1T2, { Height := 225493, Inputs := [],
                  Outputs := [{ AddrDesc := descOf Addr3, Spent := true, ValueSat := 1234567890123 },
                              { AddrDesc := descOf Addr4, Spent := true, ValueSat := 1 },
                              { AddrDesc := descOf Addr5, Spent := true, ValueSat := 9876 }] }),
     (TxidB2T1, { Height := 225494,
                  Inputs := [{ AddrDesc := descOf Addr3, ValueSat := 1234567890123 },
                             { AddrDesc := descOf Addr2, ValueSat := 12345 }],
                  Outputs := [{ AddrDesc := descOf Addr6, Spent := true, ValueSat := 317283951061 },
                              { AddrDesc := descOf Addr7, Spent := false, ValueSat := 917283951061 }] }),
     (TxidB2T2, { Height := 225494,
                  Inputs := [{ AddrDesc := descOf Addr6, ValueSat := 317283951061 },
                             { AddrDesc := descOf Addr4, ValueSat := 1 }],
                  Outputs := [{ AddrDesc := descOf Addr8, Spent := false, ValueSat := 118641975500 },
                              { AddrDesc := descOf Addr9, Spent := false, ValueSat := 198641975500 }] }),
     (TxidB2T3, { Height := 225494,
                  Inputs := [{ AddrDesc := descOf Addr5, ValueSat := 9876 }],
                  Outputs := [{ AddrDesc := descOf Addr5, Spent := false, ValueSat := 9000 }] }),
     (TxidB2T4, { Height := 225494, Inputs := [],
                  Outputs := [{ AddrDesc := descOf AddrA, Spent := false, ValueSat := 1360030331 },
                              { AddrDesc := [], Spent := false, ValueSat := 0 }] })]
    [(Addr1, { Txs := 1, SentSat := 0, BalanceSat := 100000000 }),
     (Addr2, { Txs := 2, SentSat := 12345, BalanceSat := 0 }),
     (Addr3, { Txs := 2, SentSat := 1234567890123, BalanceSat := 0 }),
     (Addr4, { Txs := 2, SentSat := 1, BalanceSat := 0 }),
     (Addr5, { Txs := 2, SentSat := 9876, BalanceSat := 9000 }),
     (Addr6, { Txs := 2, SentSat := 317283951061, BalanceSat := 0 }),
     (Addr7, { Txs := 1, SentSat := 0, BalanceSat := 917283951061 }),
     (Addr8, { Txs := 1, SentSat := 0, BalanceSat := 118641975500 }),
     (Addr9, { Txs := 1, SentSat := 0, BalanceSat := 198641975500 }),
     (AddrA, { Txs := 1, SentSat := 0, BalanceSat := 1360030331 })]
    [(Addr1, [(225493, [{ btxID := TxidB1T1, index := 0 }])]),
     (Addr2, [(225493, [{ btxID := TxidB1T1, index := 1 }]),
              (225494, [{ btxID := TxidB2T1, index := -2 }])]),
     (Addr3, [(225493, [{ btxID := TxidB1T2, index := 0 }]),
              (225494, [{ btxID := TxidB2T1, index := -1 }])]),
     (Addr4, [(225493, [{ btxID := TxidB1T2, index := 1 }]),
              (225494, [{ btxID := TxidB2T2, index := -2 }])]),
     (Addr5, [(225493, [{ btxID := TxidB1T2, index := 2 }]),
              (225494, [{ btxID := TxidB2T3, index := 0 }, { btxID := TxidB2T3, index := -1 }])]),
     (Addr6, [(225494, [{ btxID := TxidB2T1, index := 0 }, { btxID := TxidB2T2, index := -1 }])]),
     (Addr7, [(225494, [{ btxID := TxidB2T1, index := 1 }])]),
     (Addr8, [(225494, [{ btxID := TxidB2T2, index := 0 }])]),
     (Addr9, [(225494, [{ btxID := TxidB2T2, index := 1 }])]),
     (AddrA, [(225494, [{ btxID := TxidB2T4, index := 0 }])])]
    225494

/-- The worker over `fixtureStore`, with an empty mempool; the cache holds the transactions
of both blocks with their heights. -/
def fixtureWorker : Worker :=
  NewWorker fixtureStore (backend (fun _ => []))
    (cache (block1.map (fun tx => (tx.Txid, tx, 225493)) ++
            block2.map (fun tx => (tx.Txid, tx, 225494))))
    (fun _ => {})

/-! ### The two-block account-chain fixture of `db/rocksdb_ethereumtype_test.go` -/

/-- Modelled from the spec: the constants of `tests/dbtestdata` for the account chain are not
among the sources; the descriptor of an address is represented by the byte that names the
address in the test. -/
def EthAddr3e : AddressDescriptor := [0x3e]
/-- Modelled from the spec: see `EthAddr3e`. -/
def EthAddr55 : AddressDescriptor := [0x55]
/-- Modelled from the spec: see `EthAddr3e`. -/
def EthAddr20 : AddressDescriptor := [0x20]
/-- Modelled from the spec: see `EthAddr3e`. -/
def EthAddr9f : AddressDescriptor := [0x9f]
/-- Modelled from the spec: see `EthAddr3e`. -/
def EthAddr4b : AddressDescriptor := [0x4b]
/-- Modelled from the spec: see `EthAddr3e`. -/
def EthAddr7b : AddressDescriptor := [0x7b]
/-- Modelled from the spec: see `EthAddr3e`. -/
def EthAddrContract4a : AddressDescriptor := [0x4a]
/-- Modelled from the spec: see `EthAddr3e`. -/
def EthAddrContract47 : AddressDescriptor := [0x47]
/-- Modelled from the spec: see `EthAddr3e`. -/
def EthAddrContract0d : AddressDescriptor := [0x0d]

/-- Modelled from the spec: the txids of the fixture, represented by their names. -/
def EthTxidB1T1 : String := "EthTxidB1T1"
/-- Modelled from the spec: see `EthTxidB1T1`. -/
def EthTxidB1T2 : String := "EthTxidB1T2"
/-- Modelled from the spec: see `EthTxidB1T1`. -/
def EthTxidB2T1 : String := "EthTxidB2T1"
/-- Modelled from the spec: see `EthTxidB1T1`. -/
def EthTxidB2T2 : String := "EthTxidB2T2"

/-- The rows that `verifyAfterEthereumTypeBlock1` expects in the columns Height, Addresses,
AddrContracts and BlockTxs, decoded: a posting "01" is the index -1, "02" is 1, "03" is -2
(signed varint); `Transactions` is not part of this check. -/
def verifyAfterEthereumTypeBlock1 (afterDisconnect : Bool) : db.Columns :=
  { Height :=
      [(4321000, { Hash := "c7b98df95acfd11c51ba25611a39e004fe56c8fdfc1582af99354fcd09c17b11",
                   Time := 1534858022, Txs := 2, Size := 31839, Height := 4321000 })]
    Addresses :=
      [((EthAddr3e, 4321000), [{ btxID := EthTxidB1T1, index := -1 }]),
       ((EthAddr55, 4321000), [{ btxID := EthTxidB1T1, index := 0 },
                               { btxID := EthTxidB1T2, index := 1 }]),
       ((EthAddr20, 4321000), [{ btxID := EthTxidB1T2, index := -1 },
                               { btxID := EthTxidB1T2, index := -2 }]),
       ((EthAddrContract4a, 4321000), [{ btxID := EthTxidB1T2, index := 0 }])]
    AddrContracts :=
      [(EthAddr3e, { EthTxs := 1 }),
       (EthAddr55, { EthTxs := 1, Contracts := [{ Contract := EthAddrContract4a, Txs := 1 }] }),
       (EthAddr20, { EthTxs := 1, Contracts := [{ Contract := EthAddrContract4a, Txs := 1 }] }),
       (EthAddrContract4a, { EthTxs := 1 })]
    BlockTxs :=
      if afterDisconnect then []
      else
        [(4321000,
          [{ btxID := EthTxidB1T1, from_ := EthAddr3e, to_ := EthAddr55, contracts := [] },
           { btxID := EthTxidB1T2, from_ := EthAddr20, to_ := EthAddrContract4a,
             contracts := [{ addr := EthAddr20, contract := EthAddrContract4a },
                           { addr := EthAddr55, contract := EthAddrContract4a }] }])] }

/-- The rows that `verifyAfterEthereumTypeBlock2` expects, decoded ("04" is the index 2,
"05" is -3). -/
def verifyAfterEthereumTypeBlock2 : db.Columns :=
  { Height :=
      [(4321000, { Hash := "c7b98df95acfd11c51ba25611a39e004fe56c8fdfc1582af99354fcd09c17b11",
                   Time := 1534858022, Txs := 2, Size := 31839, Height := 4321000 }),
       (4321001, { Hash := "2b57e15e93a0ed197417a34c2498b7187df79099572c04a6b6e6ff418f74e6ee",
                   Time := 1534859988, Txs := 2, Size := 2345678, Height := 4321001 })]
    Addresses :=
      [((EthAddr3e, 4321000), [{ btxID := EthTxidB1T1, index := -1 }]),
       ((EthAddr55, 4321000), [{ btxID := EthTxidB1T1, index := 0 },
                               { btxID := EthTxidB1T2, index := 1 }]),
       ((EthAddr20, 4321000), [{ btxID := EthTxidB1T2, index := -1 },
                               { btxID := EthTxidB1T2, index := -2 }]),
       ((EthAddrContract4a, 4321000), [{ btxID := EthTxidB1T2, index := 0 }]),
       ((EthAddr55, 4321001), [{ btxID := EthTxidB2T1, index := -1 },
                               { btxID := EthTxidB2T2, index := -3 },
                               { btxID := EthTxidB2T2, index := 1 }]),
       ((EthAddr9f, 4321001), [{ btxID := EthTxidB2T1, index := 0 }]),
       ((EthAddr4b, 4321001), [{ btxID := EthTxidB2T2, index := -1 },
                               { btxID := EthTxidB2T2, index := 1 },
                               { btxID := EthTxidB2T2, index := -3 },
                               { btxID := EthTxidB2T2, index := 2 },
                               { btxID := EthTxidB2T2, index := -2 }]),
       ((EthAddr7b, 4321001), [{ btxID := EthTxidB2T2, index := -2 },
                               { btxID := EthTxidB2T2, index := 2 }]),
       ((EthAddrContract47, 4321001), [{ btxID := EthTxidB2T2, index := 0 }])]
    AddrContracts :=
      [(EthAddr3e, { EthTxs := 1 }),
       (EthAddr55, { EthTxs := 2, Contracts := [{ Contract := EthAddrContract4a, Txs := 2 },
                                                { Contract := EthAddrContract0d, Txs := 1 }] }),
       (EthAddr20, { EthTxs := 1, Contracts := [{ Contract := EthAddrContract4a, Txs := 1 }] }),
       (EthAddrContract4a, { EthTxs := 1 }),
       (EthAddr9f, { EthTxs := 1 }),
       (EthAddr4b, { EthTxs := 1, Contracts := [{ Contract := EthAddrContract0d, Txs := 2 },
                                                { Contract := EthAddrContract4a, Txs := 2 }] }),
       (EthAddr7b, { EthTxs := 0, Contracts := [{ Contract := EthAddrContract4a, Txs := 1 },
                                                { Contract := EthAddrContract0d, Txs := 1 }] }),
       (EthAddrContract47, { EthTxs := 1 })]
    BlockTxs :=
      [(4321001,
        [{ btxID := EthTxidB2T1, from_ := EthAddr55, to_ := EthAddr9f, contracts := [] },
         { btxID := EthTxidB2T2, from_ := EthAddr4b, to_ := EthAddrContract47,
           contracts := [{ addr := EthAddr55, contract := EthAddrContract0d },
                         { addr := EthAddr4b, contract := EthAddrContract0d },
                         { addr := EthAddr4b, contract := EthAddrContract4a },
                         { addr := EthAddr55, contract := EthAddrContract4a },
                         { addr := EthAddr7b, contract := EthAddrContract4a },
                         { addr := EthAddr4b, contract := EthAddrContract4a },
                         { addr := EthAddr4b, contract := EthAddrContract0d },
                         { addr := EthAddr7b, contract := EthAddrContract0d }] }])] }

/-- Modelled from the spec: `GetTestEthereumTypeBlock1` of `tests/dbtestdata` is not among
the sources; the block is read off the rows that the test expects after it: two
transactions, the second with one token transfer. -/
def GetTestEthereumTypeBlock1 : db.EthBlock :=
  { Height := 4321000
    Hash := "c7b98df95acfd11c51ba25611a39e004fe56c8fdfc1582af99354fcd09c17b11"
    Time := 1534858022, Size := 31839
    Txs := [{ Txid := EthTxidB1T1, From := EthAddr3e, To := EthAddr55 },
            { Txid := EthTxidB1T2, From := EthAddr20, To := EthAddrContract4a,
              Transfers := [{ Contract := EthAddrContract4a, From := EthAddr20,
                              To := EthAddr55 }] }] }

/-- Modelled from the spec: `GetTestEthereumTypeBlock2` of `tests/dbtestdata` is not among
the sources; the block is read off the rows that the test expects after it: two
transactions, the second with four token transfers. -/
def GetTestEthereumTypeBlock2 : db.EthBlock :=
  { Height := 4321001
    Hash := "2b57e15e93a0ed197417a34c2498b7187df79099572c04a6b6e6ff418f74e6ee"
    Time := 1534859988, Size := 2345678
    Txs := [{ Txid := EthTxidB2T1, From := EthAddr55, To := EthAddr9f },
            { Txid := EthTxidB2T2, From := EthAddr4b, To := EthAddrContract47,
              Transfers := [{ Contract := EthAddrContract0d, From := EthAddr55, To := EthAddr4b },
                            { Contract := EthAddrContract4a, From := EthAddr4b, To := EthAddr55 },
                            { Contract := EthAddrContract4a, From := EthAddr7b, To := EthAddr4b },
                            { Contract := EthAddrContract0d, From := EthAddr4b,
                              To := EthAddr7b }] }] }

/-- Whether the columns Height, Addresses, AddrContracts and BlockTxs of `s` hold the rows
of the snapshot `snap`, as `checkColumn` of the test compares them. -/
def checkColumns (s snap : db.Columns) : Bool :=
  db.sameRows s.Height snap.Height && db.sameRows s.Addresses snap.Addresses &&
  db.sameRows s.AddrContracts snap.AddrContracts && db.sameRows s.BlockTxs snap.BlockTxs

/-- The index after block 1 of the fixture, where the undo log keeps one block. -/
def ethAfterBlock1 : db.Columns := db.ConnectBlock 1 {} GetTestEthereumTypeBlock1

/-- The index after block 2 of the fixture. -/
def ethAfterBlock2 : db.Columns := db.ConnectBlock 1 ethAfterBlock1 GetTestEthereumTypeBlock2

/-- The index after block 2 with the second transaction of block 2 in the transaction cache,
as the test leaves it before the disconnect. -/
def ethAfterPutTx : db.Columns := { ethAfterBlock2 with Transactions := [(EthTxidB2T2, 4321001)] }

/-- The parser of an account chain; the address of a descriptor is the text of its bytes. -/
def ethParser : bchain.BlockChainParser :=
  { parser with
    GetChainType := .ChainEthereumType
    GetAddressesFromAddrDesc := fun d => ([sprintBytes d], true, none) }

/-- A backend of an account chain without mempool, balances and contract data. -/
def ethBackend : bchain.BlockChain := { backend (fun _ => []) with GetChainParser := ethParser }

/-- The store over the AddrContracts rows that `verifyAfterEthereumTypeBlock2` expects. -/
def ethStore : db.RocksDB :=
  { store [] [] [] 4321001 with
    GetAddrDescContracts := fun d =>
      .ok (db.columnGet verifyAfterEthereumTypeBlock2.AddrContracts d) }

/-- The worker over `ethStore`. -/
def ethWorker : Worker := NewWorker ethStore ethBackend (cache []) (fun _ => {})

/-- Transaction `H` of block 1: one output of 2^64 to the script `d`, never spent. -/
def txH : bchain.Tx :=
  { Txid := "H", Confirmations := 1,
    Vout := [{ ValueSat := 2 ^ 64, N := 0, ScriptPubKeyHex := "d" }] }

/-- The index after block 1 (`H`): the balance of `d` is the amount of its one unspent
output, which has its output posting. -/
def hugeStore : db.RocksDB :=
  store
    [("H", { Height := 1, Inputs := [],
             Outputs := [{ AddrDesc := [100], Spent := false, ValueSat := 2 ^ 64 }] })]
    [("d", { Txs := 1, SentSat := 0, BalanceSat := 2 ^ 64 })]
    [("d", [(1, [{ btxID := "H", index := 0 }])])]
    1

/-- The worker over `hugeStore`, with an empty mempool. -/
def hugeWorker : Worker :=
  NewWorker hugeStore (backend (fun _ => [])) (cache [("H", txH, 1)]) (fun _ => {})

/-- An inconsistent index: the balance row of the script `e` says 1, while `e` has two
unspent outputs with postings, of 5 (transaction `P`, block 1) and of 2^63 + 2 (transaction
`Q`, block 2). -/
def overdrawnStore : db.RocksDB :=
  store
    [("P", { Height := 1, Inputs := [],
             Outputs := [{ AddrDesc := [101], Spent := false, ValueSat := 5 }] }),
     ("Q", { Height := 2, Inputs := [],
             Outputs := [{ AddrDesc := [101], Spent := false, ValueSat := 2 ^ 63 + 2 }] })]
    [("e", { Txs := 2, SentSat := 0, BalanceSat := 1 })]
    [("e", [(1, [{ btxID := "P", index := 0 }]), (2, [{ btxID := "Q", index := 0 }])])]
    2

/-- The worker over `overdrawnStore`, with an empty mempool. -/
def overdrawnWorker : Worker :=
  NewWorker overdrawnStore (backend (fun _ => [])) (cache []) (fun _ => {})

/-- An index with the best block 5 in which the block info of the height `missing` is
absent; the other heights have the info of `store`. -/
def blocksStore (missing : Nat) : db.RocksDB :=
  { store [] [] [] 5 with
    GetBlockInfo := fun h =>
      if h = missing then .ok none
      else .ok (some { Hash := "block" ++ Nat.repr h, Height := h }) }

/-- The worker over `blocksStore missing`, with an empty mempool. -/
def blocksWorker (missing : Nat) : Worker :=
  NewWorker (blocksStore missing) (backend (fun _ => [])) (cache []) (fun _ => {})

/-! ### The Addresses rows of the account-chain fixture as stored -/

/-- The Addresses rows that `verifyAfterEthereumTypeBlock1` expects, as the test writes
them: per key (address, height) the txids, each with the byte that follows it. -/
def addressesBytesBlock1 : List ((AddressDescriptor × Nat) × List (String × List Nat)) :=
  [((EthAddr3e, 4321000), [(EthTxidB1T1, [0x01])]),
   ((EthAddr55, 4321000), [(EthTxidB1T1, [0x00]), (EthTxidB1T2, [0x02])]),
   ((EthAddr20, 4321000), [(EthTxidB1T2, [0x01]), (EthTxidB1T2, [0x03])]),
   ((EthAddrContract4a, 4321000), [(EthTxidB1T2, [0x00])])]

/-- The Addresses rows that `verifyAfterEthereumTypeBlock2` expects, as the test writes
them. -/
def addressesBytesBlock2 : List ((AddressDescriptor × Nat) × List (String × List Nat)) :=
  [((EthAddr3e, 4321000), [(EthTxidB1T1, [0x01])]),
   ((EthAddr55, 4321000), [(EthTxidB1T1, [0x00]), (EthTxidB1T2, [0x02])]),
   ((EthAddr20, 4321000), [(EthTxidB1T2, [0x01]), (EthTxidB1T2, [0x03])]),
   ((EthAddrContract4a, 4321000), [(EthTxidB1T2, [0x00])]),
   ((EthAddr55, 4321001), [(EthTxidB2T1, [0x01]), (EthTxidB2T2, [0x05]),
                           (EthTxidB2T2, [0x02])]),
   ((EthAddr9f, 4321001), [(EthTxidB2T1, [0x00])]),
   ((EthAddr4b, 4321001), [(EthTxidB2T2, [0x01]), (EthTxidB2T2, [0x02]),
                           (EthTxidB2T2, [0x05]), (EthTxidB2T2, [0x04]),
                           (EthTxidB2T2, [0x03])]),
   ((EthAddr7b, 4321001), [(EthTxidB2T2, [0x03]), (EthTxidB2T2, [0x04])]),
   ((EthAddrContract47, 4321001), [(EthTxidB2T2, [0x00])])]

/-- The postings `(txid, vout, isOutput)` of `EthAddr55` that the test expects from
`verifyGetTransactions` over all heights after block 2, in the order of the rows. -/
def getTransactionsEthAddr55 : List (String × Nat × Bool) :=
  [(EthTxidB1T1, 0, true), (EthTxidB1T2, 1, true), (EthTxidB2T1, 0, false),
   (EthTxidB2T2, 2, false), (EthTxidB2T2, 1, true)]

/-- The stored postings of `EthAddr55` in the rows of `addressesBytesBlock2`, in key
order. -/
def storedPostingsEthAddr55 : List (String × List Nat) :=
  (addressesBytesBlock2.filter (fun row => decide (row.1.1 = EthAddr55))).flatMap
    (fun row => row.2)

end scenario

/-! ## Paging -/

namespace api

theorem goInt_of_fits (x : Int) (h1 : -(2 ^ 63) ≤ x) (h2 : x < 2 ^ 63) : goInt x = x := by
  unfold goInt
  omega

theorem tdiv_pred_nonneg (count itemsOnPage : Int) (hc : 1 ≤ count) (hi : 1 ≤ itemsOnPage) :
    (count - 1).tdiv itemsOnPage = (count - 1) / itemsOnPage :=
  Int.tdiv_eq_ediv (by omega) (by omega)

theorem neg_one_ediv_pos (b : Int) (hb : 1 ≤ b) : (-1 : Int) / b = -1 := by
  have h1 : (-1 : Int) / b < 0 := Int.ediv_neg' (by omega) (by omega)
  have h2 := Int.lt_ediv_add_one_mul_self (-1) (show 0 < b by omega)
  by_contra hne
  have h3 : (-1 : Int) / b + 1 ≤ -1 := by omega
  have h4 := Int.mul_le_mul_of_nonneg_right h3 (show (0 : Int) ≤ b by omega)
  omega

/-- The clamped page count of `computePaging` for `count ≥ 0`: 0 for an empty list. -/
theorem totalPages_clip (count itemsOnPage : Int) (hc : 0 ≤ count) (hi : 1 ≤ itemsOnPage) :
    (if (count - 1).tdiv itemsOnPage < 0 then 0 else (count - 1).tdiv itemsOnPage) =
      (count - 1) / itemsOnPage + (if count = 0 then 1 else 0) := by
  by_cases h0 : count = 0
  · subst h0
    have h1 : ((0 : Int) - 1).tdiv itemsOnPage = -((1 : Int).tdiv itemsOnPage) := by
      rw [show ((0 : Int) - 1) = -1 by norm_num, Int.neg_tdiv]
    have h2 : (1 : Int).tdiv itemsOnPage = 1 / itemsOnPage :=
      Int.tdiv_eq_ediv (by omega) (by omega)
    have h3 : (0 : Int) ≤ 1 / itemsOnPage := Int.ediv_nonneg (by omega) (by omega)
    have h4 : ((0 : Int) - 1) / itemsOnPage = -1 := by
      rw [show ((0 : Int) - 1) = -1 by norm_num]
      exact neg_one_ediv_pos itemsOnPage hi
    rw [h1, h2, h4]
    split_ifs <;> omega
  · rw [tdiv_pred_nonneg count itemsOnPage (by omega) hi]
    have hq : 0 ≤ (count - 1) / itemsOnPage := Int.ediv_nonneg (by omega) (by omega)
    simp only [h0, if_false, add_zero]
    split_ifs <;> omega

/-- The quotient `(count - 1) / itemsOnPage` of `computePaging` lies between -1 and
`count - 1` (for an empty list between -1 and 0). -/
theorem tdiv_pred_bounds (count itemsOnPage : Int) (hc : 0 ≤ count) (hi : 1 ≤ itemsOnPage) :
    -1 ≤ (count - 1).tdiv itemsOnPage ∧
    ((count - 1).tdiv itemsOnPage ≤ count - 1 ∨ (count - 1).tdiv itemsOnPage ≤ 0) ∧
    (count - 1).tdiv itemsOnPage * itemsOnPage ≤ count := by
  by_cases h0 : count = 0
  · subst h0
    have h1 : ((0 : Int) - 1).tdiv itemsOnPage = -((1 : Int).tdiv itemsOnPage) := by
      rw [show ((0 : Int) - 1) = -1 by norm_num, Int.neg_tdiv]
    have h2 : (1 : Int).tdiv itemsOnPage = 1 / itemsOnPage :=
      Int.tdiv_eq_ediv (by omega) (by omega)
    have h3 : (0 : Int) ≤ 1 / itemsOnPage := Int.ediv_nonneg (by omega) (by omega)
    have h4 : (1 : Int) / itemsOnPage ≤ 1 := Int.ediv_le_self _ (by omega)
    rw [h1, h2]
    refine ⟨by omega, Or.inr (by omega), ?_⟩
    have : 0 ≤ 1 / itemsOnPage * itemsOnPage := Int.mul_nonneg h3 (by omega)
    rw [Int.neg_mul]
    omega
  · rw [tdiv_pred_nonneg count itemsOnPage (by omega) hi]
    have hq : 0 ≤ (count - 1) / itemsOnPage := Int.ediv_nonneg (by omega) (by omega)
    have hle : (count - 1) / itemsOnPage ≤ count - 1 := Int.ediv_le_self _ (by omega)
    have hm := Int.ediv_mul_le (count - 1) (show itemsOnPage ≠ 0 by omega)
    exact ⟨by omega, Or.inl hle, by omega⟩

/-- The value of `computePaging` where the product `page * itemsOnPage` fits in a 64-bit
`int`: only the end of the page is still a wrapped product. -/
theorem computePaging_eq (count page itemsOnPage : Int) (hc : 0 ≤ count) (hc63 : count < 2 ^ 63)
    (hi : 1 ≤ itemsOnPage) (hp : 0 ≤ page) (h1 : page * itemsOnPage < 2 ^ 63) :
    computePaging count page itemsOnPage =
      .ok ({ ItemsOnPage := itemsOnPage,
             Page := (if page * itemsOnPage ≥ count then
                        (if (count - 1).tdiv itemsOnPage < 0 then 0
                         else (count - 1).tdiv itemsOnPage)
                      else page) + 1,
             TotalPages := (if (count - 1).tdiv itemsOnPage < 0 then 0
                            else (count - 1).tdiv itemsOnPage) + 1 },
           (if page * itemsOnPage ≥ count then
              (if (count - 1).tdiv itemsOnPage < 0 then 0 else (count - 1).tdiv itemsOnPage)
            else page) * itemsOnPage,
           (if goInt (((if page * itemsOnPage ≥ count then
                (if (count - 1).tdiv itemsOnPage < 0 then 0 else (count - 1).tdiv itemsOnPage)
              else page) + 1) * itemsOnPage) > count then count
            else goInt (((if page * itemsOnPage ≥ count then
                (if (count - 1).tdiv itemsOnPage < 0 then 0 else (count - 1).tdiv itemsOnPage)
              else page) + 1) * itemsOnPage)),
           (if page * itemsOnPage ≥ count then
              (if (count - 1).tdiv itemsOnPage < 0 then 0 else (count - 1).tdiv itemsOnPage)
            else page)) := by
  obtain ⟨b1, b2, b3⟩ := tdiv_pred_bounds count itemsOnPage hc hi
  have hne : itemsOnPage ≠ 0 := by omega
  have hprod0 : 0 ≤ page * itemsOnPage := Int.mul_nonneg hp (by omega)
  have hpage : page ≤ page * itemsOnPage := by nlinarith
  have a1 : goInt (page * itemsOnPage) = page * itemsOnPage :=
    goInt_of_fits _ (by omega) h1
  have a2 : goInt (count - 1) = count - 1 := goInt_of_fits _ (by omega) (by omega)
  have a3 : goInt ((count - 1).tdiv itemsOnPage) = (count - 1).tdiv itemsOnPage :=
    goInt_of_fits _ (by omega) (by omega)
  simp only [computePaging, goDiv, hne, if_false, bind, Except.bind, pure, Except.pure, a1, a2,
    a3]
  generalize hT : (if (count - 1).tdiv itemsOnPage < 0 then 0
    else (count - 1).tdiv itemsOnPage) = T
  have hT0 : 0 ≤ T := by rw [← hT]; split <;> omega
  have hTc : T + 1 < 2 ^ 63 := by rw [← hT]; split <;> omega
  have hTm : T * itemsOnPage ≤ count := by
    rw [← hT]; split
    · simp; exact hc
    · exact b3
  generalize hP : (if page * itemsOnPage ≥ count then T else page) = P
  have hP0 : 0 ≤ P := by rw [← hP]; split <;> omega
  have hPm : P * itemsOnPage < 2 ^ 63 := by rw [← hP]; split <;> omega
  have hPm0 : 0 ≤ P * itemsOnPage := Int.mul_nonneg hP0 (by omega)
  have hP1 : P + 1 < 2 ^ 63 := by
    rw [← hP]; split
    · omega
    · omega
  have hT1 : T + 1 < 2 ^ 63 := hTc
  rw [goInt_of_fits (P * itemsOnPage) (by omega) hPm, goInt_of_fits (P + 1) (by omega) hP1,
    goInt_of_fits (T + 1) (by omega) hT1]

/-- The value of `computePaging` where neither of its products wraps around. -/
theorem computePaging_unfold (count page itemsOnPage : Int) (hc : 0 ≤ count)
    (hc63 : count < 2 ^ 63) (hi : 1 ≤ itemsOnPage) (hp : 0 ≤ page)
    (h1 : page * itemsOnPage < 2 ^ 63)
    (h2 : ((if page * itemsOnPage ≥ count then
              (if (count - 1).tdiv itemsOnPage < 0 then 0 else (count - 1).tdiv itemsOnPage)
            else page) + 1) * itemsOnPage < 2 ^ 63) :
    computePaging count page itemsOnPage =
      (let totalPages := if (count - 1).tdiv itemsOnPage < 0 then 0
                         else (count - 1).tdiv itemsOnPage
       let page1 := if page * itemsOnPage ≥ count then totalPages else page
       let to_ := (page1 + 1) * itemsOnPage
       .ok ({ ItemsOnPage := itemsOnPage, Page := page1 + 1, TotalPages := totalPages + 1 },
            page1 * itemsOnPage, (if to_ > count then count else to_), page1)) := by
  rw [computePaging_eq count page itemsOnPage hc hc63 hi hp h1]
  have h0 : 0 ≤ ((if page * itemsOnPage ≥ count then
      (if (count - 1).tdiv itemsOnPage < 0 then 0 else (count - 1).tdiv itemsOnPage)
      else page) + 1) * itemsOnPage := by
    apply Int.mul_nonneg _ (by omega)
    split
    · split <;> omega
    · omega
  rw [goInt_of_fits _ (by omega) h2]

/-- C1 (amended): where the product `page * itemsOnPage` fits in a 64-bit `int`, a page at
or beyond the end is clamped to the last page `(count-1)/itemsOnPage`, with
`from = page' * itemsOnPage` and `to = count`; with 7 items and 3 per page the 0-based
pages 0, 1, 2 have the ranges [0,3), [3,6), [6,7) and page 3 gives what page 2 gives. -/
theorem computePaging_clamps_to_last_page (count page itemsOnPage : Int)
    (hc : 1 ≤ count) (hi : 1 ≤ itemsOnPage) (hp : 0 ≤ page) (h : count ≤ page * itemsOnPage)
    (h63 : page * itemsOnPage < 2 ^ 63) :
    computePaging count page itemsOnPage =
        .ok ({ ItemsOnPage := itemsOnPage, Page := (count - 1) / itemsOnPage + 1,
               TotalPages := (count - 1) / itemsOnPage + 1 },
             (count - 1) / itemsOnPage * itemsOnPage, count, (count - 1) / itemsOnPage) ∧
    computePaging 7 0 3 = .ok ({ ItemsOnPage := 3, Page := 1, TotalPages := 3 }, 0, 3, 0) ∧
    computePaging 7 1 3 = .ok ({ ItemsOnPage := 3, Page := 2, TotalPages := 3 }, 3, 6, 1) ∧
    computePaging 7 2 3 = .ok ({ ItemsOnPage := 3, Page := 3, TotalPages := 3 }, 6, 7, 2) ∧
    computePaging 7 3 3 = computePaging 7 2 3 := by
  refine ⟨?_, by rfl, by rfl, by rfl, by rfl⟩
  have hq : 0 ≤ (count - 1) / itemsOnPage := Int.ediv_nonneg (by omega) (by omega)
  have hlt : count - 1 < ((count - 1) / itemsOnPage + 1) * itemsOnPage := by
    have := Int.lt_ediv_add_one_mul_self (count - 1) (show 0 < itemsOnPage by omega)
    linarith
  have hm := Int.ediv_mul_le (count - 1) (show itemsOnPage ≠ 0 by omega)
  have hTp : (count - 1) / itemsOnPage + 1 ≤ page := by
    by_contra hcon
    have h3 : page ≤ (count - 1) / itemsOnPage := by omega
    have := Int.mul_le_mul_of_nonneg_right h3 (show (0 : Int) ≤ itemsOnPage by omega)
    omega
  have hend : ((count - 1) / itemsOnPage + 1) * itemsOnPage ≤ page * itemsOnPage :=
    Int.mul_le_mul_of_nonneg_right hTp (by omega)
  rw [computePaging_unfold count page itemsOnPage (by omega) (by omega) hi hp h63
    (by
      rw [tdiv_pred_nonneg count itemsOnPage hc hi, if_pos h, if_neg (not_lt.mpr hq)]
      omega),
    tdiv_pred_nonneg count itemsOnPage hc hi]
  simp only [ge_iff_le, h, if_true, if_neg (not_lt.mpr hq), gt_iff_lt]
  have hto : count < ((count - 1) / itemsOnPage + 1) * itemsOnPage ∨
      count = ((count - 1) / itemsOnPage + 1) * itemsOnPage := by omega
  rcases hto with hto | hto
  · rw [if_pos hto]
  · rw [if_neg (by omega), ← hto]

/-- C1 (amended) at the spec's scenario: 7 items, 3 per page, 0-based page 3 is clamped to
page 2. -/
theorem computePaging_clamps_to_last_page_witness :
    (1 : Int) ≤ 7 ∧ (1 : Int) ≤ 3 ∧ (0 : Int) ≤ 3 ∧ (7 : Int) ≤ 3 * 3 ∧
    (3 : Int) * 3 < 2 ^ 63 ∧
    computePaging 7 3 3 =
        .ok ({ ItemsOnPage := 3, Page := (7 - 1) / 3 + 1, TotalPages := (7 - 1) / 3 + 1 },
             (7 - 1) / 3 * 3, 7, (7 - 1) / 3) :=
  ⟨by decide, by decide, by decide, by decide, by decide,
   (computePaging_clamps_to_last_page 7 3 3 (by decide) (by decide) (by decide) (by decide)
     (by decide)).1⟩

/-- C1 (counterexample): with 7 items and 8 per page the 0-based page 2^61 lies beyond the
end (`page * itemsOnPage = 2^64 ≥ 7`), but the 64-bit product is 0, so `computePaging`
does not clamp: it returns the page 2^61 itself (`Paging.Page = 2^61 + 1` of 1 page) with
the range [0, 7), not the last page `(7-1)/8 = 0`. -/
theorem computePaging_keeps_page_whose_product_wraps :
    computePaging 7 (2 ^ 61) 8 =
      .ok ({ ItemsOnPage := 8, Page := 2 ^ 61 + 1, TotalPages := 1 }, 0, 7, 2 ^ 61) ∧
    (7 : Int) ≤ 2 ^ 61 * 8 ∧ ((7 : Int) - 1) / 8 = 0 ∧ goInt (2 ^ 61 * 8) = 0 := by
  refine ⟨by rfl, by decide, by decide, by rfl⟩

/-- Start and end of the 0-based page `p`, for pages below the page count, where the end
`(p + 1) * itemsOnPage` fits in a 64-bit `int`. -/
theorem computePaging_in_range (count itemsOnPage : Int) (hc : 0 ≤ count) (hi : 1 ≤ itemsOnPage)
    (p : Nat)
    (hp : (p : Int) < (count - 1) / itemsOnPage + (if count = 0 then 1 else 0) + 1)
    (hc63 : count < 2 ^ 63) (hfit : ((p : Int) + 1) * itemsOnPage < 2 ^ 63) :
    computePaging count p itemsOnPage =
      .ok ({ ItemsOnPage := itemsOnPage, Page := (p : Int) + 1,
             TotalPages := (count - 1) / itemsOnPage + (if count = 0 then 1 else 0) + 1 },
           min ((p : Int) * itemsOnPage) count, min (((p : Int) + 1) * itemsOnPage) count,
           (p : Int)) := by
  have hpm : (p : Int) * itemsOnPage < 2 ^ 63 := by nlinarith
  have hpage1 : (if (p : Int) * itemsOnPage ≥ count then
      (if (count - 1).tdiv itemsOnPage < 0 then 0 else (count - 1).tdiv itemsOnPage)
      else (p : Int)) = (p : Int) := by
    rw [totalPages_clip count itemsOnPage hc hi]
    by_cases h0 : count = 0
    · subst h0
      have h4 : ((0 : Int) - 1) / itemsOnPage = -1 := by
        rw [show ((0 : Int) - 1) = -1 by norm_num]
        exact neg_one_ediv_pos itemsOnPage hi
      simp only [h4, if_true] at hp ⊢
      have hp0 : (p : Int) = 0 := by omega
      rw [hp0]
      simp
    · simp only [h0, if_false, add_zero] at hp ⊢
      have hple : (p : Int) ≤ (count - 1) / itemsOnPage := by omega
      have hmul : (p : Int) * itemsOnPage ≤ count - 1 := by
        calc (p : Int) * itemsOnPage ≤ (count - 1) / itemsOnPage * itemsOnPage :=
              Int.mul_le_mul_of_nonneg_right hple (by omega)
          _ ≤ count - 1 := Int.ediv_mul_le _ (by omega)
      rw [if_neg (by omega)]
  rw [computePaging_unfold count p itemsOnPage hc hc63 hi (by omega) hpm
    (by rw [hpage1]; exact hfit), totalPages_clip count itemsOnPage hc hi]
  by_cases h0 : count = 0
  · subst h0
    have h4 : ((0 : Int) - 1) / itemsOnPage = -1 := by
      rw [show ((0 : Int) - 1) = -1 by norm_num]
      exact neg_one_ediv_pos itemsOnPage hi
    simp only [h4, if_true] at hp ⊢
    have hp0 : (p : Int) = 0 := by omega
    simp only [hp0]
    have hpos : ((-1 : Int) + 1 + 1) * itemsOnPage > 0 := by omega
    have hpos' : (0 : Int) ≤ ((0 : Int) + 1) * itemsOnPage := by omega
    have hnn : ((0 : Int) * itemsOnPage ≥ 0) := by omega
    rw [if_pos hnn, if_pos hpos, min_eq_right hpos', min_eq_right (by omega)]
    norm_num
  · simp only [h0, if_false, add_zero] at hp ⊢
    have hple : (p : Int) ≤ (count - 1) / itemsOnPage := by omega
    have hmul : (p : Int) * itemsOnPage ≤ count - 1 := by
      calc (p : Int) * itemsOnPage ≤ (count - 1) / itemsOnPage * itemsOnPage :=
            Int.mul_le_mul_of_nonneg_right hple (by omega)
        _ ≤ count - 1 := Int.ediv_mul_le _ (by omega)
    have hnot : ¬ ((p : Int) * itemsOnPage ≥ count) := by omega
    simp only [hnot, if_false]
    rw [min_eq_left (by omega : (p : Int) * itemsOnPage ≤ count)]
    by_cases hgt : ((p : Int) + 1) * itemsOnPage > count
    · rw [if_pos hgt, min_eq_right (le_of_lt hgt)]
    · rw [if_neg hgt, min_eq_left (by omega)]

/-- For a list of at most 2^62 items the end of every page below the page count fits in a
64-bit `int`. -/
theorem page_end_fits (count itemsOnPage : Int) (hc : 0 ≤ count) (hi : 1 ≤ itemsOnPage)
    (hc62 : count ≤ 2 ^ 62) (hi63 : itemsOnPage < 2 ^ 63) (p : Nat)
    (hp : (p : Int) < (count - 1) / itemsOnPage + (if count = 0 then 1 else 0) + 1) :
    ((p : Int) + 1) * itemsOnPage < 2 ^ 63 := by
  by_cases h0 : count = 0
  · subst h0
    have h4 : ((0 : Int) - 1) / itemsOnPage = -1 := by
      rw [show ((0 : Int) - 1) = -1 by norm_num]
      exact neg_one_ediv_pos itemsOnPage hi
    simp only [h4, if_true] at hp
    have hp0 : (p : Int) = 0 := by omega
    rw [hp0]
    omega
  · simp only [h0, if_false, add_zero] at hp
    have hple : (p : Int) ≤ (count - 1) / itemsOnPage := by omega
    by_cases hbig : count ≤ itemsOnPage
    · have hz : (count - 1) / itemsOnPage = 0 := Int.ediv_eq_zero_of_lt (by omega) (by omega)
      rw [hz] at hple
      have hp0 : (p : Int) = 0 := by omega
      rw [hp0]
      omega
    · have hmul : (p : Int) * itemsOnPage ≤ count - 1 := by
        calc (p : Int) * itemsOnPage ≤ (count - 1) / itemsOnPage * itemsOnPage :=
              Int.mul_le_mul_of_nonneg_right hple (by omega)
          _ ≤ count - 1 := Int.ediv_mul_le _ (by omega)
      have : ((p : Int) + 1) * itemsOnPage = (p : Int) * itemsOnPage + itemsOnPage := by ring
      omega

/-- C2: for `count ≥ 0` and `itemsOnPage ≥ 1` the ranges `[from, to)` of the 0-based pages
`0 .. TotalPages-1` start at 0, are consecutive (each page ends where the next one starts)
and end at `count`; every index of `[0, count)` lies on exactly one page, and the page
sizes sum to `count`. The count is the length of a slice or a number of blocks, at most
2^62, and `itemsOnPage` is an `int`: on these pages no 64-bit product wraps around. -/
theorem computePaging_pages_partition (count itemsOnPage : Int)
    (hc : 0 ≤ count) (hi : 1 ≤ itemsOnPage) (hc62 : count ≤ 2 ^ 62)
    (hi63 : itemsOnPage < 2 ^ 63) :
    ∃ (T : Nat) (f t : Nat → Int),
      1 ≤ T ∧
      (∀ p : Nat, p < T → computePaging count p itemsOnPage =
          .ok ({ ItemsOnPage := itemsOnPage, Page := (p : Int) + 1, TotalPages := T },
               f p, t p, (p : Int))) ∧
      f 0 = 0 ∧
      (∀ p : Nat, p + 1 < T → t p = f (p + 1)) ∧
      t (T - 1) = count ∧
      (∀ p : Nat, p < T → f p ≤ t p) ∧
      (∀ i : Int, 0 ≤ i → i < count → ∃! p : Nat, p < T ∧ f p ≤ i ∧ i < t p) ∧
      ∑ p ∈ Finset.range T, (t p - f p) = count := by
  have hq : -1 ≤ (count - 1) / itemsOnPage := by
    have : (-1 : Int) = (-1) / itemsOnPage := (neg_one_ediv_pos itemsOnPage hi).symm
    rw [this]
    exact Int.ediv_le_ediv (by omega) (by omega)
  have hTnn : 0 ≤ (count - 1) / itemsOnPage + (if count = 0 then 1 else 0) := by
    split_ifs with h0
    · omega
    · have : 0 ≤ (count - 1) / itemsOnPage := Int.ediv_nonneg (by omega) (by omega)
      omega
  obtain ⟨T0, hT0⟩ := Int.eq_ofNat_of_zero_le hTnn
  have hcover : count ≤ ((T0 : Int) + 1) * itemsOnPage := by
    have h1 := Int.lt_ediv_add_one_mul_self (count - 1) (show 0 < itemsOnPage by omega)
    split_ifs at hT0 with h0
    · subst h0
      have : (0 : Int) ≤ ((T0 : Int) + 1) * itemsOnPage :=
        Int.mul_nonneg (by omega) (by omega)
      exact this
    · rw [add_zero] at hT0
      rw [← hT0]
      omega
  have hlast : (T0 : Int) * itemsOnPage ≤ count := by
    split_ifs at hT0 with h0
    · subst h0
      have h4 : ((0 : Int) - 1) / itemsOnPage = -1 := by
        rw [show ((0 : Int) - 1) = -1 by norm_num]
        exact neg_one_ediv_pos itemsOnPage hi
      rw [h4] at hT0
      have : (T0 : Int) = 0 := by omega
      rw [this]; simp
    · rw [add_zero] at hT0
      rw [← hT0]
      have := Int.ediv_mul_le (count - 1) (show itemsOnPage ≠ 0 by omega)
      omega
  refine ⟨T0 + 1, fun p => min ((p : Int) * itemsOnPage) count,
    fun p => min (((p : Int) + 1) * itemsOnPage) count, by omega, ?_, ?_, ?_, ?_, ?_, ?_, ?_⟩
  · intro p hp
    have := computePaging_in_range count itemsOnPage hc hi p (by rw [hT0]; omega) (by omega)
      (page_end_fits count itemsOnPage hc hi hc62 hi63 p (by rw [hT0]; omega))
    rw [this, hT0]
    simp
  · simp [hc]
  · intro p _
    simp
  · simp only [Nat.add_sub_cancel]
    exact min_eq_right hcover
  · intro p _
    apply min_le_min_right
    have : (0 : Int) ≤ itemsOnPage := by omega
    nlinarith
  · intro i hi0 hic
    have hipos : (0 : Int) < itemsOnPage := by omega
    have hdiv_nn : 0 ≤ i / itemsOnPage := Int.ediv_nonneg hi0 (by omega)
    obtain ⟨q, hq'⟩ := Int.eq_ofNat_of_zero_le hdiv_nn
    have hlo : (q : Int) * itemsOnPage ≤ i := by
      rw [← hq']; exact Int.ediv_mul_le i (by omega)
    have hhi : i < ((q : Int) + 1) * itemsOnPage := by
      rw [← hq']; exact Int.lt_ediv_add_one_mul_self i hipos
    refine ⟨q, ⟨?_, ?_, ?_⟩, ?_⟩
    · by_contra hcon
      have hge : (T0 : Int) + 1 ≤ q := by omega
      have : ((T0 : Int) + 1) * itemsOnPage ≤ (q : Int) * itemsOnPage :=
        Int.mul_le_mul_of_nonneg_right hge (by omega)
      omega
    · exact le_trans (min_le_left _ _) hlo
    · exact lt_min hhi hic
    · rintro y ⟨_, hy1, hy2⟩
      beta_reduce at hy1 hy2
      have hy2' : i < ((y : Int) + 1) * itemsOnPage := lt_of_lt_of_le hy2 (min_le_left _ _)
      have hy1' : (y : Int) * itemsOnPage ≤ i := by
        rcases min_choice ((y : Int) * itemsOnPage) count with h | h
        · rw [h] at hy1; exact hy1
        · rw [h] at hy1; omega
      have e1 : (y : Int) < (q : Int) + 1 := by
        by_contra hcon
        have : ((q : Int) + 1) * itemsOnPage ≤ (y : Int) * itemsOnPage :=
          Int.mul_le_mul_of_nonneg_right (by omega) (by omega)
        omega
      have e2 : (q : Int) < (y : Int) + 1 := by
        by_contra hcon
        have : ((y : Int) + 1) * itemsOnPage ≤ (q : Int) * itemsOnPage :=
          Int.mul_le_mul_of_nonneg_right (by omega) (by omega)
        omega
      omega
  · have hsum := Finset.sum_range_sub (fun p : Nat => min ((p : Int) * itemsOnPage) count) (T0 + 1)
    simp only [Nat.cast_add, Nat.cast_one] at hsum
    rw [hsum]
    simp only [Nat.cast_zero, zero_mul]
    rw [min_eq_right hcover, min_eq_left hc]
    ring

/-- C2 at the spec's scenario: 7 items with 3 per page. -/
theorem computePaging_pages_partition_witness :
    (0 : Int) ≤ 7 ∧ (1 : Int) ≤ 3 ∧ (7 : Int) ≤ 2 ^ 62 ∧ (3 : Int) < 2 ^ 63 ∧
    ∃ (T : Nat) (f t : Nat → Int),
      1 ≤ T ∧
      (∀ p : Nat, p < T → computePaging 7 p 3 =
          .ok ({ ItemsOnPage := 3, Page := (p : Int) + 1, TotalPages := T },
               f p, t p, (p : Int))) ∧
      f 0 = 0 ∧
      (∀ p : Nat, p + 1 < T → t p = f (p + 1)) ∧
      t (T - 1) = 7 ∧
      (∀ p : Nat, p < T → f p ≤ t p) ∧
      (∀ i : Int, 0 ≤ i → i < 7 → ∃! p : Nat, p < T ∧ f p ≤ i ∧ i < t p) ∧
      ∑ p ∈ Finset.range T, (t p - f p) = 7 :=
  ⟨by decide, by decide, by decide, by decide,
   computePaging_pages_partition 7 3 (by decide) (by decide) (by decide) (by decide)⟩

/-! ## Spending-transaction lookup -/

/-- C3 (code defect): on the two-block fixture `GetSpendingTxid(TxidB1T1, 1)` is `TxidB2T1`
and `GetSpendingTxid(TxidB1T1, 0)` is empty; but where `T` pays the same amount twice to
one address and `S` spends only output 1 of `T`, `GetSpendingTxid(T, 0)` returns `S`
although output 0 of `T` is unspent and no vin of `S` references the outpoint `(T, 0)`. -/
theorem GetSpendingTxid_names_spender_of_twin_output :
    scenario.fixtureWorker.GetSpendingTxid scenario.TxidB1T1 1 = .ok scenario.TxidB2T1 ∧
    scenario.fixtureWorker.GetSpendingTxid scenario.TxidB1T1 0 = .ok "" ∧
    scenario.twinWorker.GetSpendingTxid "T" 0 = .ok "S" ∧
    scenario.twinWorker.txCache.GetTransaction "S" = .ok (scenario.txS, 2) ∧
    (∀ vin ∈ scenario.txS.Vin, ¬ (vin.Txid = "T" ∧ vin.Vout = 0)) ∧
    scenario.twinStore.GetTxAddresses "T" =
      .ok (some { Height := 1, Inputs := [],
                  Outputs := [{ AddrDesc := [97], Spent := false, ValueSat := 50 },
                              { AddrDesc := [97], Spent := true, ValueSat := 50 }] }) := by
  refine ⟨by rfl, by rfl, by rfl, by rfl, by decide, by rfl⟩

/-- C4 (code defect): while resolving output 0 of `T`, the callback of `setSpendingTxToVout`
accepts the input posting `(S, 0)` (it sets `SpentTxID := S`, `SpentIndex := 0` and stops
the iteration): the input slot holds the output's amount and vin 0 of `S` has `Txid = T`,
yet its `Vout` is 1, not 0. -/
theorem setSpendingTxToVout_accepts_vin_of_other_vout :
    Worker.setSpendingTxToVout.callback scenario.twinWorker "T"
        { N := 0, ValueSat := some 50, Hex := "a", AddrDesc := [97] } "S" 0 false =
      .ok ({ N := 0, ValueSat := some 50, Hex := "a", AddrDesc := [97], SpentTxID := "S",
             SpentIndex := 0, SpentHeight := 2 }, some .stopIteration) ∧
    scenario.twinWorker.txCache.GetTransaction "S" = .ok (scenario.txS, 2) ∧
    scenario.txS.Vin.get? 0 = some { Txid := "T", Vout := 1 } := by
  refine ⟨by rfl, by rfl, by rfl⟩

/-! ## Unspent outputs of an address -/

/-- C5 (code defect): in an index where the address `c` has the balance 2^63, which is the
amount of its one unspent output, and that output has its posting, `GetAddressUtxo(c, true)`
returns no entry (the guard `checksum.Int64() > 0` reads 2^63 as negative), so the amounts
sum to 0 and not to the balance; the probe at the end reports the checksum as not zero. -/
theorem GetAddressUtxo_skips_balance_of_two_pow_63 :
    scenario.bigWorker.GetAddressUtxo "c" true = .ok [] ∧
    scenario.bigStore.GetAddrDescBalance [99] =
      .ok (some { Txs := 1, SentSat := 0, BalanceSat := 2 ^ 63 }) ∧
    scenario.bigStore.GetTxAddresses "B" =
      .ok (some { Height := 1, Inputs := [],
                  Outputs := [{ AddrDesc := [99], Spent := false, ValueSat := 2 ^ 63 }] }) ∧
    scenario.bigStore.Addresses [99] = [(1, [{ btxID := "B", index := 0 }])] ∧
    bigInt64 (2 ^ 63) = -(2 ^ 63) ∧
    Worker.GetAddressUtxo.checksumWarning (2 ^ 63) = true := by
  refine ⟨by rfl, by rfl, by rfl, by rfl, by rfl, by rfl⟩

/-! ## `GetSpendingTxid`: the vout index check -/

theorem vinStep_withAddresses (w : Worker) (a : AddressDescriptor → List (Nat × List db.outpoint))
    (i : Nat) (bchainVin : bchain.Vin) (v : Int) :
    Worker.GetTransactionFromBchainTx.vinStep (w.withAddresses a) i bchainVin v =
      Worker.GetTransactionFromBchainTx.vinStep w i bchainVin v := rfl

theorem vinLoop_withAddresses (w : Worker) (a : AddressDescriptor → List (Nat × List db.outpoint))
    (l : List bchain.Vin) (i : Nat) (v : Int) :
    Worker.GetTransactionFromBchainTx.vinLoop (w.withAddresses a) l i v =
      Worker.GetTransactionFromBchainTx.vinLoop w l i v := by
  induction l generalizing i v with
  | nil => rfl
  | cons x rest ih =>
    simp only [Worker.GetTransactionFromBchainTx.vinLoop, vinStep_withAddresses, ih]

theorem voutStep_withAddresses (w : Worker) (a : AddressDescriptor → List (Nat × List db.outpoint))
    (bchainTx : bchain.Tx) (height : Nat) (ta : Option db.TxAddresses) (i : Nat)
    (x : bchain.Vout) :
    Worker.GetTransactionFromBchainTx.voutStep (w.withAddresses a) bchainTx height false ta i x =
      Worker.GetTransactionFromBchainTx.voutStep w bchainTx height false ta i x := by
  simp only [Worker.GetTransactionFromBchainTx.voutStep, Bool.false_and]
  rfl

theorem voutLoop_withAddresses (w : Worker) (a : AddressDescriptor → List (Nat × List db.outpoint))
    (bchainTx : bchain.Tx) (height : Nat) (ta : Option db.TxAddresses)
    (l : List bchain.Vout) (i : Nat) (v : Int) :
    Worker.GetTransactionFromBchainTx.voutLoop (w.withAddresses a) bchainTx height false ta l i v =
      Worker.GetTransactionFromBchainTx.voutLoop w bchainTx height false ta l i v := by
  induction l generalizing i v with
  | nil => rfl
  | cons x rest ih =>
    simp only [Worker.GetTransactionFromBchainTx.voutLoop, voutStep_withAddresses, ih]

/-- With `spendingTxs = false` a transaction is assembled without reading the Addresses
column. -/
theorem GetTransaction_withAddresses (w : Worker)
    (a : AddressDescriptor → List (Nat × List db.outpoint)) (txid : String) (sj : Bool) :
    (w.withAddresses a).GetTransaction txid false sj = w.GetTransaction txid false sj := by
  unfold Worker.GetTransaction
  have h1 : (w.withAddresses a).txCache = w.txCache := rfl
  rw [h1]
  cases w.txCache.GetTransaction txid with
  | error e => rfl
  | ok r =>
    obtain ⟨bchainTx, height⟩ := r
    simp only [Worker.GetTransactionFromBchainTx, vinLoop_withAddresses, voutLoop_withAddresses]
    rfl

/-- C10 (amended): for a found transaction `tx` and an index `n < 0` or `n ≥ len(tx.Vout)`,
`GetSpendingTxid` returns the API error "Passed incorrect vout index ..." whose `Public` flag
is false (it is not caller-visible), whatever the Addresses column holds (the index is not
searched); for `0 ≤ n < len(tx.Vout)` the outcome is that of `setSpendingTxToVout` on output
`n`, so this error is not raised. -/
theorem GetSpendingTxid_incorrect_vout_index (w : Worker) (txid : String) (tx : Tx) (n : Int)
    (htx : w.GetTransaction txid false false = .ok tx) :
    ((n < 0 ∨ n ≥ (tx.Vout.length : Int)) →
      ∀ a : AddressDescriptor → List (Nat × List db.outpoint),
        (w.withAddresses a).GetSpendingTxid txid n =
          .error (.error (.apiError
            ("Passed incorrect vout index " ++ Itoa n ++ " for tx " ++ tx.Txid ++
              ", len vout " ++ Itoa (tx.Vout.length : Int)) false))) ∧
    ((0 ≤ n ∧ n < (tx.Vout.length : Int)) →
      ∃ vout, tx.Vout.get? n.toNat = some vout ∧
        w.GetSpendingTxid txid n =
          match w.setSpendingTxToVout vout tx.Txid tx.Blockheight.toNat with
          | .error f => .error f
          | .ok (_, some err) => .error (.error err)
          | .ok (vout1, none) => .ok vout1.SpentTxID) := by
  constructor
  · intro hn a
    unfold Worker.GetSpendingTxid
    rw [GetTransaction_withAddresses, htx]
    have hc : n ≥ (tx.Vout.length : Int) ∨ n < 0 := by omega
    simp only [hc, if_true]
  · intro hn
    have hlt : n.toNat < tx.Vout.length := by omega
    refine ⟨tx.Vout.get ⟨n.toNat, hlt⟩, List.get?_eq_get hlt, ?_⟩
    unfold Worker.GetSpendingTxid
    rw [htx]
    have hc : ¬ (n ≥ (tx.Vout.length : Int) ∨ n < 0) := by omega
    have hidx : goIndex tx.Vout n = .ok (tx.Vout.get ⟨n.toNat, hlt⟩) := by
      unfold goIndex
      rw [if_neg (by omega), List.get?_eq_get hlt]
    simp only [hc, if_false, hidx]

/-- C10 at the index 2 of the two-output transaction `T`. -/
theorem GetSpendingTxid_incorrect_vout_index_witness :
    scenario.twinWorker.GetTransaction "T" false false = .ok scenario.twinTxT ∧
    ∀ a : AddressDescriptor → List (Nat × List db.outpoint),
      (scenario.twinWorker.withAddresses a).GetSpendingTxid "T" 2 =
        .error (.error (.apiError "Passed incorrect vout index 2 for tx T, len vout 2" false)) :=
  ⟨by rfl, (GetSpendingTxid_incorrect_vout_index scenario.twinWorker "T" scenario.twinTxT 2
    (by rfl)).1 (by decide)⟩

/-- C10 (counterexample): the error for the out-of-range index 2 is an API error with
`Public = false`, so it is not a public (caller-visible) API error. -/
theorem GetSpendingTxid_incorrect_vout_index_not_public :
    scenario.twinWorker.GetTransaction "T" false false = .ok scenario.twinTxT ∧
    (2 : Int) ≥ (scenario.twinTxT.Vout.length : Int) ∧
    ¬ ∃ text, scenario.twinWorker.GetSpendingTxid "T" 2 =
        .error (.error (.apiError text true)) := by
  refine ⟨by rfl, by decide, ?_⟩
  rintro ⟨text, h⟩
  have h2 : scenario.twinWorker.GetSpendingTxid "T" 2 =
      .error (.error (.apiError "Passed incorrect vout index 2 for tx T, len vout 2" false)) := by
    rfl
  rw [h2] at h
  simp at h

/-! ## `GetAddress`: which failures it can end with -/

theorem goSet_error {α : Type} (xs : List α) (i : Nat) (x : α) (f : Failure)
    (h : goSet xs i x = .error f) : f.isApiError = false := by
  unfold goSet at h
  split at h
  · cases h
  · cases h; rfl

theorem goIndex_error {α : Type} (xs : List α) (i : Int) (f : Failure)
    (h : goIndex xs i = .error f) : f.isApiError = false := by
  unfold goIndex at h
  split at h
  · cases h; rfl
  · split at h
    · cases h
    · cases h; rfl

theorem mempoolLoop_error (w : Worker) (addrDesc : AddressDescriptor)
    (option : GetAddressOption) (page : Int) (l : List String) (st : HistoryVars) (f : Failure)
    (h : Worker.GetAddress.mempoolLoop w addrDesc option page l st = .error f) :
    f.isApiError = false := by
  induction l generalizing st with
  | nil => cases h
  | cons txid rest ih =>
    unfold Worker.GetAddress.mempoolLoop at h
    split at h
    · cases h; rfl
    · exact ih _ h
    · split at h
      · split at h
        · split at h
          · rename_i f1 hs; cases h; exact goSet_error _ _ _ _ hs
          · exact ih _ h
        · split at h
          · rename_i f1 hs; cases h; exact goSet_error _ _ _ _ hs
          · exact ih _ h
      · exact ih _ h

theorem confirmedLoop_error (w : Worker) (option : GetAddressOption) (txc : List String)
    (bestheight : Nat) (k : Nat) (i : Int) (st : HistoryVars) (f : Failure)
    (h : Worker.GetAddress.confirmedLoop w option txc bestheight k i st = .error f) :
    f.isApiError = false := by
  induction k generalizing i st with
  | zero => cases h
  | succ k ih =>
    unfold Worker.GetAddress.confirmedLoop at h
    split at h
    · rename_i f1 hs; cases h; exact goIndex_error _ _ _ hs
    · split at h
      · split at h
        · rename_i f1 hs; cases h; exact goSet_error _ _ _ _ hs
        · exact ih _ _ h
      · split at h
        · split at h
          · cases h; rfl
          · exact ih _ _ h
          · split at h
            · cases h; rfl
            · exact ih _ _ h
            · split at h
              · rename_i f1 hs; cases h; exact goSet_error _ _ _ _ hs
              · exact ih _ _ h
        · split at h
          · cases h; rfl
          · split at h
            · rename_i f1 hs; cases h; exact goSet_error _ _ _ _ hs
            · cases h; rfl
          · split at h
            · rename_i f1 hs; cases h; exact goSet_error _ _ _ _ hs
            · exact ih _ _ h

theorem computePaging_error (count page itemsOnPage : Int) (f : Failure)
    (h : computePaging count page itemsOnPage = .error f) : f.isApiError = false := by
  unfold computePaging goDiv at h
  by_cases h0 : itemsOnPage = 0
  · simp only [h0, if_true, bind, Except.bind] at h
    cases h; rfl
  · simp only [h0, if_false, bind, Except.bind, pure, Except.pure] at h
    cases h

theorem goMake_error {α : Type} (z : α) (n : Int) (f : Failure)
    (h : goMake z n = .error f) : f.isApiError = false := by
  unfold goMake at h
  split at h
  · cases h; rfl
  · cases h

theorem addFilteredTxid_ok (filter : AddressFilter) (s : List String) (txid : String)
    (vout : Int) (isOutput : Bool) :
    ∃ s1, Worker.getAddressTxids.addFilteredTxid filter s txid vout isOutput = .ok (s1, none) := by
  unfold Worker.getAddressTxids.addFilteredTxid
  split_ifs
  · exact ⟨_, rfl⟩
  · exact ⟨_, rfl⟩

theorem iteratePostings_addFilteredTxid_ok (filter : AddressFilter) (l : List db.outpoint)
    (s : List String) :
    ∃ r, db.iteratePostings (Worker.getAddressTxids.addFilteredTxid filter) l s = .ok (r, none) := by
  induction l generalizing s with
  | nil => exact ⟨s, rfl⟩
  | cons o rest ih =>
    unfold db.iteratePostings
    dsimp only
    obtain ⟨s1, hs1⟩ := addFilteredTxid_ok filter s o.btxID
      (if o.index < 0 then -o.index - 1 else o.index) (if o.index < 0 then false else true)
    rw [hs1]
    exact ih _

theorem GetAddrDescTransactions_addFilteredTxid_ok (d : db.RocksDB) (addrDesc : AddressDescriptor)
    (lower higher : Nat) (filter : AddressFilter) (s : List String) :
    ∃ r, d.GetAddrDescTransactions addrDesc lower higher
      (Worker.getAddressTxids.addFilteredTxid filter) s = .ok (r, none) :=
  iteratePostings_addFilteredTxid_ok filter _ s

theorem mempoolLoop_txids_ok (filter : AddressFilter) (l : List bchain.Outpoint)
    (s : List String) :
    ∃ r, Worker.getAddressTxids.mempoolLoop filter l s = .ok r := by
  induction l generalizing s with
  | nil => exact ⟨s, rfl⟩
  | cons o rest ih =>
    unfold Worker.getAddressTxids.mempoolLoop
    dsimp only
    obtain ⟨s1, hs1⟩ := addFilteredTxid_ok filter s o.Txid
      (if o.Vout < 0 then -o.Vout - 1 else o.Vout) (if o.Vout < 0 then false else true)
    rw [hs1]
    exact ih _

theorem getAddressTxids_error (w : Worker) (addrDesc : AddressDescriptor) (mempool : Bool)
    (filter : AddressFilter) (f : Failure)
    (h : w.getAddressTxids addrDesc mempool filter = .error f) :
    ∃ err, f = .error err := by
  unfold Worker.getAddressTxids at h
  cases mempool with
  | true =>
    simp only [if_true] at h
    cases h1 : w.chain.GetMempoolTransactionsForAddrDesc addrDesc with
    | error e => rw [h1] at h; cases h; exact ⟨e, rfl⟩
    | ok o =>
      rw [h1] at h
      obtain ⟨r, hr⟩ := mempoolLoop_txids_ok filter o []
      simp only [hr] at h
      cases h
  | false =>
    simp only [Bool.false_eq_true, if_false] at h
    obtain ⟨r, hr⟩ := GetAddrDescTransactions_addFilteredTxid_ok w.db addrDesc filter.FromHeight
      (if filter.ToHeight = 0 then 2 ^ 32 - 1 else filter.ToHeight) filter []
    rw [hr] at h
    cases h

theorem history_error (w : Worker) (addrDesc : AddressDescriptor)
    (option : GetAddressOption) (filter : AddressFilter) (txm : List String) (page : Int)
    (txsOnPage : Int) (f : Failure)
    (h : Worker.GetAddress.history w addrDesc option filter txm page txsOnPage = .error f) :
    f.isApiError = false := by
  unfold Worker.GetAddress.history at h
  cases h1 : w.getAddressTxids addrDesc false filter with
  | error f1 =>
    obtain ⟨err, rfl⟩ := getAddressTxids_error _ _ _ _ _ h1
    rw [h1] at h; cases h; rfl
  | ok txc =>
    rw [h1] at h
    dsimp only at h
    cases h2 : w.db.GetBestBlock with
    | error e => rw [h2] at h; cases h; rfl
    | ok bb =>
      obtain ⟨bestheight, bh⟩ := bb
      rw [h2] at h
      dsimp only at h
      cases h3 : computePaging ((UniqueTxidsInReverse txc).length : Int) page txsOnPage with
      | error f1 => rw [h3] at h; cases h; exact computePaging_error _ _ _ _ h3
      | ok r =>
        obtain ⟨pg, from_, to_, page1⟩ := r
        rw [h3] at h
        dsimp only at h
        by_cases hopt : option = GetAddressOption.TxidHistory
        · simp only [hopt, if_true] at h
          cases h4 : goMake "" ((txm.length : Int) + to_ - from_) with
          | error f1 => rw [h4] at h; cases h; exact goMake_error _ _ _ h4
          | ok txids =>
            rw [h4] at h
            dsimp only at h
            cases h5 : Worker.GetAddress.mempoolLoop w addrDesc GetAddressOption.TxidHistory page1
                txm { uBalSat := 0, txids := txids, txs := [], txi := 0 } with
            | error f1 => rw [h5] at h; cases h; exact mempoolLoop_error _ _ _ _ _ _ _ h5
            | ok st =>
              rw [h5] at h
              dsimp only at h
              cases h6 : Worker.GetAddress.confirmedLoop w GetAddressOption.TxidHistory
                  (UniqueTxidsInReverse txc) bestheight (to_ - from_).toNat from_ st with
              | error f1 =>
                rw [h6] at h; cases h; exact confirmedLoop_error _ _ _ _ _ _ _ _ h6
              | ok st1 => rw [h6] at h; cases h
        · simp only [hopt, if_false] at h
          cases h4 : goMake (none : Option Tx) ((txm.length : Int) + to_ - from_) with
          | error f1 => rw [h4] at h; cases h; exact goMake_error _ _ _ h4
          | ok txs =>
            rw [h4] at h
            dsimp only at h
            cases h5 : Worker.GetAddress.mempoolLoop w addrDesc option page1
                txm { uBalSat := 0, txids := [], txs := txs, txi := 0 } with
            | error f1 => rw [h5] at h; cases h; exact mempoolLoop_error _ _ _ _ _ _ _ h5
            | ok st =>
              rw [h5] at h
              dsimp only at h
              cases h6 : Worker.GetAddress.confirmedLoop w option
                  (UniqueTxidsInReverse txc) bestheight (to_ - from_).toNat from_ st with
              | error f1 =>
                rw [h6] at h; cases h; exact confirmedLoop_error _ _ _ _ _ _ _ _ h6
              | ok st1 =>
                rw [h6] at h
                dsimp only at h
                split_ifs at h

/-! ## `GetAddress` for an address without balance row -/

/-- C9 (amended): on a UTXO chain, for an address whose descriptor has no AddrBalance row
(`GetAddrDescBalance` gives nil without error), `GetAddress` does not end with an API error
(so not with "Address not found"): it looks into the mempool, and for an option below
`TxidHistory` with a successful mempool lookup it returns an Address with balance 0, totals 0,
`TxApperances` 0 and the number of distinct mempool txids as `UnconfirmedTxApperances`.  The
public API error "Address not found" is what it returns when the read `GetAddrDescBalance`
itself fails. -/
theorem GetAddress_address_without_balance_row (w : Worker) (address : String)
    (addrDesc : AddressDescriptor) (page txsOnPage : Int) (option : GetAddressOption)
    (filter : AddressFilter)
    (hchain : w.chainType = bchain.ChainType.ChainBitcoinType)
    (hparse : w.chainParser.GetAddrDescFromAddress address = (addrDesc, none)) :
    (∀ err, w.db.GetAddrDescBalance addrDesc = .error err →
      w.GetAddress address page txsOnPage option filter =
        .error (.error (.apiError ("Address not found, " ++ err.text) true))) ∧
    (w.db.GetAddrDescBalance addrDesc = .ok none →
      (∀ f, w.GetAddress address page txsOnPage option filter = .error f →
        f.isApiError = false) ∧
      (∀ txm, option.toNat < GetAddressOption.TxidHistory.toNat →
        w.getAddressTxids addrDesc true filter = .ok txm →
        w.GetAddress address page txsOnPage option filter =
          .ok { AddrStr := (match (w.chainParser.GetAddressesFromAddrDesc addrDesc).1 with
                            | [a] => a
                            | _ => address),
                BalanceSat := some 0, TotalReceivedSat := some 0, TotalSentSat := some 0,
                TxApperances := 0, UnconfirmedBalanceSat := some 0,
                UnconfirmedTxApperances := ((UniqueTxidsInReverse txm).length : Int) })) := by
  refine ⟨?_, ?_⟩
  · intro err herr
    unfold Worker.GetAddress
    simp only [hparse, hchain, herr]
  · intro hnone
    refine ⟨?_, ?_⟩
    · intro f h
      unfold Worker.GetAddress at h
      simp only [hparse, hchain, hnone, or_true, if_true] at h
      cases h1 : w.getAddressTxids addrDesc true filter with
      | error f1 =>
        obtain ⟨err, rfl⟩ := getAddressTxids_error _ _ _ _ _ h1
        rw [h1] at h; cases h; rfl
      | ok txm =>
        rw [h1] at h
        dsimp only at h
        by_cases hopt : option.toNat ≥ GetAddressOption.TxidHistory.toNat
        · simp only [hopt, if_true] at h
          cases h2 : Worker.GetAddress.history w addrDesc option filter
              (UniqueTxidsInReverse txm) 0 txsOnPage with
          | error f1 => rw [h2] at h; cases h; exact history_error _ _ _ _ _ _ _ _ h2
          | ok r => rw [h2] at h; cases h
        · simp only [hopt, if_false] at h
          cases h
    · intro txm hopt hmem
      unfold Worker.GetAddress
      have hopt' : ¬ (option.toNat ≥ GetAddressOption.TxidHistory.toNat) := by omega
      simp only [hparse, hchain, hnone, or_true, if_true, hmem, hopt', if_false]
      rfl

/-- C9 at the address `zz`, which the index over `twinStore` does not know. -/
theorem GetAddress_address_without_balance_row_witness :
    scenario.twinWorker.chainType = bchain.ChainType.ChainBitcoinType ∧
    scenario.twinWorker.chainParser.GetAddrDescFromAddress "zz" = ([122, 122], none) ∧
    scenario.twinWorker.db.GetAddrDescBalance [122, 122] = .ok none ∧
    scenario.twinWorker.getAddressTxids [122, 122] true { Vout := AddressFilterVoutOff } = .ok [] ∧
    scenario.twinWorker.GetAddress "zz" 1 10 GetAddressOption.Basic { Vout := AddressFilterVoutOff } =
      .ok { AddrStr := "zz", BalanceSat := some 0, TotalReceivedSat := some 0,
            TotalSentSat := some 0, TxApperances := 0, UnconfirmedBalanceSat := some 0,
            UnconfirmedTxApperances := 0 } :=
  ⟨rfl, rfl, rfl, rfl,
   ((GetAddress_address_without_balance_row scenario.twinWorker "zz" [122, 122] 1 10
      GetAddressOption.Basic { Vout := AddressFilterVoutOff } rfl rfl).2 rfl).2 [] (by decide) rfl⟩

/-- C9 (counterexample): the address `zz` has no row in the index over `twinStore`, a UTXO
chain, and `GetAddress` returns an Address result for it, not an error. -/
theorem GetAddress_unknown_address_is_not_an_error :
    scenario.twinWorker.chainType = bchain.ChainType.ChainBitcoinType ∧
    scenario.twinWorker.chainParser.GetAddrDescFromAddress "zz" = ([122, 122], none) ∧
    scenario.twinWorker.db.GetAddrDescBalance [122, 122] = .ok none ∧
    ∃ r : Address,
      scenario.twinWorker.GetAddress "zz" 1 10 GetAddressOption.Basic
        { Vout := AddressFilterVoutOff } = .ok r :=
  ⟨rfl, rfl, rfl, _, rfl⟩

/-! ## `GetAddressUtxo`: the entries from the index -/


theorem iteratePostings_collect (l : List db.outpoint) (acc : List bchain.Outpoint) :
    db.iteratePostings Worker.GetAddressUtxo.collect l acc =
      .ok (acc ++ (l.filter (fun o => decide (0 ≤ o.index))).map
        (fun o => ({ Txid := o.btxID, Vout := o.index } : bchain.Outpoint)), none) := by
  induction l generalizing acc with
  | nil => simp [db.iteratePostings]
  | cons o rest ih =>
    unfold db.iteratePostings
    by_cases hneg : o.index < 0
    · have hnot : ¬ (0 ≤ o.index) := by omega
      simp only [hneg, if_true, Worker.GetAddressUtxo.collect, Bool.false_eq_true, if_false, ih,
        List.filter_cons, hnot, decide_False]
    · have hnn : 0 ≤ o.index := by omega
      simp only [hneg, if_false, Worker.GetAddressUtxo.collect, if_true, ih,
        List.filter_cons, hnn, decide_True, List.map_cons, List.append_assoc,
        List.singleton_append]

theorem GetAddrDescTransactions_collect (d : db.RocksDB) (addrDesc : AddressDescriptor) :
    d.GetAddrDescTransactions addrDesc 0 (2 ^ 32 - 1) Worker.GetAddressUtxo.collect [] =
      .ok (outputPostings d addrDesc, none) := by
  unfold db.RocksDB.GetAddrDescTransactions outputPostings
  rw [iteratePostings_collect]
  simp

theorem outputPostings_nonneg (d : db.RocksDB) (addrDesc : AddressDescriptor)
    (o : bchain.Outpoint) (h : o ∈ outputPostings d addrDesc) : 0 ≤ o.Vout := by
  unfold outputPostings at h
  simp only [List.mem_map, List.mem_filter, decide_eq_true_eq] at h
  obtain ⟨p, ⟨_, hp⟩, rfl⟩ := h
  exact hp

/-- One pass of the index walk after its row lookup: `ta` is the row in use. -/
theorem walk_pass (w : Worker) (spent : List String) (bestheight : Int)
    (o : bchain.Outpoint) (rest : List bchain.Outpoint) (st st1 : UtxoWalk)
    (ta : Option db.TxAddresses) (lastTxid : String)
    (hrow : ta = none ∨ w.db.GetTxAddresses o.Txid = .ok ta)
    (hinv1 : ∀ c r, walkInv w { lastTxid := lastTxid, ta := ta, checksum := c, r := r })
    (ih : ∀ st : UtxoWalk, walkInv w st →
      Worker.GetAddressUtxo.walk w spent bestheight rest st = .ok st1 →
      ∃ ix, st1.r = st.r ++ ix ∧ (ix.map AddressUtxo.outpoint).Sublist rest ∧
        ∀ u ∈ ix, u.isUnspentSlot w.db)
    (h : (match ta with
        | none =>
          Worker.GetAddressUtxo.walk w spent bestheight rest
            { st with lastTxid := lastTxid, ta := ta }
        | some row =>
          if (row.Outputs.length : Int) ≤ o.Vout then
            Worker.GetAddressUtxo.walk w spent bestheight rest
              { st with lastTxid := lastTxid, ta := ta }
          else
            match goIndex row.Outputs o.Vout with
            | .error f => .error f
            | .ok output =>
              if !output.Spent then
                let v := output.ValueSat
                let r1 :=
                  if o.Txid ++ Itoa o.Vout ∈ spent then st.r
                  else st.r ++ [({ Txid := o.Txid, Vout := o.Vout, AmountSat := some v,
                                   Height := (row.Height : Int),
                                   Confirmations := bestheight - (row.Height : Int) + 1 } :
                                   AddressUtxo)]
                Worker.GetAddressUtxo.walk w spent bestheight rest
                  { lastTxid := lastTxid, ta := ta, checksum := st.checksum - v, r := r1 }
              else
                Worker.GetAddressUtxo.walk w spent bestheight rest
                  { st with lastTxid := lastTxid, ta := ta }) = .ok st1) :
    ∃ ix, st1.r = st.r ++ ix ∧ (ix.map AddressUtxo.outpoint).Sublist (o :: rest) ∧
      ∀ u ∈ ix, u.isUnspentSlot w.db := by
  have skip : ∀ st0 : UtxoWalk, st0.r = st.r → walkInv w st0 →
      Worker.GetAddressUtxo.walk w spent bestheight rest st0 = .ok st1 →
      ∃ ix, st1.r = st.r ++ ix ∧ (ix.map AddressUtxo.outpoint).Sublist (o :: rest) ∧
        ∀ u ∈ ix, u.isUnspentSlot w.db := by
    intro st0 hr hi hw
    obtain ⟨ix, h1, h2, h3⟩ := ih st0 hi hw
    exact ⟨ix, by rw [h1, hr], List.Sublist.cons o h2, h3⟩
  cases ta with
  | none => exact skip _ (by rfl) (hinv1 _ _) h
  | some row =>
    dsimp only at h
    by_cases hlen : (row.Outputs.length : Int) ≤ o.Vout
    · rw [if_pos hlen] at h
      exact skip _ (by rfl) (hinv1 _ _) h
    · rw [if_neg hlen] at h
      cases hidx : goIndex row.Outputs o.Vout with
      | error f => rw [hidx] at h; cases h
      | ok output =>
        rw [hidx] at h
        dsimp only at h
        have hget : 0 ≤ o.Vout ∧ row.Outputs.get? o.Vout.toNat = some output := by
          unfold goIndex at hidx
          by_cases hneg : o.Vout < 0
          · rw [if_pos hneg] at hidx; cases hidx
          · rw [if_neg hneg] at hidx
            refine ⟨by omega, ?_⟩
            cases hg : row.Outputs.get? o.Vout.toNat with
            | none => rw [hg] at hidx; cases hidx
            | some x => rw [hg] at hidx; cases hidx; rfl
        cases hsp : output.Spent with
        | true =>
          rw [hsp] at h
          exact skip _ (by rfl) (hinv1 _ _) h
        | false =>
          rw [hsp] at h
          simp only [Bool.not_false, if_true] at h
          by_cases hmem : o.Txid ++ Itoa o.Vout ∈ spent
          · rw [if_pos hmem] at h
            exact skip _ (by rfl) (hinv1 _ _) h
          · rw [if_neg hmem] at h
            obtain ⟨ix, h1, h2, h3⟩ := ih _ (hinv1 _ _) h
            refine ⟨({ Txid := o.Txid, Vout := o.Vout, AmountSat := some output.ValueSat,
                       Height := (row.Height : Int),
                       Confirmations := bestheight - (row.Height : Int) + 1 } : AddressUtxo) :: ix,
              ?_, ?_, ?_⟩
            · rw [h1]; simp
            · simp only [List.map_cons]
              exact List.Sublist.cons₂ _ h2
            · intro u hu
              rcases List.mem_cons.mp hu with rfl | hu
              · rcases hrow with hrow | hrow
                · cases hrow
                · exact ⟨row, output, hrow, hget.1, hget.2, hsp, rfl, rfl⟩
              · exact h3 u hu

theorem walk_entries (w : Worker) (spent : List String) (bestheight : Int)
    (l : List bchain.Outpoint) (st st1 : UtxoWalk)
    (hinv : walkInv w st)
    (h : Worker.GetAddressUtxo.walk w spent bestheight l st = .ok st1) :
    ∃ ix, st1.r = st.r ++ ix ∧ (ix.map AddressUtxo.outpoint).Sublist l ∧
      ∀ u ∈ ix, u.isUnspentSlot w.db := by
  induction l generalizing st with
  | nil =>
    unfold Worker.GetAddressUtxo.walk at h
    cases h
    exact ⟨[], by simp, by simp, by simp⟩
  | cons o rest ih =>
    unfold Worker.GetAddressUtxo.walk at h
    by_cases hg : bigInt64 st.checksum > 0
    · rw [if_pos hg] at h
      dsimp only at h
      by_cases hlast : st.lastTxid ≠ o.Txid
      · rw [if_pos hlast] at h
        cases hta : w.db.GetTxAddresses o.Txid with
        | error e => rw [hta] at h; cases h
        | ok ta =>
          rw [hta] at h
          dsimp only at h
          exact walk_pass w spent bestheight o rest st st1 ta o.Txid (Or.inr hta)
            (fun _ _ => Or.inr hta) ih h
      · rw [if_neg hlast] at h
        dsimp only at h
        have heq : st.lastTxid = o.Txid := not_not.mp hlast
        refine walk_pass w spent bestheight o rest st st1 st.ta st.lastTxid ?_ ?_ ih h
        · rcases hinv with ⟨_, h2⟩ | h2
          · exact Or.inl h2
          · exact Or.inr (heq ▸ h2)
        · intro c r
          rcases hinv with ⟨h1, h2⟩ | h2
          · exact Or.inl ⟨h1, h2⟩
          · exact Or.inr h2
    · rw [if_neg hg] at h
      cases h
      exact ⟨[], by simp, by simp, by simp⟩

theorem walk_error (w : Worker) (spent : List String) (bestheight : Int)
    (l : List bchain.Outpoint) (st : UtxoWalk) (f : Failure)
    (hnn : ∀ o ∈ l, 0 ≤ o.Vout)
    (h : Worker.GetAddressUtxo.walk w spent bestheight l st = .error f) :
    ∃ err, f = .error err := by
  induction l generalizing st with
  | nil => unfold Worker.GetAddressUtxo.walk at h; cases h
  | cons o rest ih =>
    have ih1 := fun st0 h0 => ih st0 (fun o1 ho1 => hnn o1 (List.mem_cons_of_mem _ ho1)) h0
    have ho : 0 ≤ o.Vout := hnn o (List.mem_cons_self _ _)
    have pass : ∀ (ta : Option db.TxAddresses) (lastTxid : String),
        (match ta with
        | none =>
          Worker.GetAddressUtxo.walk w spent bestheight rest
            { st with lastTxid := lastTxid, ta := ta }
        | some row =>
          if (row.Outputs.length : Int) ≤ o.Vout then
            Worker.GetAddressUtxo.walk w spent bestheight rest
              { st with lastTxid := lastTxid, ta := ta }
          else
            match goIndex row.Outputs o.Vout with
            | .error f => .error f
            | .ok output =>
              if !output.Spent then
                let v := output.ValueSat
                let r1 :=
                  if o.Txid ++ Itoa o.Vout ∈ spent then st.r
                  else st.r ++ [({ Txid := o.Txid, Vout := o.Vout, AmountSat := some v,
                                   Height := (row.Height : Int),
                                   Confirmations := bestheight - (row.Height : Int) + 1 } :
                                   AddressUtxo)]
                Worker.GetAddressUtxo.walk w spent bestheight rest
                  { lastTxid := lastTxid, ta := ta, checksum := st.checksum - v, r := r1 }
              else
                Worker.GetAddressUtxo.walk w spent bestheight rest
                  { st with lastTxid := lastTxid, ta := ta }) = .error f →
        ∃ err, f = .error err := by
      intro ta lastTxid h
      cases ta with
      | none => exact ih1 _ h
      | some row =>
        dsimp only at h
        by_cases hlen : (row.Outputs.length : Int) ≤ o.Vout
        · rw [if_pos hlen] at h; exact ih1 _ h
        · rw [if_neg hlen] at h
          have hlt : o.Vout.toNat < row.Outputs.length := by omega
          have hidx : goIndex row.Outputs o.Vout = .ok (row.Outputs.get ⟨o.Vout.toNat, hlt⟩) := by
            unfold goIndex
            rw [if_neg (by omega), List.get?_eq_get hlt]
          rw [hidx] at h
          dsimp only at h
          split_ifs at h <;> exact ih1 _ h
    unfold Worker.GetAddressUtxo.walk at h
    by_cases hg : bigInt64 st.checksum > 0
    · rw [if_pos hg] at h
      dsimp only at h
      by_cases hlast : st.lastTxid ≠ o.Txid
      · rw [if_pos hlast] at h
        cases hta : w.db.GetTxAddresses o.Txid with
        | error e => rw [hta] at h; cases h; exact ⟨e, rfl⟩
        | ok ta =>
          rw [hta] at h
          dsimp only at h
          exact pass ta o.Txid h
      · rw [if_neg hlast] at h
        dsimp only at h
        exact pass st.ta st.lastTxid h
    · rw [if_neg hg] at h
      cases h

theorem mempoolPart_error (w : Worker) (address : String) (addrDesc : AddressDescriptor)
    (f : Failure) (h : Worker.GetAddressUtxo.mempoolPart w address addrDesc = .error f) :
    ∃ err, f = .error err := by
  unfold Worker.GetAddressUtxo.mempoolPart at h
  cases h1 : w.getAddressTxids addrDesc true { Vout := AddressFilterVoutOff } with
  | error f1 =>
    obtain ⟨err, rfl⟩ := getAddressTxids_error _ _ _ _ _ h1
    rw [h1] at h; cases h; exact ⟨_, rfl⟩
  | ok txm => rw [h1] at h; cases h

theorem indexPart_entries (w : Worker) (addrDesc : AddressDescriptor) (spent : List String)
    (r0 r : List AddressUtxo) (c : Int)
    (h : Worker.GetAddressUtxo.indexPart w addrDesc spent r0 = .ok (r, c)) :
    ∃ ix, r = r0 ++ ix ∧
      (ix.map AddressUtxo.outpoint).Sublist (outputPostings w.db addrDesc).reverse ∧
      ∀ u ∈ ix, u.isUnspentSlot w.db := by
  unfold Worker.GetAddressUtxo.indexPart at h
  cases hb : w.db.GetAddrDescBalance addrDesc with
  | error e => rw [hb] at h; cases h
  | ok ba =>
    rw [hb] at h
    dsimp only at h
    cases ba with
    | none => cases h; exact ⟨[], by simp, by simp, by simp⟩
    | some ba =>
      dsimp only at h
      by_cases hg : bigUint64 ba.BalanceSat > 0
      · rw [if_pos hg, GetAddrDescTransactions_collect] at h
        dsimp only at h
        cases hbb : w.db.GetBestBlock with
        | error e => rw [hbb] at h; cases h
        | ok bb =>
          obtain ⟨b, bh⟩ := bb
          rw [hbb] at h
          dsimp only at h
          cases hw : Worker.GetAddressUtxo.walk w spent (b : Int)
              (outputPostings w.db addrDesc).reverse
              { lastTxid := "", ta := none, checksum := ba.BalanceSat, r := r0 } with
          | error f => rw [hw] at h; cases h
          | ok st =>
            rw [hw] at h
            cases h
            exact walk_entries w spent b _ _ st (Or.inl ⟨rfl, rfl⟩) hw
      · rw [if_neg hg] at h
        cases h; exact ⟨[], by simp, by simp, by simp⟩

theorem indexPart_error (w : Worker) (addrDesc : AddressDescriptor) (spent : List String)
    (r0 : List AddressUtxo) (f : Failure)
    (h : Worker.GetAddressUtxo.indexPart w addrDesc spent r0 = .error f) :
    ∃ err, f = .error err := by
  unfold Worker.GetAddressUtxo.indexPart at h
  cases hb : w.db.GetAddrDescBalance addrDesc with
  | error e => rw [hb] at h; cases h; exact ⟨_, rfl⟩
  | ok ba =>
    rw [hb] at h
    dsimp only at h
    cases ba with
    | none => cases h
    | some ba =>
      dsimp only at h
      by_cases hg : bigUint64 ba.BalanceSat > 0
      · rw [if_pos hg, GetAddrDescTransactions_collect] at h
        dsimp only at h
        cases hbb : w.db.GetBestBlock with
        | error e => rw [hbb] at h; cases h; exact ⟨_, rfl⟩
        | ok bb =>
          obtain ⟨b, bh⟩ := bb
          rw [hbb] at h
          dsimp only at h
          cases hw : Worker.GetAddressUtxo.walk w spent (b : Int)
              (outputPostings w.db addrDesc).reverse
              { lastTxid := "", ta := none, checksum := ba.BalanceSat, r := r0 } with
          | error f1 =>
            rw [hw] at h; cases h
            exact walk_error w spent b _ _ _
              (fun o ho => outputPostings_nonneg w.db addrDesc o (List.mem_reverse.mp ho)) hw
          | ok st => rw [hw] at h; cases h
      · rw [if_neg hg] at h
        cases h

theorem GetAddressUtxo_error (w : Worker) (address : String) (onlyConfirmed : Bool)
    (f : Failure) (h : w.GetAddressUtxo address onlyConfirmed = .error f) :
    ∃ err, f = .error err := by
  unfold Worker.GetAddressUtxo at h
  rcases hparse : w.chainParser.GetAddrDescFromAddress address with ⟨addrDesc, perr⟩
  rw [hparse] at h
  cases perr with
  | some e => cases h; exact ⟨_, rfl⟩
  | none =>
    dsimp only at h
    cases onlyConfirmed with
    | true =>
      simp only [Bool.not_true, Bool.false_eq_true, if_false] at h
      cases hi : Worker.GetAddressUtxo.indexPart w addrDesc [] [] with
      | error f1 => rw [hi] at h; cases h; exact indexPart_error _ _ _ _ _ hi
      | ok rc => rw [hi] at h; cases h
    | false =>
      simp only [Bool.not_false, if_true] at h
      cases hm : Worker.GetAddressUtxo.mempoolPart w address addrDesc with
      | error f1 => rw [hm] at h; cases h; exact mempoolPart_error _ _ _ _ hm
      | ok ms =>
        obtain ⟨mp, spent⟩ := ms
        rw [hm] at h
        dsimp only at h
        cases hi : Worker.GetAddressUtxo.indexPart w addrDesc spent mp with
        | error f1 => rw [hi] at h; cases h; exact indexPart_error _ _ _ _ _ hi
        | ok rc => rw [hi] at h; cases h

theorem GetAddressUtxo_ok_entries (w : Worker) (address : String) (onlyConfirmed : Bool)
    (r : List AddressUtxo) (h : w.GetAddressUtxo address onlyConfirmed = .ok r) :
    ∃ mp ix, r = mp ++ ix ∧
      (if onlyConfirmed then mp = []
       else ∃ spentInMempool, Worker.GetAddressUtxo.mempoolPart w address
         (w.chainParser.GetAddrDescFromAddress address).1 = .ok (mp, spentInMempool)) ∧
      (ix.map AddressUtxo.outpoint).Sublist
        (outputPostings w.db (w.chainParser.GetAddrDescFromAddress address).1).reverse ∧
      ∀ u ∈ ix, u.isUnspentSlot w.db := by
  unfold Worker.GetAddressUtxo at h
  rcases hparse : w.chainParser.GetAddrDescFromAddress address with ⟨addrDesc, perr⟩
  rw [hparse] at h
  cases perr with
  | some e => cases h
  | none =>
    dsimp only at h ⊢
    cases onlyConfirmed with
    | true =>
      simp only [Bool.not_true, Bool.false_eq_true, if_false] at h
      cases hi : Worker.GetAddressUtxo.indexPart w addrDesc [] [] with
      | error f => rw [hi] at h; cases h
      | ok rc =>
        obtain ⟨r1, c⟩ := rc
        rw [hi] at h
        cases h
        obtain ⟨ix, h1, h2, h3⟩ := indexPart_entries w addrDesc [] [] r c hi
        exact ⟨[], ix, h1, by simp, h2, h3⟩
    | false =>
      simp only [Bool.not_false, if_true] at h
      cases hm : Worker.GetAddressUtxo.mempoolPart w address addrDesc with
      | error f => rw [hm] at h; cases h
      | ok ms =>
        obtain ⟨mp, spent⟩ := ms
        rw [hm] at h
        dsimp only at h
        cases hi : Worker.GetAddressUtxo.indexPart w addrDesc spent mp with
        | error f => rw [hi] at h; cases h
        | ok rc =>
          obtain ⟨r1, c⟩ := rc
          rw [hi] at h
          cases h
          obtain ⟨ix, h1, h2, h3⟩ := indexPart_entries w addrDesc spent mp r c hi
          exact ⟨mp, ix, h1, by simp, h2, h3⟩

/-- C6: `GetAddressUtxo` ends with a result or with a returned error, not with a panic; the
entries of a result are those found in the mempool (none if `onlyConfirmed`) followed by the
entries from the index, and these name, in the reverse of the iteration order (newest
first), output postings of the address whose TxAddresses row exists and has at that vout
index a slot that is not spent; each carries the amount of its slot and the height of its
row. -/
theorem GetAddressUtxo_index_entries (w : Worker) (address : String) (onlyConfirmed : Bool) :
    match w.GetAddressUtxo address onlyConfirmed with
    | .ok r =>
      ∃ mp ix, r = mp ++ ix ∧
        (if onlyConfirmed then mp = []
         else ∃ spentInMempool, Worker.GetAddressUtxo.mempoolPart w address
           (w.chainParser.GetAddrDescFromAddress address).1 = .ok (mp, spentInMempool)) ∧
        (ix.map AddressUtxo.outpoint).Sublist
          (outputPostings w.db (w.chainParser.GetAddrDescFromAddress address).1).reverse ∧
        ∀ u ∈ ix, u.isUnspentSlot w.db
    | .error f => ∃ err, f = .error err := by
  cases h : w.GetAddressUtxo address onlyConfirmed with
  | ok r => exact GetAddressUtxo_ok_entries w address onlyConfirmed r h
  | error f => exact GetAddressUtxo_error w address onlyConfirmed f h

/-- C6 on the fixture: the one utxo of `Addr5` is output 0 of `TxidB2T3`; its older output
`(TxidB1T2, 2)` is spent. -/
theorem GetAddressUtxo_index_entries_witness :
    scenario.fixtureWorker.GetAddressUtxo scenario.Addr5 true =
      .ok [{ Txid := scenario.TxidB2T3, Vout := 0, AmountSat := some 9000, Height := 225494,
             Confirmations := 1 }] ∧
    ∃ mp ix, [({ Txid := scenario.TxidB2T3, Vout := 0, AmountSat := some 9000,
                 Height := 225494, Confirmations := 1 } : AddressUtxo)] = mp ++ ix ∧
      mp = [] ∧
      (ix.map AddressUtxo.outpoint).Sublist
        (outputPostings scenario.fixtureStore (scenario.descOf scenario.Addr5)).reverse ∧
      ∀ u ∈ ix, u.isUnspentSlot scenario.fixtureStore := by
  have h : scenario.fixtureWorker.GetAddressUtxo scenario.Addr5 true =
      .ok [{ Txid := scenario.TxidB2T3, Vout := 0, AmountSat := some 9000, Height := 225494,
             Confirmations := 1 }] := by rfl
  refine ⟨h, ?_⟩
  have := GetAddressUtxo_index_entries scenario.fixtureWorker scenario.Addr5 true
  rw [h] at this
  exact this

/-! ## `GetAddressUtxo`: spends in the mempool -/

theorem digitChar_value (k : Nat) (hk : k < 10) : (Nat.digitChar k).toNat - 48 = k := by
  interval_cases k <;> rfl

theorem decimalValue_toDigitsCore (fuel n : Nat) (ds : List Char) (h : n < fuel) :
    decimalValue 0 (Nat.toDigitsCore 10 fuel n ds) = decimalValue n ds := by
  induction fuel generalizing n ds with
  | zero => omega
  | succ fuel ih =>
    unfold Nat.toDigitsCore
    dsimp only
    have hd := digitChar_value (n % 10) (Nat.mod_lt _ (by decide))
    by_cases h0 : n / 10 = 0
    · rw [if_pos h0]
      have hn : n % 10 = n := by omega
      simp only [decimalValue, List.foldl_cons, hd, zero_mul, zero_add]
      rw [hn]
    · rw [if_neg h0, ih (n / 10) _ (by omega)]
      simp only [decimalValue, List.foldl_cons, hd]
      congr 1
      omega

theorem Nat_repr_injective (m n : Nat) (h : Nat.repr m = Nat.repr n) : m = n := by
  have hd : Nat.toDigits 10 m = Nat.toDigits 10 n := by
    have := congrArg String.data h
    simpa [Nat.repr, List.asString] using this
  have hm := decimalValue_toDigitsCore (m + 1) m [] (by omega)
  have hn := decimalValue_toDigitsCore (n + 1) n [] (by omega)
  unfold Nat.toDigits at hd
  rw [hd] at hm
  rw [hm] at hn
  simpa [decimalValue] using hn

theorem Itoa_ofNat (n : Nat) : Itoa (n : Int) = Nat.repr n := by
  unfold Itoa
  rw [if_neg (by omega)]
  simp

/-- With txids of one length the key `txid + strconv.Itoa(vout)` of `spentInMempool`
determines the outpoint. -/
theorem key_injective (a b : String) (m n : Int) (hm : 0 ≤ m) (hn : 0 ≤ n)
    (hl : a.length = b.length) (h : a ++ Itoa m = b ++ Itoa n) : a = b ∧ m = n := by
  obtain ⟨m, rfl⟩ := Int.eq_ofNat_of_zero_le hm
  obtain ⟨n, rfl⟩ := Int.eq_ofNat_of_zero_le hn
  rw [Itoa_ofNat, Itoa_ofNat] at h
  have hdata := congrArg String.data h
  rw [String.data_append, String.data_append] at hdata
  have hl' : a.data.length = b.data.length := hl
  have := List.append_inj hdata hl'
  refine ⟨String.ext this.1, ?_⟩
  have hr : Nat.repr m = Nat.repr n := String.ext this.2
  exact congrArg _ (Nat_repr_injective m n hr)

/-! ### The mempool loops against their description -/

theorem voutLoop_eq (w : Worker) (addrDesc : AddressDescriptor) (spent : List String)
    (m : bchain.Tx) (vouts : List bchain.Vout) (i : Nat) (r : List AddressUtxo) :
    Worker.GetAddressUtxo.voutLoop w addrDesc spent m vouts i r =
      r ++ (creditedOutputsFrom w addrDesc m vouts i).filter (AddressUtxo.keyFree spent) := by
  induction vouts generalizing i r with
  | nil => simp [Worker.GetAddressUtxo.voutLoop, creditedOutputsFrom]
  | cons vout rest ih =>
    unfold Worker.GetAddressUtxo.voutLoop creditedOutputsFrom
    dsimp only
    rw [ih]
    cases hv : w.chainParser.GetAddrDescFromVout vout with
    | error e =>
      have hne : ¬ ((Except.error e : Except GoError AddressDescriptor) = .ok addrDesc) := by
        intro h; cases h
      simp only [if_neg hne]
    | ok vad =>
      dsimp only
      by_cases had : addrDesc = vad
      · subst had
        simp only [if_true, List.filter_cons, AddressUtxo.keyFree]
        by_cases hk : m.Txid ++ Itoa (i : Int) ∈ spent
        · simp [hk]
        · simp [hk]
      · have hne : ¬ ((Except.ok vad : Except GoError AddressDescriptor) = .ok addrDesc) := by
          intro h; cases h; exact had rfl
        simp only [if_neg had, if_neg hne]

theorem mempoolLoop_eq (w : Worker) (addrDesc : AddressDescriptor) (spent : List String)
    (txm : List String) (r : List AddressUtxo) :
    Worker.GetAddressUtxo.mempoolLoop w addrDesc spent
        (txm.map (fun txid =>
          match w.txCache.GetTransaction txid with
          | .ok (bchainTx, _) => some bchainTx
          | .error _ => none)) r =
      r ++ (creditedOutputs w addrDesc (fetchedMempoolTxs w txm)).filter
        (AddressUtxo.keyFree spent) := by
  induction txm generalizing r with
  | nil => simp [Worker.GetAddressUtxo.mempoolLoop, creditedOutputs, fetchedMempoolTxs]
  | cons txid rest ih =>
    simp only [List.map_cons, fetchedMempoolTxs, List.filterMap_cons]
    cases ht : w.txCache.GetTransaction txid with
    | error e =>
      simp only [Worker.GetAddressUtxo.mempoolLoop]
      exact ih r
    | ok p =>
      obtain ⟨bchainTx, height⟩ := p
      simp only [Worker.GetAddressUtxo.mempoolLoop]
      rw [ih, voutLoop_eq]
      simp [creditedOutputs, fetchedMempoolTxs, List.append_assoc]

theorem fetchLoop_eq (w : Worker) (txm : List String) (acc : List String) :
    Worker.GetAddressUtxo.fetchLoop w txm acc =
      (txm.map (fun txid =>
          match w.txCache.GetTransaction txid with
          | .ok (bchainTx, _) => some bchainTx
          | .error _ => none),
       acc ++ (fetchedMempoolTxs w txm).flatMap
         (fun m => m.Vin.map (fun vin => vin.Txid ++ Itoa (vin.Vout : Int)))) := by
  induction txm generalizing acc with
  | nil => simp [Worker.GetAddressUtxo.fetchLoop, fetchedMempoolTxs]
  | cons txid rest ih =>
    unfold Worker.GetAddressUtxo.fetchLoop
    simp only [List.map_cons, fetchedMempoolTxs, List.filterMap_cons]
    cases ht : w.txCache.GetTransaction txid with
    | error e =>
      dsimp only
      rw [ih]
      rfl
    | ok p =>
      obtain ⟨bchainTx, height⟩ := p
      dsimp only
      rw [ih]
      simp [fetchedMempoolTxs, List.append_assoc]

/-! ### The index walk with and without the mempool key set -/

theorem not_mem_nil_key (k : String) : ¬ (k ∈ ([] : List String)) := by simp

theorem walk_keyFree (w : Worker) (spent : List String) (bestheight : Int)
    (l : List bchain.Outpoint) (lastTxid : String) (ta : Option db.TxAddresses)
    (checksum : Int) (base acc : List AddressUtxo) :
    Worker.GetAddressUtxo.walk w spent bestheight l
        { lastTxid := lastTxid, ta := ta, checksum := checksum,
          r := base ++ acc.filter (AddressUtxo.keyFree spent) } =
      match Worker.GetAddressUtxo.walk w [] bestheight l
          { lastTxid := lastTxid, ta := ta, checksum := checksum, r := acc } with
      | .ok s => .ok { s with r := base ++ s.r.filter (AddressUtxo.keyFree spent) }
      | .error f => .error f := by
  induction l generalizing lastTxid ta checksum acc with
  | nil => simp [Worker.GetAddressUtxo.walk]
  | cons o rest ih =>
    have pass : ∀ (ta1 : Option db.TxAddresses) (lastTxid1 : String),
        (match ta1 with
        | none =>
          Worker.GetAddressUtxo.walk w spent bestheight rest
            { lastTxid := lastTxid1, ta := ta1, checksum := checksum,
              r := base ++ acc.filter (AddressUtxo.keyFree spent) }
        | some row =>
          if (row.Outputs.length : Int) ≤ o.Vout then
            Worker.GetAddressUtxo.walk w spent bestheight rest
              { lastTxid := lastTxid1, ta := ta1, checksum := checksum,
                r := base ++ acc.filter (AddressUtxo.keyFree spent) }
          else
            match goIndex row.Outputs o.Vout with
            | .error f => .error f
            | .ok output =>
              if !output.Spent then
                Worker.GetAddressUtxo.walk w spent bestheight rest
                  { lastTxid := lastTxid1, ta := ta1, checksum := checksum - output.ValueSat,
                    r := if o.Txid ++ Itoa o.Vout ∈ spent then
                           base ++ acc.filter (AddressUtxo.keyFree spent)
                         else (base ++ acc.filter (AddressUtxo.keyFree spent)) ++
                           [({ Txid := o.Txid, Vout := o.Vout,
                               AmountSat := some output.ValueSat,
                               Height := (row.Height : Int),
                               Confirmations := bestheight - (row.Height : Int) + 1 } :
                               AddressUtxo)] }
              else
                Worker.GetAddressUtxo.walk w spent bestheight rest
                  { lastTxid := lastTxid1, ta := ta1, checksum := checksum,
                    r := base ++ acc.filter (AddressUtxo.keyFree spent) }) =
        match (match ta1 with
          | none =>
            Worker.GetAddressUtxo.walk w [] bestheight rest
              { lastTxid := lastTxid1, ta := ta1, checksum := checksum, r := acc }
          | some row =>
            if (row.Outputs.length : Int) ≤ o.Vout then
              Worker.GetAddressUtxo.walk w [] bestheight rest
                { lastTxid := lastTxid1, ta := ta1, checksum := checksum, r := acc }
            else
              match goIndex row.Outputs o.Vout with
              | .error f => .error f
              | .ok output =>
                if !output.Spent then
                  Worker.GetAddressUtxo.walk w [] bestheight rest
                    { lastTxid := lastTxid1, ta := ta1, checksum := checksum - output.ValueSat,
                      r := if o.Txid ++ Itoa o.Vout ∈ ([] : List String) then acc
                           else acc ++
                             [({ Txid := o.Txid, Vout := o.Vout,
                                 AmountSat := some output.ValueSat,
                                 Height := (row.Height : Int),
                                 Confirmations := bestheight - (row.Height : Int) + 1 } :
                                 AddressUtxo)] }
                else
                  Worker.GetAddressUtxo.walk w [] bestheight rest
                    { lastTxid := lastTxid1, ta := ta1, checksum := checksum, r := acc }) with
        | .ok s => .ok { s with r := base ++ s.r.filter (AddressUtxo.keyFree spent) }
        | .error f => .error f := by
      intro ta1 lastTxid1
      cases ta1 with
      | none => exact ih _ _ _ _
      | some row =>
        dsimp only
        by_cases hlen : (row.Outputs.length : Int) ≤ o.Vout
        · rw [if_pos hlen, if_pos hlen]; exact ih _ _ _ _
        · rw [if_neg hlen, if_neg hlen]
          cases hidx : goIndex row.Outputs o.Vout with
          | error f => rfl
          | ok output =>
            dsimp only
            cases hsp : output.Spent with
            | true =>
              simp only [Bool.not_true, Bool.false_eq_true, if_false]
              exact ih _ _ _ _
            | false =>
              simp only [Bool.not_false, if_true, if_neg (not_mem_nil_key _)]
              by_cases hk : o.Txid ++ Itoa o.Vout ∈ spent
              · rw [if_pos hk]
                have := ih lastTxid1 (some row) (checksum - output.ValueSat)
                  (acc ++ [({ Txid := o.Txid, Vout := o.Vout,
                               AmountSat := some output.ValueSat,
                               Height := (row.Height : Int),
                               Confirmations := bestheight - (row.Height : Int) + 1 } :
                               AddressUtxo)])
                rw [← this]
                simp [AddressUtxo.keyFree, hk]
              · rw [if_neg hk]
                have := ih lastTxid1 (some row) (checksum - output.ValueSat)
                  (acc ++ [({ Txid := o.Txid, Vout := o.Vout,
                               AmountSat := some output.ValueSat,
                               Height := (row.Height : Int),
                               Confirmations := bestheight - (row.Height : Int) + 1 } :
                               AddressUtxo)])
                rw [← this]
                simp [AddressUtxo.keyFree, hk]
    unfold Worker.GetAddressUtxo.walk
    by_cases hg : bigInt64 checksum > 0
    · simp only [if_pos hg]
      by_cases hlast : lastTxid ≠ o.Txid
      · simp only [if_pos hlast]
        cases hta : w.db.GetTxAddresses o.Txid with
        | error e => rfl
        | ok ta1 => exact pass ta1 o.Txid
      · simp only [if_neg hlast]
        exact pass ta lastTxid
    · simp only [if_neg hg]

theorem indexPart_keyFree (w : Worker) (addrDesc : AddressDescriptor) (spent : List String)
    (mp : List AddressUtxo) :
    Worker.GetAddressUtxo.indexPart w addrDesc spent mp =
      match Worker.GetAddressUtxo.indexPart w addrDesc [] [] with
      | .ok (ix, c) => .ok (mp ++ ix.filter (AddressUtxo.keyFree spent), c)
      | .error f => .error f := by
  unfold Worker.GetAddressUtxo.indexPart
  cases hb : w.db.GetAddrDescBalance addrDesc with
  | error e => rfl
  | ok ba =>
    dsimp only
    cases ba with
    | none => simp
    | some ba =>
      dsimp only
      by_cases hg : bigUint64 ba.BalanceSat > 0
      · simp only [if_pos hg]
        cases hit : w.db.GetAddrDescTransactions addrDesc 0 (2 ^ 32 - 1)
            Worker.GetAddressUtxo.collect [] with
        | error f => rfl
        | ok p =>
          obtain ⟨outpoints, err⟩ := p
          cases err with
          | some e => rfl
          | none =>
            dsimp only
            cases hbb : w.db.GetBestBlock with
            | error e => rfl
            | ok bb =>
              obtain ⟨b, bh⟩ := bb
              dsimp only
              have := walk_keyFree w spent (b : Int) outpoints.reverse "" none ba.BalanceSat mp []
              simp only [List.filter_nil, List.append_nil] at this
              rw [this]
              cases Worker.GetAddressUtxo.walk w [] (b : Int) outpoints.reverse
                { lastTxid := "", ta := none, checksum := ba.BalanceSat, r := [] } with
              | error f => rfl
              | ok s => rfl
      · simp only [if_neg hg, List.filter_nil, List.append_nil]

/-- With txids of one length, the key of an outpoint is in the key set of the vins of `txs`
exactly if one of those vins references the outpoint. -/
theorem key_mem_iff_spentBy (txs : List bchain.Tx) (txid : String) (vout : Int) (L : Nat)
    (hv : 0 ≤ vout) (ht : txid.length = L)
    (hl : ∀ m ∈ txs, ∀ vin ∈ m.Vin, vin.Txid.length = L) :
    txid ++ Itoa vout ∈ txs.flatMap
        (fun m => m.Vin.map (fun vin => vin.Txid ++ Itoa (vin.Vout : Int))) ↔
      spentBy txs txid vout = true := by
  unfold spentBy
  simp only [List.mem_flatMap, List.mem_map, List.any_eq_true, decide_eq_true_eq]
  constructor
  · rintro ⟨m, hm, vin, hvin, hkey⟩
    have := key_injective vin.Txid txid (vin.Vout : Int) vout (by omega) hv
      (by rw [hl m hm vin hvin, ht]) hkey
    exact ⟨m, hm, vin, hvin, this⟩
  · rintro ⟨m, hm, vin, hvin, h1, h2⟩
    exact ⟨m, hm, vin, hvin, by rw [h1, h2]⟩

theorem creditedOutputsFrom_mem (w : Worker) (addrDesc : AddressDescriptor) (m : bchain.Tx)
    (vouts : List bchain.Vout) (i : Nat) (u : AddressUtxo)
    (h : u ∈ creditedOutputsFrom w addrDesc m vouts i) : u.Txid = m.Txid ∧ 0 ≤ u.Vout := by
  induction vouts generalizing i with
  | nil => simp [creditedOutputsFrom] at h
  | cons vout rest ih =>
    unfold creditedOutputsFrom at h
    split_ifs at h
    · rcases List.mem_cons.mp h with rfl | h
      · exact ⟨rfl, by simp⟩
      · exact ih _ h
    · exact ih _ h

theorem creditedOutputs_mem (w : Worker) (addrDesc : AddressDescriptor) (txs : List bchain.Tx)
    (u : AddressUtxo) (h : u ∈ creditedOutputs w addrDesc txs) :
    (∃ m ∈ txs, u.Txid = m.Txid) ∧ 0 ≤ u.Vout := by
  unfold creditedOutputs at h
  obtain ⟨m, hm, hu⟩ := List.mem_flatMap.mp h
  have := creditedOutputsFrom_mem w addrDesc m m.Vout 0 u hu
  exact ⟨⟨m, hm, this.1⟩, this.2⟩

theorem walk_congr (w w1 : Worker) (hdb : w1.db = w.db) (spent : List String)
    (bestheight : Int) (l : List bchain.Outpoint) (st : UtxoWalk) :
    Worker.GetAddressUtxo.walk w1 spent bestheight l st =
      Worker.GetAddressUtxo.walk w spent bestheight l st := by
  induction l generalizing st with
  | nil => rfl
  | cons o rest ih =>
    unfold Worker.GetAddressUtxo.walk
    simp only [hdb, ih]

/-- With `onlyConfirmed = true` the result is determined by the parser and the store. -/
theorem GetAddressUtxo_confirmed_congr (w w1 : Worker) (hdb : w1.db = w.db)
    (hp : w1.chainParser = w.chainParser) (address : String) :
    w1.GetAddressUtxo address true = w.GetAddressUtxo address true := by
  unfold Worker.GetAddressUtxo Worker.GetAddressUtxo.indexPart
  simp only [hdb, hp, walk_congr w w1 hdb, Bool.not_true, Bool.false_eq_true, if_false]

theorem GetAddressUtxo_confirmed_eq (w : Worker) (address : String)
    (addrDesc : AddressDescriptor)
    (hparse : w.chainParser.GetAddrDescFromAddress address = (addrDesc, none)) :
    w.GetAddressUtxo address true =
      match Worker.GetAddressUtxo.indexPart w addrDesc [] [] with
      | .ok (ix, _) => .ok ix
      | .error f => .error f := by
  unfold Worker.GetAddressUtxo
  rw [hparse]
  simp only [Bool.not_true, Bool.false_eq_true, if_false]
  cases Worker.GetAddressUtxo.indexPart w addrDesc [] [] with
  | error f => rfl
  | ok p => rfl

/-- C7: with txids of one length `L`, `GetAddressUtxo(address, false)` reports, of the outputs
that the fetched mempool transactions credit to the address followed by the utxos of the
index (those of `GetAddressUtxo(address, true)`), exactly the ones that no vin of a fetched
mempool transaction references; and with `onlyConfirmed = true` the result does not depend
on the backend (mempool) or the transaction cache. -/
theorem GetAddressUtxo_mempool_spends (w : Worker) (address : String)
    (addrDesc : AddressDescriptor) (txm : List String) (L : Nat)
    (hparse : w.chainParser.GetAddrDescFromAddress address = (addrDesc, none))
    (hmem : w.getAddressTxids addrDesc true { Vout := AddressFilterVoutOff } = .ok txm)
    (hlenm : ∀ m ∈ fetchedMempoolTxs w (UniqueTxidsInReverse txm),
      m.Txid.length = L ∧ ∀ vin ∈ m.Vin, vin.Txid.length = L)
    (hleno : ∀ o ∈ outputPostings w.db addrDesc, o.Txid.length = L) :
    w.GetAddressUtxo address false =
      (match w.GetAddressUtxo address true with
       | .ok ix =>
         .ok ((creditedOutputs w addrDesc (fetchedMempoolTxs w (UniqueTxidsInReverse txm)) ++
                ix).filter
              (fun u => !spentBy (fetchedMempoolTxs w (UniqueTxidsInReverse txm)) u.Txid u.Vout))
       | .error f => .error f) ∧
    ∀ (chain : bchain.BlockChain) (txCache : db.TxCache),
      ({ w with chain := chain, txCache := txCache }).GetAddressUtxo address true =
        w.GetAddressUtxo address true := by
  refine ⟨?_, fun chain txCache =>
    GetAddressUtxo_confirmed_congr w { w with chain := chain, txCache := txCache } rfl rfl
      address⟩
  rw [GetAddressUtxo_confirmed_eq w address addrDesc hparse]
  unfold Worker.GetAddressUtxo
  rw [hparse]
  simp only [Bool.not_false, if_true]
  unfold Worker.GetAddressUtxo.mempoolPart
  rw [hmem]
  dsimp only
  rw [fetchLoop_eq]
  dsimp only
  rw [mempoolLoop_eq, indexPart_keyFree]
  simp only [List.nil_append]
  cases hi : Worker.GetAddressUtxo.indexPart w addrDesc [] [] with
  | error f => rfl
  | ok p =>
    obtain ⟨ix, c⟩ := p
    dsimp only
    congr 1
    rw [List.filter_append]
    have hkey : ∀ u : AddressUtxo, 0 ≤ u.Vout → u.Txid.length = L →
        AddressUtxo.keyFree ((fetchedMempoolTxs w (UniqueTxidsInReverse txm)).flatMap
          (fun m => m.Vin.map (fun vin => vin.Txid ++ Itoa (vin.Vout : Int)))) u =
        !spentBy (fetchedMempoolTxs w (UniqueTxidsInReverse txm)) u.Txid u.Vout := by
      intro u hv hl
      have := key_mem_iff_spentBy (fetchedMempoolTxs w (UniqueTxidsInReverse txm)) u.Txid u.Vout
        L hv hl (fun m hm => (hlenm m hm).2)
      unfold AddressUtxo.keyFree
      by_cases hs : spentBy (fetchedMempoolTxs w (UniqueTxidsInReverse txm)) u.Txid u.Vout = true
      · rw [hs]; simp [this.mpr hs]
      · have hn : ¬ (u.Txid ++ Itoa u.Vout ∈
            (fetchedMempoolTxs w (UniqueTxidsInReverse txm)).flatMap
              (fun m => m.Vin.map (fun vin => vin.Txid ++ Itoa (vin.Vout : Int)))) :=
          fun hc => hs (this.mp hc)
        simp only [Bool.not_eq_true] at hs
        rw [hs]; simp [hn]
    congr 1
    · apply List.filter_congr
      intro u hu
      obtain ⟨⟨m, hm, hxt⟩, hv⟩ := creditedOutputs_mem w addrDesc _ u hu
      exact hkey u hv (by rw [hxt]; exact (hlenm m hm).1)
    · apply List.filter_congr
      intro u hu
      obtain ⟨ix1, h1, h2, _⟩ := indexPart_entries w addrDesc [] [] ix c hi
      simp only [List.nil_append] at h1
      subst h1
      have hmemo : u.outpoint ∈ outputPostings w.db addrDesc :=
        List.mem_reverse.mp (h2.subset (List.mem_map_of_mem _ hu))
      exact hkey u (outputPostings_nonneg w.db addrDesc _ hmemo) (hleno _ hmemo)

/-- C7 over `twinStore` with `M` in the mempool: the unspent output `(T, 0)` of the index is
not reported because vin 0 of `M` references it; output 0 of `M` is reported. -/
theorem GetAddressUtxo_mempool_spends_witness :
    scenario.mempoolWorker.chainParser.GetAddrDescFromAddress "a" = ([97], none) ∧
    scenario.mempoolWorker.getAddressTxids [97] true { Vout := AddressFilterVoutOff } =
      .ok ["M", "M"] ∧
    scenario.mempoolWorker.GetAddressUtxo "a" true =
      .ok [{ Txid := "T", Vout := 0, AmountSat := some 50, Height := 1, Confirmations := 2 }] ∧
    scenario.mempoolWorker.GetAddressUtxo "a" false =
      .ok [{ Txid := "M", Vout := 0, AmountSat := some 30 }] ∧
    scenario.mempoolWorker.GetAddressUtxo "a" false =
      (match scenario.mempoolWorker.GetAddressUtxo "a" true with
       | .ok ix =>
         .ok ((creditedOutputs scenario.mempoolWorker [97]
                (fetchedMempoolTxs scenario.mempoolWorker (UniqueTxidsInReverse ["M", "M"])) ++
                ix).filter
              (fun u => !spentBy
                (fetchedMempoolTxs scenario.mempoolWorker (UniqueTxidsInReverse ["M", "M"]))
                u.Txid u.Vout))
       | .error f => .error f) :=
  ⟨rfl, rfl, rfl, rfl,
   (GetAddressUtxo_mempool_spends scenario.mempoolWorker "a" [97] ["M", "M"] 1 rfl rfl
     (by decide) (by decide)).1⟩

/-! ## `GetAddress`: the entries of a page -/

theorem take_set_succ {α : Type} (xs : List α) (i : Nat) (x : α) (h : i < xs.length) :
    (xs.set i x).take (i + 1) = xs.take i ++ [x] := by
  induction xs generalizing i with
  | nil => simp at h
  | cons y ys ih =>
    cases i with
    | zero => simp
    | succ i =>
      simp only [List.set_cons_succ, List.take_succ_cons, List.cons_append]
      rw [ih i (by simpa using h)]

theorem goSet_ok {α : Type} (xs : List α) (i : Nat) (x : α) (ys : List α)
    (h : goSet xs i x = .ok ys) :
    ys.take (i + 1) = xs.take i ++ [x] ∧ ys.length = xs.length := by
  unfold goSet at h
  split_ifs at h with hi
  cases h
  exact ⟨take_set_succ xs i x hi, by simp⟩

theorem mempoolLoop_ok (w : Worker) (addrDesc : AddressDescriptor)
    (option : GetAddressOption) (page : Int) (l : List String) (st st1 : HistoryVars)
    (h : Worker.GetAddress.mempoolLoop w addrDesc option page l st = .ok st1) :
    st1.txids.length = st.txids.length ∧ st1.txs.length = st.txs.length ∧
    (page = 0 → option = GetAddressOption.TxidHistory →
      st1.txids.take st1.txi = st.txids.take st.txi ++ (fetchedTxs w l).map (fun tx => tx.Txid) ∧
      st1.txs = st.txs) ∧
    (page = 0 → option ≠ GetAddressOption.TxidHistory →
      st1.txs.take st1.txi = st.txs.take st.txi ++ (fetchedTxs w l).map some ∧
      st1.txids = st.txids) ∧
    (page ≠ 0 → st1.txids = st.txids ∧ st1.txs = st.txs ∧ st1.txi = st.txi) := by
  induction l generalizing st with
  | nil =>
    unfold Worker.GetAddress.mempoolLoop at h
    cases h
    simp [fetchedTxs]
  | cons txid rest ih =>
    unfold Worker.GetAddress.mempoolLoop at h
    cases ht : w.GetTransaction txid false false with
    | error f =>
      rw [ht] at h
      have hf : fetchedTxs w (txid :: rest) = fetchedTxs w rest := by
        simp [fetchedTxs, ht]
      rw [hf]
      cases f with
      | panic what => cases h
      | error e => exact ih st h
    | ok tx =>
      rw [ht] at h
      dsimp only at h
      have hf : fetchedTxs w (txid :: rest) = tx :: fetchedTxs w rest := by
        simp [fetchedTxs, ht]
      rw [hf]
      by_cases hp : page = 0
      · rw [if_pos hp] at h
        by_cases ho : option = GetAddressOption.TxidHistory
        · rw [if_pos ho] at h
          cases hs : goSet st.txids st.txi tx.Txid with
          | error f => rw [hs] at h; cases h
          | ok txids =>
            rw [hs] at h
            dsimp only at h
            obtain ⟨h1, h2, h3, h4, h5⟩ := ih _ h
            obtain ⟨g1, g2⟩ := goSet_ok _ _ _ _ hs
            refine ⟨by rw [h1]; exact g2, h2, ?_, fun _ hne => absurd ho hne,
              fun hne => absurd hp hne⟩
            intro _ _
            obtain ⟨k1, k2⟩ := h3 hp ho
            refine ⟨?_, k2⟩
            rw [k1]
            dsimp only
            rw [g1]
            simp
        · rw [if_neg ho] at h
          cases hs : goSet st.txs st.txi (some tx) with
          | error f => rw [hs] at h; cases h
          | ok txs =>
            rw [hs] at h
            dsimp only at h
            obtain ⟨h1, h2, h3, h4, h5⟩ := ih _ h
            obtain ⟨g1, g2⟩ := goSet_ok _ _ _ _ hs
            refine ⟨h1, by rw [h2]; exact g2, fun _ he => absurd he ho, ?_,
              fun hne => absurd hp hne⟩
            intro _ _
            obtain ⟨k1, k2⟩ := h4 hp ho
            refine ⟨?_, k2⟩
            rw [k1]
            dsimp only
            rw [g1]
            simp
      · rw [if_neg hp] at h
        obtain ⟨h1, h2, h3, h4, h5⟩ := ih _ h
        exact ⟨h1, h2, fun he => absurd he hp, fun he => absurd he hp, fun _ => h5 hp⟩

theorem pageSlice_succ (txc : List String) (i : Int) (k : Nat) (txid : String)
    (h : goIndex txc i = .ok txid) :
    pageSlice txc i (k + 1) = txid :: pageSlice txc (i + 1) k := by
  unfold goIndex at h
  by_cases hneg : i < 0
  · rw [if_pos hneg] at h; cases h
  · rw [if_neg hneg] at h
    cases hg : txc.get? i.toNat with
    | none => rw [hg] at h; cases h
    | some x =>
      rw [hg] at h
      cases h
      unfold pageSlice
      have h1 : (i + 1).toNat = i.toNat + 1 := by omega
      rw [h1]
      have hlt : i.toNat < txc.length := by
        by_contra hc
        rw [List.get?_eq_none.mpr (by omega)] at hg
        cases hg
      have hx : txc[i.toNat] = txid := by
        rw [List.get?_eq_get hlt] at hg
        simpa using hg
      rw [List.drop_eq_getElem_cons hlt, List.take_succ_cons, hx]

theorem confirmedLoop_ok (w : Worker) (option : GetAddressOption) (txc : List String)
    (bestheight : Nat) (k : Nat) (i : Int) (st st1 : HistoryVars)
    (h : Worker.GetAddress.confirmedLoop w option txc bestheight k i st = .ok st1) :
    (pageSlice txc i k).length = k ∧
    (option = GetAddressOption.TxidHistory →
      st1.txids.take st1.txi = st.txids.take st.txi ++ pageSlice txc i k ∧ st1.txs = st.txs) ∧
    (option ≠ GetAddressOption.TxidHistory →
      st1.txs.take st1.txi = st.txs.take st.txi ++
        ((pageSlice txc i k).filterMap (confirmedEntry w option bestheight)).map some ∧
      st1.txids = st.txids ∧
      (¬ (option = GetAddressOption.TxHistoryLight ∧
          w.chainType = bchain.ChainType.ChainBitcoinType) →
        ∀ txid ∈ pageSlice txc i k, ∃ tx, w.GetTransaction txid false true = .ok tx)) := by
  induction k generalizing i st with
  | zero =>
    unfold Worker.GetAddress.confirmedLoop at h
    cases h
    simp [pageSlice]
  | succ k ih =>
    unfold Worker.GetAddress.confirmedLoop at h
    cases hi : goIndex txc i with
    | error f => rw [hi] at h; cases h
    | ok txid =>
      rw [hi] at h
      dsimp only at h
      rw [pageSlice_succ txc i k txid hi]
      by_cases ho : option = GetAddressOption.TxidHistory
      · rw [if_pos ho] at h
        cases hs : goSet st.txids st.txi txid with
        | error f => rw [hs] at h; cases h
        | ok txids =>
          rw [hs] at h
          dsimp only at h
          obtain ⟨h0, h1, h2⟩ := ih _ _ h
          obtain ⟨g1, g2⟩ := goSet_ok _ _ _ _ hs
          refine ⟨by simp [h0], ?_, fun hne => absurd ho hne⟩
          intro _
          obtain ⟨k1, k2⟩ := h1 ho
          refine ⟨?_, k2⟩
          rw [k1]
          dsimp only
          rw [g1]
          simp
      · rw [if_neg ho] at h
        by_cases hl : option = GetAddressOption.TxHistoryLight ∧
            w.chainType = bchain.ChainType.ChainBitcoinType
        · rw [if_pos hl] at h
          have skip : ∀ (hce : confirmedEntry w option bestheight txid = none)
              (h : Worker.GetAddress.confirmedLoop w option txc bestheight k (i + 1) st =
                .ok st1),
              (txid :: pageSlice txc (i + 1) k).length = k + 1 ∧
              (option = GetAddressOption.TxidHistory →
                st1.txids.take st1.txi =
                  st.txids.take st.txi ++ txid :: pageSlice txc (i + 1) k ∧
                st1.txs = st.txs) ∧
              (option ≠ GetAddressOption.TxidHistory →
                st1.txs.take st1.txi = st.txs.take st.txi ++
                  ((txid :: pageSlice txc (i + 1) k).filterMap
                    (confirmedEntry w option bestheight)).map some ∧
                st1.txids = st.txids ∧
                (¬ (option = GetAddressOption.TxHistoryLight ∧
                    w.chainType = bchain.ChainType.ChainBitcoinType) →
                  ∀ txid1 ∈ txid :: pageSlice txc (i + 1) k,
                    ∃ tx, w.GetTransaction txid1 false true = .ok tx)) := by
            intro hce h
            obtain ⟨h0, h1, h2⟩ := ih _ _ h
            refine ⟨by simp [h0], fun he => absurd he ho, ?_⟩
            intro _
            obtain ⟨k1, k2, _⟩ := h2 ho
            refine ⟨?_, k2, fun hn => absurd hl hn⟩
            rw [k1, List.filterMap_cons, hce]
          cases hta : w.db.GetTxAddresses txid with
          | error e => rw [hta] at h; cases h
          | ok ota =>
            rw [hta] at h
            cases ota with
            | none =>
              dsimp only at h
              exact skip (by simp [confirmedEntry, hl, hta]) h
            | some ta =>
              dsimp only at h
              cases hbi : w.db.GetBlockInfo ta.Height with
              | error e => rw [hbi] at h; cases h
              | ok obi =>
                rw [hbi] at h
                cases obi with
                | none =>
                  dsimp only at h
                  exact skip (by simp [confirmedEntry, hl, hta, hbi]) h
                | some bi =>
                  dsimp only at h
                  cases hs : goSet st.txs st.txi
                      (some (w.txFromTxAddress txid ta bi bestheight)) with
                  | error f => rw [hs] at h; cases h
                  | ok txs =>
                    rw [hs] at h
                    dsimp only at h
                    obtain ⟨h0, h1, h2⟩ := ih _ _ h
                    obtain ⟨g1, g2⟩ := goSet_ok _ _ _ _ hs
                    refine ⟨by simp [h0], fun he => absurd he ho, ?_⟩
                    intro _
                    obtain ⟨k1, k2, _⟩ := h2 ho
                    refine ⟨?_, k2, fun hn => absurd hl hn⟩
                    have hce : confirmedEntry w option bestheight txid =
                        some (w.txFromTxAddress txid ta bi bestheight) := by
                      simp [confirmedEntry, hl, hta, hbi]
                    rw [k1, List.filterMap_cons, hce]
                    dsimp only
                    rw [g1]
                    simp
        · rw [if_neg hl] at h
          cases ht : w.GetTransaction txid false true with
          | error f =>
            rw [ht] at h
            cases f with
            | panic what => cases h
            | error e =>
              dsimp only at h
              cases hs : goSet st.txs st.txi (none : Option Tx) with
              | error f => rw [hs] at h; cases h
              | ok txs => rw [hs] at h; cases h
          | ok tx =>
            rw [ht] at h
            dsimp only at h
            cases hs : goSet st.txs st.txi (some tx) with
            | error f => rw [hs] at h; cases h
            | ok txs =>
              rw [hs] at h
              dsimp only at h
              obtain ⟨h0, h1, h2⟩ := ih _ _ h
              obtain ⟨g1, g2⟩ := goSet_ok _ _ _ _ hs
              refine ⟨by simp [h0], fun he => absurd he ho, ?_⟩
              intro _
              obtain ⟨k1, k2, k3⟩ := h2 ho
              have hce : confirmedEntry w option bestheight txid = some tx := by
                simp only [confirmedEntry, if_neg hl, ht]
              refine ⟨?_, k2, ?_⟩
              · rw [k1, List.filterMap_cons, hce]
                dsimp only
                rw [g1]
                simp
              · intro hn txid1 hm
                rcases List.mem_cons.mp hm with rfl | hm
                · exact ⟨tx, ht⟩
                · exact k3 hn txid1 hm

theorem history_ok (w : Worker) (addrDesc : AddressDescriptor)
    (option : GetAddressOption) (filter : AddressFilter) (txm : List String) (page : Int)
    (txsOnPage : Int) (pg : Paging) (uBalSat : Int) (txs : List (Option Tx))
    (txids : List String)
    (hopt : option.toNat ≥ GetAddressOption.TxidHistory.toNat)
    (h : Worker.GetAddress.history w addrDesc option filter txm page txsOnPage =
      .ok (pg, uBalSat, txs, txids)) :
    ∃ (txcRaw : List String) (bestheight : Nat) (bh : String) (from_ to_ page1 : Int),
      w.getAddressTxids addrDesc false filter = .ok txcRaw ∧
      w.db.GetBestBlock = .ok (bestheight, bh) ∧
      computePaging ((UniqueTxidsInReverse txcRaw).length : Int) page txsOnPage =
        .ok (pg, from_, to_, page1) ∧
      (pageSlice (UniqueTxidsInReverse txcRaw) from_ (to_ - from_).toNat).length =
        (to_ - from_).toNat ∧
      (option = GetAddressOption.TxidHistory →
        txids = ((if page1 = 0 then fetchedTxs w txm else []).map (fun tx => tx.Txid)) ++
          pageSlice (UniqueTxidsInReverse txcRaw) from_ (to_ - from_).toNat ∧
        txs = []) ∧
      (option ≠ GetAddressOption.TxidHistory →
        txs = ((if page1 = 0 then fetchedTxs w txm else []).map some) ++
          ((pageSlice (UniqueTxidsInReverse txcRaw) from_ (to_ - from_).toNat).filterMap
            (confirmedEntry w option bestheight)).map some ∧
        txids = [] ∧
        (¬ (option = GetAddressOption.TxHistoryLight ∧
            w.chainType = bchain.ChainType.ChainBitcoinType) →
          ∀ txid ∈ pageSlice (UniqueTxidsInReverse txcRaw) from_ (to_ - from_).toNat,
            ∃ tx, w.GetTransaction txid false true = .ok tx)) := by
  unfold Worker.GetAddress.history at h
  cases h1 : w.getAddressTxids addrDesc false filter with
  | error f1 =>
    rw [h1] at h
    cases f1 with
    | error e => cases h
    | panic p => cases h
  | ok txc =>
    rw [h1] at h
    dsimp only at h
    cases h2 : w.db.GetBestBlock with
    | error e => rw [h2] at h; cases h
    | ok bb =>
      obtain ⟨bestheight, bh⟩ := bb
      rw [h2] at h
      dsimp only at h
      cases h3 : computePaging ((UniqueTxidsInReverse txc).length : Int) page txsOnPage with
      | error f1 => rw [h3] at h; cases h
      | ok r =>
        obtain ⟨pg1, from_, to_, page1⟩ := r
        rw [h3] at h
        dsimp only at h
        refine ⟨txc, bestheight, bh, from_, to_, page1, rfl, rfl, ?_⟩
        by_cases ho : option = GetAddressOption.TxidHistory
        · simp only [ho, if_true] at h
          cases h4 : goMake "" ((txm.length : Int) + to_ - from_) with
          | error f1 => rw [h4] at h; cases h
          | ok made =>
            rw [h4] at h
            dsimp only at h
            cases h5 : Worker.GetAddress.mempoolLoop w addrDesc GetAddressOption.TxidHistory page1
                txm { uBalSat := 0, txids := made, txs := [], txi := 0 } with
            | error f1 => rw [h5] at h; cases h
            | ok st =>
              rw [h5] at h
              dsimp only at h
              cases h6 : Worker.GetAddress.confirmedLoop w GetAddressOption.TxidHistory
                  (UniqueTxidsInReverse txc) bestheight (to_ - from_).toNat from_ st with
              | error f1 => rw [h6] at h; cases h
              | ok st1 =>
                rw [h6] at h
                dsimp only at h
                cases h
                obtain ⟨m1, m2, m3, m4, m5⟩ := mempoolLoop_ok _ _ _ _ _ _ _ h5
                obtain ⟨c0, c1, c2⟩ := confirmedLoop_ok _ _ _ _ _ _ _ _ h6
                obtain ⟨c11, c12⟩ := c1 rfl
                subst ho
                refine ⟨h3, c0, ?_, fun hne => absurd rfl hne⟩
                intro _
                rw [c11, c12]
                by_cases hp : page1 = 0
                · obtain ⟨m31, m32⟩ := m3 hp rfl
                  rw [m31, m32, if_pos hp]
                  simp
                · obtain ⟨m51, m52, m53⟩ := m5 hp
                  rw [m52, m53, if_neg hp]
                  simp
        · simp only [ho, if_false] at h
          cases h4 : goMake (none : Option Tx) ((txm.length : Int) + to_ - from_) with
          | error f1 => rw [h4] at h; cases h
          | ok made =>
            rw [h4] at h
            dsimp only at h
            cases h5 : Worker.GetAddress.mempoolLoop w addrDesc option page1
                txm { uBalSat := 0, txids := [], txs := made, txi := 0 } with
            | error f1 => rw [h5] at h; cases h
            | ok st =>
              rw [h5] at h
              dsimp only at h
              cases h6 : Worker.GetAddress.confirmedLoop w option
                  (UniqueTxidsInReverse txc) bestheight (to_ - from_).toNat from_ st with
              | error f1 => rw [h6] at h; cases h
              | ok st1 =>
                rw [h6] at h
                dsimp only at h
                have hge : option.toNat ≥ GetAddressOption.TxHistoryLight.toNat := by
                  cases option <;> simp_all [GetAddressOption.toNat]
                rw [if_pos hge] at h
                cases h
                obtain ⟨m1, m2, m3, m4, m5⟩ := mempoolLoop_ok _ _ _ _ _ _ _ h5
                obtain ⟨c0, c1, c2⟩ := confirmedLoop_ok _ _ _ _ _ _ _ _ h6
                obtain ⟨c21, c22, c23⟩ := c2 ho
                refine ⟨h3, c0, fun he => absurd he ho, ?_⟩
                intro _
                refine ⟨?_, ?_, c23⟩
                · rw [c21]
                  by_cases hp : page1 = 0
                  · obtain ⟨m41, m42⟩ := m4 hp ho
                    rw [m41, if_pos hp]
                    simp
                  · obtain ⟨m51, m52, m53⟩ := m5 hp
                    rw [m52, m53, if_neg hp]
                    simp
                · rw [c22]
                  by_cases hp : page1 = 0
                  · exact (m4 hp ho).2
                  · exact (m5 hp).1

theorem GetAddress_history (w : Worker) (address : String) (page txsOnPage : Int)
    (option : GetAddressOption) (filter : AddressFilter) (r : Address)
    (hopt : option.toNat ≥ GetAddressOption.TxidHistory.toNat)
    (h : w.GetAddress address page txsOnPage option filter = .ok r) :
    ∃ (txmRaw : List String) (uBalSat : Int),
      w.getAddressTxids (w.chainParser.GetAddrDescFromAddress address).1 true
        (historyFilter w (w.chainParser.GetAddrDescFromAddress address).1 option filter) =
          .ok txmRaw ∧
      Worker.GetAddress.history w (w.chainParser.GetAddrDescFromAddress address).1 option
        (historyFilter w (w.chainParser.GetAddrDescFromAddress address).1 option filter)
        (UniqueTxidsInReverse txmRaw)
        (if hasBalanceRecord w (w.chainParser.GetAddrDescFromAddress address).1 option filter
         then (if goInt (page - 1) < 0 then 0 else goInt (page - 1)) else 0)
        txsOnPage = .ok (r.Paging, uBalSat, r.Transactions, r.Txids) := by
  unfold Worker.GetAddress at h
  rcases hparse : w.chainParser.GetAddrDescFromAddress address with ⟨addrDesc, perr⟩
  rw [hparse] at h
  cases perr with
  | some e => cases h
  | none =>
    dsimp only at h ⊢
    -- the common tail, once the balance record and the filter are known
    have tail : ∀ (ba : Option db.AddrBalance) (erc20t : List Erc20Token)
        (erc20c : Option bchain.Erc20Contract) (nonce : String) (filter1 : AddressFilter),
        (match (if option.toNat ≥ GetAddressOption.TxidHistory.toNat ∨ ba = none then
            (match w.getAddressTxids addrDesc true filter1 with
            | .error (.error err) =>
              (.error (.error (.annotated
                ("getAddressTxids " ++ sprintBytes addrDesc ++ " true") err)) :
                Res (String × db.AddrBalance × List String × Paging × Int ×
                  List (Option Tx) × List String))
            | .error f => .error f
            | .ok txm =>
              if option.toNat ≥ GetAddressOption.TxidHistory.toNat then
                match Worker.GetAddress.history w addrDesc option filter1
                    (UniqueTxidsInReverse txm) (if ba = none then 0 else
                      (if goInt (page - 1) < 0 then 0 else goInt (page - 1))) txsOnPage with
                | .error f => .error f
                | .ok (pg, uBalSat, txs, txids) =>
                  .ok ((match (w.chainParser.GetAddressesFromAddrDesc addrDesc).1 with
                        | [a] => a
                        | _ => address),
                       (match ba with | none => {} | some b => b),
                       UniqueTxidsInReverse txm, pg, uBalSat, txs, txids)
              else
                .ok ((match (w.chainParser.GetAddressesFromAddrDesc addrDesc).1 with
                      | [a] => a
                      | _ => address),
                     (match ba with | none => {} | some b => b),
                     UniqueTxidsInReverse txm,
                     { Page := 0, TotalPages := 0, ItemsOnPage := 0 }, 0, [], []))
          else
            .ok (address, (match ba with | none => {} | some b => b), [],
                 { Page := 0, TotalPages := 0, ItemsOnPage := 0 }, 0, [], [])) with
        | .error f => (.error f : Res Address)
        | .ok (address, ba, txm, pg, uBalSat, txs, txids) =>
          .ok { Paging := pg, AddrStr := address, BalanceSat := some ba.BalanceSat,
                TotalReceivedSat :=
                  (match w.chainType with
                   | .ChainBitcoinType => (some ba.ReceivedSat, some ba.SentSat)
                   | .ChainEthereumType => ((none : Option Int), (none : Option Int))).1,
                TotalSentSat :=
                  (match w.chainType with
                   | .ChainBitcoinType => (some ba.ReceivedSat, some ba.SentSat)
                   | .ChainEthereumType => ((none : Option Int), (none : Option Int))).2,
                TxApperances := (ba.Txs : Int), UnconfirmedBalanceSat := some uBalSat,
                UnconfirmedTxApperances := (txm.length : Int), Transactions := txs,
                Txids := txids, Erc20Contract := erc20c, Erc20Tokens := erc20t,
                Nonce := nonce }) = .ok r →
        ∃ (txmRaw : List String) (uBalSat : Int),
          w.getAddressTxids addrDesc true filter1 = .ok txmRaw ∧
          Worker.GetAddress.history w addrDesc option filter1 (UniqueTxidsInReverse txmRaw)
            (if ba = none then 0 else (if goInt (page - 1) < 0 then 0 else goInt (page - 1))) txsOnPage =
            .ok (r.Paging, uBalSat, r.Transactions, r.Txids) := by
      intro ba erc20t erc20c nonce filter1 h
      rw [if_pos (Or.inl hopt)] at h
      cases hm : w.getAddressTxids addrDesc true filter1 with
      | error f =>
        rw [hm] at h
        cases f with
        | error e => cases h
        | panic p => cases h
      | ok txm =>
        rw [hm] at h
        dsimp only at h
        rw [if_pos hopt] at h
        cases hh : Worker.GetAddress.history w addrDesc option filter1
            (UniqueTxidsInReverse txm) (if ba = none then 0 else
              (if goInt (page - 1) < 0 then 0 else goInt (page - 1))) txsOnPage with
        | error f => rw [hh] at h; cases h
        | ok q =>
          obtain ⟨pg, uBalSat, txs, txids⟩ := q
          rw [hh] at h
          dsimp only at h
          cases h
          exact ⟨txm, uBalSat, rfl, hh⟩
    cases hct : w.chainType with
    | ChainBitcoinType =>
      rw [hct] at h
      dsimp only at h
      cases hb : w.db.GetAddrDescBalance addrDesc with
      | error e => rw [hb] at h; cases h
      | ok ba =>
        rw [hb] at h
        dsimp only at h
        have := tail ba [] none "" filter (by rw [hct]; exact h)
        have hf : historyFilter w addrDesc option filter = filter := by
          simp [historyFilter, hct]
        have hr : (if ba = none then (0 : Int) else (if goInt (page - 1) < 0 then 0 else goInt (page - 1))) =
            (if hasBalanceRecord w addrDesc option filter
             then (if goInt (page - 1) < 0 then 0 else goInt (page - 1)) else 0) := by
          cases ba <;> simp [hasBalanceRecord, hct, hb]
        rw [hf, ← hr]
        exact this
    | ChainEthereumType =>
      rw [hct] at h
      dsimp only at h
      cases hb : w.getEthereumTypeAddressBalances addrDesc option filter with
      | error e => rw [hb] at h; cases h
      | ok q =>
        obtain ⟨ba, erc20t, erc20c, n, filter1⟩ := q
        rw [hb] at h
        dsimp only at h
        have := tail ba erc20t erc20c (Itoa (n : Int)) filter1 (by rw [hct]; exact h)
        have hf : historyFilter w addrDesc option filter = filter1 := by
          simp [historyFilter, hct, hb]
        have hr : (if ba = none then (0 : Int) else (if goInt (page - 1) < 0 then 0 else goInt (page - 1))) =
            (if hasBalanceRecord w addrDesc option filter
             then (if goInt (page - 1) < 0 then 0 else goInt (page - 1)) else 0) := by
          cases ba <;> simp [hasBalanceRecord, hct, hb]
        rw [hf, ← hr]
        exact this

/-- C8 (counterexample): over `gapStore` the confirmed txids of `a` are `S`, `T`, both on
page 1 (`from = 0`, `to = 2`), the mempool is empty, and `GetAddress` with option
`TxHistoryLight` returns one transaction, `T`: the confirmed txid `S` has no entry. -/
theorem GetAddress_light_page_omits_txid_without_row :
    scenario.gapWorker.getAddressTxids [97] false { Vout := AddressFilterVoutOff } =
      .ok ["T", "T", "S"] ∧
    UniqueTxidsInReverse ["T", "T", "S"] = ["S", "T"] ∧
    scenario.gapWorker.getAddressTxids [97] true { Vout := AddressFilterVoutOff } = .ok [] ∧
    computePaging 2 0 10 = .ok ({ Page := 1, TotalPages := 1, ItemsOnPage := 10 }, 0, 2, 0) ∧
    (match scenario.gapWorker.GetAddress "a" 1 10 GetAddressOption.TxHistoryLight
        { Vout := AddressFilterVoutOff } with
     | .ok r => r.Transactions.map (fun t => t.map (fun tx => tx.Txid)) = [some "T"]
     | .error _ => False) := by
  refine ⟨by rfl, by rfl, by rfl, by rfl, ?_⟩
  have h : (scenario.gapWorker.GetAddress "a" 1 10 GetAddressOption.TxHistoryLight
      { Vout := AddressFilterVoutOff }).map
        (fun r => r.Transactions.map (fun t => t.map (fun tx => tx.Txid))) =
      .ok [some "T"] := by rfl
  cases hr : scenario.gapWorker.GetAddress "a" 1 10 GetAddressOption.TxHistoryLight
      { Vout := AddressFilterVoutOff } with
  | error f => rw [hr] at h; cases h
  | ok r =>
    rw [hr] at h
    dsimp only
    simpa [Except.map] using h

/-- The rational ceiling of `count / itemsOnPage` by integer division. -/
theorem ceil_div_eq (count itemsOnPage : Int) (_hc : 1 ≤ count) (hi : 1 ≤ itemsOnPage) :
    ⌈(count : ℚ) / (itemsOnPage : ℚ)⌉ = (count - 1) / itemsOnPage + 1 := by
  have hiq : (0 : ℚ) < (itemsOnPage : ℚ) := by exact_mod_cast (show (0 : Int) < itemsOnPage by omega)
  rw [Int.ceil_eq_iff]
  have h1 := Int.ediv_mul_le (count - 1) (show itemsOnPage ≠ 0 by omega)
  have h2 := Int.lt_ediv_add_one_mul_self (count - 1) (show 0 < itemsOnPage by omega)
  constructor
  · rw [lt_div_iff₀ hiq]
    have : ((count - 1) / itemsOnPage) * itemsOnPage < count := by omega
    have hq : (((((count - 1) / itemsOnPage) * itemsOnPage : Int)) : ℚ) < (count : ℚ) := by
      exact_mod_cast this
    push_cast at hq ⊢
    linarith
  · rw [div_le_iff₀ hiq]
    have : count ≤ ((count - 1) / itemsOnPage + 1) * itemsOnPage := by omega
    have hq : (count : ℚ) ≤ ((((count - 1) / itemsOnPage + 1) * itemsOnPage : Int) : ℚ) := by
      exact_mod_cast this
    push_cast at hq ⊢
    linarith

/-- C18 (counterexample): with 7 items and 25 per page the product of the 0-based page
368934881474191033 and 25 is 2^63 + 17, which the 64-bit `int` holds as -2^63 + 17; it is
below 7, the page is not clamped, and `computePaging` returns `Paging.Page`
368934881474191034 of `TotalPages` 1 with a range that starts at -2^63 + 17. -/
theorem computePaging_page_above_total_pages :
    computePaging 7 368934881474191033 25 =
      .ok ({ ItemsOnPage := 25, Page := 368934881474191034, TotalPages := 1 },
           -(2 ^ 63) + 17, -(2 ^ 63) + 42, 368934881474191033) ∧
    (368934881474191033 : Int) * 25 = 2 ^ 63 + 17 ∧
    ¬ ((368934881474191034 : Int) ≤ 1) := by
  refine ⟨by rfl, by decide, by decide⟩

/-- C18 (amended): for a count `0 ≤ count < 2^63`, `itemsOnPage ≥ 1` and a 0-based
`page ≥ 0` whose product `page * itemsOnPage` fits in a 64-bit `int`, `computePaging`
returns a 1-based `Paging`: `Page` is the returned 0-based page plus one, `TotalPages` is
`max 1 ⌈count / itemsOnPage⌉`, and `1 ≤ Page ≤ TotalPages`. -/
theorem computePaging_is_one_based (count page itemsOnPage : Int)
    (hc : 0 ≤ count) (hi : 1 ≤ itemsOnPage) (hp : 0 ≤ page) (hc63 : count < 2 ^ 63)
    (h63 : page * itemsOnPage < 2 ^ 63) :
    ∃ (pg : Paging) (from_ to_ page1 : Int),
      computePaging count page itemsOnPage = .ok (pg, from_, to_, page1) ∧
      pg.Page = page1 + 1 ∧
      pg.TotalPages = max 1 ⌈(count : ℚ) / (itemsOnPage : ℚ)⌉ ∧
      1 ≤ pg.Page ∧ pg.Page ≤ pg.TotalPages := by
  rw [computePaging_eq count page itemsOnPage hc hc63 hi hp h63,
    totalPages_clip count itemsOnPage hc hi]
  refine ⟨_, _, _, _, rfl, rfl, ?_, ?_, ?_⟩
  · by_cases h0 : count = 0
    · subst h0
      have h4 : ((0 : Int) - 1) / itemsOnPage = -1 := by
        rw [show ((0 : Int) - 1) = -1 by norm_num]
        exact neg_one_ediv_pos itemsOnPage hi
      rw [h4]
      simp
    · have hq : 0 ≤ (count - 1) / itemsOnPage := Int.ediv_nonneg (by omega) (by omega)
      rw [ceil_div_eq count itemsOnPage (by omega) hi]
      simp only [h0, if_false, add_zero]
      rw [max_eq_right (by omega)]
  · by_cases h0 : count = 0
    · subst h0
      have h4 : ((0 : Int) - 1) / itemsOnPage = -1 := by
        rw [show ((0 : Int) - 1) = -1 by norm_num]
        exact neg_one_ediv_pos itemsOnPage hi
      simp only [h4, if_true]
      split_ifs <;> omega
    · have hq : 0 ≤ (count - 1) / itemsOnPage := Int.ediv_nonneg (by omega) (by omega)
      simp only [h0, if_false, add_zero]
      split_ifs <;> omega
  · by_cases h0 : count = 0
    · subst h0
      have h4 : ((0 : Int) - 1) / itemsOnPage = -1 := by
        rw [show ((0 : Int) - 1) = -1 by norm_num]
        exact neg_one_ediv_pos itemsOnPage hi
      simp only [h4, if_true]
      have : page * itemsOnPage ≥ 0 := Int.mul_nonneg hp (by omega)
      rw [if_pos this]
    · have hq : 0 ≤ (count - 1) / itemsOnPage := Int.ediv_nonneg (by omega) (by omega)
      simp only [h0, if_false, add_zero]
      by_cases hge : page * itemsOnPage ≥ count
      · rw [if_pos hge]
      · rw [if_neg hge]
        have hlt : page * itemsOnPage ≤ count - 1 := by omega
        have : page ≤ (count - 1) / itemsOnPage := by
          rw [Int.le_ediv_iff_mul_le (by omega)]; exact hlt
        omega

/-- C18 (amended) at 7 items, 3 per page, 0-based page 1: page 2 of 3. -/
theorem computePaging_is_one_based_witness :
    (0 : Int) ≤ 7 ∧ (1 : Int) ≤ 3 ∧ (0 : Int) ≤ 1 ∧ (7 : Int) < 2 ^ 63 ∧
    (1 : Int) * 3 < 2 ^ 63 ∧
    ∃ (pg : Paging) (from_ to_ page1 : Int),
      computePaging 7 1 3 = .ok (pg, from_, to_, page1) ∧
      pg.Page = page1 + 1 ∧
      pg.TotalPages = max 1 ⌈((7 : Int) : ℚ) / ((3 : Int) : ℚ)⌉ ∧
      1 ≤ pg.Page ∧ pg.Page ≤ pg.TotalPages :=
  ⟨by decide, by decide, by decide, by decide, by decide,
   computePaging_is_one_based 7 1 3 (by decide) (by decide) (by decide) (by decide)
     (by decide)⟩

theorem newTxids_length_le (seen l : List String) : (newTxids seen l).length ≤ l.length := by
  induction l generalizing seen with
  | nil => simp [newTxids]
  | cons x xs ih =>
    unfold newTxids
    split_ifs
    · have := ih seen; simp only [List.length_cons]; omega
    · have := ih (x :: seen); simp only [List.length_cons]; omega

theorem newTxids_eq_filter (seen l : List String) :
    newTxids seen l = (firstOccurrences l).filter (fun y => y ∉ seen) := by
  induction l generalizing seen with
  | nil => simp [newTxids, firstOccurrences]
  | cons x xs ih =>
    unfold newTxids firstOccurrences
    by_cases hx : x ∈ seen
    · rw [if_pos hx, ih seen, List.filter_cons_of_neg (by simpa using hx), List.filter_filter]
      apply List.filter_congr
      intro y _
      by_cases hy : y ∈ seen
      · simp [hy]
      · have : y ≠ x := fun h => hy (h ▸ hx)
        simp [hy, this]
    · rw [if_neg hx, ih (x :: seen), List.filter_cons_of_pos (by simpa using hx),
        List.filter_filter]
      congr 1
      apply List.filter_congr
      intro y _
      simp only [List.mem_cons, not_or, decide_not, Bool.and_eq_true, Bool.not_eq_true',
        decide_eq_false_iff_not, ne_eq, Bool.decide_and, Bool.decide_eq_true]
      by_cases h1 : y = x <;> by_cases h2 : y ∈ seen <;> simp [h1, h2]

theorem newTxids_nil (l : List String) : newTxids [] l = firstOccurrences l := by
  rw [newTxids_eq_filter]; simp

/-- Invariant of the loop of `UniqueTxidsInReverse`: the new elements are stored downwards
from `i`, the rest of the slice is untouched. -/
theorem UniqueTxidsInReverse_loop_eq (l : List String) (i : Nat) (ut seen : List String)
    (hl : l.length ≤ i) (hi : i ≤ ut.length) :
    (UniqueTxidsInReverse.loop l i ut seen).1 = i - (newTxids seen l).length ∧
    (UniqueTxidsInReverse.loop l i ut seen).2.length = ut.length ∧
    (UniqueTxidsInReverse.loop l i ut seen).2.drop (i - (newTxids seen l).length) =
      (newTxids seen l).reverse ++ ut.drop i := by
  induction l generalizing i ut seen with
  | nil => simp [UniqueTxidsInReverse.loop, newTxids]
  | cons x xs ih =>
    simp only [List.length_cons] at hl
    unfold UniqueTxidsInReverse.loop newTxids
    by_cases hx : x ∈ seen
    · rw [if_pos hx, if_pos hx]
      exact ih i ut seen (by omega) hi
    · rw [if_neg hx, if_neg hx]
      have h := ih (i - 1) (ut.set (i - 1) x) (x :: seen) (by omega)
        (by rw [List.length_set]; omega)
      have hk := newTxids_length_le (x :: seen) xs
      obtain ⟨h1, h2, h3⟩ := h
      refine ⟨?_, ?_, ?_⟩
      · rw [h1]; simp only [List.length_cons]; omega
      · rw [h2, List.length_set]
      · have e : i - (x :: newTxids (x :: seen) xs).length =
            i - 1 - (newTxids (x :: seen) xs).length := by
          simp only [List.length_cons]; omega
        rw [e, h3, List.reverse_cons, List.append_assoc]
        congr 1
        have hlt : i - 1 < ut.length := by omega
        have hlen : i - 1 < (ut.set (i - 1) x).length := by rw [List.length_set]; exact hlt
        rw [List.drop_eq_getElem_cons hlen, List.getElem_set_self,
          List.drop_set_of_lt _ _ (by omega : i - 1 < i - 1 + 1)]
        have e2 : i - 1 + 1 = i := by omega
        rw [e2]
        rfl

theorem UniqueTxidsInReverse_eq (l : List String) :
    UniqueTxidsInReverse l = (firstOccurrences l).reverse := by
  unfold UniqueTxidsInReverse
  have h := UniqueTxidsInReverse_loop_eq l l.length (List.replicate l.length "") []
    (le_refl _) (by simp)
  obtain ⟨h1, _, h3⟩ := h
  simp only
  rw [h1, h3, newTxids_nil]
  simp

theorem firstOccurrences_mem (l : List String) (x : String) :
    x ∈ firstOccurrences l ↔ x ∈ l := by
  induction l with
  | nil => simp [firstOccurrences]
  | cons y ys ih =>
    simp only [firstOccurrences, List.mem_cons, List.mem_filter, ih, ne_eq, decide_not,
      Bool.not_eq_true', decide_eq_false_iff_not]
    by_cases h : x = y <;> simp [h]

theorem firstOccurrences_nodup (l : List String) : (firstOccurrences l).Nodup := by
  induction l with
  | nil => simp [firstOccurrences]
  | cons y ys ih =>
    simp only [firstOccurrences, List.nodup_cons, List.mem_filter, ne_eq, decide_not,
      Bool.not_eq_true', decide_eq_false_iff_not, not_true_eq_false, and_false,
      not_false_eq_true, true_and]
    exact ih.filter _

/-- C12: the result of `UniqueTxidsInReverse` has no txid twice, holds exactly the txids of
the input, and its length is the number of distinct txids of the input. -/
theorem UniqueTxidsInReverse_distinct_txids (txids : List String) :
    (UniqueTxidsInReverse txids).Nodup ∧
    (∀ txid : String, txid ∈ UniqueTxidsInReverse txids ↔ txid ∈ txids) ∧
    (UniqueTxidsInReverse txids).length = txids.toFinset.card := by
  have hn : (UniqueTxidsInReverse txids).Nodup := by
    rw [UniqueTxidsInReverse_eq]; exact List.nodup_reverse.mpr (firstOccurrences_nodup txids)
  have hm : ∀ txid : String, txid ∈ UniqueTxidsInReverse txids ↔ txid ∈ txids := by
    intro txid
    rw [UniqueTxidsInReverse_eq, List.mem_reverse, firstOccurrences_mem]
  refine ⟨hn, hm, ?_⟩
  rw [← List.toFinset_card_of_nodup hn]
  congr 1
  ext x
  simp only [List.mem_toFinset]
  exact hm x

theorem dedup_append_singleton (ys : List String) (x : String) :
    (ys ++ [x]).dedup = ys.dedup.filter (fun y => y ≠ x) ++ [x] := by
  induction ys with
  | nil => simp
  | cons y ys ih =>
    by_cases hy : y ∈ ys
    · have : y ∈ ys ++ [x] := List.mem_append_left _ hy
      rw [List.cons_append, List.dedup_cons_of_mem this, List.dedup_cons_of_mem hy, ih]
    · rw [List.dedup_cons_of_not_mem hy]
      by_cases hyx : y = x
      · subst hyx
        have : y ∈ ys ++ [y] := by simp
        rw [List.cons_append, List.dedup_cons_of_mem this, ih]
        simp
      · have : y ∉ ys ++ [x] := by simp [hy, hyx]
        rw [List.cons_append, List.dedup_cons_of_not_mem this, ih]
        simp [hyx]

theorem reverse_dedup_eq (l : List String) :
    l.reverse.dedup = (firstOccurrences l).reverse := by
  induction l with
  | nil => simp [firstOccurrences]
  | cons x xs ih =>
    rw [List.reverse_cons, dedup_append_singleton, ih, firstOccurrences, List.reverse_cons,
      List.filter_reverse]

/-- C13, as the code has it: `UniqueTxidsInReverse` is the reversed input with duplicates
removed where of every txid the occurrence that is last in the reversed list stays, which
is its oldest (first) occurrence in the input; the txids are in the reversed order of their
first occurrences. -/
theorem UniqueTxidsInReverse_keeps_oldest_occurrence (txids : List String) :
    UniqueTxidsInReverse txids = txids.reverse.dedup ∧
    UniqueTxidsInReverse txids = (firstOccurrences txids).reverse := by
  rw [reverse_dedup_eq]
  exact ⟨UniqueTxidsInReverse_eq txids, UniqueTxidsInReverse_eq txids⟩

/-- C13 as stated fails on the history a, b, a (oldest first): reversing it and removing
duplicates in newest-first order gives a, b, whereas the code returns b, a. -/
theorem UniqueTxidsInReverse_is_not_newest_occurrence_order :
    UniqueTxidsInReverse ["a", "b", "a"] = ["b", "a"] ∧
    firstOccurrences (["a", "b", "a"].reverse) = ["a", "b"] ∧
    UniqueTxidsInReverse ["a", "b", "a"] ≠ firstOccurrences (["a", "b", "a"].reverse) := by
  refine ⟨by decide, by decide, by decide⟩

theorem goInt32_of_range (x : Int) (h1 : -2 ^ 31 ≤ x) (h2 : x < 2 ^ 31) : goInt32 x = x := by
  unfold goInt32
  rw [Int.emod_eq_of_lt (by omega) (by omega)]
  omega

theorem addFilteredTxid_keeps (filter : AddressFilter)
    (h1 : -2 ^ 31 ≤ filter.Vout) (h2 : filter.Vout < 2 ^ 31)
    (txids : List String) (txid : String) (index : Int) (isOutput : Bool) :
    Worker.getAddressTxids.addFilteredTxid filter txids txid index isOutput =
      .ok (if filter.keeps index isOutput then txids ++ [txid] else txids, none) := by
  unfold Worker.getAddressTxids.addFilteredTxid AddressFilter.keeps
  rw [goInt32_of_range _ h1 h2]
  by_cases h : filter.Vout = AddressFilterVoutOff ∨
      (filter.Vout = AddressFilterVoutInputs ∧ isOutput = false) ∨
      (filter.Vout = AddressFilterVoutOutputs ∧ isOutput = true) ∨ index = filter.Vout
  · have h' : filter.Vout = AddressFilterVoutOff ∨
      (filter.Vout = AddressFilterVoutInputs ∧ isOutput = false) ∨
      (filter.Vout = AddressFilterVoutOutputs ∧ isOutput = true) ∨ filter.Vout = index := by
      rcases h with h | h | h | h
      · exact Or.inl h
      · exact Or.inr (Or.inl h)
      · exact Or.inr (Or.inr (Or.inl h))
      · exact Or.inr (Or.inr (Or.inr h.symm))
    rw [if_pos h, decide_eq_true h', if_pos rfl]
  · have h' : ¬ (filter.Vout = AddressFilterVoutOff ∨
      (filter.Vout = AddressFilterVoutInputs ∧ isOutput = false) ∨
      (filter.Vout = AddressFilterVoutOutputs ∧ isOutput = true) ∨ filter.Vout = index) := by
      intro h'
      apply h
      rcases h' with h | h | h | h
      · exact Or.inl h
      · exact Or.inr (Or.inl h)
      · exact Or.inr (Or.inr (Or.inl h))
      · exact Or.inr (Or.inr (Or.inr h.symm))
    rw [if_neg h, decide_eq_false h']
    simp

theorem iteratePostings_addFilteredTxid (filter : AddressFilter)
    (h1 : -2 ^ 31 ≤ filter.Vout) (h2 : filter.Vout < 2 ^ 31)
    (l : List db.outpoint) (s : List String) :
    db.iteratePostings (Worker.getAddressTxids.addFilteredTxid filter) l s =
      .ok (s ++ (l.filter (fun o =>
        filter.keeps (if o.index < 0 then -o.index - 1 else o.index)
          (if o.index < 0 then false else true))).map
          (fun o => o.btxID), none) := by
  induction l generalizing s with
  | nil => simp [db.iteratePostings]
  | cons o rest ih =>
    unfold db.iteratePostings
    simp only [addFilteredTxid_keeps filter h1 h2]
    rw [ih]
    by_cases hk : filter.keeps (if o.index < 0 then -o.index - 1 else o.index)
          (if o.index < 0 then false else true) = true
    · rw [List.filter_cons, if_pos hk, if_pos hk]
      simp
    · rw [List.filter_cons, if_neg hk, if_neg hk]

theorem mempoolLoop_addFilteredTxid (filter : AddressFilter)
    (h1 : -2 ^ 31 ≤ filter.Vout) (h2 : filter.Vout < 2 ^ 31)
    (l : List bchain.Outpoint) (s : List String) :
    Worker.getAddressTxids.mempoolLoop filter l s =
      .ok (s ++ (l.filter (fun m =>
        filter.keeps (if m.Vout < 0 then -m.Vout - 1 else m.Vout)
          (if m.Vout < 0 then false else true))).map
          (fun m => m.Txid)) := by
  induction l generalizing s with
  | nil => simp [Worker.getAddressTxids.mempoolLoop]
  | cons m rest ih =>
    unfold Worker.getAddressTxids.mempoolLoop
    simp only [addFilteredTxid_keeps filter h1 h2]
    rw [ih]
    by_cases hk : filter.keeps (if m.Vout < 0 then -m.Vout - 1 else m.Vout)
          (if m.Vout < 0 then false else true) = true
    · rw [List.filter_cons, if_pos hk, if_pos hk]
      simp
    · rw [List.filter_cons, if_neg hk, if_neg hk]

/-! ## `GetAddress`: the entries of a page -/

/-- C8 (amended): for an option from `TxidHistory` on, a result of `GetAddress` holds, on the
first page, the mempool transactions of the address that could be fetched (deduplicated,
newest first) followed by the entries of the confirmed txids `txc[from:to)` of the page, and
on a later page only the latter; with option `TxHistoryLight` on a UTXO chain a confirmed
txid whose TxAddresses row or block info is missing has no entry. The mempool txids and the
confirmed txids `txc` are those that `getAddressTxids` yields under the filter with which
`GetAddress` reads the history (the filter of the call; on an account chain with a contract
filter its vout side is the index of the contract): for a vout filter that is an `int32`
value, the txids of the mempool postings of the address and of its stored postings in the
height range of the filter that the vout filter keeps. -/
theorem GetAddress_page_entries (w : Worker) (address : String) (page txsOnPage : Int)
    (option : GetAddressOption) (filter : AddressFilter) (r : Address)
    (hopt : option.toNat ≥ GetAddressOption.TxidHistory.toNat)
    (h : w.GetAddress address page txsOnPage option filter = .ok r) :
    PageEntries w address page txsOnPage option filter r ∧
    (-2 ^ 31 ≤ (historyFilter w (w.chainParser.GetAddrDescFromAddress address).1 option
        filter).Vout →
      (historyFilter w (w.chainParser.GetAddrDescFromAddress address).1 option
        filter).Vout < 2 ^ 31 →
      w.getAddressTxids (w.chainParser.GetAddrDescFromAddress address).1 false
          (historyFilter w (w.chainParser.GetAddrDescFromAddress address).1 option filter) =
        .ok (((visitedPostings w (w.chainParser.GetAddrDescFromAddress address).1
          (historyFilter w (w.chainParser.GetAddrDescFromAddress address).1 option
            filter)).filter (fun o =>
          (historyFilter w (w.chainParser.GetAddrDescFromAddress address).1 option
            filter).keeps (if o.index < 0 then -o.index - 1 else o.index)
            (if o.index < 0 then false else true))).map (fun o => o.btxID)) ∧
      ∀ o : List bchain.Outpoint,
        w.chain.GetMempoolTransactionsForAddrDesc
          (w.chainParser.GetAddrDescFromAddress address).1 = .ok o →
        w.getAddressTxids (w.chainParser.GetAddrDescFromAddress address).1 true
            (historyFilter w (w.chainParser.GetAddrDescFromAddress address).1 option filter) =
          .ok ((o.filter (fun m =>
            (historyFilter w (w.chainParser.GetAddrDescFromAddress address).1 option
              filter).keeps (if m.Vout < 0 then -m.Vout - 1 else m.Vout)
              (if m.Vout < 0 then false else true))).map (fun m => m.Txid))) := by
  refine ⟨?_, ?_⟩
  · obtain ⟨txmRaw, uBalSat, hm, hh⟩ :=
      GetAddress_history w address page txsOnPage option filter r hopt h
    obtain ⟨txcRaw, bestheight, bh, from_, to_, page1, h1, h2, h3, h4, h5, h6⟩ :=
      history_ok w _ option _ _ _ txsOnPage _ _ _ _ hopt hh
    exact ⟨txmRaw, txcRaw, bestheight, bh, from_, to_, page1, hm, h1, h2, h3, h4, h5, h6⟩
  · intro hlo hhi
    refine ⟨?_, ?_⟩
    · unfold Worker.getAddressTxids db.RocksDB.GetAddrDescTransactions
      simp only [Bool.false_eq_true, if_false]
      rw [iteratePostings_addFilteredTxid _ hlo hhi]
      simp only [List.nil_append]
      rfl
    · intro o ho
      unfold Worker.getAddressTxids
      simp only [if_true, ho]
      rw [mempoolLoop_addFilteredTxid _ hlo hhi]
      simp only [List.nil_append]

/-- C8 (amended) over `gapStore`: the page of `a` with option `TxHistoryLight`. -/
theorem GetAddress_page_entries_witness :
    ∃ r, scenario.gapWorker.GetAddress "a" 1 10 GetAddressOption.TxHistoryLight
        { Vout := AddressFilterVoutOff } = .ok r ∧
      PageEntries scenario.gapWorker "a" 1 10 GetAddressOption.TxHistoryLight
        { Vout := AddressFilterVoutOff } r := by
  obtain ⟨r, hr⟩ : ∃ r, scenario.gapWorker.GetAddress "a" 1 10 GetAddressOption.TxHistoryLight
      { Vout := AddressFilterVoutOff } = .ok r := ⟨_, rfl⟩
  exact ⟨r, hr, (GetAddress_page_entries scenario.gapWorker "a" 1 10
    GetAddressOption.TxHistoryLight { Vout := AddressFilterVoutOff } r (by decide) hr).1⟩

/-! ## `getAddressTxids`: the vout filter -/

/-- C17 (amended): for a filter whose vout is an `int32` value, `addFilteredTxid` keeps a
posting `(txid, index, isOutput)` with `index ≥ 0` exactly when the filter is off, or is
"inputs" and the posting an input, or is "outputs" and the posting an output, or is the
posting's index;
the confirmed history is the txids of the kept stored postings in iteration order; the
mempool history is the txids of the kept mempool entries in their order, where a negative
vout `v` is the input `-v-1` and another one the output `v`. -/
theorem getAddressTxids_keeps_filtered_postings (w : Worker) (addrDesc : AddressDescriptor)
    (filter : AddressFilter) (h1 : -2 ^ 31 ≤ filter.Vout) (h2 : filter.Vout < 2 ^ 31) :
    (∀ (txids : List String) (txid : String) (index : Int) (isOutput : Bool), 0 ≤ index →
      Worker.getAddressTxids.addFilteredTxid filter txids txid index isOutput =
        .ok (if filter.Vout = AddressFilterVoutOff ∨
                (filter.Vout = AddressFilterVoutInputs ∧ isOutput = false) ∨
                (filter.Vout = AddressFilterVoutOutputs ∧ isOutput = true) ∨
                (0 ≤ filter.Vout ∧ filter.Vout = index)
             then txids ++ [txid] else txids, none)) ∧
    w.getAddressTxids addrDesc false filter =
      .ok (((visitedPostings w addrDesc filter).filter (fun o =>
        filter.keeps (if o.index < 0 then -o.index - 1 else o.index)
          (if o.index < 0 then false else true))).map (fun o => o.btxID)) ∧
    (∀ o : List bchain.Outpoint, w.chain.GetMempoolTransactionsForAddrDesc addrDesc = .ok o →
      w.getAddressTxids addrDesc true filter =
        .ok ((o.filter (fun m =>
          filter.keeps (if m.Vout < 0 then -m.Vout - 1 else m.Vout)
            (if m.Vout < 0 then false else true))).map (fun m => m.Txid))) := by
  refine ⟨?_, ?_, ?_⟩
  · intro txids txid index isOutput hidx
    rw [addFilteredTxid_keeps filter h1 h2]
    unfold AddressFilter.keeps
    congr 2
    by_cases hv : filter.Vout = index
    · have : 0 ≤ filter.Vout := hv ▸ hidx
      simp [hv, this, hidx]
    · simp [hv]
  · unfold Worker.getAddressTxids db.RocksDB.GetAddrDescTransactions
    simp only [Bool.false_eq_true, if_false]
    rw [iteratePostings_addFilteredTxid filter h1 h2]
    simp only [List.nil_append]
    rfl
  · intro o ho
    unfold Worker.getAddressTxids
    simp only [if_true, ho]
    rw [mempoolLoop_addFilteredTxid filter h1 h2]
    simp only [List.nil_append]

/-- C17 (amended) on the two-block fixture: of the two postings of `Addr2` the filter
"inputs" keeps the spending transaction of block 2. -/
theorem getAddressTxids_keeps_filtered_postings_witness :
    -2 ^ 31 ≤ ({ Vout := AddressFilterVoutInputs } : AddressFilter).Vout ∧
    ({ Vout := AddressFilterVoutInputs } : AddressFilter).Vout < 2 ^ 31 ∧
    scenario.fixtureWorker.getAddressTxids (scenario.descOf scenario.Addr2) false
      { Vout := AddressFilterVoutInputs } = .ok [scenario.TxidB2T1] :=
  ⟨by decide, by decide,
   (getAddressTxids_keeps_filtered_postings scenario.fixtureWorker
      (scenario.descOf scenario.Addr2) { Vout := AddressFilterVoutInputs }
      (by decide) (by decide)).2.1.trans (by rfl)⟩

/-- C17 (counterexample): the closure compares the posting's index with
`int32(filter.Vout)`. The filter value 2^32 + 1 is not "off", "inputs" or "outputs" and is
not the index 1, but its low 32 bits are 1: the closure keeps the output posting with the
index 1, and on the two-block fixture the confirmed history of `Addr2` under this filter
holds the transactions of its two postings, the output 1 of `TxidB1T1` and the input 1 of
`TxidB2T1`. -/
theorem getAddressTxids_keeps_index_of_low_32_bits :
    Worker.getAddressTxids.addFilteredTxid { Vout := 2 ^ 32 + 1 } [] "t" 1 true =
      .ok (["t"], none) ∧
    ¬ ((2 ^ 32 + 1 : Int) = AddressFilterVoutOff ∨
       ((2 ^ 32 + 1 : Int) = AddressFilterVoutInputs ∧ true = false) ∨
       ((2 ^ 32 + 1 : Int) = AddressFilterVoutOutputs ∧ true = true) ∨
       (2 ^ 32 + 1 : Int) = 1) ∧
    goInt32 (2 ^ 32 + 1) = 1 ∧
    scenario.fixtureStore.Addresses (scenario.descOf scenario.Addr2) =
      [(225493, [{ btxID := scenario.TxidB1T1, index := 1 }]),
       (225494, [{ btxID := scenario.TxidB2T1, index := -2 }])] ∧
    scenario.fixtureWorker.getAddressTxids (scenario.descOf scenario.Addr2) false
      { Vout := 2 ^ 32 + 1 } = .ok [scenario.TxidB1T1, scenario.TxidB2T1] := by
  refine ⟨by rfl, by decide, by rfl, by rfl, by rfl⟩

theorem balances_loop_congr (w w1 : Worker) (addrDesc : AddressDescriptor)
    (option : GetAddressOption) (filterDesc : AddressDescriptor)
    (h1 : w1.chain.EthereumTypeGetErc20ContractInfo = w.chain.EthereumTypeGetErc20ContractInfo)
    (h2 : w1.chain.EthereumTypeGetErc20ContractBalance =
      w.chain.EthereumTypeGetErc20ContractBalance)
    (h3 : w1.chainParser = w.chainParser)
    (l : List db.AddrContract) (i : Nat) (filter : AddressFilter) (erc20t : List Erc20Token) :
    Worker.getEthereumTypeAddressBalances.loop w1 addrDesc option filterDesc l i filter erc20t =
      Worker.getEthereumTypeAddressBalances.loop w addrDesc option filterDesc l i filter
        erc20t := by
  induction l generalizing i filter erc20t with
  | nil => rfl
  | cons c rest ih =>
    unfold Worker.getEthereumTypeAddressBalances.loop
    simp only [h1, h2, h3, ih]

theorem balances_withHistorySources (w : Worker)
    (mp : AddressDescriptor → Except GoError (List bchain.Outpoint))
    (a : AddressDescriptor → List (Nat × List db.outpoint)) (tc : db.TxCache)
    (ta : String → Except GoError (Option db.TxAddresses))
    (bi : Nat → Except GoError (Option db.BlockInfo)) (best : Except GoError (Nat × String))
    (addrDesc : AddressDescriptor) (option : GetAddressOption) (filter : AddressFilter) :
    (w.withHistorySources mp a tc ta bi best).getEthereumTypeAddressBalances addrDesc option
        filter =
      w.getEthereumTypeAddressBalances addrDesc option filter := by
  unfold Worker.getEthereumTypeAddressBalances
  simp only [balances_loop_congr w (w.withHistorySources mp a tc ta bi best) addrDesc option _
    rfl rfl rfl]
  rfl

/-- What `GetAddress` returns for the options `Basic` and `Balance` when the balance record
`ba` is present: no lookup of the history is made. -/
theorem GetAddress_without_history (w : Worker) (address : String) (page txsOnPage : Int)
    (option : GetAddressOption) (filter : AddressFilter)
    (hopt : option = GetAddressOption.Basic ∨ option = GetAddressOption.Balance)
    (haddr : (w.chainParser.GetAddrDescFromAddress address).2 = none)
    (hba : hasBalanceRecord w (w.chainParser.GetAddrDescFromAddress address).1 option filter =
      true) :
    ∃ r, w.GetAddress address page txsOnPage option filter = .ok r ∧
      r.Transactions = [] ∧ r.Txids = [] ∧
      r.Paging = { Page := 0, TotalPages := 0, ItemsOnPage := 0 } ∧
      r.UnconfirmedBalanceSat = some 0 ∧ r.UnconfirmedTxApperances = 0 ∧
      ∀ (mp : AddressDescriptor → Except GoError (List bchain.Outpoint))
        (a : AddressDescriptor → List (Nat × List db.outpoint)) (tc : db.TxCache)
        (ta : String → Except GoError (Option db.TxAddresses))
        (bi : Nat → Except GoError (Option db.BlockInfo))
        (best : Except GoError (Nat × String)),
        (w.withHistorySources mp a tc ta bi best).GetAddress address page txsOnPage option
          filter = .ok r := by
  have ho : ¬ (option.toNat ≥ GetAddressOption.TxidHistory.toNat) := by
    rcases hopt with h | h <;> subst h <;> decide
  unfold Worker.GetAddress
  unfold hasBalanceRecord at hba
  cases hp : w.chainParser.GetAddrDescFromAddress address with
  | mk addrDesc e =>
    rw [hp] at haddr hba
    simp only at haddr hba
    subst haddr
    simp only
    cases hc : w.chainType with
    | ChainBitcoinType =>
      rw [hc] at hba
      simp only at hba
      cases hb : w.db.GetAddrDescBalance addrDesc with
      | error err => rw [hb] at hba; simp at hba
      | ok ba =>
        cases ba with
        | none => rw [hb] at hba; simp at hba
        | some b =>
          simp only [ho, false_or, if_false, reduceCtorEq]
          refine ⟨_, rfl, rfl, rfl, rfl, rfl, rfl, ?_⟩
          intro mp a tc ta bi best
          have hp1 : (w.withHistorySources mp a tc ta bi best).chainParser.GetAddrDescFromAddress
              address = (addrDesc, none) := hp
          have hc1 : (w.withHistorySources mp a tc ta bi best).chainType =
              bchain.ChainType.ChainBitcoinType := hc
          have hb1 : (w.withHistorySources mp a tc ta bi best).db.GetAddrDescBalance addrDesc =
              .ok (some b) := hb
          simp only [hp1, hc1, hb1, if_false, reduceCtorEq]
    | ChainEthereumType =>
      rw [hc] at hba
      simp only at hba
      cases hb : w.getEthereumTypeAddressBalances addrDesc option filter with
      | error err => rw [hb] at hba; simp at hba
      | ok res =>
        obtain ⟨ba, erc20t, erc20c, n, filter1⟩ := res
        cases ba with
        | none => rw [hb] at hba; simp at hba
        | some b =>
          simp only [ho, false_or, if_false, reduceCtorEq]
          refine ⟨_, rfl, rfl, rfl, rfl, rfl, rfl, ?_⟩
          intro mp a tc ta bi best
          have hp1 : (w.withHistorySources mp a tc ta bi best).chainParser.GetAddrDescFromAddress
              address = (addrDesc, none) := hp
          have hc1 : (w.withHistorySources mp a tc ta bi best).chainType =
              bchain.ChainType.ChainEthereumType := hc
          have hb1 := balances_withHistorySources w mp a tc ta bi best addrDesc option filter
          rw [hb] at hb1
          simp only [hp1, hc1, hb1, if_false, reduceCtorEq]

/-- C11: for a valid address with a balance record and the option `Basic` or `Balance`,
`GetAddress` returns a result with empty `Transactions` and `Txids`, zero `Paging`,
unconfirmed balance 0 and `UnconfirmedTxApperances` 0, and the same result whatever the
mempool, the Addresses column, the transaction cache and the TxAddresses, block info and
best block reads hold (it looks up neither history nor mempool); a result for the option
`TxidHistory` has the page entries in `Txids` and no `Transactions`; a result for
`TxHistoryLight` or `TxHistory` has them in `Transactions` and no `Txids`. -/
theorem GetAddress_fields_by_option (w : Worker) (address : String) (page txsOnPage : Int)
    (option : GetAddressOption) (filter : AddressFilter) :
    ((option = GetAddressOption.Basic ∨ option = GetAddressOption.Balance) →
      (w.chainParser.GetAddrDescFromAddress address).2 = none →
      hasBalanceRecord w (w.chainParser.GetAddrDescFromAddress address).1 option filter = true →
      ∃ r, w.GetAddress address page txsOnPage option filter = .ok r ∧
        r.Transactions = [] ∧ r.Txids = [] ∧
        r.Paging = { Page := 0, TotalPages := 0, ItemsOnPage := 0 } ∧
        r.UnconfirmedBalanceSat = some 0 ∧ r.UnconfirmedTxApperances = 0 ∧
        ∀ (mp : AddressDescriptor → Except GoError (List bchain.Outpoint))
          (a : AddressDescriptor → List (Nat × List db.outpoint)) (tc : db.TxCache)
          (ta : String → Except GoError (Option db.TxAddresses))
          (bi : Nat → Except GoError (Option db.BlockInfo))
          (best : Except GoError (Nat × String)),
          (w.withHistorySources mp a tc ta bi best).GetAddress address page txsOnPage option
            filter = .ok r) ∧
    (∀ r : Address, w.GetAddress address page txsOnPage option filter = .ok r →
      (option = GetAddressOption.TxidHistory →
        PageEntries w address page txsOnPage option filter r ∧ r.Transactions = []) ∧
      (option = GetAddressOption.TxHistoryLight ∨ option = GetAddressOption.TxHistory →
        PageEntries w address page txsOnPage option filter r ∧ r.Txids = [])) := by
  refine ⟨GetAddress_without_history w address page txsOnPage option filter, ?_⟩
  intro r h
  have key : option.toNat ≥ GetAddressOption.TxidHistory.toNat →
      PageEntries w address page txsOnPage option filter r := by
    intro hopt
    obtain ⟨txmRaw, uBalSat, hm, hh⟩ :=
      GetAddress_history w address page txsOnPage option filter r hopt h
    obtain ⟨txcRaw, bestheight, bh, from_, to_, page1, h1, h2, h3, h4, h5, h6⟩ :=
      history_ok w _ option _ _ _ txsOnPage _ _ _ _ hopt hh
    exact ⟨txmRaw, txcRaw, bestheight, bh, from_, to_, page1, hm, h1, h2, h3, h4, h5, h6⟩
  constructor
  · intro ho
    have hp := key (le_of_eq (congrArg GetAddressOption.toNat ho).symm)
    obtain ⟨_, _, _, _, _, _, _, _, _, _, _, _, h5, _⟩ := hp
    exact ⟨key (le_of_eq (congrArg GetAddressOption.toNat ho).symm), (h5 ho).2⟩
  · intro ho
    have hge : option.toNat ≥ GetAddressOption.TxidHistory.toNat := by
      rcases ho with ho | ho <;> rw [ho] <;> decide
    have hne : option ≠ GetAddressOption.TxidHistory := by
      rcases ho with ho | ho <;> rw [ho] <;> decide
    have hp := key hge
    obtain ⟨_, _, _, _, _, _, _, _, _, _, _, _, _, h6⟩ := hp
    exact ⟨key hge, (h6 hne).2.1⟩

/-- C11 on the two-block fixture: `Addr2` with the option `Basic`. -/
theorem GetAddress_fields_by_option_witness :
    ∃ r, scenario.fixtureWorker.GetAddress scenario.Addr2 1 10 GetAddressOption.Basic
        { Vout := AddressFilterVoutOff } = .ok r ∧
      r.Transactions = [] ∧ r.Txids = [] ∧
      r.Paging = { Page := 0, TotalPages := 0, ItemsOnPage := 0 } ∧
      r.UnconfirmedBalanceSat = some 0 ∧ r.UnconfirmedTxApperances = 0 := by
  obtain ⟨r, h1, h2, h3, h4, h5, h6, _⟩ :=
    (GetAddress_fields_by_option scenario.fixtureWorker scenario.Addr2 1 10
      GetAddressOption.Basic { Vout := AddressFilterVoutOff }).1 (Or.inl rfl) (by rfl) (by rfl)
  exact ⟨r, h1, h2, h3, h4, h5, h6⟩

theorem GetTransactionFromBchainTx_ok (w : Worker) (bchainTx : bchain.Tx) (height : Nat)
    (spendingTxs specificJSON : Bool) (r : Tx)
    (h : w.GetTransactionFromBchainTx bchainTx height spendingTxs specificJSON = .ok r) :
    ∃ (ta : Option db.TxAddresses) (valInSat valOutSat : Int),
      (bchainTx.Confirmations = 0 → ta = none) ∧
      (w.chainType = bchain.ChainType.ChainEthereumType → ta = none) ∧
      (bchainTx.Confirmations > 0 → w.chainType = bchain.ChainType.ChainBitcoinType →
        w.db.GetTxAddresses bchainTx.Txid = .ok ta) ∧
      Worker.GetTransactionFromBchainTx.vinLoop w bchainTx.Vin 0 0 = .ok (r.Vin, valInSat) ∧
      Worker.GetTransactionFromBchainTx.voutLoop w bchainTx height spendingTxs ta
        bchainTx.Vout 0 0 = .ok (r.Vout, valOutSat) ∧
      (w.chainType = bchain.ChainType.ChainBitcoinType →
        r.ValueInSat = some valInSat ∧ r.ValueOutSat = some valOutSat ∧
        r.FeesSat = some (if valInSat - valOutSat < 0 then 0 else valInSat - valOutSat)) := by
  unfold Worker.GetTransactionFromBchainTx at h
  simp only [bind, Except.bind, pure, Except.pure] at h
  split at h
  · exact absurd h (by simp)
  · rename_i v hv
    split at h
    · exact absurd h (by simp)
    · rename_i v1 hv1
      split at h
      · exact absurd h (by simp)
      · rename_i v2 hv2
        split at h
        · exact absurd h (by simp)
        · rename_i v3 hv3
          split at h
          · exact absurd h (by simp)
          · rename_i v4 hv4
            have hr : r = _ := (Except.ok.inj h).symm
            refine ⟨v.1, v1.2, v2.2, ?_, ?_, ?_, ?_, ?_, ?_⟩
            · intro hc
              have : ¬ (bchainTx.Confirmations > 0) := by omega
              rw [if_neg this] at hv
              rw [← Except.ok.inj hv]
            · intro hc
              by_cases hpos : bchainTx.Confirmations > 0
              · rw [if_pos hpos, hc] at hv
                simp only at hv
                split at hv
                · exact absurd hv (by simp)
                · rw [← Except.ok.inj hv]
              · rw [if_neg hpos] at hv
                rw [← Except.ok.inj hv]
            · intro hpos hc
              rw [if_pos hpos, hc] at hv
              simp only at hv
              cases hta : w.db.GetTxAddresses bchainTx.Txid with
              | error err => rw [hta] at hv; exact absurd hv (by simp)
              | ok ta =>
                rw [hta] at hv
                simp only at hv
                split at hv
                · exact absurd hv (by simp)
                · rw [← Except.ok.inj hv]
            · rw [hv1, hr]
            · rw [hv2, hr]
            · intro hc
              rw [hc] at hv3
              simp only at hv3
              have h3 := (Except.ok.inj hv3).symm
              rw [hr, h3]
              exact ⟨rfl, rfl, rfl⟩

theorem iteratePostings_preserves {σ : Type}
    (fn : σ → String → Int → Bool → Res (σ × Option GoError)) (P : σ → Prop)
    (hfn : ∀ (s : σ) (t : String) (i : Int) (o : Bool) (s1 : σ) (e : Option GoError),
      fn s t i o = .ok (s1, e) → P s → P s1)
    (l : List db.outpoint) (s s1 : σ) (e : Option GoError)
    (h : db.iteratePostings fn l s = .ok (s1, e)) (hs : P s) : P s1 := by
  induction l generalizing s with
  | nil =>
    simp only [db.iteratePostings] at h
    have := Except.ok.inj h
    rw [← (Prod.mk.inj this).1]; exact hs
  | cons o rest ih =>
    unfold db.iteratePostings at h
    simp only at h
    split at h
    · exact absurd h (by simp)
    · rename_i s2 hfn2
      exact ih s2 h (hfn _ _ _ _ _ _ hfn2 hs)
    · rename_i s2 hfn2
      have := Except.ok.inj h
      rw [← (Prod.mk.inj this).1]
      exact hfn _ _ _ _ _ _ hfn2 hs
    · rename_i s2 err _ hfn2
      have := Except.ok.inj h
      rw [← (Prod.mk.inj this).1]
      exact hfn _ _ _ _ _ _ hfn2 hs

theorem setSpendingTxToVout_callback_spent (w : Worker) (txid : String) (vout : Vout)
    (t : String) (index : Int) (isOutput : Bool) (v1 : Vout) (e : Option GoError)
    (h : Worker.setSpendingTxToVout.callback w txid vout t index isOutput = .ok (v1, e)) :
    v1.Spent = vout.Spent := by
  unfold Worker.setSpendingTxToVout.callback at h
  repeat' (first
    | (have h1 := (Prod.mk.inj (Except.ok.inj h)).1; rw [← h1])
    | (split at h)
    | (cases h))

theorem setSpendingTxToVout_spent (w : Worker) (vout : Vout) (txid : String) (height : Nat)
    (v1 : Vout) (e : Option GoError)
    (h : w.setSpendingTxToVout vout txid height = .ok (v1, e)) : v1.Spent = vout.Spent := by
  unfold Worker.setSpendingTxToVout db.RocksDB.GetAddrDescTransactions at h
  exact iteratePostings_preserves (Worker.setSpendingTxToVout.callback w txid)
    (fun v => v.Spent = vout.Spent)
    (fun s t i o s1 e1 hfn hs =>
      (setSpendingTxToVout_callback_spent w txid s t i o s1 e1 hfn).trans hs)
    _ vout v1 e h rfl

theorem voutStep_none (w : Worker) (bchainTx : bchain.Tx) (height : Nat) (spendingTxs : Bool)
    (i : Nat) (bchainVout : bchain.Vout) :
    Worker.GetTransactionFromBchainTx.voutStep w bchainTx height spendingTxs none i bchainVout =
      .ok (w.unspentVout i bchainVout) := by
  unfold Worker.GetTransactionFromBchainTx.voutStep Worker.unspentVout
  rfl

theorem voutLoop_none (w : Worker) (bchainTx : bchain.Tx) (height : Nat) (spendingTxs : Bool)
    (l : List bchain.Vout) (i : Nat) (valOutSat : Int) :
    ∃ s, Worker.GetTransactionFromBchainTx.voutLoop w bchainTx height spendingTxs none l i
        valOutSat =
      .ok ((l.enumFrom i).map (fun p => w.unspentVout p.1 p.2), s) := by
  induction l generalizing i valOutSat with
  | nil => exact ⟨valOutSat, rfl⟩
  | cons v rest ih =>
    obtain ⟨s, hs⟩ := ih (i + 1) (valOutSat + v.ValueSat)
    refine ⟨s, ?_⟩
    unfold Worker.GetTransactionFromBchainTx.voutLoop
    rw [voutStep_none, hs]
    rfl

theorem voutStep_spent (w : Worker) (bchainTx : bchain.Tx) (height : Nat) (spendingTxs : Bool)
    (ta : db.TxAddresses) (i : Nat) (bchainVout : bchain.Vout) (vout : Vout)
    (h : Worker.GetTransactionFromBchainTx.voutStep w bchainTx height spendingTxs (some ta) i
      bchainVout = .ok vout) :
    ∃ output, ta.Outputs.get? i = some output ∧ vout.Spent = output.Spent := by
  unfold Worker.GetTransactionFromBchainTx.voutStep at h
  simp only at h
  cases hg : goIndex ta.Outputs (i : Int) with
  | error f => rw [hg] at h; exact absurd h (by simp)
  | ok output =>
    rw [hg] at h
    simp only at h
    have hget : ta.Outputs.get? i = some output := by
      unfold goIndex at hg
      rw [if_neg (by omega)] at hg
      simp only [Int.toNat_ofNat] at hg
      cases hx : ta.Outputs.get? i with
      | none => rw [hx] at hg; exact absurd hg (by simp)
      | some x => rw [hx] at hg; rw [Except.ok.inj hg]
    refine ⟨output, hget, ?_⟩
    split at h
    · split at h
      · exact absurd h (by simp)
      · rename_i v1 e hsp
        rw [← Except.ok.inj h, setSpendingTxToVout_spent w _ _ _ _ _ hsp]
    · rw [← Except.ok.inj h]

theorem voutLoop_spent (w : Worker) (bchainTx : bchain.Tx) (height : Nat) (spendingTxs : Bool)
    (ta : db.TxAddresses) (l : List bchain.Vout) (i : Nat) (valOutSat : Int)
    (vouts : List Vout) (s : Int)
    (h : Worker.GetTransactionFromBchainTx.voutLoop w bchainTx height spendingTxs (some ta) l i
      valOutSat = .ok (vouts, s)) :
    vouts.map (fun v => v.Spent) = ((ta.Outputs.drop i).take l.length).map (fun o => o.Spent) := by
  induction l generalizing i valOutSat vouts s with
  | nil =>
    simp only [Worker.GetTransactionFromBchainTx.voutLoop] at h
    rw [← (Prod.mk.inj (Except.ok.inj h)).1]
    simp
  | cons v rest ih =>
    unfold Worker.GetTransactionFromBchainTx.voutLoop at h
    split at h
    · exact absurd h (by simp)
    · rename_i vout hstep
      split at h
      · exact absurd h (by simp)
      · rename_i vs s1 hloop
        obtain ⟨output, hget, hsp⟩ := voutStep_spent w bchainTx height spendingTxs ta i v vout hstep
        have ih1 := ih (i + 1) _ vs s1 hloop
        rw [← (Prod.mk.inj (Except.ok.inj h)).1]
        have hlt : i < ta.Outputs.length := by
          rcases Nat.lt_or_ge i ta.Outputs.length with h1 | h1
          · exact h1
          · rw [List.get?_eq_none.mpr h1] at hget; exact absurd hget (by simp)
        have hdrop : ta.Outputs.drop i = output :: ta.Outputs.drop (i + 1) := by
          rw [List.drop_eq_getElem_cons hlt]
          congr 1
          have := List.get?_eq_getElem? ta.Outputs i
          rw [this, List.getElem?_eq_getElem hlt] at hget
          exact Option.some.inj hget
        rw [hdrop]
        simp only [List.map_cons, List.length_cons, List.take_succ_cons, hsp, ih1]

/-- C14: in a result of `GetTransactionFromBchainTx` for a confirmed transaction of a UTXO
chain whose TxAddresses row `ta` exists and has at least as many outputs as the transaction,
output `i` has `Spent = ta.Outputs[i].Spent`, for every output of the transaction; in a
result for an unconfirmed transaction (`Confirmations = 0`) the outputs are built from the
transaction and the parser alone, without the row of the transaction, and none is spent. -/
theorem GetTransactionFromBchainTx_spent_flags (w : Worker) (bchainTx : bchain.Tx)
    (height : Nat) (spendingTxs specificJSON : Bool) (r : Tx)
    (h : w.GetTransactionFromBchainTx bchainTx height spendingTxs specificJSON = .ok r) :
    (w.chainType = bchain.ChainType.ChainBitcoinType → bchainTx.Confirmations > 0 →
      ∀ ta : db.TxAddresses, w.db.GetTxAddresses bchainTx.Txid = .ok (some ta) →
        bchainTx.Vout.length ≤ ta.Outputs.length →
        r.Vout.length = bchainTx.Vout.length ∧
        ∀ i : Nat, i < bchainTx.Vout.length →
          (r.Vout.get? i).map (fun v => v.Spent) = (ta.Outputs.get? i).map (fun o => o.Spent)) ∧
    (bchainTx.Confirmations = 0 →
      r.Vout = bchainTx.Vout.enum.map (fun p => w.unspentVout p.1 p.2) ∧
      ∀ v ∈ r.Vout, v.Spent = false) := by
  obtain ⟨ta0, valInSat, valOutSat, h0, _, hta, _, hvout, _⟩ :=
    GetTransactionFromBchainTx_ok w bchainTx height spendingTxs specificJSON r h
  constructor
  · intro hc hpos ta hrow hlen
    have e := hta hpos hc
    rw [hrow] at e
    have e1 : ta0 = some ta := (Except.ok.inj e).symm
    rw [e1] at hvout
    have hs := voutLoop_spent w bchainTx height spendingTxs ta bchainTx.Vout 0 0 r.Vout
      valOutSat hvout
    rw [List.drop_zero] at hs
    have hl : r.Vout.length = bchainTx.Vout.length := by
      have := congrArg List.length hs
      simp only [List.length_map, List.length_take] at this
      omega
    refine ⟨hl, ?_⟩
    intro i hi
    have := congrArg (fun l => l.get? i) hs
    simp only [List.get?_eq_getElem?, List.getElem?_map, List.getElem?_take_of_lt hi] at this ⊢
    exact this
  · intro hc
    rw [h0 hc] at hvout
    obtain ⟨s, hs⟩ := voutLoop_none w bchainTx height spendingTxs bchainTx.Vout 0 0
    rw [hs] at hvout
    have e := (Prod.mk.inj (Except.ok.inj hvout)).1
    refine ⟨e.symm, ?_⟩
    intro v hv
    rw [← e] at hv
    simp only [List.mem_map] at hv
    obtain ⟨p, _, hp⟩ := hv
    rw [← hp]
    rfl

/-- C14 on the two-block fixture: the first transaction of block 1, whose output 1 is spent
in block 2. -/
theorem GetTransactionFromBchainTx_spent_flags_witness :
    ∃ r, scenario.fixtureWorker.GetTransaction scenario.TxidB1T1 false false = .ok r ∧
      r.Vout.length = 2 ∧
      (r.Vout.get? 0).map (fun v => v.Spent) = some false ∧
      (r.Vout.get? 1).map (fun v => v.Spent) = some true := by
  obtain ⟨r, hr⟩ : ∃ r, scenario.fixtureWorker.GetTransaction scenario.TxidB1T1 false false =
      .ok r := ⟨_, rfl⟩
  have hr1 : scenario.fixtureWorker.GetTransactionFromBchainTx
      { Txid := scenario.TxidB1T1, Vin := [],
        Vout := [{ N := 0, ScriptPubKeyHex := scenario.Addr1, ValueSat := 100000000 },
                 { N := 1, ScriptPubKeyHex := scenario.Addr2, ValueSat := 12345 }],
        Blocktime := 22549300000, Time := 22549300000, Confirmations := 2 }
      225493 false false = .ok r := hr
  obtain ⟨hl, hi⟩ := (GetTransactionFromBchainTx_spent_flags scenario.fixtureWorker _ 225493
    false false r hr1).1 rfl (by decide)
    { Height := 225493, Inputs := [],
      Outputs := [{ AddrDesc := scenario.descOf scenario.Addr1, Spent := false,
                    ValueSat := 100000000 },
                  { AddrDesc := scenario.descOf scenario.Addr2, Spent := true,
                    ValueSat := 12345 }] }
    (by rfl) (by decide)
  exact ⟨r, hr, hl, hi 0 (by decide), hi 1 (by decide)⟩

theorem goIndex_ok_get {α : Type} (xs : List α) (i : Nat) (x : α)
    (h : goIndex xs (i : Int) = .ok x) : xs.get? i = some x := by
  unfold goIndex at h
  rw [if_neg (by omega)] at h
  simp only [Int.toNat_ofNat] at h
  cases hx : xs.get? i with
  | none => rw [hx] at h; exact absurd h (by simp)
  | some y => rw [hx] at h; rw [Except.ok.inj h]

theorem vinStep_resolved (w : Worker) (hc : w.chainType = bchain.ChainType.ChainBitcoinType)
    (i : Nat) (bchainVin : bchain.Vin) (valInSat : Int) (vin : Vin) (s : Int)
    (h : Worker.GetTransactionFromBchainTx.vinStep w i bchainVin valInSat = .ok (vin, s)) :
    VinResolved w bchainVin vin ∧ s = valInSat + resolvedValueIn [vin] := by
  unfold Worker.GetTransactionFromBchainTx.vinStep at h
  rw [hc] at h
  simp only at h
  by_cases hx : bchainVin.Txid = ""
  · rw [if_neg (by simpa using hx)] at h
    obtain ⟨h1, h2⟩ := Prod.mk.inj (Except.ok.inj h)
    subst h1
    refine ⟨⟨rfl, rfl, fun _ => rfl, fun hne => absurd hx hne⟩, ?_⟩
    simp [resolvedValueIn, hx, ← h2]
  · rw [if_pos hx] at h
    cases hta : w.db.GetTxAddresses bchainVin.Txid with
    | error err => rw [hta] at h; exact absurd h (by simp)
    | ok tas =>
      rw [hta] at h
      simp only at h
      cases tas with
      | none =>
        simp only at h
        cases hcache : w.txCache.GetTransaction bchainVin.Txid with
        | error err => rw [hcache] at h; exact absurd h (by simp)
        | ok p =>
          obtain ⟨otx, oheight⟩ := p
          rw [hcache] at h
          simp only at h
          by_cases hlen : (otx.Vout.length : Int) > (bchainVin.Vout : Int)
          · rw [if_pos hlen] at h
            cases hg : goIndex otx.Vout (bchainVin.Vout : Int) with
            | error f => rw [hg] at h; exact absurd h (by simp)
            | ok vout =>
              rw [hg] at h
              simp only at h
              obtain ⟨h1, h2⟩ := Prod.mk.inj (Except.ok.inj h)
              subst h1
              refine ⟨⟨rfl, rfl, fun he => absurd he hx, fun _ => ⟨?_, ?_⟩⟩, ?_⟩
              · intro tas he; rw [hta] at he; exact absurd he (by simp)
              · intro _
                exact ⟨otx, oheight, vout, hcache, goIndex_ok_get _ _ _ hg, rfl, rfl⟩
              · simp [resolvedValueIn, hx, ← h2]
          · rw [if_neg hlen] at h
            exact absurd h (by simp)
      | some tas =>
        simp only at h
        by_cases hlen : (tas.Outputs.length : Int) > (bchainVin.Vout : Int)
        · rw [if_pos hlen] at h
          cases hg : goIndex tas.Outputs (bchainVin.Vout : Int) with
          | error f => rw [hg] at h; exact absurd h (by simp)
          | ok output =>
            rw [hg] at h
            simp only at h
            obtain ⟨h1, h2⟩ := Prod.mk.inj (Except.ok.inj h)
            subst h1
            refine ⟨⟨rfl, rfl, fun he => absurd he hx, fun _ => ⟨?_, ?_⟩⟩, ?_⟩
            · intro tas1 he
              rw [hta] at he
              have : tas1 = tas := (Option.some.inj (Except.ok.inj he)).symm
              subst this
              exact ⟨output, goIndex_ok_get _ _ _ hg, rfl, rfl⟩
            · intro he; rw [hta] at he; exact absurd he (by simp)
            · simp [resolvedValueIn, hx, ← h2]
        · rw [if_neg hlen] at h
          exact absurd h (by simp)

theorem resolvedValueIn_cons (vin : Vin) (vins : List Vin) :
    resolvedValueIn (vin :: vins) = resolvedValueIn [vin] + resolvedValueIn vins := by
  unfold resolvedValueIn
  by_cases hx : vin.Txid = "" <;> simp [List.filter_cons, hx]

theorem vinLoop_resolved (w : Worker) (hc : w.chainType = bchain.ChainType.ChainBitcoinType)
    (l : List bchain.Vin) (i : Nat) (valInSat : Int) (vins : List Vin) (s : Int)
    (h : Worker.GetTransactionFromBchainTx.vinLoop w l i valInSat = .ok (vins, s)) :
    List.Forall₂ (VinResolved w) l vins ∧ s = valInSat + resolvedValueIn vins := by
  induction l generalizing i valInSat vins s with
  | nil =>
    simp only [Worker.GetTransactionFromBchainTx.vinLoop] at h
    obtain ⟨h1, h2⟩ := Prod.mk.inj (Except.ok.inj h)
    subst h1
    exact ⟨List.Forall₂.nil, by simp [resolvedValueIn, h2]⟩
  | cons v rest ih =>
    unfold Worker.GetTransactionFromBchainTx.vinLoop at h
    split at h
    · exact absurd h (by simp)
    · rename_i vin s1 hstep
      split at h
      · exact absurd h (by simp)
      · rename_i vs s2 hloop
        obtain ⟨h1, h2⟩ := Prod.mk.inj (Except.ok.inj h)
        subst h1
        obtain ⟨hv, hs1⟩ := vinStep_resolved w hc i v valInSat vin s1 hstep
        obtain ⟨hrest, hs2⟩ := ih (i + 1) s1 vs s2 hloop
        refine ⟨List.Forall₂.cons hv hrest, ?_⟩
        rw [resolvedValueIn_cons, ← h2, hs2, hs1]
        ring

/-- C15: in a result of `GetTransactionFromBchainTx` on a UTXO chain every input is resolved
from the input of the same position: an input that is not a coinbase input has the
descriptor and amount of the output slot `vin.Vout` of the TxAddresses row of the referenced
transaction, and, when the row is absent, those of output `vin.Vout` of the referenced
transaction fetched through the transaction cache; `ValueInSat` is the sum of the amounts of
the inputs that are not coinbase inputs. -/
theorem GetTransactionFromBchainTx_resolves_vins (w : Worker) (bchainTx : bchain.Tx)
    (height : Nat) (spendingTxs specificJSON : Bool) (r : Tx)
    (hc : w.chainType = bchain.ChainType.ChainBitcoinType)
    (h : w.GetTransactionFromBchainTx bchainTx height spendingTxs specificJSON = .ok r) :
    List.Forall₂ (VinResolved w) bchainTx.Vin r.Vin ∧
    r.ValueInSat = some (resolvedValueIn r.Vin) := by
  obtain ⟨ta0, valInSat, valOutSat, _, _, _, hvin, _, hval⟩ :=
    GetTransactionFromBchainTx_ok w bchainTx height spendingTxs specificJSON r h
  obtain ⟨h1, h2⟩ := vinLoop_resolved w hc bchainTx.Vin 0 0 r.Vin valInSat hvin
  refine ⟨h1, ?_⟩
  rw [(hval hc).1, h2, zero_add]

/-- C15 on the two-block fixture: the first transaction of block 2 spends output 0 of the
second and output 1 of the first transaction of block 1. -/
theorem GetTransactionFromBchainTx_resolves_vins_witness :
    ∃ r, scenario.fixtureWorker.GetTransaction scenario.TxidB2T1 false false = .ok r ∧
      List.Forall₂ (VinResolved scenario.fixtureWorker)
        [{ Txid := scenario.TxidB1T2, Vout := 0 }, { Txid := scenario.TxidB1T1, Vout := 1 }]
        r.Vin ∧
      r.ValueInSat = some (resolvedValueIn r.Vin) ∧
      r.ValueInSat = some 1234567902468 := by
  obtain ⟨r, hr⟩ : ∃ r, scenario.fixtureWorker.GetTransaction scenario.TxidB2T1 false false =
      .ok r ∧ r.ValueInSat = some 1234567902468 := ⟨_, rfl, rfl⟩
  have hr1 : scenario.fixtureWorker.GetTransactionFromBchainTx
      { Txid := scenario.TxidB2T1,
        Vin := [{ Txid := scenario.TxidB1T2, Vout := 0 }, { Txid := scenario.TxidB1T1, Vout := 1 }],
        Vout := [{ N := 0, ScriptPubKeyHex := scenario.Addr6, ValueSat := 317283951061 },
                 { N := 1, ScriptPubKeyHex := scenario.Addr7, ValueSat := 917283951061 }],
        Blocktime := 22549400000, Time := 22549400000, Confirmations := 1 }
      225494 false false = .ok r := hr.1
  obtain ⟨h1, h2⟩ := GetTransactionFromBchainTx_resolves_vins scenario.fixtureWorker _ 225494
    false false r rfl hr1
  exact ⟨r, hr.1, h1, h2, hr.2⟩

theorem balances_loop_tokens (w : Worker) (addrDesc : AddressDescriptor)
    (option : GetAddressOption) (filterDesc : AddressDescriptor)
    (l : List db.AddrContract) (i : Nat) (filter : AddressFilter) (acc : List Erc20Token)
    (filter1 : AddressFilter) (erc20t : List Erc20Token)
    (h : Worker.getEthereumTypeAddressBalances.loop w addrDesc option filterDesc l i filter acc =
      .ok (filter1, erc20t)) :
    ∃ added : List Erc20Token, erc20t = acc ++ added ∧
      added.map (fun t => (t.Transfers, t.ContractIndex)) =
        ((l.enumFrom i).filter (fun p => passesContractFilter filterDesc p.2)).map
          (fun p => ((p.2.Txs : Int), Itoa ((p.1 : Int) + 1))) ∧
      (option = GetAddressOption.Basic → ∀ t ∈ added, t.BalanceSat = none) := by
  induction l generalizing i filter acc with
  | nil =>
    simp only [Worker.getEthereumTypeAddressBalances.loop] at h
    obtain ⟨_, h2⟩ := Prod.mk.inj (Except.ok.inj h)
    exact ⟨[], by simp [h2], by simp, by simp⟩
  | cons c rest ih =>
    unfold Worker.getEthereumTypeAddressBalances.loop at h
    by_cases hf : filterDesc.length > 0 ∧ ¬ (filterDesc = c.Contract)
    · rw [if_pos hf] at h
      obtain ⟨added, h1, h2, h3⟩ := ih (i + 1) filter acc h
      refine ⟨added, h1, ?_, h3⟩
      have hp : passesContractFilter filterDesc c = false := by
        unfold passesContractFilter
        simp only [decide_eq_false_iff_not, not_or]
        exact ⟨by omega, hf.2⟩
      rw [h2, List.enumFrom_cons, List.filter_cons_of_neg (by simp [hp])]
    · rw [if_neg hf] at h
      simp only at h
      split at h
      · exact absurd h (by simp)
      · rename_i ci hci
        obtain ⟨added, h1, h2, h3⟩ := ih (i + 1) _ _ h
        refine ⟨_ :: added, by rw [h1, List.append_assoc]; rfl, ?_, ?_⟩
        · have hp : passesContractFilter filterDesc c = true := by
            unfold passesContractFilter
            simp only [decide_eq_true_eq]
            by_cases hl : filterDesc.length = 0
            · exact Or.inl hl
            · right
              by_contra hne
              exact hf ⟨by omega, hne⟩
          rw [List.enumFrom_cons, List.filter_cons_of_pos (by simp [hp]), List.map_cons,
            List.map_cons, h2]
        · intro ho t ht
          rcases List.mem_cons.mp ht with ht | ht
          · rw [ht]; simp [ho]
          · exact h3 ho t ht

/-- C16: for an address with the AddrContracts row `ca`, a result of
`getEthereumTypeAddressBalances` has the total tx count of the row as `Txs` of the balance
and one token for each contract of the row that passes the contract filter (all without a
filter), in row order, with `Transfers` the tx count of the contract and `ContractIndex` the
decimal text of its 1-based position in the row; with option `Basic` no token has a
`BalanceSat`.  Over the rows of the two-block fixture `EthAddr55` has the total 2, and the
tokens of `EthAddrContract4a` with 2 transfers and of `EthAddrContract0d` with 1. -/
theorem getEthereumTypeAddressBalances_counts_by_contract (w : Worker)
    (addrDesc : AddressDescriptor) (option : GetAddressOption) (filter : AddressFilter)
    (ca : db.AddrContracts) (ba : Option db.AddrBalance) (erc20t : List Erc20Token)
    (ci : Option bchain.Erc20Contract) (n : Nat) (filter1 : AddressFilter)
    (hca : w.db.GetAddrDescContracts addrDesc = .ok (some ca))
    (h : w.getEthereumTypeAddressBalances addrDesc option filter =
      .ok (ba, erc20t, ci, n, filter1)) :
    (∃ b, ba = some b ∧ b.Txs = ca.EthTxs) ∧
    erc20t.map (fun t => (t.Transfers, t.ContractIndex)) =
      (ca.Contracts.enum.filter
        (fun p => passesContractFilter (contractFilterDesc w filter) p.2)).map
          (fun p => ((p.2.Txs : Int), Itoa ((p.1 : Int) + 1))) ∧
    (option = GetAddressOption.Basic → ∀ t ∈ erc20t, t.BalanceSat = none) ∧
    ∃ (b : db.AddrBalance) (t1 t2 : Erc20Token),
      scenario.ethWorker.getEthereumTypeAddressBalances scenario.EthAddr55
        GetAddressOption.TxHistory { Vout := AddressFilterVoutOff } =
          .ok (some b, [t1, t2], none, 0, { Vout := AddressFilterVoutOff }) ∧
      b.Txs = 2 ∧
      t1.Contract = sprintBytes scenario.EthAddrContract4a ∧ t1.Transfers = 2 ∧
      t1.ContractIndex = "1" ∧
      t2.Contract = sprintBytes scenario.EthAddrContract0d ∧ t2.Transfers = 1 ∧
      t2.ContractIndex = "2" := by
  unfold Worker.getEthereumTypeAddressBalances at h
  rw [hca] at h
  simp only at h
  split at h
  · exact absurd h (by simp)
  · rename_i b hb
    split at h
    · exact absurd h (by simp)
    · rename_i n1 hn
      split at h
      · exact absurd h (by simp)
      · rename_i fd hfd
        split at h
        · exact absurd h (by simp)
        · rename_i f1 toks hloop
          split at h
          · exact absurd h (by simp)
          · rename_i ci1 hci
            have hr := Except.ok.inj h
            simp only [Prod.mk.injEq] at hr
            obtain ⟨hba, htok, _, _, _⟩ := hr
            have hfd1 : fd = contractFilterDesc w filter := by
              unfold contractFilterDesc
              by_cases hc : filter.Contract ≠ ""
              · rw [if_pos hc] at hfd ⊢
                split at hfd
                · exact absurd hfd (by simp)
                · rename_i d hd
                  rw [hd]
                  exact (Except.ok.inj hfd).symm
              · rw [if_neg hc] at hfd ⊢
                exact (Except.ok.inj hfd).symm
            obtain ⟨added, h1, h2, h3⟩ := balances_loop_tokens w addrDesc option fd
              ca.Contracts 0 filter [] f1 toks hloop
            rw [List.nil_append] at h1
            subst h1
            refine ⟨⟨_, hba.symm, rfl⟩, ?_, ?_, ?_⟩
            · rw [← htok, h2, hfd1]; rfl
            · rw [← htok]; exact h3
            · exact ⟨_, _, _, rfl, rfl, rfl, rfl, rfl, rfl, rfl, rfl⟩

/-- C16 over the rows of the two-block fixture: `EthAddr55`. -/
theorem getEthereumTypeAddressBalances_counts_by_contract_witness :
    ∃ (ba : Option db.AddrBalance) (erc20t : List Erc20Token),
      scenario.ethWorker.getEthereumTypeAddressBalances scenario.EthAddr55
        GetAddressOption.Basic { Vout := AddressFilterVoutOff } =
          .ok (ba, erc20t, none, 0, { Vout := AddressFilterVoutOff }) ∧
      (∃ b, ba = some b ∧ b.Txs = 2) ∧
      erc20t.map (fun t => (t.Transfers, t.ContractIndex)) = [(2, "1"), (1, "2")] ∧
      ∀ t ∈ erc20t, t.BalanceSat = none := by
  obtain ⟨ba, erc20t, hr⟩ : ∃ (ba : Option db.AddrBalance) (erc20t : List Erc20Token),
      scenario.ethWorker.getEthereumTypeAddressBalances scenario.EthAddr55
        GetAddressOption.Basic { Vout := AddressFilterVoutOff } =
          .ok (ba, erc20t, none, 0, { Vout := AddressFilterVoutOff }) := ⟨_, _, rfl⟩
  obtain ⟨h1, h2, h3, _⟩ := getEthereumTypeAddressBalances_counts_by_contract
    scenario.ethWorker scenario.EthAddr55 GetAddressOption.Basic { Vout := AddressFilterVoutOff }
    { EthTxs := 2, Contracts := [{ Contract := scenario.EthAddrContract4a, Txs := 2 },
                                 { Contract := scenario.EthAddrContract0d, Txs := 1 }] }
    ba erc20t none 0 { Vout := AddressFilterVoutOff } (by rfl) hr
  exact ⟨ba, erc20t, hr, h1, h2.trans (by rfl), h3 rfl⟩

open db

theorem addContractTx_eq (l : List AddrContract) (c : AddressDescriptor)
    (hnd : (l.map (fun x => x.Contract)).Nodup) :
    (addContractTx l c).1 =
      if c ∈ l.map (fun x => x.Contract) then
        l.map (fun x => if x.Contract = c then { x with Txs := x.Txs + 1 } else x)
      else l ++ [{ Contract := c, Txs := 1 }] := by
  induction l with
  | nil => simp [addContractTx]
  | cons x rest ih =>
    simp only [List.map_cons, List.nodup_cons] at hnd
    unfold addContractTx
    by_cases hx : x.Contract = c
    · rw [if_pos hx]
      have hmem : c ∈ (x :: rest).map (fun x => x.Contract) := by simp [hx]
      rw [if_pos hmem]
      simp only [List.map_cons, if_pos hx]
      congr 1
      symm
      have : ∀ y ∈ rest, (if y.Contract = c then { y with Txs := y.Txs + 1 } else y) = y := by
        intro y hy
        have : y.Contract ≠ c := by
          intro h
          apply hnd.1
          rw [hx, ← h]
          exact List.mem_map_of_mem _ hy
        rw [if_neg this]
      rw [List.map_congr_left this, List.map_id']
    · rw [if_neg hx]
      simp only
      rw [ih hnd.2]
      by_cases hm : c ∈ rest.map (fun x => x.Contract)
      · have hmem : c ∈ (x :: rest).map (fun x => x.Contract) := by
          simp only [List.map_cons, List.mem_cons]; exact Or.inr hm
        rw [if_pos hm, if_pos hmem]
        simp only [List.map_cons, if_neg hx]
      · have hmem : c ∉ (x :: rest).map (fun x => x.Contract) := by
          simp only [List.map_cons, List.mem_cons, not_or]
          exact ⟨fun h => hx h.symm, hm⟩
        rw [if_neg hm, if_neg hmem]
        rfl

theorem removeContractTx_eq (l : List AddrContract) (c : AddressDescriptor)
    (hnd : (l.map (fun x => x.Contract)).Nodup) (hpos : ∀ x ∈ l, 1 ≤ x.Txs) :
    removeContractTx l c =
      (l.map (fun x => if x.Contract = c then { x with Txs := x.Txs - 1 } else x)).filter
        (fun x => decide (0 < x.Txs)) := by
  induction l with
  | nil => simp [removeContractTx]
  | cons x rest ih =>
    simp only [List.map_cons, List.nodup_cons] at hnd
    have hposr : ∀ y ∈ rest, 1 ≤ y.Txs := fun y hy => hpos y (List.mem_cons_of_mem _ hy)
    have hx1 : 1 ≤ x.Txs := hpos x (List.mem_cons_self _ _)
    unfold removeContractTx
    by_cases hx : x.Contract = c
    · rw [if_pos hx]
      have hrest : (rest.map (fun y => if y.Contract = c then { y with Txs := y.Txs - 1 }
          else y)).filter (fun y => decide (0 < y.Txs)) = rest := by
        have h1 : ∀ y ∈ rest, (if y.Contract = c then { y with Txs := y.Txs - 1 } else y) = y := by
          intro y hy
          have : y.Contract ≠ c := by
            intro h
            apply hnd.1
            rw [hx, ← h]
            exact List.mem_map_of_mem _ hy
          rw [if_neg this]
        rw [List.map_congr_left h1, List.map_id']
        apply List.filter_eq_self.mpr
        intro y hy
        have := hposr y hy
        simp only [decide_eq_true_eq]
        omega
      simp only [List.map_cons, if_pos hx]
      rw [if_neg (by omega)]
      by_cases h1 : x.Txs = 1
      · rw [if_pos h1, List.filter_cons_of_neg (by simp [h1]), hrest]
      · rw [if_neg h1, List.filter_cons_of_pos (by simp; omega), hrest]
    · rw [if_neg hx]
      simp only [List.map_cons, if_neg hx]
      rw [List.filter_cons_of_pos (by simp; omega), ih hnd.2 hposr]

theorem rowAfter_nil (r0 : AddrContracts) (L : List AddressDescriptor) :
    rowAfter r0 L [] = r0 := by
  unfold rowAfter
  simp

theorem rowAfter_contracts_keys (r0 : AddrContracts) (L : List AddressDescriptor)
    (D : List (Option AddressDescriptor)) :
    (rowAfter r0 L D).Contracts.map (fun x => x.Contract) =
      r0.Contracts.map (fun x => x.Contract) ++
        L.filter (fun c => decide (0 < D.count (some c))) := by
  unfold rowAfter
  simp only [List.map_append, List.map_map]
  congr 1
  exact List.map_id' _

theorem rowAfter_nodup (r0 : AddrContracts) (L : List AddressDescriptor)
    (D : List (Option AddressDescriptor))
    (hnd : (r0.Contracts.map (fun x => x.Contract)).Nodup) (hL : L.Nodup)
    (hdis : ∀ c ∈ L, c ∉ r0.Contracts.map (fun x => x.Contract)) :
    ((rowAfter r0 L D).Contracts.map (fun x => x.Contract)).Nodup := by
  rw [rowAfter_contracts_keys]
  refine List.Nodup.append hnd (hL.filter _) ?_
  intro c hc1 hc2
  exact hdis c (List.mem_of_mem_filter hc2) hc1

theorem rowAfter_pos (r0 : AddrContracts) (L : List AddressDescriptor)
    (D : List (Option AddressDescriptor)) (hpos : ∀ x ∈ r0.Contracts, 1 ≤ x.Txs) :
    ∀ x ∈ (rowAfter r0 L D).Contracts, 1 ≤ x.Txs := by
  intro x hx
  unfold rowAfter at hx
  simp only [List.mem_append, List.mem_map, List.mem_filter, decide_eq_true_eq] at hx
  rcases hx with ⟨y, hy, rfl⟩ | ⟨c, ⟨_, hc⟩, rfl⟩
  · have := hpos y hy
    simp only
    omega
  · exact hc

theorem rowAfter_removeTx (r0 : AddrContracts) (L : List AddressDescriptor)
    (e : Option AddressDescriptor) (D : List (Option AddressDescriptor))
    (hpos : ∀ x ∈ r0.Contracts, 1 ≤ x.Txs)
    (hnd : (r0.Contracts.map (fun x => x.Contract)).Nodup) (hL : L.Nodup)
    (hdis : ∀ c ∈ L, c ∉ r0.Contracts.map (fun x => x.Contract)) :
    (rowAfter r0 L (e :: D)).removeTx e = rowAfter r0 L D := by
  cases e with
  | none =>
    unfold AddrContracts.removeTx rowAfter
    simp only [List.count_cons_self, Nat.add_sub_cancel, AddrContracts.mk.injEq]
    refine ⟨by omega, ?_⟩
    have hc : ∀ c : AddressDescriptor,
        (none :: D).count (some c) = D.count (some c) := by
      intro c
      exact List.count_cons_of_ne (by simp) D
    simp only [hc]
  | some c =>
    unfold AddrContracts.removeTx
    simp only
    rw [removeContractTx_eq _ c (rowAfter_nodup r0 L _ hnd hL hdis) (rowAfter_pos r0 L _ hpos)]
    unfold rowAfter
    simp only [AddrContracts.mk.injEq]
    refine ⟨by rw [List.count_cons_of_ne (by simp)], ?_⟩
    rw [List.map_append, List.filter_append]
    congr 1
    · rw [List.map_map]
      have hA : ∀ x ∈ r0.Contracts,
          ((fun x : AddrContract => if x.Contract = c then { x with Txs := x.Txs - 1 } else x) ∘
            (fun x : AddrContract =>
              { x with Txs := x.Txs + (some c :: D).count (some x.Contract) })) x =
          { x with Txs := x.Txs + D.count (some x.Contract) } := by
        intro x _
        simp only [Function.comp]
        by_cases hx : x.Contract = c
        · rw [if_pos hx, hx, List.count_cons_self]
          simp
        · rw [if_neg hx, List.count_cons_of_ne (by simpa using hx)]
      rw [List.map_congr_left hA]
      apply List.filter_eq_self.mpr
      intro x hx
      simp only [List.mem_map] at hx
      obtain ⟨y, hy, rfl⟩ := hx
      have := hpos y hy
      simp only [decide_eq_true_eq]
      omega
    · clear hdis hL
      induction L with
      | nil => simp
      | cons c1 L1 ih =>
        by_cases h1 : c1 = c
        · subst h1
          have hp : 0 < (some c1 :: D).count (some c1) := by
            rw [List.count_cons_self]; omega
          rw [List.filter_cons_of_pos (by simp)]
          simp only [List.map_cons, if_true, List.count_cons_self, Nat.add_sub_cancel]
          by_cases h0 : 0 < D.count (some c1)
          · rw [List.filter_cons_of_pos (by simpa using h0),
              List.filter_cons_of_pos (by simpa using h0), List.map_cons, ih]
          · rw [List.filter_cons_of_neg (by simpa using h0),
              List.filter_cons_of_neg (by simpa using h0), ih]
        · have hcnt : (some c :: D).count (some c1) = D.count (some c1) :=
            List.count_cons_of_ne (by simpa using h1) D
          by_cases h0 : 0 < D.count (some c1)
          · rw [List.filter_cons_of_pos (by rw [hcnt]; simpa using h0),
              List.filter_cons_of_pos (by simpa using h0)]
            simp only [List.map_cons, if_neg h1, hcnt]
            rw [List.filter_cons_of_pos (by simpa using h0), ih]
          · rw [List.filter_cons_of_neg (by rw [hcnt]; simpa using h0),
              List.filter_cons_of_neg (by simpa using h0), ih]

theorem rowAfter_removeAll (r0 : AddrContracts) (L : List AddressDescriptor)
    (D : List (Option AddressDescriptor))
    (hpos : ∀ x ∈ r0.Contracts, 1 ≤ x.Txs)
    (hnd : (r0.Contracts.map (fun x => x.Contract)).Nodup) (hL : L.Nodup)
    (hdis : ∀ c ∈ L, c ∉ r0.Contracts.map (fun x => x.Contract)) :
    D.foldl AddrContracts.removeTx (rowAfter r0 L D) = r0 := by
  induction D with
  | nil => simp [rowAfter_nil]
  | cons e D ih =>
    rw [List.foldl_cons, rowAfter_removeTx r0 L e D hpos hnd hL hdis, ih]

theorem count_snoc_some (E : List (Option AddressDescriptor)) (c c1 : AddressDescriptor) :
    (E ++ [some c]).count (some c1) = E.count (some c1) + (if c1 = c then 1 else 0) := by
  rw [List.count_append]
  by_cases h : c1 = c
  · subst h; simp
  · rw [if_neg h, List.count_cons_of_ne (by simpa using h)]; simp

theorem count_snoc_none (E : List (Option AddressDescriptor)) (c1 : AddressDescriptor) :
    (E ++ [none]).count (some c1) = E.count (some c1) := by
  rw [List.count_append, List.count_cons_of_ne (by simp)]; simp

theorem addTx_foldl_rowAfter (r0 : AddrContracts) (E : List (Option AddressDescriptor))
    (hnd : (r0.Contracts.map (fun x => x.Contract)).Nodup) :
    ∃ L : List AddressDescriptor, L.Nodup ∧
      (∀ c ∈ L, c ∉ r0.Contracts.map (fun x => x.Contract)) ∧
      (∀ c ∈ L, 0 < E.count (some c)) ∧
      (∀ c, 0 < E.count (some c) → c ∈ r0.Contracts.map (fun x => x.Contract) ∨ c ∈ L) ∧
      E.foldl (fun r e => (r.addTx e).1) r0 = rowAfter r0 L E := by
  induction E using List.reverseRecOn with
  | nil => exact ⟨[], List.nodup_nil, by simp, by simp, by simp, by simp [rowAfter_nil]⟩
  | append_singleton E e ih =>
    obtain ⟨L, hL, hdis, hcnt, hall, hrow⟩ := ih
    rw [List.foldl_append, List.foldl_cons, List.foldl_nil, hrow]
    cases e with
    | none =>
      refine ⟨L, hL, hdis, ?_, ?_, ?_⟩
      · intro c hc; rw [count_snoc_none]; exact hcnt c hc
      · intro c hc; rw [count_snoc_none] at hc; exact hall c hc
      · unfold AddrContracts.addTx rowAfter
        simp only [count_snoc_none, AddrContracts.mk.injEq, and_true]
        rw [List.count_append]; simp; omega
    | some c =>
      have hfil : ∀ (D : List (Option AddressDescriptor)), (∀ c1 ∈ L, 0 < D.count (some c1)) →
          L.filter (fun c1 => decide (0 < D.count (some c1))) = L := by
        intro D hD
        apply List.filter_eq_self.mpr
        intro c1 hc1
        simpa using hD c1 hc1
      have hkeys := rowAfter_contracts_keys r0 L E
      rw [hfil E hcnt] at hkeys
      unfold AddrContracts.addTx
      simp only
      rw [addContractTx_eq _ c (rowAfter_nodup r0 L E hnd hL hdis), hkeys]
      by_cases hmem : c ∈ r0.Contracts.map (fun x => x.Contract) ++ L
      · rw [if_pos hmem]
        have hcnt1 : ∀ c1 ∈ L, 0 < (E ++ [some c]).count (some c1) := by
          intro c1 hc1; rw [count_snoc_some]; have := hcnt c1 hc1; omega
        refine ⟨L, hL, hdis, hcnt1, ?_, ?_⟩
        · intro c1 hc1
          rw [count_snoc_some] at hc1
          by_cases h : c1 = c
          · subst h; exact List.mem_append.mp hmem
          · rw [if_neg h] at hc1; exact hall c1 hc1
        · unfold rowAfter
          simp only [AddrContracts.mk.injEq]
          refine ⟨by rw [List.count_append, List.count_cons_of_ne (by simp)]; simp, ?_⟩
          rw [hfil E hcnt, hfil _ hcnt1, List.map_append, List.map_map, List.map_map]
          congr 1
          · apply List.map_congr_left
            intro x _
            simp only [Function.comp, count_snoc_some]
            by_cases h : x.Contract = c
            · rw [if_pos h, if_pos h, Nat.add_assoc]
            · rw [if_neg h, if_neg h]; rfl
          · apply List.map_congr_left
            intro c1 _
            simp only [Function.comp, count_snoc_some]
            by_cases h : c1 = c
            · rw [if_pos h, if_pos h]
            · rw [if_neg h, if_neg h]; rfl
      · rw [if_neg hmem]
        have hc0 : E.count (some c) = 0 := by
          by_contra h
          exact hmem (List.mem_append.mpr (hall c (by omega)))
        have hcr : c ∉ r0.Contracts.map (fun x => x.Contract) :=
          fun h => hmem (List.mem_append_left _ h)
        have hcL : c ∉ L := fun h => hmem (List.mem_append_right _ h)
        refine ⟨L ++ [c], ?_, ?_, ?_, ?_, ?_⟩
        · exact List.Nodup.append hL (List.nodup_singleton c)
            (by intro x hx hx1; rw [List.mem_singleton] at hx1; exact hcL (hx1 ▸ hx))
        · intro c1 hc1
          rcases List.mem_append.mp hc1 with h | h
          · exact hdis c1 h
          · rw [List.mem_singleton] at h; rw [h]; exact hcr
        · intro c1 hc1
          rw [count_snoc_some]
          rcases List.mem_append.mp hc1 with h | h
          · have := hcnt c1 h; omega
          · rw [List.mem_singleton] at h; rw [if_pos h]; omega
        · intro c1 hc1
          rw [count_snoc_some] at hc1
          by_cases h : c1 = c
          · right; rw [h]; simp
          · rw [if_neg h] at hc1
            rcases hall c1 hc1 with h1 | h1
            · exact Or.inl h1
            · exact Or.inr (List.mem_append_left _ h1)
        · unfold rowAfter
          simp only [AddrContracts.mk.injEq]
          refine ⟨by rw [List.count_append, List.count_cons_of_ne (by simp)]; simp, ?_⟩
          rw [List.append_assoc]
          congr 1
          · apply List.map_congr_left
            intro x hx
            have h : x.Contract ≠ c := fun h => hcr (h ▸ List.mem_map_of_mem _ hx)
            simp only [count_snoc_some, if_neg h, Nat.add_zero]
          · rw [List.filter_append, List.map_append]
            have h1 : (L.filter (fun c1 => decide (0 < (E ++ [some c]).count (some c1)))) =
                L.filter (fun c1 => decide (0 < E.count (some c1))) := by
              apply List.filter_congr
              intro c1 hc1
              have h : c1 ≠ c := fun h => hcL (h ▸ hc1)
              simp only [count_snoc_some, if_neg h, Nat.add_zero]
            have h2 : [c].filter (fun c1 => decide (0 < (E ++ [some c]).count (some c1))) = [c] := by
              apply List.filter_eq_self.mpr
              intro c1 hc1
              rw [List.mem_singleton] at hc1
              simp only [count_snoc_some, if_pos hc1, decide_eq_true_eq]
              omega
            rw [h1, h2]
            congr 1
            · apply List.map_congr_left
              intro c1 hc1
              have h : c1 ≠ c := fun h => hcL (h ▸ List.mem_of_mem_filter hc1)
              simp only [count_snoc_some, if_neg h, Nat.add_zero]
            · simp only [List.map_cons, List.map_nil, count_snoc_some, if_true, hc0]

/-- Taking back the transactions `E` of an address from its AddrContracts row, in their
order, after they were counted gives the row back. -/
theorem removeTx_foldl_addTx_foldl (r0 : AddrContracts) (E : List (Option AddressDescriptor))
    (hpos : ∀ x ∈ r0.Contracts, 1 ≤ x.Txs)
    (hnd : (r0.Contracts.map (fun x => x.Contract)).Nodup) :
    E.foldl AddrContracts.removeTx (E.foldl (fun r e => (r.addTx e).1) r0) = r0 := by
  obtain ⟨L, hL, hdis, _, _, hrow⟩ := addTx_foldl_rowAfter r0 E hnd
  rw [hrow]
  exact rowAfter_removeAll r0 L E hpos hnd hL hdis

theorem columnGet_columnPut {κ ν : Type} [DecidableEq κ] (c : List (κ × ν)) (k : κ) (v : ν)
    (k1 : κ) : columnGet (columnPut c k v) k1 = if k1 = k then some v else columnGet c k1 := by
  induction c with
  | nil =>
    simp only [columnPut, columnGet]
    by_cases h : k1 = k
    · rw [if_pos h, if_pos h.symm]
    · rw [if_neg h, if_neg (fun h1 => h h1.symm)]
  | cons r rest ih =>
    simp only [columnPut]
    by_cases hr : r.1 = k
    · rw [if_pos hr]
      simp only [columnGet]
      by_cases h : k1 = k
      · rw [if_pos h, if_pos h.symm]
      · rw [if_neg h, if_neg (fun h1 => h h1.symm), if_neg (fun h1 => h (h1.symm.trans hr))]
    · rw [if_neg hr]
      simp only [columnGet, ih]
      by_cases h1 : r.1 = k1
      · simp only [if_pos h1]
        rw [if_neg (fun h => hr (h1.trans h))]
      · simp only [if_neg h1]

theorem columnGet_filter_key {κ ν : Type} [DecidableEq κ] (c : List (κ × ν)) (q : κ → Bool)
    (k : κ) : columnGet (c.filter (fun r => q r.1)) k = if q k then columnGet c k else none := by
  induction c with
  | nil => simp [columnGet]
  | cons r rest ih =>
    rw [List.filter_cons]
    by_cases hq : q r.1 = true
    · rw [if_pos hq]
      simp only [columnGet, ih]
      by_cases h1 : r.1 = k
      · simp only [if_pos h1]
        rw [← h1, if_pos hq]
      · simp only [if_neg h1]
    · rw [if_neg hq, ih]
      simp only [columnGet]
      by_cases h1 : r.1 = k
      · simp only [if_pos h1]
        rw [← h1, if_neg hq, if_neg hq]
      · simp only [if_neg h1]

theorem columnGet_columnDelete {κ ν : Type} [DecidableEq κ] (c : List (κ × ν)) (k k1 : κ) :
    columnGet (columnDelete c k) k1 = if k1 = k then none else columnGet c k1 := by
  unfold columnDelete
  have := columnGet_filter_key c (fun x => decide (x ≠ k)) k1
  rw [this]
  by_cases h : k1 = k
  · rw [if_pos h]; simp [h]
  · rw [if_neg h]; simp [h]

theorem columnGet_ne_none {κ ν : Type} [DecidableEq κ] (c : List (κ × ν)) (k : κ) :
    columnGet c k ≠ none ↔ ∃ r ∈ c, r.1 = k := by
  induction c with
  | nil => simp [columnGet]
  | cons r rest ih =>
    simp only [columnGet]
    by_cases h1 : r.1 = k
    · rw [if_pos h1]
      simp only [ne_eq, reduceCtorEq, not_false_eq_true, List.mem_cons, exists_eq_or_imp, true_iff]
      exact Or.inl h1
    · rw [if_neg h1, ih]
      simp only [List.mem_cons, exists_eq_or_imp, h1, false_or]

theorem touchesOf_cons_self (t : AddressDescriptor × Option AddressDescriptor)
    (T : List (AddressDescriptor × Option AddressDescriptor)) :
    touchesOf (t :: T) t.1 = t.2 :: touchesOf T t.1 := by
  unfold touchesOf
  rw [List.filter_cons_of_pos (by simp), List.map_cons]

theorem touchesOf_cons_ne (t : AddressDescriptor × Option AddressDescriptor)
    (T : List (AddressDescriptor × Option AddressDescriptor)) (a : AddressDescriptor)
    (h : a ≠ t.1) : touchesOf (t :: T) a = touchesOf T a := by
  unfold touchesOf
  rw [List.filter_cons_of_neg (by simpa using fun h1 => h h1.symm)]

theorem touchesOf_not_mem (T : List (AddressDescriptor × Option AddressDescriptor))
    (a : AddressDescriptor) (h : a ∉ T.map (fun t => t.1)) : touchesOf T a = [] := by
  unfold touchesOf
  rw [List.map_eq_nil_iff, List.filter_eq_nil_iff]
  intro t ht
  simp only [decide_eq_true_eq]
  intro h1
  exact h (h1 ▸ List.mem_map_of_mem _ ht)

theorem countTouch_foldl_get (T : List (AddressDescriptor × Option AddressDescriptor))
    (col : List (AddressDescriptor × AddrContracts)) (a : AddressDescriptor) :
    columnGet (T.foldl countTouch col) a =
      if a ∈ T.map (fun t => t.1) then
        some ((touchesOf T a).foldl (fun r e => (r.addTx e).1) ((columnGet col a).getD {}))
      else columnGet col a := by
  induction T generalizing col with
  | nil => simp
  | cons t T ih =>
    rw [List.foldl_cons, ih]
    have hget : columnGet (countTouch col t) a =
        if a = t.1 then some (((columnGet col t.1).getD {}).addTx t.2).1 else columnGet col a := by
      unfold countTouch
      rw [columnGet_columnPut]
    by_cases ha : a = t.1
    · have hmem : a ∈ (t :: T).map (fun t => t.1) := by rw [ha]; simp
      rw [hget, if_pos ha, if_pos hmem, ha, touchesOf_cons_self, List.foldl_cons]
      by_cases hm : t.1 ∈ T.map (fun t => t.1)
      · rw [if_pos hm]; rfl
      · rw [if_neg hm, touchesOf_not_mem T t.1 hm]; rfl
    · rw [hget, if_neg ha, touchesOf_cons_ne t T a ha]
      have hiff : a ∈ (t :: T).map (fun t => t.1) ↔ a ∈ T.map (fun t => t.1) := by
        simp only [List.map_cons, List.mem_cons, ha, false_or]
      by_cases hm : a ∈ T.map (fun t => t.1)
      · rw [if_pos hm, if_pos (hiff.mpr hm)]
      · rw [if_neg hm, if_neg (fun h => hm (hiff.mp h))]

theorem disconnectAddress_foldl_get (T : List (AddressDescriptor × Option AddressDescriptor))
    (col : List (AddressDescriptor × AddrContracts)) (a : AddressDescriptor) :
    columnGet (T.foldl disconnectAddress col) a =
      (columnGet col a).map (fun r => (touchesOf T a).foldl AddrContracts.removeTx r) := by
  induction T generalizing col with
  | nil => simp [touchesOf]
  | cons t T ih =>
    rw [List.foldl_cons, ih]
    have hget : columnGet (disconnectAddress col t) a =
        if a = t.1 then (columnGet col a).map (fun r => r.removeTx t.2) else columnGet col a := by
      unfold disconnectAddress
      cases hrow : columnGet col t.1 with
      | none =>
        simp only
        by_cases ha : a = t.1
        · rw [if_pos ha, ha, hrow]; rfl
        · rw [if_neg ha]
      | some row =>
        simp only
        rw [columnGet_columnPut]
        by_cases ha : a = t.1
        · rw [if_pos ha, if_pos ha, ha, hrow]; rfl
        · rw [if_neg ha, if_neg ha]
    by_cases ha : a = t.1
    · rw [hget, if_pos ha, ha, touchesOf_cons_self, Option.map_map]
      rfl
    · rw [hget, if_neg ha, touchesOf_cons_ne t T a ha]

theorem keepCounted_bind (x : Option AddrContracts) :
    (x.bind keepCounted).bind keepCounted = x.bind keepCounted := by
  cases x with
  | none => rfl
  | some r =>
    simp only [Option.some_bind]
    unfold keepCounted
    by_cases h : r.EthTxs = 0 ∧ r.Contracts = []
    · rw [if_pos h]; rfl
    · rw [if_neg h, Option.some_bind, if_neg h]

theorem dropEmptyRow_foldl_get (T : List (AddressDescriptor × Option AddressDescriptor))
    (col : List (AddressDescriptor × AddrContracts)) (a : AddressDescriptor) :
    columnGet (T.foldl dropEmptyRow col) a =
      if a ∈ T.map (fun t => t.1) then (columnGet col a).bind keepCounted
      else columnGet col a := by
  induction T generalizing col with
  | nil => simp
  | cons t T ih =>
    rw [List.foldl_cons, ih]
    have hget : columnGet (dropEmptyRow col t) a =
        if a = t.1 then (columnGet col a).bind keepCounted else columnGet col a := by
      unfold dropEmptyRow
      cases hrow : columnGet col t.1 with
      | none =>
        simp only
        by_cases ha : a = t.1
        · rw [if_pos ha, ha, hrow]; rfl
        · rw [if_neg ha]
      | some row =>
        simp only
        by_cases he : row.EthTxs = 0 ∧ row.Contracts = []
        · rw [if_pos he, columnGet_columnDelete]
          by_cases ha : a = t.1
          · rw [if_pos ha, if_pos ha, ha, hrow, Option.some_bind]
            unfold keepCounted
            rw [if_pos he]
          · rw [if_neg ha, if_neg ha]
        · rw [if_neg he]
          by_cases ha : a = t.1
          · rw [if_pos ha, ha, hrow, Option.some_bind]
            unfold keepCounted
            rw [if_neg he]
          · rw [if_neg ha]
    by_cases ha : a = t.1
    · have hmem : a ∈ (t :: T).map (fun t => t.1) := by rw [ha]; simp
      rw [hget, if_pos ha, if_pos hmem, keepCounted_bind]
      by_cases hm : a ∈ T.map (fun t => t.1)
      · rw [if_pos hm]
      · rw [if_neg hm]
    · rw [hget, if_neg ha]
      have hiff : a ∈ (t :: T).map (fun t => t.1) ↔ a ∈ T.map (fun t => t.1) := by
        simp only [List.map_cons, List.mem_cons, ha, false_or]
      by_cases hm : a ∈ T.map (fun t => t.1)
      · rw [if_pos hm, if_pos (hiff.mpr hm)]
      · rw [if_neg hm, if_neg (fun h => hm (hiff.mp h))]

/-- The AddrContracts column after the pairs `T` were counted and then taken back reads as
before, when the rows of the column are consistent. -/
theorem addrContracts_restored (T : List (AddressDescriptor × Option AddressDescriptor))
    (col : List (AddressDescriptor × AddrContracts))
    (hC : ∀ (a : AddressDescriptor) (row : AddrContracts),
      columnGet col a = some row → row.Consistent)
    (a : AddressDescriptor) :
    columnGet (T.foldl dropEmptyRow (T.foldl disconnectAddress (T.foldl countTouch col))) a =
      columnGet col a := by
  rw [dropEmptyRow_foldl_get, disconnectAddress_foldl_get, countTouch_foldl_get]
  by_cases hm : a ∈ T.map (fun t => t.1)
  · rw [if_pos hm, if_pos hm, Option.map_some']
    cases hrow : columnGet col a with
    | none =>
      simp only [Option.getD_none]
      rw [removeTx_foldl_addTx_foldl _ _ (by simp) (by simp)]
      rfl
    | some row =>
      obtain ⟨h1, h2, h3⟩ := hC a row hrow
      simp only [Option.getD_some]
      rw [removeTx_foldl_addTx_foldl row _ h1 h2, Option.some_bind]
      unfold keepCounted
      rw [if_neg h3]
  · rw [if_neg hm, if_neg hm, touchesOf_not_mem T a hm]
    simp

theorem connectTransfer_contracts (acc : connectAcc) (txid : String)
    (from_ to_ : AddressDescriptor) (contract : Option AddressDescriptor) :
    (connectTransfer acc txid from_ to_ contract).contracts =
      ((from_, contract) :: (if from_ = to_ then [] else [(to_, contract)])).foldl countTouch
        acc.contracts := by
  unfold connectTransfer
  by_cases h : from_ = to_
  · rw [if_pos h, if_pos h]; rfl
  · rw [if_neg h, if_neg h]; rfl

theorem connectTransfers_contracts (txid : String) (l : List EthTransfer) (acc : connectAcc) :
    (l.foldl (fun acc t => connectTransfer acc txid t.From t.To (some t.Contract)) acc).contracts =
      ((l.flatMap (fun t =>
          if t.From = t.To then [({ addr := t.From, contract := t.Contract } : ethBlockTxContract)]
          else [{ addr := t.From, contract := t.Contract },
                { addr := t.To, contract := t.Contract }])).map
        (fun c => (c.addr, some c.contract))).foldl countTouch acc.contracts := by
  induction l generalizing acc with
  | nil => rfl
  | cons t rest ih =>
    rw [List.foldl_cons, ih, connectTransfer_contracts, List.flatMap_cons, List.map_append,
      List.foldl_append]
    congr 1
    by_cases h : t.From = t.To
    · rw [if_pos h, if_pos h]; rfl
    · rw [if_neg h, if_neg h]; rfl

theorem connectTx_contracts (acc : connectAcc) (tx : EthTx) :
    (connectTx acc tx).contracts = (blockTxOf tx).touched.foldl countTouch acc.contracts := by
  unfold connectTx ethBlockTx.touched blockTxOf
  rw [connectTransfers_contracts, connectTransfer_contracts, List.foldl_append]

theorem connectTxs_contracts (txs : List EthTx) (acc : connectAcc) :
    (txs.foldl connectTx acc).contracts =
      (txs.flatMap (fun tx => (blockTxOf tx).touched)).foldl countTouch acc.contracts := by
  induction txs generalizing acc with
  | nil => rfl
  | cons tx rest ih =>
    rw [List.foldl_cons, ih, connectTx_contracts, List.flatMap_cons, List.foldl_append]

theorem connectTouch_addresses (acc : connectAcc) (txid : String) (a : AddressDescriptor)
    (contract : Option AddressDescriptor) (sides : List Bool) (a1 : AddressDescriptor)
    (h : columnGet (connectTouch acc txid a contract sides).addresses a1 ≠ none) :
    a1 = a ∨ columnGet acc.addresses a1 ≠ none := by
  unfold connectTouch at h
  simp only at h
  rw [columnGet_columnPut] at h
  by_cases ha : a1 = a
  · exact Or.inl ha
  · rw [if_neg ha] at h; exact Or.inr h

theorem connectTransfer_addresses (acc : connectAcc) (txid : String)
    (from_ to_ : AddressDescriptor) (contract : Option AddressDescriptor) (a1 : AddressDescriptor)
    (h : columnGet (connectTransfer acc txid from_ to_ contract).addresses a1 ≠ none) :
    a1 ∈ ((from_, contract) :: (if from_ = to_ then [] else [(to_, contract)])).map
        (fun t => t.1) ∨
      columnGet acc.addresses a1 ≠ none := by
  unfold connectTransfer at h
  by_cases he : from_ = to_
  · rw [if_pos he] at h
    rcases connectTouch_addresses _ _ _ _ _ _ h with h1 | h1
    · left; rw [h1]; simp
    · exact Or.inr h1
  · rw [if_neg he] at h
    rcases connectTouch_addresses _ _ _ _ _ _ h with h1 | h1
    · left; rw [h1, if_neg he]; simp
    · rcases connectTouch_addresses _ _ _ _ _ _ h1 with h2 | h2
      · left; rw [h2]; simp
      · exact Or.inr h2

theorem connectTransfers_addresses (txid : String) (l : List EthTransfer) (acc : connectAcc)
    (a1 : AddressDescriptor)
    (h : columnGet (l.foldl (fun acc t =>
      connectTransfer acc txid t.From t.To (some t.Contract)) acc).addresses a1 ≠ none) :
    a1 ∈ ((l.flatMap (fun t =>
          if t.From = t.To then [({ addr := t.From, contract := t.Contract } : ethBlockTxContract)]
          else [{ addr := t.From, contract := t.Contract },
                { addr := t.To, contract := t.Contract }])).map
        (fun c => ((c.addr, some c.contract) : AddressDescriptor × Option AddressDescriptor))).map
          (fun t => t.1) ∨
      columnGet acc.addresses a1 ≠ none := by
  induction l generalizing acc with
  | nil => exact Or.inr h
  | cons t rest ih =>
    rw [List.foldl_cons] at h
    rcases ih _ h with h1 | h1
    · left
      rw [List.flatMap_cons, List.map_append, List.map_append]
      exact List.mem_append_right _ h1
    · rcases connectTransfer_addresses _ _ _ _ _ _ h1 with h2 | h2
      · left
        rw [List.flatMap_cons, List.map_append, List.map_append]
        apply List.mem_append_left
        by_cases he : t.From = t.To
        · rw [if_pos he] at h2 ⊢; exact h2
        · rw [if_neg he] at h2 ⊢; exact h2
      · exact Or.inr h2

theorem connectTx_addresses (acc : connectAcc) (tx : EthTx) (a1 : AddressDescriptor)
    (h : columnGet (connectTx acc tx).addresses a1 ≠ none) :
    a1 ∈ (blockTxOf tx).touched.map (fun t => t.1) ∨ columnGet acc.addresses a1 ≠ none := by
  unfold connectTx at h
  unfold ethBlockTx.touched blockTxOf
  rcases connectTransfers_addresses _ _ _ _ h with h1 | h1
  · left
    rw [List.map_append]
    exact List.mem_append_right _ h1
  · rcases connectTransfer_addresses _ _ _ _ _ _ h1 with h2 | h2
    · left
      rw [List.map_append]
      exact List.mem_append_left _ h2
    · exact Or.inr h2

theorem connectTxs_addresses (txs : List EthTx) (acc : connectAcc) (a1 : AddressDescriptor)
    (h : columnGet (txs.foldl connectTx acc).addresses a1 ≠ none) :
    a1 ∈ (txs.flatMap (fun tx => (blockTxOf tx).touched)).map (fun t => t.1) ∨
      columnGet acc.addresses a1 ≠ none := by
  induction txs generalizing acc with
  | nil => exact Or.inr h
  | cons tx rest ih =>
    rw [List.foldl_cons] at h
    rw [List.flatMap_cons, List.map_append]
    rcases ih _ h with h1 | h1
    · exact Or.inl (List.mem_append_right _ h1)
    · rcases connectTx_addresses _ _ _ h1 with h2 | h2
      · exact Or.inl (List.mem_append_left _ h2)
      · exact Or.inr h2

theorem putRows_get_other (rows : List (AddressDescriptor × List outpoint)) (H : Nat)
    (col : List ((AddressDescriptor × Nat) × List outpoint)) (k : AddressDescriptor × Nat)
    (hk : k.2 ≠ H) :
    columnGet (rows.foldl (fun c row => columnPut c (row.1, H) row.2) col) k =
      columnGet col k := by
  induction rows generalizing col with
  | nil => rfl
  | cons row rest ih =>
    rw [List.foldl_cons, ih, columnGet_columnPut, if_neg]
    intro h
    exact hk (by rw [h])

theorem putRows_get_height (rows : List (AddressDescriptor × List outpoint)) (H : Nat)
    (col : List ((AddressDescriptor × Nat) × List outpoint)) (a : AddressDescriptor)
    (h : columnGet (rows.foldl (fun c row => columnPut c (row.1, H) row.2) col) (a, H) ≠ none) :
    columnGet rows a ≠ none ∨ columnGet col (a, H) ≠ none := by
  induction rows generalizing col with
  | nil => exact Or.inr h
  | cons row rest ih =>
    rw [List.foldl_cons] at h
    rcases ih _ h with h1 | h1
    · left
      rw [columnGet_ne_none] at h1 ⊢
      obtain ⟨r, hr, hr1⟩ := h1
      exact ⟨r, List.mem_cons_of_mem _ hr, hr1⟩
    · rw [columnGet_columnPut] at h1
      by_cases he : (a, H) = (row.1, H)
      · left
        rw [columnGet_ne_none]
        exact ⟨row, List.mem_cons_self _ _, ((Prod.mk.inj he).1).symm⟩
      · rw [if_neg he] at h1; exact Or.inr h1

theorem deleteRows_get (T : List (AddressDescriptor × Option AddressDescriptor)) (H : Nat)
    (col : List ((AddressDescriptor × Nat) × List outpoint)) (k : AddressDescriptor × Nat) :
    columnGet (T.foldl (fun c t => columnDelete c (t.1, H)) col) k =
      if k ∈ T.map (fun t => (t.1, H)) then none else columnGet col k := by
  induction T generalizing col with
  | nil => simp
  | cons t rest ih =>
    rw [List.foldl_cons, ih, columnGet_columnDelete]
    by_cases h1 : k ∈ rest.map (fun t => (t.1, H))
    · have h2 : k ∈ (t :: rest).map (fun t => (t.1, H)) := by
        rw [List.map_cons]; exact List.mem_cons_of_mem _ h1
      rw [if_pos h1, if_pos h2]
    · rw [if_neg h1]
      by_cases h3 : k = (t.1, H)
      · have h2 : k ∈ (t :: rest).map (fun t => (t.1, H)) := by
          rw [List.map_cons, h3]; exact List.mem_cons_self _ _
        rw [if_pos h3, if_pos h2]
      · have h2 : k ∉ (t :: rest).map (fun t => (t.1, H)) := by
          rw [List.map_cons, List.mem_cons, not_or]; exact ⟨h3, h1⟩
        rw [if_neg h3, if_neg h2]

theorem columnGet_some_mem {κ ν : Type} [DecidableEq κ] (c : List (κ × ν)) (k : κ) (v : ν)
    (h : columnGet c k = some v) : (k, v) ∈ c := by
  induction c with
  | nil => simp [columnGet] at h
  | cons r rest ih =>
    simp only [columnGet] at h
    by_cases h1 : r.1 = k
    · rw [if_pos h1] at h
      have h2 : r = (k, v) := Prod.ext h1 (Option.some.inj h)
      rw [h2]; exact List.mem_cons_self _ _
    · rw [if_neg h1] at h
      exact List.mem_cons_of_mem _ (ih h)

theorem columnGet_eq_none {κ ν : Type} [DecidableEq κ] (c : List (κ × ν)) (k : κ)
    (h : ∀ r ∈ c, r.1 ≠ k) : columnGet c k = none := by
  by_contra hne
  obtain ⟨r, hr, hr1⟩ := (columnGet_ne_none c k).mp hne
  exact h r hr hr1

/-- Block connect followed by the disconnect of the block, for a block at a height of which
the index holds no row and over consistent AddrContracts rows: every key of Height,
Addresses and AddrContracts reads as before, Transactions is as before, and the undo log
holds what it held before except the rows that block connect has pruned. -/
theorem disconnect_after_ConnectBlock (keep : Nat) (s : Columns) (B : EthBlock)
    (hkeep : 1 ≤ keep)
    (hH : ∀ r ∈ s.Height, r.1 ≠ B.Height)
    (hA : ∀ r ∈ s.Addresses, r.1.2 ≠ B.Height)
    (hT : ∀ r ∈ s.Transactions, r.2 ≠ B.Height)
    (hC : ∀ r ∈ s.AddrContracts, r.2.Consistent) :
    ∃ s1 : Columns,
      DisconnectBlockRangeEthereumType (ConnectBlock keep s B) B.Height B.Height = (s1, none) ∧
      (∀ k, columnGet s1.Height k = columnGet s.Height k) ∧
      (∀ k, columnGet s1.Addresses k = columnGet s.Addresses k) ∧
      (∀ k, columnGet s1.AddrContracts k = columnGet s.AddrContracts k) ∧
      s1.Transactions = s.Transactions ∧
      (∀ k, columnGet s1.BlockTxs k =
        if k = B.Height ∨ k + keep ≤ B.Height then none else columnGet s.BlockTxs k) := by
  have hrange : List.range' B.Height (B.Height + 1 - B.Height) = [B.Height] := by
    rw [Nat.add_sub_cancel_left]; rfl
  have hundo : columnGet (ConnectBlock keep s B).BlockTxs B.Height =
      some (B.Txs.map blockTxOf) := by
    unfold ConnectBlock
    simp only
    rw [columnGet_filter_key _ (fun k => decide (B.Height < k + keep)), columnGet_columnPut,
      if_pos rfl, if_pos (by simp; omega)]
  have htouched : (B.Txs.map blockTxOf).flatMap ethBlockTx.touched = B.touched := by
    unfold EthBlock.touched
    rw [List.flatMap_map]
  refine ⟨disconnectBlockTxsEthereumType (ConnectBlock keep s B) B.Height (B.Txs.map blockTxOf),
    ?_, ?_, ?_, ?_, ?_, ?_⟩
  · unfold DisconnectBlockRangeEthereumType
    simp only [hrange, List.find?_cons, List.find?_nil, hundo, Option.isNone_some,
      List.reverse_cons, List.reverse_nil, List.nil_append, List.foldl_cons, List.foldl_nil,
      Option.getD_some]
  · intro k
    unfold disconnectBlockTxsEthereumType ConnectBlock
    simp only
    rw [columnGet_columnDelete, columnGet_columnPut]
    by_cases hk : k = B.Height
    · rw [if_pos hk, hk, columnGet_eq_none _ _ hH]
    · rw [if_neg hk, if_neg hk]
  · intro k
    unfold disconnectBlockTxsEthereumType
    simp only
    rw [htouched, deleteRows_get]
    by_cases hk : k.2 = B.Height
    · have hnone : columnGet s.Addresses k = none :=
        columnGet_eq_none _ _ (fun r hr h => hA r hr (by rw [h]; exact hk))
      rw [hnone]
      by_cases hm : k ∈ B.touched.map (fun t => (t.1, B.Height))
      · rw [if_pos hm]
      · rw [if_neg hm]
        by_contra hne
        apply hm
        have hk1 : k = (k.1, B.Height) := Prod.ext rfl hk
        rw [hk1] at hne
        unfold ConnectBlock at hne
        simp only at hne
        rcases putRows_get_height _ _ _ _ hne with h1 | h1
        · rcases connectTxs_addresses _ _ _ h1 with h2 | h2
          · rw [hk1]
            simp only [List.mem_map] at h2 ⊢
            obtain ⟨t, ht, ht1⟩ := h2
            exact ⟨t, ht, by rw [ht1]⟩
          · exact absurd rfl h2
        · rw [← hk1] at h1; exact absurd hnone h1
    · have hm : k ∉ B.touched.map (fun t => (t.1, B.Height)) := by
        intro hm
        simp only [List.mem_map] at hm
        obtain ⟨t, _, ht1⟩ := hm
        exact hk (by rw [← ht1])
      rw [if_neg hm]
      unfold ConnectBlock
      simp only
      rw [putRows_get_other _ _ _ _ hk]
  · intro k
    unfold disconnectBlockTxsEthereumType
    simp only
    rw [htouched]
    have hc : (ConnectBlock keep s B).AddrContracts = B.touched.foldl countTouch s.AddrContracts := by
      unfold ConnectBlock EthBlock.touched
      simp only
      rw [connectTxs_contracts]
    rw [hc]
    exact addrContracts_restored B.touched s.AddrContracts
      (fun a row h => hC (a, row) (columnGet_some_mem _ _ _ h)) k
  · unfold disconnectBlockTxsEthereumType ConnectBlock
    simp only
    apply List.filter_eq_self.mpr
    intro r hr
    simpa using hT r hr
  · intro k
    unfold disconnectBlockTxsEthereumType ConnectBlock
    simp only
    rw [columnGet_columnDelete, columnGet_filter_key _ (fun k => decide (B.Height < k + keep)),
      columnGet_columnPut]
    by_cases hk : k = B.Height
    · rw [if_pos hk, if_pos (Or.inl hk)]
    · rw [if_neg hk, if_neg hk]
      by_cases hp : k + keep ≤ B.Height
      · rw [if_pos (Or.inr hp), if_neg (by simp; omega)]
      · have hor : ¬ (k = B.Height ∨ k + keep ≤ B.Height) := by
          intro h; rcases h with h | h
          · exact hk h
          · exact hp h
        have hlt : decide (B.Height < k + keep) = true := by
          rw [decide_eq_true_eq]; omega
        rw [if_neg hor, if_pos hlt]

/-- C20: when the undo log holds no row of the height `lower` of a range `lower ≤ higher`,
`DisconnectBlockRangeEthereumType(lower, higher)` returns the error "Cannot disconnect blocks
with height <lower> and lower. It is necessary to rebuild index." and the columns are as
before; in the fixture with the blocks 4321000 and 4321001 connected the disconnect of the
range 4321000..4321001 ends so, and the columns still hold the snapshot after block 2. -/
theorem DisconnectBlockRangeEthereumType_without_undo_row (s : Columns) (lower higher : Nat)
    (hle : lower ≤ higher) (h : columnGet s.BlockTxs lower = none) :
    DisconnectBlockRangeEthereumType s lower higher =
      (s, some (.other ("Cannot disconnect blocks with height " ++ Nat.repr lower ++
        " and lower. It is necessary to rebuild index."))) ∧
    DisconnectBlockRangeEthereumType scenario.ethAfterPutTx 4321000 4321001 =
      (scenario.ethAfterPutTx, some (.other
        "Cannot disconnect blocks with height 4321000 and lower. It is necessary to rebuild index.")) ∧
    scenario.checkColumns scenario.ethAfterPutTx scenario.verifyAfterEthereumTypeBlock2 = true := by
  refine ⟨?_, by decide, by decide⟩
  unfold DisconnectBlockRangeEthereumType
  have hr : higher + 1 - lower = (higher - lower) + 1 := by omega
  simp only [hr, List.range'_succ, List.find?_cons, h, Option.isNone_none]

/-- C20 on the fixture: the undo log after block 2 holds no row of the height 4321000. -/
theorem DisconnectBlockRangeEthereumType_without_undo_row_witness :
    (4321000 : Nat) ≤ 4321001 ∧ columnGet scenario.ethAfterPutTx.BlockTxs 4321000 = none ∧
    DisconnectBlockRangeEthereumType scenario.ethAfterPutTx 4321000 4321001 =
      (scenario.ethAfterPutTx, some (.other ("Cannot disconnect blocks with height " ++
        Nat.repr 4321000 ++ " and lower. It is necessary to rebuild index."))) :=
  ⟨by decide, by decide,
   (DisconnectBlockRangeEthereumType_without_undo_row scenario.ethAfterPutTx 4321000 4321001
      (by decide) (by decide)).1⟩

/-- C19 (amended): block connect followed by the disconnect of the block, for a block at a
height of which the index holds no row yet and over consistent AddrContracts rows, returns
no error and leaves every key of Height, Addresses and AddrContracts and the column
Transactions as before block connect; the undo log BlockTxs is not restored: it holds what
it held before without the rows that block connect has pruned (it keeps the last `keep`
blocks).  In the fixture the model holds the rows that the test expects after block 1 and
after block 2, and the disconnect of block 2 gives the rows of Height, Addresses and
AddrContracts of the snapshot after block 1, with BlockTxs and Transactions empty. -/
theorem ConnectBlock_then_disconnect_restores_index (keep : Nat) (s : Columns) (B : EthBlock)
    (hkeep : 1 ≤ keep)
    (hH : ∀ r ∈ s.Height, r.1 ≠ B.Height)
    (hA : ∀ r ∈ s.Addresses, r.1.2 ≠ B.Height)
    (hT : ∀ r ∈ s.Transactions, r.2 ≠ B.Height)
    (hC : ∀ r ∈ s.AddrContracts, r.2.Consistent) :
    (∃ s1 : Columns,
      DisconnectBlockRangeEthereumType (ConnectBlock keep s B) B.Height B.Height = (s1, none) ∧
      (∀ k, columnGet s1.Height k = columnGet s.Height k) ∧
      (∀ k, columnGet s1.Addresses k = columnGet s.Addresses k) ∧
      (∀ k, columnGet s1.AddrContracts k = columnGet s.AddrContracts k) ∧
      s1.Transactions = s.Transactions ∧
      (∀ k, columnGet s1.BlockTxs k =
        if k = B.Height ∨ k + keep ≤ B.Height then none else columnGet s.BlockTxs k)) ∧
    scenario.checkColumns scenario.ethAfterBlock1 (scenario.verifyAfterEthereumTypeBlock1 false) =
      true ∧
    scenario.checkColumns scenario.ethAfterBlock2 scenario.verifyAfterEthereumTypeBlock2 = true ∧
    (DisconnectBlockRangeEthereumType scenario.ethAfterPutTx 4321001 4321001).2 = none ∧
    scenario.checkColumns (DisconnectBlockRangeEthereumType scenario.ethAfterPutTx 4321001 4321001).1
      (scenario.verifyAfterEthereumTypeBlock1 true) = true ∧
    (DisconnectBlockRangeEthereumType scenario.ethAfterPutTx 4321001 4321001).1.Transactions = [] :=
  ⟨disconnect_after_ConnectBlock keep s B hkeep hH hA hT hC,
   by decide, by decide, by decide, by decide, by decide⟩

/-- C19 (amended) on the fixture: block 2 connected over the index after block 1 and
disconnected again. -/
theorem ConnectBlock_then_disconnect_restores_index_witness :
    ∃ s1 : Columns,
      DisconnectBlockRangeEthereumType
        (ConnectBlock 1 scenario.ethAfterBlock1 scenario.GetTestEthereumTypeBlock2)
        scenario.GetTestEthereumTypeBlock2.Height scenario.GetTestEthereumTypeBlock2.Height =
          (s1, none) ∧
      (∀ k, columnGet s1.Height k = columnGet scenario.ethAfterBlock1.Height k) ∧
      (∀ k, columnGet s1.Addresses k = columnGet scenario.ethAfterBlock1.Addresses k) ∧
      (∀ k, columnGet s1.AddrContracts k = columnGet scenario.ethAfterBlock1.AddrContracts k) ∧
      s1.Transactions = scenario.ethAfterBlock1.Transactions ∧
      (∀ k, columnGet s1.BlockTxs k =
        if k = scenario.GetTestEthereumTypeBlock2.Height ∨
            k + 1 ≤ scenario.GetTestEthereumTypeBlock2.Height then none
        else columnGet scenario.ethAfterBlock1.BlockTxs k) :=
  (ConnectBlock_then_disconnect_restores_index 1 scenario.ethAfterBlock1
    scenario.GetTestEthereumTypeBlock2 (by decide) (by decide) (by decide) (by decide)
    (by decide)).1

/-- C19 (counterexample): in the fixture block 2 is connected over the index after block 1
and disconnected again without error; before, the undo log held the row of block 1 (height
4321000), after, it holds no row of that height, so the columns are not those before the
connect of block 2.  The test expects the same: after the disconnect BlockTxs is empty. -/
theorem ConnectBlock_then_disconnect_drops_undo_rows :
    (DisconnectBlockRangeEthereumType
      (ConnectBlock 1 scenario.ethAfterBlock1 scenario.GetTestEthereumTypeBlock2)
      4321001 4321001).2 = none ∧
    columnGet scenario.ethAfterBlock1.BlockTxs 4321000 ≠ none ∧
    columnGet (DisconnectBlockRangeEthereumType
      (ConnectBlock 1 scenario.ethAfterBlock1 scenario.GetTestEthereumTypeBlock2)
      4321001 4321001).1.BlockTxs 4321000 = none ∧
    (DisconnectBlockRangeEthereumType
      (ConnectBlock 1 scenario.ethAfterBlock1 scenario.GetTestEthereumTypeBlock2)
      4321001 4321001).1 ≠ scenario.ethAfterBlock1 ∧
    (scenario.verifyAfterEthereumTypeBlock1 false).BlockTxs ≠ [] ∧
    (scenario.verifyAfterEthereumTypeBlock1 true).BlockTxs = [] := by
  decide

/-! ## C21: the signed varint of an Addresses posting -/

theorem zigzag_value (v : Int) (h1 : -(2 ^ 31) ≤ v) (h2 : v < 2 ^ 31) :
    (if v < 0 then 2 ^ 64 - 1 - (v * 2) % 2 ^ 64 else (v * 2) % 2 ^ 64).toNat =
      (if v ≥ 0 then (v * 2).toNat else v.natAbs * 2 - 1) := by
  by_cases hv : v < 0
  · rw [if_pos hv, if_neg (by omega)]
    omega
  · rw [if_neg hv, if_pos (by omega)]
    omega

/-- C21 (counterexample): in the fixture the postings of `EthAddr55` at block 2 are stored
with the bytes 01, 05 and 02, and the test expects them read as the input 0, the input 2
and the output 1; the input 0 is the value -1 and the input 2 the value -3, for which the
rule of the statement (`|v|*2+1`) gives the bytes 03 and 07. -/
theorem specSignedVarint_differs_from_fixture_bytes :
    db.columnGet scenario.addressesBytesBlock2 (scenario.EthAddr55, 4321001) =
      some [(scenario.EthTxidB2T1, [0x01]), (scenario.EthTxidB2T2, [0x05]),
            (scenario.EthTxidB2T2, [0x02])] ∧
    scenario.getTransactionsEthAddr55.drop 2 =
      [(scenario.EthTxidB2T1, 0, false), (scenario.EthTxidB2T2, 2, false),
       (scenario.EthTxidB2T2, 1, true)] ∧
    db.postingValue 0 false = -1 ∧ db.postingValue 2 false = -3 ∧
    db.specSignedVarint (-1) = [0x03] ∧ db.specSignedVarint (-3) = [0x07] ∧
    db.specSignedVarint (db.postingValue 1 true) = [0x02] := by
  refine ⟨by rfl, by rfl, by rfl, by rfl, by rfl, by rfl, by rfl⟩

/-- C21 (amended): for every 32-bit signed value `v` the signed varint of an Addresses
posting is the unsigned varint of `v*2` when `v >= 0` and of `|v|*2-1` when `v < 0`, where
the output with the index `N` is the value `+N` and the input with the index `K` the value
`-(K+1)` (so the input `K` is stored as the unsigned varint of `K*2+1`); the Addresses rows
of the account-chain fixture after block 1 and after block 2 (bytes 00 to 05 after each
txid) are the encodings by this rule of the postings of the index, and the stored postings
of `EthAddr55` are the encodings of the postings that the test reads back. -/
theorem packVarint32_is_zigzag (v : Int) (h1 : -(2 ^ 31) ≤ v) (h2 : v < 2 ^ 31) :
    db.packVarint32 v =
      db.packVaruint (if v ≥ 0 then (v * 2).toNat else v.natAbs * 2 - 1) ∧
    (∀ N : Nat, N < 2 ^ 31 →
      db.packVarint32 (db.postingValue N true) = db.packVaruint (N * 2)) ∧
    (∀ K : Nat, K < 2 ^ 31 →
      db.packVarint32 (db.postingValue K false) = db.packVaruint (K * 2 + 1)) ∧
    db.packAddresses (scenario.verifyAfterEthereumTypeBlock1 false).Addresses =
      scenario.addressesBytesBlock1 ∧
    db.packAddresses scenario.verifyAfterEthereumTypeBlock2.Addresses =
      scenario.addressesBytesBlock2 ∧
    db.sameRows (db.packAddresses scenario.ethAfterBlock2.Addresses)
      scenario.addressesBytesBlock2 = true ∧
    scenario.getTransactionsEthAddr55.map
        (fun p => (p.1, db.packVarint32 (db.postingValue p.2.1 p.2.2))) =
      scenario.storedPostingsEthAddr55 := by
  refine ⟨?_, ?_, ?_, by rfl, by rfl, by rfl, by rfl⟩
  · unfold db.packVarint32
    dsimp only
    rw [zigzag_value v h1 h2]
  · intro N hN
    unfold db.packVarint32 db.postingValue
    dsimp only
    congr 1
    simp only [if_true]
    omega
  · intro K hK
    unfold db.packVarint32 db.postingValue
    dsimp only
    congr 1
    simp only [Bool.false_eq_true, if_false]
    omega

/-- C21 (amended) at the value -1, the input 0: its signed varint is the byte 01. -/
theorem packVarint32_is_zigzag_witness :
    db.packVarint32 (-1) = [0x01] ∧
    db.packVarint32 (-1) = db.packVaruint (if (-1 : Int) ≥ 0 then ((-1 : Int) * 2).toNat
      else (-1 : Int).natAbs * 2 - 1) :=
  ⟨by rfl, (packVarint32_is_zigzag (-1) (by decide) (by decide)).1⟩

/-! ## C22, C26: the checksum of the index walk and its machine-word guards -/

theorem amountSum_append (r : List AddressUtxo) (u : AddressUtxo) :
    amountSum (r ++ [u]) = amountSum r + u.AmountSat.getD 0 := by
  simp [amountSum]

/-- The index walk with no key spent in the mempool keeps the sum of the checksum and of
the amounts of the entries of `r`. -/
theorem walk_checksum (w : Worker) (bestheight : Int)
    (l : List bchain.Outpoint) (st st1 : UtxoWalk)
    (h : Worker.GetAddressUtxo.walk w [] bestheight l st = .ok st1) :
    st1.checksum + amountSum st1.r = st.checksum + amountSum st.r := by
  induction l generalizing st with
  | nil =>
    unfold Worker.GetAddressUtxo.walk at h
    cases h
    rfl
  | cons o rest ih =>
    unfold Worker.GetAddressUtxo.walk at h
    by_cases hg : bigInt64 st.checksum > 0
    · rw [if_pos hg] at h
      dsimp only at h
      have pass : ∀ (ta : Option db.TxAddresses) (lastTxid : String),
          (match ta with
          | none =>
            Worker.GetAddressUtxo.walk w [] bestheight rest
              { st with lastTxid := lastTxid, ta := ta }
          | some row =>
            if (row.Outputs.length : Int) ≤ o.Vout then
              Worker.GetAddressUtxo.walk w [] bestheight rest
                { st with lastTxid := lastTxid, ta := ta }
            else
              match goIndex row.Outputs o.Vout with
              | .error f => .error f
              | .ok output =>
                if !output.Spent then
                  let v := output.ValueSat
                  let r1 :=
                    if o.Txid ++ Itoa o.Vout ∈ ([] : List String) then st.r
                    else st.r ++ [({ Txid := o.Txid, Vout := o.Vout, AmountSat := some v,
                                     Height := (row.Height : Int),
                                     Confirmations := bestheight - (row.Height : Int) + 1 } :
                                     AddressUtxo)]
                  Worker.GetAddressUtxo.walk w [] bestheight rest
                    { lastTxid := lastTxid, ta := ta, checksum := st.checksum - v, r := r1 }
                else
                  Worker.GetAddressUtxo.walk w [] bestheight rest
                    { st with lastTxid := lastTxid, ta := ta }) = .ok st1 →
          st1.checksum + amountSum st1.r = st.checksum + amountSum st.r := by
        intro ta lastTxid h
        cases ta with
        | none => exact ih { st with lastTxid := lastTxid, ta := none } h
        | some row =>
          dsimp only at h
          by_cases hlen : (row.Outputs.length : Int) ≤ o.Vout
          · rw [if_pos hlen] at h
            exact ih { st with lastTxid := lastTxid, ta := some row } h
          · rw [if_neg hlen] at h
            cases hidx : goIndex row.Outputs o.Vout with
            | error f => rw [hidx] at h; cases h
            | ok output =>
              rw [hidx] at h
              dsimp only at h
              cases hsp : output.Spent with
              | true =>
                rw [hsp] at h
                simp only [Bool.not_true, Bool.false_eq_true, if_false] at h
                exact ih { st with lastTxid := lastTxid, ta := some row } h
              | false =>
                rw [hsp] at h
                simp only [Bool.not_false, if_true] at h
                rw [if_neg (not_mem_nil_key _)] at h
                have h1 := ih _ h
                rw [h1]
                dsimp only
                rw [amountSum_append]
                simp only [Option.getD_some]
                ring
      by_cases hlast : st.lastTxid ≠ o.Txid
      · rw [if_pos hlast] at h
        cases hta : w.db.GetTxAddresses o.Txid with
        | error e => rw [hta] at h; cases h
        | ok ta =>
          rw [hta] at h
          dsimp only at h
          exact pass ta o.Txid h
      · rw [if_neg hlast] at h
        dsimp only at h
        exact pass st.ta st.lastTxid h
    · rw [if_neg hg] at h
      cases h
      rfl

/-- The index walk visits no outpoint once its guard fails, in particular once the
checksum is zero. -/
theorem walk_stops (w : Worker) (spent : List String) (bestheight : Int)
    (l : List bchain.Outpoint) (st : UtxoWalk) (h : ¬ (bigInt64 st.checksum > 0)) :
    Worker.GetAddressUtxo.walk w spent bestheight l st = .ok st := by
  cases l with
  | nil => rfl
  | cons o rest =>
    unfold Worker.GetAddressUtxo.walk
    rw [if_neg h]

/-- Where the index walk is entered, the amounts of the entries that `GetAddressUtxo`
returns with `onlyConfirmed` and the final checksum add up to the balance of the address. -/
theorem indexPart_checksum (w : Worker) (addrDesc : AddressDescriptor)
    (ba : db.AddrBalance) (r : List AddressUtxo) (c : Int)
    (hb : w.db.GetAddrDescBalance addrDesc = .ok (some ba))
    (hg : bigUint64 ba.BalanceSat > 0)
    (h : Worker.GetAddressUtxo.indexPart w addrDesc [] [] = .ok (r, c)) :
    amountSum r + c = ba.BalanceSat := by
  unfold Worker.GetAddressUtxo.indexPart at h
  rw [hb] at h
  dsimp only at h
  rw [if_pos hg, GetAddrDescTransactions_collect] at h
  dsimp only at h
  cases hbb : w.db.GetBestBlock with
  | error e => rw [hbb] at h; cases h
  | ok bb =>
    obtain ⟨b, bh⟩ := bb
    rw [hbb] at h
    dsimp only at h
    cases hw : Worker.GetAddressUtxo.walk w [] (b : Int)
        (outputPostings w.db addrDesc).reverse
        { lastTxid := "", ta := none, checksum := ba.BalanceSat, r := [] } with
    | error f => rw [hw] at h; cases h
    | ok st =>
      rw [hw] at h
      cases h
      have := walk_checksum w _ _ _ _ hw
      simp only [amountSum, List.map_nil, List.sum_nil, add_zero] at this
      simp only [amountSum]
      omega

/-- Below 2^63 the three machine-word guards of `GetAddressUtxo` are the exact
comparisons. -/
theorem word_guards_exact_below_two_pow_63 (x : Int) (h0 : 0 ≤ x) (h1 : x < 2 ^ 63) :
    (bigUint64 x > 0 ↔ x > 0) ∧ (bigInt64 x > 0 ↔ x > 0) ∧
    (Worker.GetAddressUtxo.checksumWarning x = true ↔ x ≠ 0) := by
  obtain ⟨n, rfl⟩ := Int.eq_ofNat_of_zero_le h0
  have hn : n < 2 ^ 63 := by exact_mod_cast h1
  have hmod : n % 2 ^ 64 = n := Nat.mod_eq_of_lt (by omega)
  refine ⟨?_, ?_, ?_⟩
  · simp only [bigUint64, Int.natAbs_ofNat, hmod]
    omega
  · simp only [bigInt64, Int.natAbs_ofNat, hmod]
    rw [if_pos h1, if_neg (by omega)]
  · simp only [Worker.GetAddressUtxo.checksumWarning, bigUint64, Int.natAbs_ofNat, hmod]
    simp

/-- C22 (code defect): the guards of the index walk of `GetAddressUtxo` read the low 64
bits of the numbers. Over an index where the balance row of `e` says 1 and `e` has unspent
outputs of 2^63 + 2 (newer) and of 5 (older), the walk takes the checksum from 1 to
-(2^63 + 1) at the newer output, `checksum.Int64()` reads that as 2^63 - 1, and the walk
visits and returns the older output with a negative checksum. Over a consistent index where
the balance of `d` is 2^64, the amount of its one unspent output, `BalanceSat.Uint64()` is
0, the walk is not entered, no entry is returned and the final checksum is the zero value:
the returned amounts and the final checksum add up to 0, not to the balance. -/
theorem GetAddressUtxo_walks_on_with_negative_checksum :
    scenario.overdrawnStore.GetAddrDescBalance [101] =
      .ok (some { Txs := 2, SentSat := 0, BalanceSat := 1 }) ∧
    scenario.overdrawnWorker.GetAddressUtxo "e" true =
      .ok [{ Txid := "Q", Vout := 0, AmountSat := some (2 ^ 63 + 2), Height := 2,
             Confirmations := 1 },
           { Txid := "P", Vout := 0, AmountSat := some 5, Height := 1, Confirmations := 2 }] ∧
    Worker.GetAddressUtxo.walk scenario.overdrawnWorker [] 2 [{ Txid := "Q", Vout := 0 }]
        { lastTxid := "", ta := none, checksum := 1, r := [] } =
      .ok { lastTxid := "Q",
            ta := some { Height := 2, Inputs := [],
                         Outputs := [{ AddrDesc := [101], Spent := false,
                                       ValueSat := 2 ^ 63 + 2 }] },
            checksum := -(2 ^ 63 + 1),
            r := [{ Txid := "Q", Vout := 0, AmountSat := some (2 ^ 63 + 2), Height := 2,
                    Confirmations := 1 }] } ∧
    bigInt64 (-(2 ^ 63 + 1)) = 2 ^ 63 - 1 ∧
    Worker.GetAddressUtxo.indexPart scenario.overdrawnWorker [101] [] [] =
      .ok ([{ Txid := "Q", Vout := 0, AmountSat := some (2 ^ 63 + 2), Height := 2,
              Confirmations := 1 },
            { Txid := "P", Vout := 0, AmountSat := some 5, Height := 1, Confirmations := 2 }],
           -(2 ^ 63 + 6)) ∧
    scenario.hugeStore.GetAddrDescBalance [100] =
      .ok (some { Txs := 1, SentSat := 0, BalanceSat := 2 ^ 64 }) ∧
    scenario.hugeStore.GetTxAddresses "H" =
      .ok (some { Height := 1, Inputs := [],
                  Outputs := [{ AddrDesc := [100], Spent := false, ValueSat := 2 ^ 64 }] }) ∧
    scenario.hugeStore.Addresses [100] = [(1, [{ btxID := "H", index := 0 }])] ∧
    scenario.hugeWorker.GetAddressUtxo "d" true = .ok [] ∧
    Worker.GetAddressUtxo.indexPart scenario.hugeWorker [100] [] [] = .ok ([], 0) ∧
    amountSum [] + 0 ≠ (2 ^ 64 : Int) := by
  refine ⟨by rfl, by rfl, by rfl, by rfl, by rfl, by rfl, by rfl, by rfl, by rfl, by rfl,
    by decide⟩

/-- C26 (code defect): the machine-word guards of `GetAddressUtxo` differ from the exact
comparisons from 2^63 on. For the balance 2^64 the guard `BalanceSat.Uint64() > 0` is false
and the index walk is not entered; for the checksum 2^63 the guard `checksum.Int64() > 0` is
false and the walk stops before the first outpoint; for the final checksum 2^64 the probe
`checksum.Uint64() != 0` does not fire. -/
theorem GetAddressUtxo_word_guards_wrap :
    (bigUint64 (2 ^ 64) = 0 ∧ (2 ^ 64 : Int) > 0 ∧
      Worker.GetAddressUtxo.indexPart scenario.hugeWorker [100] [] [] = .ok ([], 0)) ∧
    (bigInt64 (2 ^ 63) = -(2 ^ 63) ∧ (2 ^ 63 : Int) > 0 ∧
      Worker.GetAddressUtxo.walk scenario.bigWorker [] 1 [{ Txid := "B", Vout := 0 }]
          { lastTxid := "", ta := none, checksum := 2 ^ 63, r := [] } =
        .ok { lastTxid := "", ta := none, checksum := 2 ^ 63, r := [] }) ∧
    (Worker.GetAddressUtxo.checksumWarning (2 ^ 64) = false ∧ (2 ^ 64 : Int) ≠ 0) := by
  refine ⟨⟨by rfl, by decide, by rfl⟩, ⟨by rfl, by decide, by rfl⟩, by rfl, by decide⟩

/-! ## C23: the fee of a UTXO-chain transaction -/

theorem voutLoop_sum (w : Worker) (bchainTx : bchain.Tx) (height : Nat) (spendingTxs : Bool)
    (ta : Option db.TxAddresses) (l : List bchain.Vout) (i : Nat) (acc : Int)
    (vs : List Vout) (val : Int)
    (h : Worker.GetTransactionFromBchainTx.voutLoop w bchainTx height spendingTxs ta l i acc
      = .ok (vs, val)) :
    val = acc + (l.map (fun v => v.ValueSat)).sum := by
  induction l generalizing i acc vs val with
  | nil =>
    simp only [Worker.GetTransactionFromBchainTx.voutLoop] at h
    have h1 := Except.ok.inj h
    simp only [Prod.mk.injEq] at h1
    simp [h1.2]
  | cons v rest ih =>
    simp only [Worker.GetTransactionFromBchainTx.voutLoop] at h
    split at h
    · exact absurd h (by simp)
    · split at h
      · exact absurd h (by simp)
      · rename_i vouts val1 hrest
        have h1 := Except.ok.inj h
        simp only [Prod.mk.injEq] at h1
        have h2 := ih _ _ _ _ hrest
        rw [← h1.2, h2, List.map_cons, List.sum_cons]
        ring

theorem foldl_add_sum {α : Type} (f : α → Int) (l : List α) (acc : Int) :
    l.foldl (fun val x => val + f x) acc = acc + (l.map f).sum := by
  induction l generalizing acc with
  | nil => simp
  | cons x xs ih => rw [List.foldl_cons, ih, List.map_cons, List.sum_cons]; ring

/-- C23: on a UTXO chain a transaction returned by `GetTransactionFromBchainTx` has
`ValueOutSat` equal to the sum of the amounts of all its vouts and `FeesSat` equal to
`ValueInSat - ValueOutSat` when `ValueInSat >= ValueOutSat` and to 0 otherwise; so the fee
is never negative, and it is 0 for a coinbase transaction (value in 0, amounts of the
vouts not negative). `txFromTxAddress` computes the three fields by the same rule from the
amounts of the `TxAddresses` row. -/
theorem GetTransactionFromBchainTx_fee_rule (w : Worker) (bchainTx : bchain.Tx) (height : Nat)
    (spendingTxs specificJSON : Bool) (r : Tx)
    (hc : w.chainType = bchain.ChainType.ChainBitcoinType)
    (h : w.GetTransactionFromBchainTx bchainTx height spendingTxs specificJSON = .ok r) :
    (∃ valIn valOut fee : Int,
      r.ValueInSat = some valIn ∧ r.ValueOutSat = some valOut ∧ r.FeesSat = some fee ∧
      valOut = (bchainTx.Vout.map (fun v => v.ValueSat)).sum ∧
      (valIn ≥ valOut → fee = valIn - valOut) ∧ (valIn < valOut → fee = 0) ∧ 0 ≤ fee ∧
      (valIn = 0 → (∀ v ∈ bchainTx.Vout, 0 ≤ v.ValueSat) → fee = 0)) ∧
    (∀ (txid : String) (ta : db.TxAddresses) (bi : db.BlockInfo) (bestheight : Nat),
      ∃ valIn valOut fee : Int,
        (w.txFromTxAddress txid ta bi bestheight).ValueInSat = some valIn ∧
        (w.txFromTxAddress txid ta bi bestheight).ValueOutSat = some valOut ∧
        (w.txFromTxAddress txid ta bi bestheight).FeesSat = some fee ∧
        valIn = (ta.Inputs.map (fun i => i.ValueSat)).sum ∧
        valOut = (ta.Outputs.map (fun o => o.ValueSat)).sum ∧
        (valIn ≥ valOut → fee = valIn - valOut) ∧ (valIn < valOut → fee = 0) ∧ 0 ≤ fee ∧
        (valIn = 0 → (∀ o ∈ ta.Outputs, 0 ≤ o.ValueSat) → fee = 0)) := by
  constructor
  · obtain ⟨ta, valIn, valOut, _, _, _, _, hout, hb⟩ :=
      GetTransactionFromBchainTx_ok w bchainTx height spendingTxs specificJSON r h
    obtain ⟨h1, h2, h3⟩ := hb hc
    have hsum := voutLoop_sum w bchainTx height spendingTxs ta bchainTx.Vout 0 0 _ _ hout
    rw [zero_add] at hsum
    refine ⟨valIn, valOut, _, h1, h2, h3, hsum, ?_, ?_, ?_, ?_⟩
    · intro hge; rw [if_neg (by omega)]
    · intro hlt; rw [if_pos (by omega)]
    · split <;> omega
    · intro h0 hnn
      have hpos : 0 ≤ (bchainTx.Vout.map (fun v => v.ValueSat)).sum :=
        List.sum_nonneg (by
          intro x hx
          obtain ⟨v, hv, rfl⟩ := List.mem_map.mp hx
          exact hnn v hv)
      split <;> omega
  · intro txid ta bi bestheight
    have hi : ta.Inputs.foldl (fun (val : Int) (tai : db.TxInput) => val + tai.ValueSat) 0
        = (ta.Inputs.map (fun i => i.ValueSat)).sum := by
      rw [foldl_add_sum, zero_add]
    have ho : ta.Outputs.foldl (fun (val : Int) (tao : db.TxOutput) => val + tao.ValueSat) 0
        = (ta.Outputs.map (fun o => o.ValueSat)).sum := by
      rw [foldl_add_sum, zero_add]
    refine ⟨(ta.Inputs.map (fun i => i.ValueSat)).sum, (ta.Outputs.map (fun o => o.ValueSat)).sum,
      if (ta.Inputs.map (fun i => i.ValueSat)).sum - (ta.Outputs.map (fun o => o.ValueSat)).sum < 0
        then 0
        else (ta.Inputs.map (fun i => i.ValueSat)).sum - (ta.Outputs.map (fun o => o.ValueSat)).sum,
      ?_, ?_, ?_, rfl, rfl, ?_, ?_, ?_, ?_⟩
    · rw [← hi]; rfl
    · rw [← ho]; rfl
    · rw [← hi, ← ho]; rfl
    · intro hge; rw [if_neg (by omega)]
    · intro hlt; rw [if_pos (by omega)]
    · split <;> omega
    · intro h0 hnn
      have hpos : 0 ≤ (ta.Outputs.map (fun o => o.ValueSat)).sum :=
        List.sum_nonneg (by
          intro x hx
          obtain ⟨v, hv, rfl⟩ := List.mem_map.mp hx
          exact hnn v hv)
      split <;> omega

/-- C23 on the two-block fixture: the first transaction of block 2 has value in
1234567902468, value out 1234567902122 and fee 346. -/
theorem GetTransactionFromBchainTx_fee_rule_witness :
    ∃ r, scenario.fixtureWorker.GetTransaction scenario.TxidB2T1 false false = .ok r ∧
      r.ValueInSat = some 1234567902468 ∧ r.ValueOutSat = some 1234567902122 ∧
      r.FeesSat = some 346 ∧
      ∃ valIn valOut fee : Int,
        r.ValueInSat = some valIn ∧ r.ValueOutSat = some valOut ∧ r.FeesSat = some fee ∧
        (valIn ≥ valOut → fee = valIn - valOut) ∧ 0 ≤ fee := by
  obtain ⟨r, hr⟩ : ∃ r, scenario.fixtureWorker.GetTransaction scenario.TxidB2T1 false false =
      .ok r ∧ r.ValueInSat = some 1234567902468 ∧ r.ValueOutSat = some 1234567902122 ∧
      r.FeesSat = some 346 := ⟨_, rfl, rfl, rfl, rfl⟩
  have hr1 : scenario.fixtureWorker.GetTransactionFromBchainTx
      { Txid := scenario.TxidB2T1,
        Vin := [{ Txid := scenario.TxidB1T2, Vout := 0 }, { Txid := scenario.TxidB1T1, Vout := 1 }],
        Vout := [{ N := 0, ScriptPubKeyHex := scenario.Addr6, ValueSat := 317283951061 },
                 { N := 1, ScriptPubKeyHex := scenario.Addr7, ValueSat := 917283951061 }],
        Blocktime := 22549400000, Time := 22549400000, Confirmations := 1 }
      225494 false false = .ok r := hr.1
  obtain ⟨valIn, valOut, fee, h1, h2, h3, _, h5, _, h7, _⟩ :=
    (GetTransactionFromBchainTx_fee_rule scenario.fixtureWorker _ 225494 false false r rfl hr1).1
  exact ⟨r, hr.1, hr.2.1, hr.2.2.1, hr.2.2.2, valIn, valOut, fee, h1, h2, h3, h5, h7⟩

/-! ## C24: the dedup pass on a list without repetition, and applied twice -/

theorem filter_ne_of_not_mem (x : String) (l : List String) (h : x ∉ l) :
    l.filter (fun y => y ≠ x) = l := by
  rw [List.filter_eq_self]
  intro y hy
  have hne : y ≠ x := fun e => h (e ▸ hy)
  simpa using hne

theorem firstOccurrences_of_nodup (l : List String) (h : l.Nodup) :
    firstOccurrences l = l := by
  induction l with
  | nil => rfl
  | cons x xs ih =>
    rw [List.nodup_cons] at h
    rw [firstOccurrences, ih h.2, filter_ne_of_not_mem x xs h.1]

/-- C24: `UniqueTxidsInReverse` returns the reverse of the list of first
occurrences of its input (every txid once, at its first position, the order
reversed); so an input without repetition comes back reversed, and applying
the pass twice gives the list of first occurrences in the original order. -/
theorem UniqueTxidsInReverse_reverses_first_occurrences (l : List String) :
    UniqueTxidsInReverse l = (firstOccurrences l).reverse ∧
    (l.Nodup → UniqueTxidsInReverse l = l.reverse) ∧
    UniqueTxidsInReverse (UniqueTxidsInReverse l) = firstOccurrences l := by
  refine ⟨UniqueTxidsInReverse_eq l, ?_, ?_⟩
  · intro h
    rw [UniqueTxidsInReverse_eq, firstOccurrences_of_nodup l h]
  · rw [UniqueTxidsInReverse_eq l, UniqueTxidsInReverse_eq,
      firstOccurrences_of_nodup _ (List.nodup_reverse.mpr (firstOccurrences_nodup l)),
      List.reverse_reverse]

/-- C24, at a concrete input: a list of three distinct txids satisfies the
hypothesis of the dup-free case and comes back reversed. -/
theorem UniqueTxidsInReverse_reverses_first_occurrences_witness :
    UniqueTxidsInReverse ["a", "b", "a", "c"] = ["c", "b", "a"] ∧
    (["a", "b", "c"].Nodup ∧ UniqueTxidsInReverse ["a", "b", "c"] = ["c", "b", "a"]) ∧
    UniqueTxidsInReverse (UniqueTxidsInReverse ["a", "b", "a", "c"]) = ["a", "b", "c"] :=
  ⟨(UniqueTxidsInReverse_reverses_first_occurrences ["a", "b", "a", "c"]).1,
   ⟨by decide, (UniqueTxidsInReverse_reverses_first_occurrences ["a", "b", "c"]).2.1 (by decide)⟩,
   (UniqueTxidsInReverse_reverses_first_occurrences ["a", "b", "a", "c"]).2.2⟩

/-! ## C25: runtime failures of `GetTransactionFromBchainTx` -/

/-- C25 (code defect): `GetTransactionFromBchainTx` on a UTXO chain ends with a runtime
failure in the cases that the statement names. Over the index `twinStore`, where the
TxAddresses row of `T` has two outputs: for a confirmed transaction `T` with three vouts the
loop over the vouts reads `ta.Outputs[2]` (index out of range); for a transaction whose vin
references output 2 of `T` the value of the vin stays nil and is added to the sum (nil
dereference). Over `gapStore`, where `S` has no TxAddresses row and the cached transaction
`S` has one vout: a vin that references output 1 of `S` stays without value in the same
way. -/
theorem GetTransactionFromBchainTx_runtime_failures :
    scenario.twinStore.GetTxAddresses "T" =
      .ok (some { Height := 1, Inputs := [],
                  Outputs := [{ AddrDesc := [97], Spent := false, ValueSat := 50 },
                              { AddrDesc := [97], Spent := true, ValueSat := 50 }] }) ∧
    scenario.twinWorker.chainType = bchain.ChainType.ChainBitcoinType ∧
    scenario.twinWorker.GetTransactionFromBchainTx
      { Txid := "T", Confirmations := 2,
        Vout := [{ ValueSat := 50, N := 0, ScriptPubKeyHex := "a" },
                 { ValueSat := 30, N := 1, ScriptPubKeyHex := "a" },
                 { ValueSat := 20, N := 2, ScriptPubKeyHex := "a" }] } 1 false false =
      .error (.panic "index out of range") ∧
    scenario.twinWorker.GetTransactionFromBchainTx
      { Txid := "X", Confirmations := 0, Vin := [{ Txid := "T", Vout := 2 }],
        Vout := [{ ValueSat := 10, N := 0, ScriptPubKeyHex := "b" }] } 0 false false =
      .error (.panic "nil pointer dereference") ∧
    scenario.gapStore.GetTxAddresses "S" = .ok none ∧
    scenario.gapWorker.txCache.GetTransaction "S" = .ok (scenario.txS, 2) ∧
    scenario.txS.Vout.length = 1 ∧
    scenario.gapWorker.GetTransactionFromBchainTx
      { Txid := "X", Confirmations := 0, Vin := [{ Txid := "S", Vout := 1 }],
        Vout := [{ ValueSat := 10, N := 0, ScriptPubKeyHex := "b" }] } 0 false false =
      .error (.panic "nil pointer dereference") := by
  refine ⟨by rfl, by rfl, by rfl, by rfl, by rfl, by rfl, by rfl, by rfl⟩

/-! ## C27: `GetBlocks` -/

theorem GetBlocks_loop_found (w : Worker) (bestheight from_ : Int) (f : Nat → db.BlockInfo)
    (n k : Nat) (blocks : List db.BlockInfo) (hlen : blocks.length = k + n)
    (hf : ∀ j, k ≤ j → j < k + n →
      w.db.GetBlockInfo ((bestheight - (from_ + (j : Int))) % 2 ^ 32).toNat = .ok (some (f j))) :
    Worker.GetBlocks.loop w bestheight from_ n k blocks =
      .ok (blocks.take k ++ (List.range' k n).map f) := by
  induction n generalizing k blocks with
  | zero =>
    unfold Worker.GetBlocks.loop
    rw [List.take_of_length_le (by omega)]
    simp
  | succ n ih =>
    unfold Worker.GetBlocks.loop
    rw [hf k (le_refl k) (by omega)]
    dsimp only
    have hk : k < blocks.length := by omega
    unfold goSet
    rw [if_pos hk]
    dsimp only
    rw [ih (k + 1) (blocks.set k (f k)) (by rw [List.length_set]; omega)
      (fun j h1 h2 => hf j (by omega) (by omega))]
    rw [take_set_succ blocks k (f k) hk, List.range'_succ, List.map_cons, List.append_assoc]
    rfl

theorem GetBlocks_loop_missing (w : Worker) (bestheight from_ : Int) (f : Nat → db.BlockInfo)
    (m n k : Nat) (blocks : List db.BlockInfo) (hlen : blocks.length = k + n)
    (hk : k ≤ m) (hm : m < k + n)
    (hf : ∀ j, k ≤ j → j < m →
      w.db.GetBlockInfo ((bestheight - (from_ + (j : Int))) % 2 ^ 32).toNat = .ok (some (f j)))
    (hnone : w.db.GetBlockInfo ((bestheight - (from_ + (m : Int))) % 2 ^ 32).toNat = .ok none) :
    Worker.GetBlocks.loop w bestheight from_ n k blocks =
      goSliceTo (blocks.take k ++ (List.range' k (m - k)).map f ++ blocks.drop m)
        (from_ + (m : Int)) := by
  induction n generalizing k blocks with
  | zero => omega
  | succ n ih =>
    unfold Worker.GetBlocks.loop
    by_cases hkm : k = m
    · subst hkm
      rw [hnone]
      simp
    · have hlt : k < m := by omega
      rw [hf k (le_refl k) hlt]
      dsimp only
      have hkl : k < blocks.length := by omega
      unfold goSet
      rw [if_pos hkl]
      dsimp only
      rw [ih (k + 1) (blocks.set k (f k)) (by rw [List.length_set]; omega) (by omega) (by omega)
        (fun j h1 h2 => hf j (by omega) h2)]
      rw [take_set_succ blocks k (f k) hkl, List.drop_set_of_lt _ _ hlt]
      have hr : m - k = (m - (k + 1)) + 1 := by omega
      rw [hr, List.range'_succ, List.map_cons]
      simp [List.append_assoc]

theorem computePaging_ok (count page itemsOnPage : Int) (hi : itemsOnPage ≠ 0) :
    ∃ q, computePaging count page itemsOnPage = .ok q := by
  simp only [computePaging, goDiv, hi, if_false, bind, Except.bind, pure, Except.pure]
  exact ⟨_, rfl⟩

theorem computePaging_bounds (count page itemsOnPage : Int) (hc : 1 ≤ count) (hp : 0 ≤ page)
    (hi : 1 ≤ itemsOnPage) (hc62 : count ≤ 2 ^ 62) (hi62 : itemsOnPage ≤ 2 ^ 62)
    (h63 : page * itemsOnPage < 2 ^ 63) (pg : Paging) (from_ to_ page1 : Int)
    (h : computePaging count page itemsOnPage = .ok (pg, from_, to_, page1)) :
    0 ≤ from_ ∧ from_ < to_ ∧ to_ ≤ count := by
  have hT0 : 0 ≤ (count - 1) / itemsOnPage := Int.ediv_nonneg (by omega) (by omega)
  have hT1 : (count - 1) / itemsOnPage * itemsOnPage ≤ count - 1 :=
    Int.ediv_mul_le _ (by omega)
  have hfit : ((if page * itemsOnPage ≥ count then
      (if (count - 1).tdiv itemsOnPage < 0 then 0 else (count - 1).tdiv itemsOnPage)
      else page) + 1) * itemsOnPage < 2 ^ 63 := by
    rw [totalPages_clip count itemsOnPage (by omega) hi]
    have h0 : ¬ (count = 0) := by omega
    simp only [h0, if_false, add_zero]
    split
    · have : ((count - 1) / itemsOnPage + 1) * itemsOnPage =
          (count - 1) / itemsOnPage * itemsOnPage + itemsOnPage := by ring
      omega
    · have : (page + 1) * itemsOnPage = page * itemsOnPage + itemsOnPage := by ring
      omega
  rw [computePaging_unfold count page itemsOnPage (by omega) (by omega) hi hp h63 hfit,
    totalPages_clip count itemsOnPage (by omega) hi] at h
  have h0 : ¬ (count = 0) := by omega
  simp only [h0, if_false, add_zero] at h
  have h1 := Except.ok.inj h
  simp only [Prod.mk.injEq] at h1
  obtain ⟨_, hfrom, hto, hpage⟩ := h1
  have hpage0 : 0 ≤ page1 := by
    rw [← hpage]; split <;> omega
  have hfrom1 : page1 * itemsOnPage < count := by
    rw [← hpage]
    split
    · omega
    · omega
  have hfrom0 : 0 ≤ page1 * itemsOnPage := Int.mul_nonneg hpage0 (by omega)
  have hnext : page1 * itemsOnPage < (page1 + 1) * itemsOnPage := by nlinarith
  rw [hpage] at hfrom hto
  rw [← hfrom, ← hto]
  refine ⟨hfrom0, ?_, ?_⟩
  · split <;> omega
  · split <;> omega

/-- With every block info up to the best block present, `GetBlocks` returns, newest first,
the infos of the heights `bestheight - from` down to `bestheight - to + 1`. -/
theorem GetBlocks_all_infos (w : Worker) (page blocksOnPage : Int) (b : Nat) (bh : String)
    (info : Nat → db.BlockInfo) (hi : 1 ≤ blocksOnPage) (hi62 : blocksOnPage ≤ 2 ^ 62)
    (h63 : (if goInt (page - 1) < 0 then 0 else goInt (page - 1)) * blocksOnPage < 2 ^ 63)
    (hb : w.db.GetBestBlock = .ok (b, bh)) (hb32 : b < 2 ^ 32)
    (hinfo : ∀ h, h ≤ b → w.db.GetBlockInfo h = .ok (some (info h))) :
    ∃ (pg : Paging) (from_ to_ page1 : Int),
      computePaging ((b : Int) + 1) (if goInt (page - 1) < 0 then 0 else goInt (page - 1)) blocksOnPage =
        .ok (pg, from_, to_, page1) ∧
      0 ≤ from_ ∧ from_ < to_ ∧ to_ ≤ (b : Int) + 1 ∧
      w.GetBlocks page blocksOnPage =
        .ok { Paging := pg,
              Blocks := (List.range (to_ - from_).toNat).map
                (fun (j : Nat) => info ((b : Int) - from_ - (j : Int)).toNat) } := by
  obtain ⟨⟨pg, from_, to_, page1⟩, hq⟩ := computePaging_ok ((b : Int) + 1)
    (if goInt (page - 1) < 0 then 0 else goInt (page - 1)) blocksOnPage (by omega)
  obtain ⟨h0, h1, h2⟩ := computePaging_bounds _ _ _ (by omega) (by split <;> omega) hi
    (by omega) hi62 h63 _ _ _ _ hq
  refine ⟨pg, from_, to_, page1, hq, h0, h1, h2, ?_⟩
  unfold Worker.GetBlocks
  dsimp only
  rw [hb]
  dsimp only
  rw [hq]
  dsimp only
  unfold goMake
  rw [if_neg (by omega)]
  dsimp only
  rw [GetBlocks_loop_found w (b : Int) from_
    (fun j => info ((b : Int) - from_ - (j : Int)).toNat) (to_ - from_).toNat 0 _ (by simp)]
  · rw [List.take_zero, List.nil_append, List.range_eq_range']
  · intro j _ hj
    have hh : (((b : Int) - (from_ + (j : Int))) % 2 ^ 32).toNat =
        ((b : Int) - from_ - (j : Int)).toNat := by
      have : ((b : Int) - (from_ + (j : Int))) % 2 ^ 32 = (b : Int) - from_ - (j : Int) := by
        rw [Int.emod_eq_of_lt (by omega) (by omega)]; ring
      rw [this]
    rw [hh]
    exact hinfo _ (by omega)

/-- With the block info of the height `bestheight - (from + m)` the first one missing,
`GetBlocks` cuts the slice, which holds the `m` infos found and the zero values after them,
at `from + m`: a runtime failure when `from + m` exceeds the length `to - from`, otherwise
the first `from + m` elements. -/
theorem GetBlocks_first_missing (w : Worker) (page blocksOnPage : Int) (b : Nat) (bh : String)
    (info : Nat → db.BlockInfo) (pg : Paging) (from_ to_ page1 : Int) (m : Nat)
    (hi : 1 ≤ blocksOnPage) (hi62 : blocksOnPage ≤ 2 ^ 62)
    (h63 : (if goInt (page - 1) < 0 then 0 else goInt (page - 1)) * blocksOnPage < 2 ^ 63)
    (hb : w.db.GetBestBlock = .ok (b, bh)) (hb32 : b < 2 ^ 32)
    (hq : computePaging ((b : Int) + 1) (if goInt (page - 1) < 0 then 0 else goInt (page - 1)) blocksOnPage =
      .ok (pg, from_, to_, page1))
    (hm : (m : Int) < to_ - from_)
    (hinfo : ∀ j : Nat, j < m →
      w.db.GetBlockInfo ((b : Int) - from_ - (j : Int)).toNat = .ok (some (info j)))
    (hnone : w.db.GetBlockInfo ((b : Int) - from_ - (m : Int)).toNat = .ok none) :
    w.GetBlocks page blocksOnPage =
      if from_ + (m : Int) > to_ - from_ then .error (.panic "slice bounds out of range")
      else .ok { Paging := pg,
                 Blocks := (((List.range m).map info) ++
                   List.replicate ((to_ - from_).toNat - m) ({} : db.BlockInfo)).take
                     (from_ + (m : Int)).toNat } := by
  obtain ⟨h0, h1, h2⟩ := computePaging_bounds _ _ _ (by omega) (by split <;> omega) hi
    (by omega) hi62 h63 _ _ _ _ hq
  have hh : ∀ j : Nat, (j : Int) < to_ - from_ →
      (((b : Int) - (from_ + (j : Int))) % 2 ^ 32).toNat =
        ((b : Int) - from_ - (j : Int)).toNat := by
    intro j hj
    have : ((b : Int) - (from_ + (j : Int))) % 2 ^ 32 = (b : Int) - from_ - (j : Int) := by
      rw [Int.emod_eq_of_lt (by omega) (by omega)]; ring
    rw [this]
  unfold Worker.GetBlocks
  dsimp only
  rw [hb]
  dsimp only
  rw [hq]
  dsimp only
  unfold goMake
  rw [if_neg (by omega)]
  dsimp only
  rw [GetBlocks_loop_missing w (b : Int) from_ info m (to_ - from_).toNat 0 _ (by simp)
    (by omega) (by omega)
    (fun j _ hj => by rw [hh j (by omega)]; exact hinfo j hj)
    (by rw [hh m hm]; exact hnone)]
  have hlist : List.take 0 (List.replicate (to_ - from_).toNat ({} : db.BlockInfo)) ++
      List.map info (List.range' 0 (m - 0)) ++
      List.drop m (List.replicate (to_ - from_).toNat ({} : db.BlockInfo)) =
      (List.range m).map info ++
        List.replicate ((to_ - from_).toNat - m) ({} : db.BlockInfo) := by
    rw [List.take_zero, List.nil_append, Nat.sub_zero, List.range_eq_range',
      List.drop_replicate]
  rw [hlist]
  unfold goSliceTo
  have hlen : (((List.range m).map info ++
      List.replicate ((to_ - from_).toNat - m) ({} : db.BlockInfo)).length : Int) =
      to_ - from_ := by
    simp only [List.length_append, List.length_map, List.length_range, List.length_replicate]
    omega
  rw [hlen]
  by_cases hgt : from_ + (m : Int) > to_ - from_
  · rw [if_pos (Or.inr hgt), if_pos hgt]
  · rw [if_neg (by omega), if_neg hgt]

/-- C27 (code defect): when a block info is missing, `GetBlocks` cuts the slice with
`r.Blocks[:i]`, at the loop index `i` and not at the position `i - from`. Over an index with
the best block 5 and 2 blocks on a page, page 2 is `from = 2`, `to = 4`, the heights 3 and
2. With all infos present the result holds the infos of the heights 3 and 2. With the info
of height 3 missing (`i = 2`, no info found before it) the result holds the two zero values
of the slice. With the info of height 2 missing (`i = 3`, one info found before it) the cut
`r.Blocks[:3]` of a slice of length 2 is a runtime failure. On page 1 (`from = 0`) the cut
is the claimed one. -/
theorem GetBlocks_cuts_slice_at_loop_index :
    computePaging 6 1 2 = .ok ({ Page := 2, TotalPages := 3, ItemsOnPage := 2 }, 2, 4, 1) ∧
    (scenario.blocksWorker 9).GetBlocks 2 2 =
      .ok { Paging := { Page := 2, TotalPages := 3, ItemsOnPage := 2 },
            Blocks := [{ Hash := "block3", Height := 3 }, { Hash := "block2", Height := 2 }] } ∧
    (scenario.blocksStore 3).GetBlockInfo 3 = .ok none ∧
    (scenario.blocksWorker 3).GetBlocks 2 2 =
      .ok { Paging := { Page := 2, TotalPages := 3, ItemsOnPage := 2 },
            Blocks := [{}, {}] } ∧
    (scenario.blocksStore 2).GetBlockInfo 2 = .ok none ∧
    (scenario.blocksStore 2).GetBlockInfo 3 = .ok (some { Hash := "block3", Height := 3 }) ∧
    (scenario.blocksWorker 2).GetBlocks 2 2 = .error (.panic "slice bounds out of range") ∧
    (scenario.blocksWorker 4).GetBlocks 1 2 =
      .ok { Paging := { Page := 1, TotalPages := 3, ItemsOnPage := 2 },
            Blocks := [{ Hash := "block5", Height := 5 }] } := by
  refine ⟨by rfl, by rfl, by rfl, by rfl, by rfl, by rfl, by rfl, by rfl⟩

/-! ## C28: the unconfirmed balance of `GetAddress` -/

theorem getAddrVoutValue_foldl (addrDesc : AddressDescriptor) (l : List Vout) (acc : Int) :
    l.foldl (fun val vout =>
      match vout.ValueSat with
      | some v => if vout.AddrDesc = addrDesc then val + v else val
      | none => val) acc =
    acc + ((l.filter (fun v => decide (v.AddrDesc = addrDesc))).map
      (fun v => v.ValueSat.getD 0)).sum := by
  induction l generalizing acc with
  | nil => simp
  | cons x xs ih =>
    rw [List.foldl_cons, ih]
    by_cases hd : x.AddrDesc = addrDesc
    · rw [List.filter_cons_of_pos (by simpa using hd), List.map_cons, List.sum_cons]
      cases hv : x.ValueSat with
      | none => simp
      | some v => simp [hd]; ring
    · rw [List.filter_cons_of_neg (by simpa using hd)]
      cases hv : x.ValueSat with
      | none => simp
      | some v => simp [hd]

theorem getAddrVinValue_foldl (addrDesc : AddressDescriptor) (l : List Vin) (acc : Int) :
    l.foldl (fun val vin =>
      match vin.ValueSat with
      | some v => if vin.AddrDesc = addrDesc then val + v else val
      | none => val) acc =
    acc + ((l.filter (fun v => decide (v.AddrDesc = addrDesc))).map
      (fun v => v.ValueSat.getD 0)).sum := by
  induction l generalizing acc with
  | nil => simp
  | cons x xs ih =>
    rw [List.foldl_cons, ih]
    by_cases hd : x.AddrDesc = addrDesc
    · rw [List.filter_cons_of_pos (by simpa using hd), List.map_cons, List.sum_cons]
      cases hv : x.ValueSat with
      | none => simp
      | some v => simp [hd]; ring
    · rw [List.filter_cons_of_neg (by simpa using hd)]
      cases hv : x.ValueSat with
      | none => simp
      | some v => simp [hd]

theorem addrDelta_eq (t : Tx) (addrDesc : AddressDescriptor) :
    t.getAddrVoutValue addrDesc - t.getAddrVinValue addrDesc = t.addrDelta addrDesc := by
  have h1 : t.getAddrVoutValue addrDesc =
      ((t.Vout.filter (fun v => decide (v.AddrDesc = addrDesc))).map
        (fun v => v.ValueSat.getD 0)).sum :=
    (getAddrVoutValue_foldl addrDesc t.Vout 0).trans (zero_add _)
  have h2 : t.getAddrVinValue addrDesc =
      ((t.Vin.filter (fun v => decide (v.AddrDesc = addrDesc))).map
        (fun v => v.ValueSat.getD 0)).sum :=
    (getAddrVinValue_foldl addrDesc t.Vin 0).trans (zero_add _)
  rw [h1, h2]
  rfl

theorem mempoolLoop_uBalSat (w : Worker) (addrDesc : AddressDescriptor)
    (option : GetAddressOption) (page : Int) (l : List String) (st st1 : HistoryVars)
    (h : Worker.GetAddress.mempoolLoop w addrDesc option page l st = .ok st1) :
    st1.uBalSat = st.uBalSat + ((fetchedTxs w l).map (fun tx => tx.addrDelta addrDesc)).sum := by
  induction l generalizing st with
  | nil =>
    unfold Worker.GetAddress.mempoolLoop at h
    cases h
    simp [fetchedTxs]
  | cons txid rest ih =>
    unfold Worker.GetAddress.mempoolLoop at h
    cases ht : w.GetTransaction txid false false with
    | error f =>
      rw [ht] at h
      have hf : fetchedTxs w (txid :: rest) = fetchedTxs w rest := by
        simp [fetchedTxs, ht]
      rw [hf]
      cases f with
      | panic what => cases h
      | error e => exact ih st h
    | ok tx =>
      rw [ht] at h
      dsimp only at h
      have hf : fetchedTxs w (txid :: rest) = tx :: fetchedTxs w rest := by
        simp [fetchedTxs, ht]
      rw [hf, List.map_cons, List.sum_cons, ← addrDelta_eq]
      by_cases hp : page = 0
      · rw [if_pos hp] at h
        by_cases ho : option = GetAddressOption.TxidHistory
        · rw [if_pos ho] at h
          cases hs : goSet st.txids st.txi tx.Txid with
          | error f => rw [hs] at h; cases h
          | ok txids =>
            rw [hs] at h
            dsimp only at h
            rw [ih _ h]
            dsimp only
            ring
        · rw [if_neg ho] at h
          cases hs : goSet st.txs st.txi (some tx) with
          | error f => rw [hs] at h; cases h
          | ok txs =>
            rw [hs] at h
            dsimp only at h
            rw [ih _ h]
            dsimp only
            ring
      · rw [if_neg hp] at h
        rw [ih _ h]
        dsimp only
        ring

theorem confirmedLoop_uBalSat (w : Worker) (option : GetAddressOption) (txc : List String)
    (bestheight : Nat) (k : Nat) (i : Int) (st st1 : HistoryVars)
    (h : Worker.GetAddress.confirmedLoop w option txc bestheight k i st = .ok st1) :
    st1.uBalSat = st.uBalSat := by
  induction k generalizing i st with
  | zero =>
    unfold Worker.GetAddress.confirmedLoop at h
    cases h
    rfl
  | succ k ih =>
    unfold Worker.GetAddress.confirmedLoop at h
    repeat' (first
      | (have h1 := ih _ _ h; exact h1)
      | (split at h)
      | (cases h))

theorem history_uBalSat (w : Worker) (addrDesc : AddressDescriptor)
    (option : GetAddressOption) (filter : AddressFilter) (txm : List String) (page : Int)
    (txsOnPage : Int) (pg : Paging) (uBalSat : Int) (txs : List (Option Tx))
    (txids : List String)
    (h : Worker.GetAddress.history w addrDesc option filter txm page txsOnPage =
      .ok (pg, uBalSat, txs, txids)) :
    uBalSat = ((fetchedTxs w txm).map (fun tx => tx.addrDelta addrDesc)).sum := by
  unfold Worker.GetAddress.history at h
  cases h1 : w.getAddressTxids addrDesc false filter with
  | error f1 =>
    rw [h1] at h
    cases f1 with
    | error e => cases h
    | panic p => cases h
  | ok txc =>
    rw [h1] at h
    dsimp only at h
    cases h2 : w.db.GetBestBlock with
    | error e => rw [h2] at h; cases h
    | ok bb =>
      obtain ⟨bestheight, bh⟩ := bb
      rw [h2] at h
      dsimp only at h
      cases h3 : computePaging ((UniqueTxidsInReverse txc).length : Int) page txsOnPage with
      | error f1 => rw [h3] at h; cases h
      | ok r =>
        obtain ⟨pg1, from_, to_, page1⟩ := r
        rw [h3] at h
        dsimp only at h
        have key : ∀ (txids0 : List String) (txs0 : List (Option Tx)) (st st1 : HistoryVars),
            Worker.GetAddress.mempoolLoop w addrDesc option page1 txm
              { uBalSat := 0, txids := txids0, txs := txs0, txi := 0 } = .ok st →
            Worker.GetAddress.confirmedLoop w option (UniqueTxidsInReverse txc) bestheight
              (to_ - from_).toNat from_ st = .ok st1 →
            st1.uBalSat = ((fetchedTxs w txm).map (fun tx => tx.addrDelta addrDesc)).sum := by
          intro txids0 txs0 st st1 hm hc
          rw [confirmedLoop_uBalSat _ _ _ _ _ _ _ _ hc, mempoolLoop_uBalSat _ _ _ _ _ _ _ hm]
          simp
        by_cases ho : option = GetAddressOption.TxidHistory
        · simp only [ho, if_true] at h
          cases h4 : goMake "" ((txm.length : Int) + to_ - from_) with
          | error f1 => rw [h4] at h; cases h
          | ok made =>
            rw [h4] at h
            dsimp only at h
            cases h5 : Worker.GetAddress.mempoolLoop w addrDesc GetAddressOption.TxidHistory page1
                txm { uBalSat := 0, txids := made, txs := [], txi := 0 } with
            | error f1 => rw [h5] at h; cases h
            | ok st =>
              rw [h5] at h
              dsimp only at h
              cases h6 : Worker.GetAddress.confirmedLoop w GetAddressOption.TxidHistory
                  (UniqueTxidsInReverse txc) bestheight (to_ - from_).toNat from_ st with
              | error f1 => rw [h6] at h; cases h
              | ok st1 =>
                rw [h6] at h
                dsimp only at h
                cases h
                subst ho
                exact key _ _ _ _ h5 h6
        · simp only [ho, if_false] at h
          cases h4 : goMake (none : Option Tx) ((txm.length : Int) + to_ - from_) with
          | error f1 => rw [h4] at h; cases h
          | ok made =>
            rw [h4] at h
            dsimp only at h
            cases h5 : Worker.GetAddress.mempoolLoop w addrDesc option page1
                txm { uBalSat := 0, txids := [], txs := made, txi := 0 } with
            | error f1 => rw [h5] at h; cases h
            | ok st =>
              rw [h5] at h
              dsimp only at h
              cases h6 : Worker.GetAddress.confirmedLoop w option
                  (UniqueTxidsInReverse txc) bestheight (to_ - from_).toNat from_ st with
              | error f1 => rw [h6] at h; cases h
              | ok st1 =>
                rw [h6] at h
                dsimp only at h
                have hu := key _ _ _ _ h5 h6
                split at h
                · cases h; exact hu
                · cases h; exact hu

theorem GetAddress_unconfirmed (w : Worker) (address : String) (page txsOnPage : Int)
    (option : GetAddressOption) (filter : AddressFilter) (r : Address)
    (hopt : option.toNat ≥ GetAddressOption.TxidHistory.toNat)
    (h : w.GetAddress address page txsOnPage option filter = .ok r) :
    ∃ (txmRaw : List String),
      w.getAddressTxids (w.chainParser.GetAddrDescFromAddress address).1 true
        (historyFilter w (w.chainParser.GetAddrDescFromAddress address).1 option filter) =
          .ok txmRaw ∧
      r.UnconfirmedTxApperances = ((UniqueTxidsInReverse txmRaw).length : Int) ∧
      r.UnconfirmedBalanceSat = some (((fetchedTxs w (UniqueTxidsInReverse txmRaw)).map
        (fun tx => tx.addrDelta (w.chainParser.GetAddrDescFromAddress address).1)).sum) := by
  unfold Worker.GetAddress at h
  rcases hparse : w.chainParser.GetAddrDescFromAddress address with ⟨addrDesc, perr⟩
  rw [hparse] at h
  cases perr with
  | some e => cases h
  | none =>
    dsimp only at h ⊢
    -- the common tail, once the balance record and the filter are known
    have tail : ∀ (ba : Option db.AddrBalance) (erc20t : List Erc20Token)
        (erc20c : Option bchain.Erc20Contract) (nonce : String) (filter1 : AddressFilter),
        (match (if option.toNat ≥ GetAddressOption.TxidHistory.toNat ∨ ba = none then
            (match w.getAddressTxids addrDesc true filter1 with
            | .error (.error err) =>
              (.error (.error (.annotated
                ("getAddressTxids " ++ sprintBytes addrDesc ++ " true") err)) :
                Res (String × db.AddrBalance × List String × Paging × Int ×
                  List (Option Tx) × List String))
            | .error f => .error f
            | .ok txm =>
              if option.toNat ≥ GetAddressOption.TxidHistory.toNat then
                match Worker.GetAddress.history w addrDesc option filter1
                    (UniqueTxidsInReverse txm) (if ba = none then 0 else
                      (if goInt (page - 1) < 0 then 0 else goInt (page - 1))) txsOnPage with
                | .error f => .error f
                | .ok (pg, uBalSat, txs, txids) =>
                  .ok ((match (w.chainParser.GetAddressesFromAddrDesc addrDesc).1 with
                        | [a] => a
                        | _ => address),
                       (match ba with | none => {} | some b => b),
                       UniqueTxidsInReverse txm, pg, uBalSat, txs, txids)
              else
                .ok ((match (w.chainParser.GetAddressesFromAddrDesc addrDesc).1 with
                      | [a] => a
                      | _ => address),
                     (match ba with | none => {} | some b => b),
                     UniqueTxidsInReverse txm,
                     { Page := 0, TotalPages := 0, ItemsOnPage := 0 }, 0, [], []))
          else
            .ok (address, (match ba with | none => {} | some b => b), [],
                 { Page := 0, TotalPages := 0, ItemsOnPage := 0 }, 0, [], [])) with
        | .error f => (.error f : Res Address)
        | .ok (address, ba, txm, pg, uBalSat, txs, txids) =>
          .ok { Paging := pg, AddrStr := address, BalanceSat := some ba.BalanceSat,
                TotalReceivedSat :=
                  (match w.chainType with
                   | .ChainBitcoinType => (some ba.ReceivedSat, some ba.SentSat)
                   | .ChainEthereumType => ((none : Option Int), (none : Option Int))).1,
                TotalSentSat :=
                  (match w.chainType with
                   | .ChainBitcoinType => (some ba.ReceivedSat, some ba.SentSat)
                   | .ChainEthereumType => ((none : Option Int), (none : Option Int))).2,
                TxApperances := (ba.Txs : Int), UnconfirmedBalanceSat := some uBalSat,
                UnconfirmedTxApperances := (txm.length : Int), Transactions := txs,
                Txids := txids, Erc20Contract := erc20c, Erc20Tokens := erc20t,
                Nonce := nonce }) = .ok r →
        ∃ (txmRaw : List String),
          w.getAddressTxids addrDesc true filter1 = .ok txmRaw ∧
          r.UnconfirmedTxApperances = ((UniqueTxidsInReverse txmRaw).length : Int) ∧
          r.UnconfirmedBalanceSat = some (((fetchedTxs w (UniqueTxidsInReverse txmRaw)).map
            (fun tx => tx.addrDelta addrDesc)).sum) := by
      intro ba erc20t erc20c nonce filter1 h
      rw [if_pos (Or.inl hopt)] at h
      cases hm : w.getAddressTxids addrDesc true filter1 with
      | error f =>
        rw [hm] at h
        cases f with
        | error e => cases h
        | panic p => cases h
      | ok txm =>
        rw [hm] at h
        dsimp only at h
        rw [if_pos hopt] at h
        cases hh : Worker.GetAddress.history w addrDesc option filter1
            (UniqueTxidsInReverse txm) (if ba = none then 0 else
              (if goInt (page - 1) < 0 then 0 else goInt (page - 1))) txsOnPage with
        | error f => rw [hh] at h; cases h
        | ok q =>
          obtain ⟨pg, uBalSat, txs, txids⟩ := q
          rw [hh] at h
          dsimp only at h
          cases h
          exact ⟨txm, rfl, rfl, by rw [history_uBalSat _ _ _ _ _ _ _ _ _ _ _ hh]⟩
    cases hct : w.chainType with
    | ChainBitcoinType =>
      rw [hct] at h
      dsimp only at h
      cases hb : w.db.GetAddrDescBalance addrDesc with
      | error e => rw [hb] at h; cases h
      | ok ba =>
        rw [hb] at h
        dsimp only at h
        have := tail ba [] none "" filter (by rw [hct]; exact h)
        have hf : historyFilter w addrDesc option filter = filter := by
          simp [historyFilter, hct]
        rw [hf]
        exact this
    | ChainEthereumType =>
      rw [hct] at h
      dsimp only at h
      cases hb : w.getEthereumTypeAddressBalances addrDesc option filter with
      | error e => rw [hb] at h; cases h
      | ok q =>
        obtain ⟨ba, erc20t, erc20c, n, filter1⟩ := q
        rw [hb] at h
        dsimp only at h
        have := tail ba erc20t erc20c (Itoa (n : Int)) filter1 (by rw [hct]; exact h)
        have hf : historyFilter w addrDesc option filter = filter1 := by
          simp [historyFilter, hct, hb]
        rw [hf]
        exact this

theorem UniqueTxidsInReverse_length (l : List String) :
    (UniqueTxidsInReverse l).length = l.toFinset.card := by
  rw [UniqueTxidsInReverse_eq, List.length_reverse,
    ← List.toFinset_card_of_nodup (firstOccurrences_nodup l)]
  congr 1
  ext x
  simp [firstOccurrences_mem]

/-- C28 (counterexample): over the index of `T` and `S` with `M` in the mempool, `M` is a
mempool transaction of the script `a` (its input 0 and its output 0 are postings of `a`)
and changes the balance of `a` by -20; with the vout filter 1 neither posting is kept, and
`GetAddress` with option `TxidHistory` returns the unconfirmed balance 0 and 0 unconfirmed
transactions. -/
theorem GetAddress_unconfirmed_balance_leaves_out_filtered :
    scenario.mempoolWorker.chain.GetMempoolTransactionsForAddrDesc [97] =
      .ok [{ Txid := "M", Vout := -1 }, { Txid := "M", Vout := 0 }] ∧
    (scenario.mempoolWorker.GetTransaction "M" false false).map
        (fun tx => tx.addrDelta [97]) = .ok (-20) ∧
    scenario.mempoolWorker.getAddressTxids [97] true { Vout := 1 } = .ok [] ∧
    (scenario.mempoolWorker.GetAddress "a" 1 10 GetAddressOption.TxidHistory
        { Vout := 1 }).map
        (fun r => (r.UnconfirmedBalanceSat, r.UnconfirmedTxApperances)) =
      .ok (some 0, 0) := by
  refine ⟨by rfl, by rfl, by rfl, by rfl⟩

/-- C28 (amended): for an option from `TxidHistory` on, a result of `GetAddress` has
`UnconfirmedTxApperances` equal to the number of distinct txids among the mempool postings
of the address that the vout filter of the call keeps (all of them when the filter is
off), and `UnconfirmedBalanceSat` equal to the sum, over those of these transactions that
`GetTransaction` delivers, of the amounts of the vouts with the descriptor of the address
minus the amounts of the vins with that descriptor; the requested page has no part in
either: a result for any other page has the same two fields. -/
theorem GetAddress_unconfirmed_balance (w : Worker) (address : String) (page txsOnPage : Int)
    (option : GetAddressOption) (filter : AddressFilter) (r : Address)
    (hopt : option.toNat ≥ GetAddressOption.TxidHistory.toNat)
    (h : w.GetAddress address page txsOnPage option filter = .ok r) :
    ∃ (txmRaw : List String),
      w.getAddressTxids (w.chainParser.GetAddrDescFromAddress address).1 true
        (historyFilter w (w.chainParser.GetAddrDescFromAddress address).1 option filter) =
          .ok txmRaw ∧
      (∀ o : List bchain.Outpoint,
        w.chain.GetMempoolTransactionsForAddrDesc (w.chainParser.GetAddrDescFromAddress address).1
          = .ok o →
        -2 ^ 31 ≤ (historyFilter w (w.chainParser.GetAddrDescFromAddress address).1 option
          filter).Vout →
        (historyFilter w (w.chainParser.GetAddrDescFromAddress address).1 option
          filter).Vout < 2 ^ 31 →
        txmRaw = (o.filter (fun m =>
          (historyFilter w (w.chainParser.GetAddrDescFromAddress address).1 option
            filter).keeps (if m.Vout < 0 then -m.Vout - 1 else m.Vout)
            (if m.Vout < 0 then false else true))).map (fun m => m.Txid) ∧
        ((historyFilter w (w.chainParser.GetAddrDescFromAddress address).1 option
          filter).Vout = AddressFilterVoutOff → txmRaw = o.map (fun m => m.Txid))) ∧
      r.UnconfirmedTxApperances = (txmRaw.toFinset.card : Int) ∧
      r.UnconfirmedBalanceSat = some (((fetchedTxs w (UniqueTxidsInReverse txmRaw)).map
        (fun tx => tx.addrDelta (w.chainParser.GetAddrDescFromAddress address).1)).sum) ∧
      ∀ (page1 : Int) (r1 : Address),
        w.GetAddress address page1 txsOnPage option filter = .ok r1 →
        r1.UnconfirmedBalanceSat = r.UnconfirmedBalanceSat ∧
        r1.UnconfirmedTxApperances = r.UnconfirmedTxApperances := by
  obtain ⟨txmRaw, h1, h2, h3⟩ := GetAddress_unconfirmed w address page txsOnPage option filter r
    hopt h
  refine ⟨txmRaw, h1, ?_, ?_, h3, ?_⟩
  · intro o ho hlo hhi
    have hm := h1
    unfold Worker.getAddressTxids at hm
    simp only [if_true, ho] at hm
    rw [mempoolLoop_addFilteredTxid _ hlo hhi, List.nil_append] at hm
    have he := (Except.ok.inj hm).symm
    refine ⟨he, ?_⟩
    intro hoff
    rw [he]
    congr 1
    rw [List.filter_eq_self]
    intro m _
    unfold AddressFilter.keeps
    simp [hoff]
  · rw [h2, UniqueTxidsInReverse_length]
  · intro page1 r1 hr1
    obtain ⟨txmRaw1, g1, g2, g3⟩ := GetAddress_unconfirmed w address page1 txsOnPage option
      filter r1 hopt hr1
    rw [h1] at g1
    have he : txmRaw1 = txmRaw := (Except.ok.inj g1).symm
    subst he
    exact ⟨by rw [g3, h3], by rw [g2, h2]⟩

/-- C28 (amended) on the index of `T` and `S` with `M` in the mempool, the filter off: `M`
spends the output of 50 of the script `a` and pays 30 to it, so the unconfirmed balance of
`a` is -20, with one unconfirmed transaction. -/
theorem GetAddress_unconfirmed_balance_witness :
    ∃ r, scenario.mempoolWorker.GetAddress "a" 1 10 GetAddressOption.TxidHistory
        { Vout := AddressFilterVoutOff } = .ok r ∧
      r.UnconfirmedBalanceSat = some (-20) ∧ r.UnconfirmedTxApperances = 1 ∧
      ∃ (txmRaw : List String),
        txmRaw = ["M", "M"] ∧
        r.UnconfirmedTxApperances = (txmRaw.toFinset.card : Int) ∧
        r.UnconfirmedBalanceSat = some (((fetchedTxs scenario.mempoolWorker
          (UniqueTxidsInReverse txmRaw)).map (fun tx => tx.addrDelta [97])).sum) := by
  obtain ⟨r, hr⟩ : ∃ r, scenario.mempoolWorker.GetAddress "a" 1 10
      GetAddressOption.TxidHistory { Vout := AddressFilterVoutOff } = .ok r ∧
      r.UnconfirmedBalanceSat = some (-20) ∧ r.UnconfirmedTxApperances = 1 :=
    ⟨_, rfl, rfl, rfl⟩
  obtain ⟨txmRaw, _, hl, h2, h3, _⟩ := GetAddress_unconfirmed_balance scenario.mempoolWorker "a"
    1 10 GetAddressOption.TxidHistory { Vout := AddressFilterVoutOff } r (by decide) hr.1
  have hall := (hl [{ Txid := "M", Vout := -1 }, { Txid := "M", Vout := 0 }] (by rfl)
    (by decide) (by decide)).2 (by rfl)
  exact ⟨r, hr.1, hr.2.1, hr.2.2, txmRaw, hall, h2, h3⟩

end api
